import Mathlib

/-!
# jointcal: parameter indexing, parameter offsets, outlier rejection and model construction

A shallow embedding of

* `src/src/ConstrainedAstrometryModel.cc` and `src/src/ConstrainedPolyModel.cc`
  (the constructors, `assignIndices`, `offsetParams`, `getVisits`),
* `src/src/PhotometryFit.cc` (`assignIndices`, `offsetParams`, `accumulateStat`,
  `computeChi2`, `getMeasuredStarIndices`, `findOutliers`, `LSDerivatives`,
  `outliersContributions`, `minimize`),
* `src/src/AstrometryModel.cc` (`validate`).

Conventions of the embedding.

* A `double` is a rational number (exact arithmetic, no rounding, no NaN); the
  library function `sqrt` is an argument of the functions that call it.  A
  division by zero, which gives an infinity or a NaN in the code, is outside
  the embedding.
* An `unsigned` counter or index is a natural number: the development covers the
  runs in which no counter reaches `2^32`.
* A pointer is a position in the list that owns the object.  Dereferencing a
  position that does not exist, and reading an Eigen vector out of its range,
  have no defined result: the functions that can do so return an `Option`.
* `std::sort` is an argument (`sort`): the order it gives to equal keys is not
  specified, so the theorems hold for every function that sorts.
* `std::map` is the list of its entries in iteration order (ascending keys).
* Where the result of a function depends on the machine arithmetic, a second
  embedding of the function (section *Machine arithmetic*) takes it into
  account: the rounding of doubles is an argument `fl` applied to the result of
  every operation, an infinite double or a NaN is `none`, and an `unsigned`
  wraps at `2^32`.
* Log statements are left out.
-/

namespace Jointcal

/-! ## Strings -/

/-- First position at or after `pos` at which `pat` occurs in the text, the
remaining characters of which are given; `none` stands for `std::string::npos`. -/
def findFrom (pat : List Char) : List Char → Nat → Option Nat
  | [], pos => if pat.isEmpty then some pos else none
  | c :: cs, pos => if pat.isPrefixOf (c :: cs) then some pos else findFrom pat cs (pos + 1)

/-- The call `s.find(pat)` of `std::string`; `none` stands for `std::string::npos`. -/
def find (s pat : String) : Option Nat :=
  findFrom pat.toList s.toList 0

/-! ## Sub-mappings of the constrained models -/

/-- Modelled from the spec: the variants of `Gtransfo` (Gtransfo.h is not among
the sources) that the constrained models create: the identity and a polynomial
of a given degree.  The coefficients are kept by the mapping that wraps the
transform. -/
inductive Gtransfo where
  /-- The transform `GtransfoIdentity`. -/
  | identity
  /-- A `GtransfoPoly` of the given degree. -/
  | poly (degree : Int)
  deriving DecidableEq, Repr

/-- Modelled from the spec: `SimpleGtransfoMapping` (declared in
`SimpleAstrometryMapping.h`, which is not among the sources).  The spec gives a
mapping a "current parameter count `nPar`", a "starting index in the global
vector" and an `offsetParams(delta)` that "adds the corresponding slice of
`delta` to its parameter vector"; a `SimplePolyMapping` "has a
`setToBeFit(bool)` toggle".  How the toggle acts on the parameter count is not
said: the count stays a member of its own. -/
structure SimpleGtransfoMapping where
  /-- Starting index in the global parameter vector. -/
  index : Nat
  /-- Current parameter count. -/
  npar : Nat
  /-- The parameter vector of the transform. -/
  params : List ℚ
  /-- The toggle set by `setToBeFit`; a mapping is to be fit until told otherwise. -/
  toBeFit : Bool := true
  /-- The transform that the mapping wraps. -/
  transfo : Gtransfo := Gtransfo.poly 0
  deriving DecidableEq, Repr

namespace SimpleGtransfoMapping

/-- Accessor `getIndex()`. -/
def getIndex (m : SimpleGtransfoMapping) : Nat := m.index

/-- Accessor `getNpar()`. -/
def getNpar (m : SimpleGtransfoMapping) : Nat := m.npar

/-- Mutator `setIndex(i)`. -/
def setIndex (m : SimpleGtransfoMapping) (i : Nat) : SimpleGtransfoMapping :=
  { m with index := i }

/-- Modelled from the spec: the toggle `setToBeFit(value)`. -/
def setToBeFit (m : SimpleGtransfoMapping) (value : Bool) : SimpleGtransfoMapping :=
  { m with toBeFit := value }

/-- Accessor `getTransfo()`. -/
def getTransfo (m : SimpleGtransfoMapping) : Gtransfo := m.transfo

/-- Entry-wise sum of a parameter vector and an offset vector; parameters beyond
the end of the offsets are left alone. -/
def addDelta : List ℚ → List ℚ → List ℚ
  | p :: ps, d :: ds => (p + d) :: addDelta ps ds
  | ps, _ => ps

/-- Modelled from the spec: `offsetParams(delta)` adds `delta` to the parameter
vector of the mapping. -/
def offsetParams (m : SimpleGtransfoMapping) (delta : List ℚ) : SimpleGtransfoMapping :=
  { m with params := addDelta m.params delta }

end SimpleGtransfoMapping

/-- Modelled from the spec: `TwoTransfoMapping` (its header is not among the
sources), the composition of a chip mapping and a visit mapping, which it
shares with the maps of the model: they are named by their keys.  Its
`setWhatToFit(fitT1, fitT2)` "declares which side(s) contribute derivatives". -/
structure TwoTransfoMapping where
  /-- Key of the chip mapping (first transform). -/
  chip : Int
  /-- Key of the visit mapping (second transform). -/
  visit : Int
  /-- The first transform is being fit. -/
  fittingT1 : Bool
  /-- The second transform is being fit. -/
  fittingT2 : Bool
  deriving DecidableEq, Repr

/-- Mutator `setWhatToFit(fittingT1, fittingT2)`. -/
def TwoTransfoMapping.setWhatToFit (m : TwoTransfoMapping) (fittingT1 fittingT2 : Bool) :
    TwoTransfoMapping :=
  { m with fittingT1 := fittingT1, fittingT2 := fittingT2 }

/-- A `std::map` from integer identifiers (`CcdIdType`, `VisitIdType`) to
sub-mappings: its entries in iteration order. -/
abbrev MappingMap := List (Int × SimpleGtransfoMapping)

/-- The class invariant of `std::map`: iteration visits the keys in strictly
ascending order. -/
def MappingMap.Ordered (m : MappingMap) : Prop :=
  (m.map Prod.fst).Pairwise (· < ·)

/-- The loop
`for (auto &i : map) { i.second->setIndex(index); index += i.second->getNpar(); }`
shared by both `assignIndices`: the updated map and the final `index`. -/
def assignBlock : MappingMap → Nat → MappingMap × Nat
  | [], index => ([], index)
  | (k, mp) :: rest, index =>
    let r := assignBlock rest (index + mp.getNpar)
    ((k, mp.setIndex index) :: r.1, r.2)

/-- The call `delta.segment(start, n)` of Eigen: the `n` entries from position
`start`; not defined when the block leaves the vector. -/
def segment (delta : List ℚ) (start n : Nat) : Option (List ℚ) :=
  if start + n ≤ delta.length then some ((delta.drop start).take n) else none

/-- The loop
`for (auto &i : map) mapping->offsetParams(delta.segment(mapping->getIndex(), mapping->getNpar()))`
shared by both `offsetParams`. -/
def offsetBlock (delta : List ℚ) : MappingMap → Option MappingMap
  | [] => some []
  | (k, mp) :: rest =>
    match segment delta mp.getIndex mp.getNpar with
    | none => none
    | some seg =>
      match offsetBlock delta rest with
      | none => none
      | some rest' => some ((k, mp.offsetParams seg) :: rest')

/-! ## ConstrainedAstrometryModel -/

/-- The key `getHashKey()` of a `CcdImage`: its visit and its chip. -/
structure CcdImageKey where
  /-- Visit identifier. -/
  visit : Int
  /-- Chip identifier. -/
  ccd : Int
  deriving DecidableEq, Repr

/-- The members of `ConstrainedAstrometryModel` that `assignIndices` and
`offsetParams` read or write. -/
structure ConstrainedAstrometryModel where
  /-- Member `_mappings` (an `unordered_map`), in its iteration order. -/
  mappings : List (CcdImageKey × TwoTransfoMapping)
  /-- Member `_chipMap`. -/
  chipMap : MappingMap
  /-- Member `_visitMap`. -/
  visitMap : MappingMap
  /-- Member `_fittingChips`. -/
  fittingChips : Bool
  /-- Member `_fittingVisits`. -/
  fittingVisits : Bool
  deriving DecidableEq, Repr

namespace ConstrainedAstrometryModel

/-- `ConstrainedAstrometryModel::assignIndices(whatToFit, firstIndex)`
(ConstrainedAstrometryModel.cc, lines 114-142): the returned index and the model
after the call. -/
def assignIndices (m : ConstrainedAstrometryModel) (whatToFit : String) (firstIndex : Nat) :
    Nat × ConstrainedAstrometryModel :=
  let index := firstIndex
  if find whatToFit "Distortions" = none then
    (0, m)
  else
    let fittingChips := (find whatToFit "DistortionsChip").isSome
    let fittingVisits := (find whatToFit "DistortionsVisit").isSome
    let all := !fittingChips && !fittingVisits
    let fittingChips := if all then true else fittingChips
    let fittingVisits := if all then true else fittingVisits
    let chips := if fittingChips then assignBlock m.chipMap index else (m.chipMap, index)
    let index := chips.2
    let visits := if fittingVisits then assignBlock m.visitMap index else (m.visitMap, index)
    let index := visits.2
    let mappings := m.mappings.map fun i => (i.1, i.2.setWhatToFit fittingChips fittingVisits)
    (index, { mappings := mappings, chipMap := chips.1, visitMap := visits.1,
              fittingChips := fittingChips, fittingVisits := fittingVisits })

/-- `ConstrainedAstrometryModel::offsetParams(delta)`
(ConstrainedAstrometryModel.cc, lines 144-155). -/
def offsetParams (m : ConstrainedAstrometryModel) (delta : List ℚ) :
    Option ConstrainedAstrometryModel :=
  match (if m.fittingChips then offsetBlock delta m.chipMap else some m.chipMap) with
  | none => none
  | some chips =>
    match (if m.fittingVisits then offsetBlock delta m.visitMap else some m.visitMap) with
    | none => none
    | some visits => some { m with chipMap := chips, visitMap := visits }

end ConstrainedAstrometryModel

/-! ## ConstrainedPolyModel -/

/-- The members of `ConstrainedPolyModel` that `assignIndices` and
`offsetParams` read or write. -/
structure ConstrainedPolyModel where
  /-- Member `_mappings`, keyed by the address of the `CcdImage` (here its
  position in the list the model was built from), in iteration order. -/
  mappings : List (Nat × TwoTransfoMapping)
  /-- Member `_chipMap`. -/
  chipMap : MappingMap
  /-- Member `_visitMap`. -/
  visitMap : MappingMap
  /-- Member `_fittingChips`. -/
  fittingChips : Bool
  /-- Member `_fittingVisits`. -/
  fittingVisits : Bool
  deriving DecidableEq, Repr

namespace ConstrainedPolyModel

/-- `ConstrainedPolyModel::assignIndices(firstIndex, whatToFit)`
(ConstrainedPolyModel.cc, lines 99-127): the returned index and the model after
the call. -/
def assignIndices (m : ConstrainedPolyModel) (firstIndex : Nat) (whatToFit : String) :
    Nat × ConstrainedPolyModel :=
  let index := firstIndex
  if find whatToFit "Distortions" = none then
    (0, m)
  else
    let fittingChips := (find whatToFit "DistortionsChip").isSome
    let fittingVisits := (find whatToFit "DistortionsVisit").isSome
    let all := !fittingChips && !fittingVisits
    let fittingChips := if all then true else fittingChips
    let fittingVisits := if all then true else fittingVisits
    let chips := if fittingChips then assignBlock m.chipMap index else (m.chipMap, index)
    let index := chips.2
    let visits := if fittingVisits then assignBlock m.visitMap index else (m.visitMap, index)
    let index := visits.2
    let mappings := m.mappings.map fun i => (i.1, i.2.setWhatToFit fittingChips fittingVisits)
    (index, { mappings := mappings, chipMap := chips.1, visitMap := visits.1,
              fittingChips := fittingChips, fittingVisits := fittingVisits })

/-- `ConstrainedPolyModel::offsetParams(delta)` (ConstrainedPolyModel.cc, lines
129-140). -/
def offsetParams (m : ConstrainedPolyModel) (delta : List ℚ) : Option ConstrainedPolyModel :=
  match (if m.fittingChips then offsetBlock delta m.chipMap else some m.chipMap) with
  | none => none
  | some chips =>
    match (if m.fittingVisits then offsetBlock delta m.visitMap else some m.visitMap) with
    | none => none
    | some visits => some { m with chipMap := chips, visitMap := visits }

end ConstrainedPolyModel

/-! ## Stars, images and associations -/

/-- The members of `FittedStar` that the photometric fit reads or writes. -/
structure FittedStar where
  /-- Fitted flux. -/
  flux : ℚ
  /-- Index of the flux in the parameter vector (`IndexInMatrix()`). -/
  indexInMatrix : Nat
  /-- Number of valid measurements of the star (`MeasurementCount()`). -/
  measurementCount : Int
  deriving DecidableEq, Repr

/-- Mutator `SetIndexInMatrix(ipar)`. -/
def FittedStar.SetIndexInMatrix (fs : FittedStar) (ipar : Nat) : FittedStar :=
  { fs with indexInMatrix := ipar }

/-- The members of `MeasuredStar` that the photometric fit reads or writes. -/
structure MeasuredStar where
  /-- Measured flux. -/
  flux : ℚ
  /-- Error of the measured flux. -/
  eflux : ℚ
  /-- Flag read by `IsValid()`. -/
  valid : Bool
  /-- Pointer returned by `GetFittedStar()`: a position in `fittedStarList`. -/
  fittedStar : Nat
  /-- Member `ccdImage`, the pointer back to the image: a position in `ccdImageList`. -/
  ccdImage : Nat
  deriving DecidableEq, Repr

/-- The members of `CcdImage` that the fit and the constructors of the models read. -/
structure CcdImage where
  /-- Visit identifier (`getVisit()`). -/
  visit : Int
  /-- Chip identifier (`getCcdId()`). -/
  ccdId : Int
  /-- The catalog returned by `getCatalogForFit()`. -/
  catalogForFit : List MeasuredStar
  /-- Centre of the detector in the focal plane
  (`getDetector()->getCenter(FOCAL_PLANE)`), as `(x, y)`. -/
  detectorCenter : ℚ × ℚ := (0, 0)
  deriving DecidableEq, Repr

/-- The lists of `Associations` (Associations.h) used by the photometric fit. -/
structure Associations where
  /-- Member `ccdImageList`. -/
  ccdImageList : List CcdImage
  /-- Member `fittedStarList`. -/
  fittedStarList : List FittedStar
  deriving DecidableEq, Repr

/-- A `MeasuredStar *`: the position of the image in `ccdImageList` and the
position of the star in the `catalogForFit` of that image. -/
structure MeasRef where
  /-- Position of the image. -/
  image : Nat
  /-- Position of the star in the catalog of the image. -/
  star : Nat
  deriving DecidableEq, Repr

/-- Dereference of a `MeasuredStar *`. -/
def Associations.measuredStar? (a : Associations) (r : MeasRef) : Option MeasuredStar :=
  match a.ccdImageList[r.image]? with
  | none => none
  | some im => im.catalogForFit[r.star]?

/-! ## The photometric model and the fit -/

/-- The virtual interface of `PhotometryModel` used by `PhotometryFit` (the
class is abstract and its header is not among the sources): the functions are
arguments of the fit, `M` is the state of the concrete model. -/
structure PhotometryModel (M : Type) where
  /-- `photomFactor(ccdImage, measuredStar)`. -/
  photomFactor : M → CcdImage → MeasuredStar → ℚ
  /-- `getIndicesAndDerivatives(measuredStar, ccdImage, indices, h)`: the
  vectors `indices` and `h` after the call. -/
  getIndicesAndDerivatives : M → MeasuredStar → CcdImage → List Nat → List ℚ → List Nat × List ℚ
  /-- `assignIndices(whatToFit, firstIndex)`: the returned index and the model after the call. -/
  assignIndices : M → String → Nat → Nat × M
  /-- `offsetParams(delta)`: the model after the call. -/
  offsetParams : M → List ℚ → M

/-- The members of `PhotometryFit`. -/
structure PhotometryFit (M : Type) where
  /-- Member `_associations`. -/
  associations : Associations
  /-- The object behind `_photometryModel`. -/
  photometryModel : M
  /-- Member `_fluxError`. -/
  fluxError : ℚ
  /-- Member `_whatToFit`. -/
  whatToFit : String
  /-- Member `_fittingModel`. -/
  fittingModel : Bool
  /-- Member `_fittingFluxes`. -/
  fittingFluxes : Bool
  /-- Member `_nParModel`. -/
  nParModel : Nat
  /-- Member `_nParTot`. -/
  nParTot : Nat
  /-- Member `_lastNTrip`. -/
  lastNTrip : Nat

/-- The static helper `sqr`. -/
def sqr (x : ℚ) : ℚ := x * x

/-- One entry of the chi2 vector: a chi2 contribution and the measurement it comes from. -/
structure Chi2Entry where
  /-- Chi2 contribution. -/
  chi2 : ℚ
  /-- The contributing measurement. -/
  measuredStar : MeasRef
  deriving DecidableEq, Repr

/-- The type `Chi2Vect`, a vector of `Chi2Entry`. -/
abbrev Chi2Vect := List Chi2Entry

/-- `Chi2Vect::AddEntry(Chi2Val, ndof, measuredStar)`: appends the entry. -/
def Chi2Vect.AddEntry (v : Chi2Vect) (Chi2Val : ℚ) (_ndof : Nat) (measuredStar : MeasRef) :
    Chi2Vect :=
  v ++ [⟨Chi2Val, measuredStar⟩]

/-- Dereference of a `FittedStar *`. -/
def Associations.fittedStar? (a : Associations) (p : Nat) : Option FittedStar :=
  a.fittedStarList[p]?

namespace PhotometryFit

variable {M : Type}

/-- The inner loop of `accumulateStat` over the catalog of image number `i`,
from the star at position `j` on. -/
def accumulateCatalog {A : Type} (pm : PhotometryModel M) (fit : PhotometryFit M)
    (AddEntry : A → ℚ → Nat → MeasRef → A) (ccdIMage : CcdImage) (i : Nat) :
    List MeasuredStar → Nat → A → Option A
  | [], _, accum => some accum
  | measuredStar :: rest, j, accum =>
    if !measuredStar.valid then
      accumulateCatalog pm fit AddEntry ccdIMage i rest (j + 1) accum
    else
      let sigma := measuredStar.eflux
      let pf := pm.photomFactor fit.photometryModel ccdIMage measuredStar
      match fit.associations.fittedStar? measuredStar.fittedStar with
      | none => none
      | some fs =>
        let res := measuredStar.flux - pf * fs.flux
        let chi2Val := sqr (res / sigma)
        accumulateCatalog pm fit AddEntry ccdIMage i rest (j + 1)
          (AddEntry accum chi2Val 1 ⟨i, j⟩)

/-- The outer loop of `accumulateStat` over the images, from image number `i` on. -/
def accumulateImages {A : Type} (pm : PhotometryModel M) (fit : PhotometryFit M)
    (AddEntry : A → ℚ → Nat → MeasRef → A) : List CcdImage → Nat → A → Option A
  | [], _, accum => some accum
  | im :: rest, i, accum =>
    match accumulateCatalog pm fit AddEntry im i im.catalogForFit 0 accum with
    | none => none
    | some accum' => accumulateImages pm fit AddEntry rest (i + 1) accum'

/-- `PhotometryFit::accumulateStat(listType, accum)` (PhotometryFit.cc, lines
115-143), called on the image list of the associations. -/
def accumulateStat {A : Type} (pm : PhotometryModel M) (fit : PhotometryFit M)
    (AddEntry : A → ℚ → Nat → MeasRef → A) (accum : A) : Option A :=
  accumulateImages pm fit AddEntry fit.associations.ccdImageList 0 accum

/-- `PhotometryFit::getMeasuredStarIndices(measuredStar, indices)`
(PhotometryFit.cc, lines 199-217): the vector `indices` after the call.  The
vector `h(100)` handed to the model is not initialised by the code; it is
taken to be zero. -/
def getMeasuredStarIndices (pm : PhotometryModel M) (fit : PhotometryFit M)
    (measuredStar : MeasuredStar) : Option (List Nat) :=
  let indices : List Nat := []
  let fromModel : Option (List Nat) :=
    if fit.fittingModel then
      match fit.associations.ccdImageList[measuredStar.ccdImage]? with
      | none => none
      | some im =>
        some (pm.getIndicesAndDerivatives fit.photometryModel measuredStar im indices
          (List.replicate 100 0)).1
    else some indices
  match fromModel with
  | none => none
  | some indices =>
    if fit.fittingFluxes then
      match fit.associations.fittedStar? measuredStar.fittedStar with
      | none => none
      | some fs => some (indices ++ [fs.indexInMatrix])
    else some indices

/-- The loop `for (auto const &i: indices) if (affectedParams(i) !=0) drop_it = false;`
of `findOutliers`: the final value of `drop_it`. -/
def dropIt (affectedParams : List Int) : List Nat → Option Bool
  | [] => some true
  | i :: rest =>
    match affectedParams[i]? with
    | none => none
    | some a =>
      match dropIt affectedParams rest with
      | none => none
      | some d => some (if a != 0 then false else d)

/-- The loop `for (auto const &i: indices) affectedParams(i)++;` of `findOutliers`. -/
def increment : List Int → List Nat → Option (List Int)
  | affectedParams, [] => some affectedParams
  | affectedParams, i :: rest =>
    match affectedParams[i]? with
    | none => none
    | some a => increment (affectedParams.set i (a + 1)) rest

/-- The main loop of `findOutliers` (PhotometryFit.cc, lines 254-271) over the
entries from the largest chi2 down. -/
def outlierLoop (pm : PhotometryModel M) (fit : PhotometryFit M) (cut : ℚ) :
    List Chi2Entry → List Int → List MeasRef → Option (List MeasRef)
  | [], _, outliers => some outliers
  | i :: rest, affectedParams, outliers =>
    if i.chi2 < cut then some outliers
    else
      match fit.associations.measuredStar? i.measuredStar with
      | none => none
      | some ms =>
        match getMeasuredStarIndices pm fit ms with
        | none => none
        | some indices =>
          match dropIt affectedParams indices with
          | none => none
          | some drop_it =>
            if drop_it then
              match increment affectedParams indices with
              | none => none
              | some affectedParams' =>
                outlierLoop pm fit cut rest affectedParams' (outliers ++ [i.measuredStar])
            else outlierLoop pm fit cut rest affectedParams outliers

/-- The sum `sum` of the chi2 values computed by `findOutliers`. -/
def chi2Sum (chi2s : Chi2Vect) : ℚ := (chi2s.map fun i => i.chi2).sum

/-- The sum `sum2` of the squared chi2 values computed by `findOutliers`. -/
def chi2Sum2 (chi2s : Chi2Vect) : ℚ := (chi2s.map fun i => sqr i.chi2).sum

/-- The value `cut` computed by `findOutliers` from the sorted chi2 vector. -/
def outlierCut (sqrt : ℚ → ℚ) (nSigCut : ℚ) (chi2s : Chi2Vect) : ℚ :=
  let nval := chi2s.length
  let sum := chi2Sum chi2s
  let sum2 := chi2Sum2 chi2s
  let average := sum / nval
  let sigma := sqrt (sum2 / nval - sqr average)
  average + nSigCut * sigma

/-- `PhotometryFit::findOutliers(nSigCut, outliers)` (PhotometryFit.cc, lines
219-273): the list `outliers` after the call.  The median is computed for the
log only. -/
def findOutliers (pm : PhotometryModel M) (sqrt : ℚ → ℚ) (sort : Chi2Vect → Chi2Vect)
    (fit : PhotometryFit M) (nSigCut : ℚ) (outliers : List MeasRef) : Option (List MeasRef) :=
  match accumulateStat pm fit Chi2Vect.AddEntry ([] : Chi2Vect) with
  | none => none
  | some chi2s =>
    let nval := chi2s.length
    if nval = 0 then some outliers
    else
      let chi2s := sort chi2s
      let cut := outlierCut sqrt nSigCut chi2s
      let affectedParams : List Int := List.replicate fit.nParTot 0
      outlierLoop pm fit cut chi2s.reverse affectedParams outliers

/-- The loop of `assignIndices` over the fitted stars: the list after the loop
and the final `ipar`. -/
def setIndices : List FittedStar → Nat → List FittedStar × Nat
  | [], ipar => ([], ipar)
  | fs :: rest, ipar =>
    let r := setIndices rest (ipar + 1)
    (fs.SetIndexInMatrix ipar :: r.1, r.2)

/-- `PhotometryFit::assignIndices(whatToFit)` (PhotometryFit.cc, lines 275-301). -/
def assignIndices (pm : PhotometryModel M) (fit : PhotometryFit M) (whatToFit : String) :
    PhotometryFit M :=
  let fittingModel := (find whatToFit "Model").isSome
  let fittingFluxes := (find whatToFit "Fluxes").isSome
  let model : Nat × M :=
    if fittingModel then pm.assignIndices fit.photometryModel whatToFit 0
    else (0, fit.photometryModel)
  let nParModel := model.1
  let ipar := nParModel
  let stars : List FittedStar × Nat :=
    if fittingFluxes then setIndices fit.associations.fittedStarList ipar
    else (fit.associations.fittedStarList, ipar)
  { associations := { fit.associations with fittedStarList := stars.1 },
    photometryModel := model.2,
    fluxError := fit.fluxError,
    whatToFit := whatToFit,
    fittingModel := fittingModel,
    fittingFluxes := fittingFluxes,
    nParModel := nParModel,
    nParTot := stars.2,
    lastNTrip := fit.lastNTrip }

/-- The constructor `PhotometryFit(associations, photometryModel, fluxError)`
(PhotometryFit.cc, lines 28-36).  The members that the initialiser list leaves
unset are all overwritten by the call of `assignIndices`; they start here from
`false` and `0`. -/
def new (pm : PhotometryModel M) (associations : Associations) (photometryModel : M)
    (fluxError : ℚ) : PhotometryFit M :=
  assignIndices pm
    { associations := associations, photometryModel := photometryModel,
      fluxError := fluxError, whatToFit := "", fittingModel := false, fittingFluxes := false,
      nParModel := 0, nParTot := 0, lastNTrip := 0 } ""

/-- How a call that may throw ends. -/
inductive Outcome (σ : Type) where
  /-- The call returned; the state after it. -/
  | done (s : σ)
  /-- The call threw `pex::exceptions::InvalidParameterError`; the state at the throw. -/
  | invalidParameterError (s : σ)
  /-- The call read a vector out of its range. -/
  | undefined

/-- The loop of `offsetParams` over the fitted stars: `fs.flux += delta(index)`. -/
def offsetFluxes (delta : List ℚ) : List FittedStar → Option (List FittedStar)
  | [] => some []
  | fs :: rest =>
    let index := fs.indexInMatrix
    match delta[index]? with
    | none => none
    | some d =>
      match offsetFluxes delta rest with
      | none => none
      | some rest' => some ({ fs with flux := fs.flux + d } :: rest')

/-- `PhotometryFit::offsetParams(delta)` (PhotometryFit.cc, lines 303-323). -/
def offsetParams (pm : PhotometryModel M) (fit : PhotometryFit M) (delta : List ℚ) :
    Outcome (PhotometryFit M) :=
  if delta.length ≠ fit.nParTot then Outcome.invalidParameterError fit
  else
    let model := if fit.fittingModel then pm.offsetParams fit.photometryModel delta
      else fit.photometryModel
    if fit.fittingFluxes then
      match offsetFluxes delta fit.associations.fittedStarList with
      | none => Outcome.undefined
      | some fsl =>
        Outcome.done { fit with photometryModel := model,
                                associations := { fit.associations with fittedStarList := fsl } }
    else Outcome.done { fit with photometryModel := model }

end PhotometryFit

/-! ## AstrometryModel -/

/-- The operator `&` on two `bool`. -/
def bitAnd : Bool → Bool → Bool
  | true, b => b
  | false, _ => false

/-- `AstrometryModel::validate(ccdImageList, ndof)` (AstrometryModel.cc, lines
30-40).  The value of the virtual `getTotalParameters()` is read for the log
only. -/
def AstrometryModel.validate (_getTotalParameters : Int) (_ccdImageList : List CcdImage)
    (ndof : Int) : Bool :=
  let check := true
  let check := if ndof < 1 then bitAnd check false else check
  check

/-! ## The chi2 of the photometric fit -/

/-- Modelled from the spec: the accumulator `Chi2` (Chi2.h is not among the
sources), the "sum of weighted squared residuals and degrees of freedom".  The
number of degrees of freedom is an integer: the spec lets it fall below 1
"after subtracting parameters". -/
structure Chi2 where
  /-- Sum of the squared weighted residuals. -/
  chi2 : ℚ
  /-- Number of degrees of freedom. -/
  ndof : Int
  deriving DecidableEq, Repr

/-- Modelled from the spec: `Chi2::AddEntry(inc, dof, star)` adds `inc` to the
sum and `dof` to the degrees of freedom. -/
def Chi2.AddEntry (c : Chi2) (inc : ℚ) (dof : Nat) (_measuredStar : MeasRef) : Chi2 :=
  { chi2 := c.chi2 + inc, ndof := c.ndof + dof }

/-- `PhotometryFit::computeChi2()` (PhotometryFit.cc, lines 146-154); a fresh
`Chi2` is zero. -/
def PhotometryFit.computeChi2 {M : Type} (pm : PhotometryModel M) (fit : PhotometryFit M) :
    Option Chi2 :=
  match PhotometryFit.accumulateStat pm fit Chi2.AddEntry ({ chi2 := 0, ndof := 0 } : Chi2) with
  | none => none
  | some chi2 => some { chi2 with ndof := chi2.ndof - fit.nParTot }

/-! ## Derivatives of the photometric fit -/

/-- Modelled from the spec: `TripletList` (Tripletlist.h is not among the
sources), "an append-only buffer" of triplets (row, column, value) with the
index of the next free column. -/
structure TripletList where
  /-- The triplets, in the order in which they were added. -/
  triplets : List (Nat × Nat × ℚ)
  /-- The next free column of the Jacobian. -/
  nextFreeIndex : Nat
  deriving DecidableEq, Repr

namespace TripletList

/-- The constructor `TripletList(count)`: an empty list; `count` is only a
reservation. -/
def new (_count : Nat) : TripletList := { triplets := [], nextFreeIndex := 0 }

/-- `AddTriplet(i, j, val)`: appends one triplet. -/
def AddTriplet (t : TripletList) (i j : Nat) (val : ℚ) : TripletList :=
  { t with triplets := t.triplets ++ [(i, j, val)] }

/-- Accessor `NextFreeIndex()`. -/
def NextFreeIndex (t : TripletList) : Nat := t.nextFreeIndex

/-- Mutator `SetNextFreeIndex(index)`. -/
def SetNextFreeIndex (t : TripletList) (index : Nat) : TripletList :=
  { t with nextFreeIndex := index }

/-- The call `size()`. -/
def size (t : TripletList) : Nat := t.triplets.length

end TripletList

/-- The statement `rhs[l] += v` on an Eigen vector; not defined when `l` is
outside the vector. -/
def addAt (rhs : List ℚ) (l : Nat) (v : ℚ) : Option (List ℚ) :=
  match rhs[l]? with
  | none => none
  | some x => some (rhs.set l (x + v))

namespace PhotometryFit

variable {M : Type}

/-- The constant `npar_max` of `LSDerivatives`. -/
def npar_max : Nat := 100

/-- The loop `for (unsigned k=0; k<indices.size(); k++)` of `LSDerivatives`
(PhotometryFit.cc, lines 91-96), from position `k` on; the list holds the
entries of `indices` not yet visited. -/
def modelDerivatives (h : List ℚ) (fsFlux sigma res : ℚ) (kTriplets : Nat) :
    List Nat → Nat → TripletList → List ℚ → Option (TripletList × List ℚ)
  | [], _, tList, rhs => some (tList, rhs)
  | l :: rest, k, tList, rhs =>
    match h[k]? with
    | none => none
    | some hk =>
      match addAt rhs l (hk * res / sqr sigma) with
      | none => none
      | some rhs' =>
        modelDerivatives h fsFlux sigma res kTriplets rest (k + 1)
          (tList.AddTriplet l kTriplets (hk * fsFlux / sigma)) rhs'

/-- The block `if (_fittingModel) { ... }` of `LSDerivatives` (PhotometryFit.cc,
lines 85-97): the vector `indices`, the triplets and the right-hand side
after it. -/
def modelPart (pm : PhotometryModel M) (fit : PhotometryFit M) (ccdImage : CcdImage)
    (measuredStar : MeasuredStar) (fs : FittedStar) (sigma res : ℚ) (h : List ℚ)
    (indices : List Nat) (kTriplets : Nat) (tList : TripletList) (rhs : List ℚ) :
    Option (List Nat × TripletList × List ℚ) :=
  if fit.fittingModel then
    let r := pm.getIndicesAndDerivatives fit.photometryModel measuredStar ccdImage indices h
    match modelDerivatives r.2 fs.flux sigma res kTriplets r.1 0 tList rhs with
    | none => none
    | some tr => some (r.1, tr.1, tr.2)
  else some (indices, tList, rhs)

/-- The block `if (_fittingFluxes) { ... }` of `LSDerivatives` (PhotometryFit.cc,
lines 98-103): the triplets and the right-hand side after it. -/
def fluxesPart (fit : PhotometryFit M) (fs : FittedStar) (pf sigma res : ℚ)
    (kTriplets : Nat) (tList : TripletList) (rhs : List ℚ) : Option (TripletList × List ℚ) :=
  if fit.fittingFluxes then
    let index := fs.indexInMatrix
    match addAt rhs index (res * pf / sqr sigma) with
    | none => none
    | some rhs' => some (tList.AddTriplet index kTriplets (pf / sigma), rhs')
  else some (tList, rhs)

/-- The loop of `LSDerivatives` over the measurements of a catalog
(PhotometryFit.cc, lines 69-105).  The vector `indices` lives across the
iterations; the result carries the final `kTriplets`. -/
def derivativesLoop (pm : PhotometryModel M) (fit : PhotometryFit M) (ccdImage : CcdImage) :
    List MeasuredStar → List Nat → Nat → TripletList → List ℚ →
      Option (Nat × TripletList × List ℚ)
  | [], _, kTriplets, tList, rhs => some (kTriplets, tList, rhs)
  | measuredStar :: rest, indices, kTriplets, tList, rhs =>
    if !measuredStar.valid then
      derivativesLoop pm fit ccdImage rest indices kTriplets tList rhs
    else
      let sigma := measuredStar.eflux
      let h : List ℚ := List.replicate npar_max 0
      let pf := pm.photomFactor fit.photometryModel ccdImage measuredStar
      match fit.associations.fittedStar? measuredStar.fittedStar with
      | none => none
      | some fs =>
        let res := measuredStar.flux - pf * fs.flux
        match modelPart pm fit ccdImage measuredStar fs sigma res h indices kTriplets
            tList rhs with
        | none => none
        | some (indices', tList', rhs') =>
          match fluxesPart fit fs pf sigma res kTriplets tList' rhs' with
          | none => none
          | some (tList'', rhs'') =>
            derivativesLoop pm fit ccdImage rest indices' (kTriplets + 1) tList'' rhs''

/-- The catalog that `LSDerivatives` walks: the fit catalog of the image, or
the stars of `measuredStarList` when it is given.  In that case the code
asserts that the first star of the list belongs to the image; a failed
assertion, an empty list and a dangling star have no defined result. -/
def derivativesCatalog (fit : PhotometryFit M) (ci : Nat) (ccdImage : CcdImage) :
    Option (List MeasRef) → Option (List MeasuredStar)
  | none => some ccdImage.catalogForFit
  | some [] => none
  | some (r :: rest) =>
    match fit.associations.measuredStar? r with
    | none => none
    | some first =>
      if first.ccdImage = ci then
        (r :: rest).mapM fun x => fit.associations.measuredStar? x
      else none

/-- `PhotometryFit::LSDerivatives(ccdImage, tList, rhs, measuredStarList)`
(PhotometryFit.cc, lines 47-107); the image is given by its position `ci` in
the image list.  The vector `indices` starts as `npar_max` copies of
`(unsigned) -1`. -/
def LSDerivativesImage (pm : PhotometryModel M) (fit : PhotometryFit M) (ci : Nat)
    (tList : TripletList) (rhs : List ℚ) (measuredStarList : Option (List MeasRef)) :
    Option (TripletList × List ℚ) :=
  match fit.associations.ccdImageList[ci]? with
  | none => none
  | some ccdImage =>
    match derivativesCatalog fit ci ccdImage measuredStarList with
    | none => none
    | some catalog =>
      let indices : List Nat := List.replicate npar_max (2 ^ 32 - 1)
      let kTriplets := tList.NextFreeIndex
      match derivativesLoop pm fit ccdImage catalog indices kTriplets tList rhs with
      | none => none
      | some (kTriplets', tList', rhs') => some (tList'.SetNextFreeIndex kTriplets', rhs')

/-- The loop of `LSDerivatives(tList, rhs)` over the images, from image number
`ci` on; the list holds the images not yet visited. -/
def derivativesImages (pm : PhotometryModel M) (fit : PhotometryFit M) :
    List CcdImage → Nat → TripletList → List ℚ → Option (TripletList × List ℚ)
  | [], _, tList, rhs => some (tList, rhs)
  | _ :: rest, ci, tList, rhs =>
    match LSDerivativesImage pm fit ci tList rhs none with
    | none => none
    | some (tList', rhs') => derivativesImages pm fit rest (ci + 1) tList' rhs'

/-- `PhotometryFit::LSDerivatives(tList, rhs)` (PhotometryFit.cc, lines 38-45). -/
def LSDerivatives (pm : PhotometryModel M) (fit : PhotometryFit M) (tList : TripletList)
    (rhs : List ℚ) : Option (TripletList × List ℚ) :=
  derivativesImages pm fit fit.associations.ccdImageList 0 tList rhs

end PhotometryFit

/-- The call `SetValid(value)` on the measured star at `r`. -/
def Associations.setValid (a : Associations) (r : MeasRef) (value : Bool) : Associations :=
  match a.ccdImageList[r.image]? with
  | none => a
  | some im =>
    match im.catalogForFit[r.star]? with
    | none => a
    | some ms =>
      let ms' : MeasuredStar := { ms with valid := value }
      let im' : CcdImage := { im with catalogForFit := im.catalogForFit.set r.star ms' }
      { a with ccdImageList := a.ccdImageList.set r.image im' }

/-- The statement `fs->MeasurementCount()--` on the fitted star at position `p`. -/
def Associations.decrementCount (a : Associations) (p : Nat) : Associations :=
  match a.fittedStarList[p]? with
  | none => a
  | some fs =>
    let fs' : FittedStar := { fs with measurementCount := fs.measurementCount - 1 }
    { a with fittedStarList := a.fittedStarList.set p fs' }

namespace PhotometryFit

variable {M : Type}

/-- `PhotometryFit::outliersContributions(outliers, tList, grad)`
(PhotometryFit.cc, lines 156-171): the fit, the triplet list and the gradient
after the call. -/
def outliersContributions (pm : PhotometryModel M) :
    PhotometryFit M → List MeasRef → TripletList → List ℚ →
      Option (PhotometryFit M × TripletList × List ℚ)
  | fit, [], tList, grad => some (fit, tList, grad)
  | fit, i :: rest, tList, grad =>
    match fit.associations.measuredStar? i with
    | none => none
    | some out =>
      match LSDerivativesImage pm fit out.ccdImage tList grad (some [i]) with
      | none => none
      | some (tList', grad') =>
        match fit.associations.fittedStar? out.fittedStar with
        | none => none
        | some _ =>
          outliersContributions pm
            { fit with associations :=
                (fit.associations.setValid i false).decrementCount out.fittedStar }
            rest tList' grad'

/-- Entry `(i, j)` of the Jacobian that `setFromTriplets` builds: the sum of
the values of the triplets at that place. -/
def jacobianEntry (tList : TripletList) (i j : Nat) : ℚ :=
  ((tList.triplets.filter fun t => t.1 = i ∧ t.2.1 = j).map fun t => t.2.2).sum

/-- The matrix `hessian = jacobian * jacobian.transpose()` of `minimize`, by
rows; the Jacobian has `nParTot` rows and `NextFreeIndex()` columns. -/
def hessian (nParTot : Nat) (tList : TripletList) : List (List ℚ) :=
  (List.range nParTot).map fun a =>
    (List.range nParTot).map fun b =>
      ((List.range tList.NextFreeIndex).map fun j =>
        jacobianEntry tList a j * jacobianEntry tList b j).sum

/-- How a call of `minimize` ends. -/
inductive MinimizeOutcome (σ : Type) where
  /-- The call returned `value`; the state after it. -/
  | returned (value : Bool) (s : σ)
  /-- The call threw `pex::exceptions::InvalidParameterError`; the state at the throw. -/
  | threw (s : σ)
  /-- The call read a vector out of its range or followed a dangling pointer. -/
  | undefined

/-- `PhotometryFit::minimize(whatToFit)` (PhotometryFit.cc, lines 325-362).
The factorization `Eigen::SimplicialLDLT` is the argument `chol`: applied to
the Hessian it gives `none` when `info()` is not `Success`, and the function
`solve` otherwise. -/
def minimize (pm : PhotometryModel M) (chol : List (List ℚ) → Option (List ℚ → List ℚ))
    (fit : PhotometryFit M) (whatToFit : String) : MinimizeOutcome (PhotometryFit M) :=
  let fit1 := assignIndices pm fit whatToFit
  let nTrip := if fit1.lastNTrip ≠ 0 then fit1.lastNTrip else 1000000
  let tList := TripletList.new nTrip
  let grad : List ℚ := List.replicate fit1.nParTot 0
  match LSDerivatives pm fit1 tList grad with
  | none => MinimizeOutcome.undefined
  | some (tList', grad') =>
    let fit2 := { fit1 with lastNTrip := tList'.size }
    let hessian := hessian fit2.nParTot tList'
    match chol hessian with
    | none => MinimizeOutcome.returned false fit2
    | some solve =>
      let delta := solve grad'
      match offsetParams pm fit2 delta with
      | Outcome.done fit3 => MinimizeOutcome.returned true fit3
      | Outcome.invalidParameterError s => MinimizeOutcome.threw s
      | Outcome.undefined => MinimizeOutcome.undefined

end PhotometryFit

/-! ## Construction of the constrained models -/

/-- The exceptions that the models raise. -/
inductive Exception where
  /-- The exception `std::out_of_range`. -/
  | outOfRange
  /-- The exception `pex::exceptions::InvalidParameterError`. -/
  | invalidParameterError
  deriving DecidableEq, Repr

/-- The coefficient vectors that the transform code, which is not among the
sources, computes for the constructors of the models. -/
structure PolyFactory where
  /-- Coefficients of `GtransfoPoly(order)`. -/
  plain : Int → List ℚ
  /-- Coefficients of `GtransfoPoly(pixelsToFocal, frame, order) *
  shiftAndNormalize.invert()` for the detector and the frame of an image. -/
  fromDetector : CcdImage → Int → List ℚ
  /-- Coefficients of `GtransfoPoly(im.getPix2TangentPlane(), frame, degree) *
  shiftAndNormalize.invert()` for an image. -/
  fromWcs : CcdImage → Int → List ℚ
  /-- Coefficients of `GtransfoPoly(degree) * shiftAndNormalize.invert()` for
  the frame of an image. -/
  normalized : CcdImage → Int → List ℚ

/-- Modelled from the spec: a new `SimplePolyMapping` around a polynomial of
the given degree with the given coefficients: it is to be fit, it has one
parameter per coefficient, and it has no start index yet (0 here). -/
def SimplePolyMapping (degree : Int) (coefficients : List ℚ) : SimpleGtransfoMapping :=
  { index := 0, npar := coefficients.length, params := coefficients, toBeFit := true,
    transfo := Gtransfo.poly degree }

/-- Modelled from the spec: a new `SimpleGtransfoMapping` around
`GtransfoIdentity()`, which has no parameter. -/
def SimpleGtransfoMapping.ofIdentity : SimpleGtransfoMapping :=
  { index := 0, npar := 0, params := [], toBeFit := true, transfo := Gtransfo.identity }

/-- Modelled from the spec: a new `TwoTransfoMapping` of a chip mapping and a
visit mapping; nothing is declared to be fit yet. -/
def TwoTransfoMapping.new (chip visit : Int) : TwoTransfoMapping :=
  { chip := chip, visit := visit, fittingT1 := false, fittingT2 := false }

namespace MappingMap

/-- The call `find(k)` of `std::map`; `none` stands for `end()`. -/
def find : MappingMap → Int → Option SimpleGtransfoMapping
  | [], _ => none
  | (k', v) :: rest, k => if k' = k then some v else find rest k

/-- The assignment `map[k] = v` of `std::map`: the entry is put at its place in
key order, or replaces the entry of the same key. -/
def insert : MappingMap → Int → SimpleGtransfoMapping → MappingMap
  | [], k, v => [(k, v)]
  | (k', v') :: rest, k, v =>
    if k < k' then (k, v) :: (k', v') :: rest
    else if k = k' then (k, v) :: rest
    else (k', v') :: insert rest k v

/-- A change of the object that the entry of key `k` points to. -/
def update : MappingMap → Int → (SimpleGtransfoMapping → SimpleGtransfoMapping) → MappingMap
  | [], _, _ => []
  | (k', v) :: rest, k, f =>
    if k' = k then (k', f v) :: rest else (k', v) :: update rest k f

end MappingMap

/-- The assignment `_mappings[key] = mapping` of the per-image table: a new key
is added at the end, a known key gets the new mapping. -/
def insertMapping {K : Type} [DecidableEq K] :
    List (K × TwoTransfoMapping) → K → TwoTransfoMapping → List (K × TwoTransfoMapping)
  | [], k, v => [(k, v)]
  | (k', v') :: rest, k, v =>
    if k' = k then (k, v) :: rest else (k', v') :: insertMapping rest k v

/-- The call `find(key)` on the per-image table; `none` stands for `end()`. -/
def findMapping? {K : Type} [DecidableEq K] :
    List (K × TwoTransfoMapping) → K → Option TwoTransfoMapping
  | [], _ => none
  | (k', v) :: rest, k => if k' = k then some v else findMapping? rest k

/-- The key `getHashKey()` of an image. -/
def CcdImage.getHashKey (im : CcdImage) : CcdImageKey :=
  { visit := im.visit, ccd := im.ccdId }

namespace ConstrainedAstrometryModel

/-- The variables of the first loop of the constructor; `minRadius2 = none`
stands for the initial infinity. -/
structure FirstLoop where
  /-- Member `_visitMap`. -/
  visitMap : MappingMap
  /-- Member `_chipMap`. -/
  chipMap : MappingMap
  /-- Local `minRadius2`. -/
  minRadius2 : Option ℚ
  /-- Local `constrainedChip`. -/
  constrainedChip : Int
  deriving DecidableEq, Repr

/-- The test `radius2 < minRadius2`. -/
def closer (radius2 : ℚ) : Option ℚ → Bool
  | none => true
  | some minRadius2 => decide (radius2 < minRadius2)

/-- One turn of the first loop of the constructor (ConstrainedAstrometryModel.cc,
lines 52-78). -/
def firstLoopStep (polys : PolyFactory) (chipOrder visitOrder : Int) (s : FirstLoop)
    (im : CcdImage) : FirstLoop :=
  let visit := im.visit
  let chip := im.ccdId
  let visitMap :=
    match s.visitMap.find visit with
    | none => s.visitMap.insert visit (SimplePolyMapping visitOrder (polys.plain visitOrder))
    | some _ => s.visitMap
  match s.chipMap.find chip with
  | some _ => { s with visitMap := visitMap }
  | none =>
    let center := im.detectorCenter
    let radius2 := center.1 ^ 2 + center.2 ^ 2
    let isCloser := closer radius2 s.minRadius2
    { visitMap := visitMap,
      chipMap := s.chipMap.insert chip
        (SimplePolyMapping chipOrder (polys.fromDetector im chipOrder)),
      minRadius2 := if isCloser then some radius2 else s.minRadius2,
      constrainedChip := if isCloser then chip else s.constrainedChip }

/-- One turn of the second loop of the constructor (ConstrainedAstrometryModel.cc,
lines 84-98) on the chip map and the per-image table. -/
def secondLoopStep (polys : PolyFactory) (chipOrder : Int)
    (s : MappingMap × List (CcdImageKey × TwoTransfoMapping)) (im : CcdImage) :
    MappingMap × List (CcdImageKey × TwoTransfoMapping) :=
  let visit := im.visit
  let chip := im.ccdId
  let chipMap :=
    match s.1.find chip with
    | none => s.1.insert chip (SimplePolyMapping chipOrder (polys.plain chipOrder))
    | some _ => s.1
  (chipMap, insertMapping s.2 im.getHashKey (TwoTransfoMapping.new chip visit))

/-- The constructor `ConstrainedAstrometryModel(ccdImageList, projectionHandler,
chipOrder, visitOrder)` (ConstrainedAstrometryModel.cc, lines 43-104).  The
flags `_fittingChips` and `_fittingVisits`, which it leaves unset, are `false`
here. -/
def new (polys : PolyFactory) (ccdImageList : List CcdImage) (chipOrder visitOrder : Int) :
    Except Exception ConstrainedAstrometryModel :=
  let s := ccdImageList.foldl (firstLoopStep polys chipOrder visitOrder)
    { visitMap := [], chipMap := [], minRadius2 := none, constrainedChip := -1 }
  match s.chipMap.find s.constrainedChip with
  | none => Except.error Exception.outOfRange
  | some _ =>
    let chipMap := s.chipMap.update s.constrainedChip fun mapping => mapping.setToBeFit false
    let r := ccdImageList.foldl (secondLoopStep polys chipOrder) (chipMap, [])
    Except.ok { mappings := r.2, chipMap := r.1, visitMap := s.visitMap,
                fittingChips := false, fittingVisits := false }

end ConstrainedAstrometryModel

namespace ConstrainedPolyModel

/-- One turn of the first loop of the constructor (ConstrainedPolyModel.cc,
lines 38-66) on the visit map and the chip map. -/
def firstLoopStep (polys : PolyFactory) (initFromWCS : Bool) (chipDegree visitDegree : Int)
    (s : MappingMap × MappingMap) (im : CcdImage) : MappingMap × MappingMap :=
  let visit := im.visit
  let chip := im.ccdId
  let visitMap :=
    match s.1.find visit with
    | none =>
      if s.1.isEmpty then s.1.insert visit SimpleGtransfoMapping.ofIdentity
      else s.1.insert visit (SimplePolyMapping visitDegree (polys.plain visitDegree))
    | some _ => s.1
  let chipMap :=
    match s.2.find chip with
    | none =>
      let pol := if initFromWCS then polys.fromWcs im chipDegree
        else polys.normalized im chipDegree
      s.2.insert chip (SimplePolyMapping chipDegree pol)
    | some _ => s.2
  (visitMap, chipMap)

/-- One turn of the second loop of the constructor (ConstrainedPolyModel.cc,
lines 68-82) on the chip map and the per-image table, for the image at
position `i`. -/
def secondLoop (polys : PolyFactory) (chipDegree : Int) :
    List CcdImage → Nat → MappingMap × List (Nat × TwoTransfoMapping) →
      MappingMap × List (Nat × TwoTransfoMapping)
  | [], _, s => s
  | im :: rest, i, s =>
    let visit := im.visit
    let chip := im.ccdId
    let chipMap :=
      match s.1.find chip with
      | none => s.1.insert chip (SimplePolyMapping chipDegree (polys.plain chipDegree))
      | some _ => s.1
    secondLoop polys chipDegree rest (i + 1)
      (chipMap, insertMapping s.2 i (TwoTransfoMapping.new chip visit))

/-- The constructor `ConstrainedPolyModel(ccdImageList, projectionHandler,
initFromWCS, nNotFit, chipDegree, visitDegree)` (ConstrainedPolyModel.cc, lines
31-87).  The flags `_fittingChips` and `_fittingVisits`, which it leaves unset,
are `false` here. -/
def new (polys : PolyFactory) (ccdImageList : List CcdImage) (initFromWCS : Bool)
    (_nNotFit : Nat) (chipDegree visitDegree : Int) : ConstrainedPolyModel :=
  let s := ccdImageList.foldl (firstLoopStep polys initFromWCS chipDegree visitDegree) ([], [])
  let r := secondLoop polys chipDegree ccdImageList 0 (s.2, [])
  { mappings := r.2, chipMap := r.1, visitMap := s.1,
    fittingChips := false, fittingVisits := false }

end ConstrainedPolyModel
/-! ## Lookup of the mapping of an image -/

namespace ConstrainedAstrometryModel

/-- `ConstrainedAstrometryModel::findMapping(ccdImage)`
(ConstrainedAstrometryModel.cc, lines 222-228): the mapping found under the
key of the image, or the exception thrown. -/
def findMapping (m : ConstrainedAstrometryModel) (ccdImage : CcdImage) :
    Except Exception TwoTransfoMapping :=
  match findMapping? m.mappings ccdImage.getHashKey with
  | none => Except.error Exception.invalidParameterError
  | some mapping => Except.ok mapping

/-- `ConstrainedAstrometryModel::getMapping(ccdImage)`
(ConstrainedAstrometryModel.cc, lines 106-108). -/
def getMapping (m : ConstrainedAstrometryModel) (ccdImage : CcdImage) :
    Except Exception TwoTransfoMapping :=
  m.findMapping ccdImage

end ConstrainedAstrometryModel

namespace ConstrainedPolyModel

/-- `ConstrainedPolyModel::getMapping(ccdImage)` (ConstrainedPolyModel.cc, lines
89-93).  The image is given by its address, here its position in the list the
model was built from; `none` stands for `nullptr`. -/
def getMapping (m : ConstrainedPolyModel) (ccdImage : Nat) : Option TwoTransfoMapping :=
  match findMapping? m.mappings ccdImage with
  | none => none
  | some mapping => some mapping

/-- How a call of `produceSipWcs` ends. -/
inductive SipOutcome (W : Type) where
  /-- The call returned `nullptr`. -/
  | null
  /-- The call returned a WCS. -/
  | wcs (w : W)
  /-- The reference cast of the first transform threw `std::bad_cast`. -/
  | badCast
  /-- The call followed a pointer to a sub-mapping that does not exist. -/
  | undefined

/-- `ConstrainedPolyModel::produceSipWcs(ccdImage)` (ConstrainedPolyModel.cc,
lines 175-237).  The projection of the image after the cast to
`TanRaDec2Pix` is the argument `proj` (`none` for a failed cast), and the
computation of the WCS from the projection and the composed transform, listed
from the last applied to the first, is the argument `makeSip`: both belong to
code that is not among the sources. -/
def produceSipWcs {P W : Type} (m : ConstrainedPolyModel) (proj : Nat → Option P)
    (makeSip : P → List Gtransfo → W) (ccdImage : Nat) : SipOutcome W :=
  match findMapping? m.mappings ccdImage with
  | none => SipOutcome.null
  | some mapping =>
    match m.chipMap.find mapping.chip, m.visitMap.find mapping.visit with
    | some chip, some visit =>
      match chip.getTransfo with
      | Gtransfo.identity => SipOutcome.badCast
      | Gtransfo.poly d1 =>
        let pix2Tp : List Gtransfo :=
          match visit.getTransfo with
          | Gtransfo.identity => [Gtransfo.poly d1]
          | Gtransfo.poly d2 => [Gtransfo.poly d2, Gtransfo.poly d1]
        match proj ccdImage with
        | none => SipOutcome.null
        | some p => SipOutcome.wcs (makeSip p pix2Tp)
    | _, _ => SipOutcome.undefined

end ConstrainedPolyModel

/-! ## Machine arithmetic

Second embeddings of three functions, with the machine arithmetic that the
first ones idealise: the squared radius of the constructor as the double that
the code computes, the index of `assignIndices` as an `unsigned`, and the
statistics of `findOutliers` with the rounding of doubles. -/

namespace ConstrainedAstrometryModel

/-- The test `radius2 < minRadius2` of the constructor on doubles that may be
infinite: `none` stands for `+infinity`, which is below nothing and above every
finite value. -/
def closerDouble : Option ℚ → Option ℚ → Bool
  | some radius2, some minRadius2 => decide (radius2 < minRadius2)
  | some _, none => true
  | none, _ => false

/-- One turn of the first loop of the constructor (ConstrainedAstrometryModel.cc,
lines 52-78) with the arithmetic of doubles as an argument: `pow2sum (x, y)` is
the double that `std::pow(x, 2) + std::pow(y, 2)` gives for a centre `(x, y)`
of finite coordinates, `none` when it overflows to `+infinity`. -/
def firstLoopStepWith (pow2sum : ℚ × ℚ → Option ℚ) (polys : PolyFactory)
    (chipOrder visitOrder : Int) (s : FirstLoop) (im : CcdImage) : FirstLoop :=
  let visit := im.visit
  let chip := im.ccdId
  let visitMap :=
    match s.visitMap.find visit with
    | none => s.visitMap.insert visit (SimplePolyMapping visitOrder (polys.plain visitOrder))
    | some _ => s.visitMap
  match s.chipMap.find chip with
  | some _ => { s with visitMap := visitMap }
  | none =>
    let center := im.detectorCenter
    let radius2 := pow2sum center
    let isCloser := closerDouble radius2 s.minRadius2
    { visitMap := visitMap,
      chipMap := s.chipMap.insert chip
        (SimplePolyMapping chipOrder (polys.fromDetector im chipOrder)),
      minRadius2 := if isCloser then radius2 else s.minRadius2,
      constrainedChip := if isCloser then chip else s.constrainedChip }

/-- The variables of the first loop of the constructor after the whole list. -/
def firstLoopWith (pow2sum : ℚ × ℚ → Option ℚ) (polys : PolyFactory)
    (chipOrder visitOrder : Int) (ccdImageList : List CcdImage) : FirstLoop :=
  ccdImageList.foldl (firstLoopStepWith pow2sum polys chipOrder visitOrder)
    { visitMap := [], chipMap := [], minRadius2 := none, constrainedChip := -1 }

/-- The constructor (ConstrainedAstrometryModel.cc, lines 43-104) with the
arithmetic of doubles as an argument; `new` is the case of exact
arithmetic. -/
def newWith (pow2sum : ℚ × ℚ → Option ℚ) (polys : PolyFactory) (ccdImageList : List CcdImage)
    (chipOrder visitOrder : Int) : Except Exception ConstrainedAstrometryModel :=
  let s := firstLoopWith pow2sum polys chipOrder visitOrder ccdImageList
  match s.chipMap.find s.constrainedChip with
  | none => Except.error Exception.outOfRange
  | some _ =>
    let chipMap := s.chipMap.update s.constrainedChip fun mapping => mapping.setToBeFit false
    let r := ccdImageList.foldl (secondLoopStep polys chipOrder) (chipMap, [])
    Except.ok { mappings := r.2, chipMap := r.1, visitMap := s.visitMap,
                fittingChips := false, fittingVisits := false }

end ConstrainedAstrometryModel

/-- The loop
`for (auto &i : map) { i.second->setIndex(index); index += i.second->getNpar(); }`
with the arithmetic of `unsigned`: the sum is taken modulo `2^32`. -/
def assignBlockUnsigned : MappingMap → Nat → MappingMap × Nat
  | [], index => ([], index)
  | (k, mp) :: rest, index =>
    let r := assignBlockUnsigned rest ((index + mp.getNpar) % 2 ^ 32)
    ((k, mp.setIndex index) :: r.1, r.2)

/-- `ConstrainedAstrometryModel::assignIndices(whatToFit, firstIndex)`
(ConstrainedAstrometryModel.cc, lines 114-142) with the arithmetic of
`unsigned`, for a `firstIndex` below `2^32`. -/
def ConstrainedAstrometryModel.assignIndicesUnsigned (m : ConstrainedAstrometryModel)
    (whatToFit : String) (firstIndex : Nat) : Nat × ConstrainedAstrometryModel :=
  let index := firstIndex
  if find whatToFit "Distortions" = none then
    (0, m)
  else
    let fittingChips := (find whatToFit "DistortionsChip").isSome
    let fittingVisits := (find whatToFit "DistortionsVisit").isSome
    let all := !fittingChips && !fittingVisits
    let fittingChips := if all then true else fittingChips
    let fittingVisits := if all then true else fittingVisits
    let chips := if fittingChips then assignBlockUnsigned m.chipMap index else (m.chipMap, index)
    let index := chips.2
    let visits :=
      if fittingVisits then assignBlockUnsigned m.visitMap index else (m.visitMap, index)
    let index := visits.2
    let mappings := m.mappings.map fun i => (i.1, i.2.setWhatToFit fittingChips fittingVisits)
    (index, { mappings := mappings, chipMap := chips.1, visitMap := visits.1,
              fittingChips := fittingChips, fittingVisits := fittingVisits })

namespace PhotometryFit

variable {M : Type}

/-- The inner loop of `accumulateStat` over the catalog of image number `i`,
from the star at position `j` on, with the arithmetic of doubles: `fl` is the
rounding, applied to the result of every operation (each operation is rounded
by itself, and no result leaves the range of doubles). -/
def accumulateCatalogWith {A : Type} (fl : ℚ → ℚ) (pm : PhotometryModel M)
    (fit : PhotometryFit M) (AddEntry : A → ℚ → Nat → MeasRef → A) (ccdIMage : CcdImage)
    (i : Nat) : List MeasuredStar → Nat → A → Option A
  | [], _, accum => some accum
  | measuredStar :: rest, j, accum =>
    if !measuredStar.valid then
      accumulateCatalogWith fl pm fit AddEntry ccdIMage i rest (j + 1) accum
    else
      let sigma := measuredStar.eflux
      let pf := pm.photomFactor fit.photometryModel ccdIMage measuredStar
      match fit.associations.fittedStar? measuredStar.fittedStar with
      | none => none
      | some fs =>
        let res := fl (measuredStar.flux - fl (pf * fs.flux))
        let chi2Val := fl (sqr (fl (res / sigma)))
        accumulateCatalogWith fl pm fit AddEntry ccdIMage i rest (j + 1)
          (AddEntry accum chi2Val 1 ⟨i, j⟩)

/-- The outer loop of `accumulateStat` over the images, from image number `i`
on, with the arithmetic of doubles. -/
def accumulateImagesWith {A : Type} (fl : ℚ → ℚ) (pm : PhotometryModel M)
    (fit : PhotometryFit M) (AddEntry : A → ℚ → Nat → MeasRef → A) :
    List CcdImage → Nat → A → Option A
  | [], _, accum => some accum
  | im :: rest, i, accum =>
    match accumulateCatalogWith fl pm fit AddEntry im i im.catalogForFit 0 accum with
    | none => none
    | some accum' => accumulateImagesWith fl pm fit AddEntry rest (i + 1) accum'

/-- `PhotometryFit::accumulateStat(listType, accum)` (PhotometryFit.cc, lines
115-143) with the arithmetic of doubles. -/
def accumulateStatWith {A : Type} (fl : ℚ → ℚ) (pm : PhotometryModel M)
    (fit : PhotometryFit M) (AddEntry : A → ℚ → Nat → MeasRef → A) (accum : A) : Option A :=
  accumulateImagesWith fl pm fit AddEntry fit.associations.ccdImageList 0 accum

/-- The loop `sum += i.chi2; sum2 += sqr(i.chi2);` of `findOutliers` with the
arithmetic of doubles: the pair `(sum, sum2)`. -/
def chi2SumsWith (fl : ℚ → ℚ) : List Chi2Entry → ℚ × ℚ → ℚ × ℚ
  | [], s => s
  | i :: rest, s => chi2SumsWith fl rest (fl (s.1 + i.chi2), fl (s.2 + fl (sqr i.chi2)))

/-- The value `average` that `findOutliers` computes, with the arithmetic of
doubles. -/
def averageWith (fl : ℚ → ℚ) (chi2s : Chi2Vect) : ℚ :=
  fl ((chi2SumsWith fl chi2s (0, 0)).1 / chi2s.length)

/-- The argument `sum2/nval - sqr(average)` of the square root in
`findOutliers`, with the arithmetic of doubles. -/
def varianceWith (fl : ℚ → ℚ) (chi2s : Chi2Vect) : ℚ :=
  fl (fl ((chi2SumsWith fl chi2s (0, 0)).2 / chi2s.length) - fl (sqr (averageWith fl chi2s)))

/-- The value `sigma` that `findOutliers` computes; `sqrt` gives `none`, which
stands for NaN, on a negative argument. -/
def sigmaWith (fl : ℚ → ℚ) (sqrt : ℚ → Option ℚ) (chi2s : Chi2Vect) : Option ℚ :=
  sqrt (varianceWith fl chi2s)

/-- The value `cut = average + nSigCut * sigma` that `findOutliers` computes,
with the arithmetic of doubles; `none` stands for NaN. -/
def outlierCutWith (fl : ℚ → ℚ) (sqrt : ℚ → Option ℚ) (nSigCut : ℚ) (chi2s : Chi2Vect) :
    Option ℚ :=
  match sigmaWith fl sqrt chi2s with
  | none => none
  | some sigma => some (fl (averageWith fl chi2s + fl (nSigCut * sigma)))

/-- The test `i->chi2 < cut` for a cut that may be NaN: a comparison with NaN
is false. -/
def belowCut (chi2 : ℚ) : Option ℚ → Bool
  | some cut => decide (chi2 < cut)
  | none => false

/-- The main loop of `findOutliers` (PhotometryFit.cc, lines 254-271) for a
cut that may be NaN. -/
def outlierLoopWith (pm : PhotometryModel M) (fit : PhotometryFit M) (cut : Option ℚ) :
    List Chi2Entry → List Int → List MeasRef → Option (List MeasRef)
  | [], _, outliers => some outliers
  | i :: rest, affectedParams, outliers =>
    if belowCut i.chi2 cut then some outliers
    else
      match fit.associations.measuredStar? i.measuredStar with
      | none => none
      | some ms =>
        match getMeasuredStarIndices pm fit ms with
        | none => none
        | some indices =>
          match dropIt affectedParams indices with
          | none => none
          | some drop_it =>
            if drop_it then
              match increment affectedParams indices with
              | none => none
              | some affectedParams' =>
                outlierLoopWith pm fit cut rest affectedParams' (outliers ++ [i.measuredStar])
            else outlierLoopWith pm fit cut rest affectedParams outliers

/-- `PhotometryFit::findOutliers(nSigCut, outliers)` (PhotometryFit.cc, lines
219-273) with the arithmetic of doubles: the list `outliers` after the call. -/
def findOutliersWith (fl : ℚ → ℚ) (sqrt : ℚ → Option ℚ) (sort : Chi2Vect → Chi2Vect)
    (pm : PhotometryModel M) (fit : PhotometryFit M) (nSigCut : ℚ) (outliers : List MeasRef) :
    Option (List MeasRef) :=
  match accumulateStatWith fl pm fit Chi2Vect.AddEntry ([] : Chi2Vect) with
  | none => none
  | some chi2s =>
    let nval := chi2s.length
    if nval = 0 then some outliers
    else
      let chi2s := sort chi2s
      let cut := outlierCutWith fl sqrt nSigCut chi2s
      let affectedParams : List Int := List.replicate fit.nParTot 0
      outlierLoopWith pm fit cut chi2s.reverse affectedParams outliers

end PhotometryFit

/-! ## Notions used to state the properties -/

/-- Start indices of consecutive blocks of the given sizes, the first at `start`. -/
def blockStarts : Nat → List Nat → List Nat
  | _, [] => []
  | start, n :: ns => start :: blockStarts (start + n) ns

/-- Key, parameter count, parameters, toggle and transform of the entries of a
map: all but the start indices. -/
def MappingMap.content (m : MappingMap) : List (Int × Nat × List ℚ × Bool × Gtransfo) :=
  m.map fun e => (e.1, e.2.getNpar, e.2.params, e.2.toBeFit, e.2.transfo)

/-- Sum of the parameter counts of the entries of a map. -/
def MappingMap.totalNpar (m : MappingMap) : Nat :=
  (m.map fun e => e.2.getNpar).sum

/-- The entries of `new` are those of `old` with the start indices of
consecutive blocks, the first block at `start`. -/
def MappingMap.Assigned (old new : MappingMap) (start : Nat) : Prop :=
  new.content = old.content ∧
    new.map (fun e => e.2.getIndex) = blockStarts start (old.map fun e => e.2.getNpar)

/-- The sub-mappings being fit, in the order in which `assignIndices` and
`offsetParams` visit them: the chip mappings, then the visit mappings. -/
def ConstrainedAstrometryModel.fitted (m : ConstrainedAstrometryModel) : MappingMap :=
  (if m.fittingChips then m.chipMap else []) ++ (if m.fittingVisits then m.visitMap else [])

/-- The sub-mappings being fit, chips first. -/
def ConstrainedPolyModel.fitted (m : ConstrainedPolyModel) : MappingMap :=
  (if m.fittingChips then m.chipMap else []) ++ (if m.fittingVisits then m.visitMap else [])

/-- The call of `assignIndices` that took `m` to `m'` from `firstIndex` fit the
chip side iff `chips` and the visit side iff `visits`: the flags are set so,
every two-transform mapping was told so, the mappings of a side being fit
received consecutive blocks (chips first) and those of a side not being fit
were left as they were. -/
def ConstrainedAstrometryModel.FitsSides (m m' : ConstrainedAstrometryModel) (firstIndex : Nat)
    (chips visits : Bool) : Prop :=
  m'.fittingChips = chips ∧ m'.fittingVisits = visits ∧
  (∀ e ∈ m'.mappings, e.2.fittingT1 = chips ∧ e.2.fittingT2 = visits) ∧
  m'.mappings.map (fun e => (e.1, e.2.chip, e.2.visit))
    = m.mappings.map (fun e => (e.1, e.2.chip, e.2.visit)) ∧
  (if chips then m.chipMap.Assigned m'.chipMap firstIndex else m'.chipMap = m.chipMap) ∧
  (if visits then
      m.visitMap.Assigned m'.visitMap (firstIndex + if chips then m.chipMap.totalNpar else 0)
    else m'.visitMap = m.visitMap)

/-- The same notion for `ConstrainedPolyModel`. -/
def ConstrainedPolyModel.FitsSides (m m' : ConstrainedPolyModel) (firstIndex : Nat)
    (chips visits : Bool) : Prop :=
  m'.fittingChips = chips ∧ m'.fittingVisits = visits ∧
  (∀ e ∈ m'.mappings, e.2.fittingT1 = chips ∧ e.2.fittingT2 = visits) ∧
  m'.mappings.map (fun e => (e.1, e.2.chip, e.2.visit))
    = m.mappings.map (fun e => (e.1, e.2.chip, e.2.visit)) ∧
  (if chips then m.chipMap.Assigned m'.chipMap firstIndex else m'.chipMap = m.chipMap) ∧
  (if visits then
      m.visitMap.Assigned m'.visitMap (firstIndex + if chips then m.chipMap.totalNpar else 0)
    else m'.visitMap = m.visitMap)

/-- The chi2 contribution `((flux - pf * fittedFlux) / eflux)^2` of the
measurement `ms` of image `im`, whose fitted star is `fs`. -/
def PhotometryFit.chi2Contribution {M : Type} (pm : PhotometryModel M) (fit : PhotometryFit M)
    (im : CcdImage) (ms : MeasuredStar) (fs : FittedStar) : ℚ :=
  ((ms.flux - pm.photomFactor fit.photometryModel im ms * fs.flux) / ms.eflux) ^ 2

/-- The chi2 contributions of all valid measurements of all images, image by
image in catalog order. -/
def PhotometryFit.validChi2s {M : Type} (pm : PhotometryModel M) (fit : PhotometryFit M) :
    List ℚ :=
  fit.associations.ccdImageList.flatMap fun im =>
    im.catalogForFit.filterMap fun ms =>
      if ms.valid then
        (fit.associations.fittedStar? ms.fittedStar).map
          (PhotometryFit.chi2Contribution pm fit im ms)
      else none

/-- Mean of a list of numbers. -/
def mean (l : List ℚ) : ℚ := l.sum / l.length

/-- Population variance of a list of numbers: the mean of the squared
deviations from the mean. -/
def populationVariance (l : List ℚ) : ℚ :=
  (l.map fun x => (x - mean l) ^ 2).sum / l.length

/-- The measurement at `r` is a valid measured star of the catalog of an image,
its fitted star exists, and `c` is its chi2 contribution. -/
def PhotometryFit.IsValidWithChi2 {M : Type} (pm : PhotometryModel M) (fit : PhotometryFit M)
    (r : MeasRef) (c : ℚ) : Prop :=
  ∃ (im : CcdImage) (ms : MeasuredStar) (fs : FittedStar),
    fit.associations.ccdImageList[r.image]? = some im ∧
    im.catalogForFit[r.star]? = some ms ∧
    ms.valid = true ∧
    fit.associations.fittedStar? ms.fittedStar = some fs ∧
    c = PhotometryFit.chi2Contribution pm fit im ms fs

/-- The parameter indices of the measurement at `r`: those that
`getMeasuredStarIndices` returns for it. -/
def PhotometryFit.indicesOf {M : Type} (pm : PhotometryModel M) (fit : PhotometryFit M)
    (r : MeasRef) : Option (List Nat) :=
  match fit.associations.measuredStar? r with
  | none => none
  | some ms => PhotometryFit.getMeasuredStarIndices pm fit ms

/-- No parameter index is shared by the measurements at `a` and at `b`. -/
def PhotometryFit.NoSharedIndex {M : Type} (pm : PhotometryModel M) (fit : PhotometryFit M)
    (a b : MeasRef) : Prop :=
  ∀ ia ib, PhotometryFit.indicesOf pm fit a = some ia →
    PhotometryFit.indicesOf pm fit b = some ib → ∀ k ∈ ia, k ∉ ib

/-- Every valid measurement points to a fitted star of `fittedStarList` and
back to an image of `ccdImageList`. -/
def Associations.WellLinked (a : Associations) : Prop :=
  ∀ im ∈ a.ccdImageList, ∀ ms ∈ im.catalogForFit, ms.valid = true →
    ms.fittedStar < a.fittedStarList.length ∧ ms.ccdImage < a.ccdImageList.length

/-- Every index that the model returns from `getIndicesAndDerivatives`, for a
measurement of the catalogs and an image of the list, is below `bound`. -/
def PhotometryModel.IndicesBelow {M : Type} (pm : PhotometryModel M) (model : M)
    (a : Associations) (bound : Nat) : Prop :=
  ∀ im ∈ a.ccdImageList, ∀ ms ∈ im.catalogForFit, ∀ im' ∈ a.ccdImageList,
    ∀ (indices : List Nat) (h : List ℚ),
      ∀ k ∈ (pm.getIndicesAndDerivatives model ms im' indices h).1, k < bound

/-- Every parameter index of a valid measurement is inside the vector of
affected parameters, which has `_nParTot` entries. -/
def PhotometryFit.IndicesInRange {M : Type} (pm : PhotometryModel M) (fit : PhotometryFit M) :
    Prop :=
  ∀ im ∈ fit.associations.ccdImageList, ∀ ms ∈ im.catalogForFit, ms.valid = true →
    ∀ l, PhotometryFit.getMeasuredStarIndices pm fit ms = some l → ∀ k ∈ l, k < fit.nParTot

/-- The vector of derivatives that the model returns from
`getIndicesAndDerivatives`, for a measurement of the catalogs and an image of
the list, when it is handed the zero vector `h` of `LSDerivatives`, has an
entry for every index returned with it. -/
def PhotometryModel.DerivativesCover {M : Type} (pm : PhotometryModel M) (model : M)
    (a : Associations) : Prop :=
  ∀ im ∈ a.ccdImageList, ∀ ms ∈ im.catalogForFit, ∀ im' ∈ a.ccdImageList,
    ∀ indices : List Nat,
      (pm.getIndicesAndDerivatives model ms im' indices
          (List.replicate PhotometryFit.npar_max 0)).1.length
        ≤ (pm.getIndicesAndDerivatives model ms im' indices
            (List.replicate PhotometryFit.npar_max 0)).2.length

/-! ## Notions used to state the properties of the offsets, the chi2 and the outliers -/

/-- The entries `delta[getIndex, getIndex + getNpar)` of `delta` that belong to
a sub-mapping. -/
def SimpleGtransfoMapping.slice (m : SimpleGtransfoMapping) (delta : List ℚ) : List ℚ :=
  (delta.drop m.getIndex).take m.getNpar

/-- Every sub-mapping of the map offset by its own slice of `delta`. -/
def MappingMap.offsetAll (l : MappingMap) (delta : List ℚ) : MappingMap :=
  l.map fun e => (e.1, e.2.offsetParams (e.2.slice delta))

/-- The number of valid measurements of all the fit catalogs. -/
def Associations.validCount (a : Associations) : Nat :=
  (a.ccdImageList.map fun im => im.catalogForFit.countP fun ms => ms.valid).sum

/-- The changes that `outliersContributions` makes to the associations, one
outlier after the other: the measurement is marked invalid and the count of
its fitted star goes down by one.  Not defined when a listed measurement or
its fitted star does not exist. -/
def Associations.rejectAll : Associations → List MeasRef → Option Associations
  | a, [] => some a
  | a, i :: rest =>
    match a.measuredStar? i with
    | none => none
    | some out =>
      match a.fittedStar? out.fittedStar with
      | none => none
      | some _ => rejectAll ((a.setValid i false).decrementCount out.fittedStar) rest

/-- The measurement at `r` points at the fitted star at position `p`. -/
def Associations.pointsAt (a : Associations) (r : MeasRef) (p : Nat) : Bool :=
  match a.measuredStar? r with
  | none => false
  | some ms => ms.fittedStar == p

/-- The number of valid measured stars that point at the fitted star at
position `p`. -/
def Associations.validPointing (a : Associations) (p : Nat) : Nat :=
  (a.ccdImageList.map fun im =>
    im.catalogForFit.countP fun ms => ms.valid && ms.fittedStar == p).sum

/-- The invariant of the associations on the measurement counts: the count of
every fitted star is the number of valid measured stars that point at it. -/
def Associations.CountsConsistent (a : Associations) : Prop :=
  ∀ (p : Nat) (fs : FittedStar), a.fittedStarList[p]? = some fs →
    fs.measurementCount = (a.validPointing p : Int)

/-- A measured star without its validity flag. -/
def MeasuredStar.withoutValid (ms : MeasuredStar) : MeasuredStar :=
  { ms with valid := true }

/-- A fitted star without its measurement count. -/
def FittedStar.withoutCount (fs : FittedStar) : FittedStar :=
  { fs with measurementCount := 0 }

/-- The associations without the validity flags and the measurement counts:
what outlier rejection must leave alone. -/
def Associations.frame (a : Associations) : Associations :=
  { ccdImageList := a.ccdImageList.map fun im =>
      { im with catalogForFit := im.catalogForFit.map MeasuredStar.withoutValid },
    fittedStarList := a.fittedStarList.map FittedStar.withoutCount }

/-- The sum of two vectors, entry by entry. -/
def addVec (a b : List ℚ) : List ℚ := List.zipWith (· + ·) a b

/-- The difference of two vectors, entry by entry. -/
def subVec (a b : List ℚ) : List ℚ := List.zipWith (· - ·) a b

/-- The vector of length `n` that is `v` at place `l` and zero elsewhere. -/
def unitVec (n l : Nat) (v : ℚ) : List ℚ := (List.replicate n 0).set l v

/-- The right-hand-side contribution of the measurement at `r`: what the
single-measurement call `LSDerivatives(ccdImage, tList, rhs, &tmp)`, with
`tmp` holding that measurement only, leaves in a vector `rhs` of `n` zeros. -/
def PhotometryFit.contribution {M : Type} (pm : PhotometryModel M) (fit : PhotometryFit M)
    (r : MeasRef) (n : Nat) : Option (List ℚ) :=
  match fit.associations.measuredStar? r with
  | none => none
  | some out =>
    (PhotometryFit.LSDerivativesImage pm fit out.ccdImage (TripletList.new 0)
      (List.replicate n 0) (some [r])).map fun x => x.2

/-- The contributions of the listed measurements, in the order of the list,
each one computed when the measurements listed before it have been rejected. -/
def PhotometryFit.contributions {M : Type} (pm : PhotometryModel M) :
    PhotometryFit M → List MeasRef → Nat → Option (List (List ℚ))
  | _, [], _ => some []
  | fit, r :: rest, n =>
    match PhotometryFit.contribution pm fit r n, fit.associations.rejectAll [r] with
    | some c, some a =>
      (contributions pm { fit with associations := a } rest n).map fun cs => c :: cs
    | _, _ => none

/-! ## Notions used to state the properties of the constructors -/

/-- The squared distance `x^2 + y^2` of a point to the origin. -/
def radius2 (c : ℚ × ℚ) : ℚ := c.1 ^ 2 + c.2 ^ 2

/-- The detector centre of a chip in an image list: the centre carried by the
first image of that chip. -/
def chipCenter? (l : List CcdImage) (chip : Int) : Option (ℚ × ℚ) :=
  (l.find? fun im => im.ccdId = chip).map fun im => im.detectorCenter

/-- The invariant of the first loop of the constructor of
`ConstrainedAstrometryModel`, once the images `pre` have been visited: both
maps are ordered, their keys are the chips and the visits of `pre`, every chip
mapping is to be fit, and `constrainedChip` is a chip of `pre` whose centre is
at the squared distance `minRadius2`, which no chip of `pre` is below. -/
def ConstrainedAstrometryModel.FirstLoop.Inv (pre : List CcdImage)
    (s : ConstrainedAstrometryModel.FirstLoop) : Prop :=
  s.chipMap.Ordered ∧ s.visitMap.Ordered ∧
  (∀ k, k ∈ s.chipMap.map Prod.fst ↔ ∃ im ∈ pre, im.ccdId = k) ∧
  (∀ k, k ∈ s.visitMap.map Prod.fst ↔ ∃ im ∈ pre, im.visit = k) ∧
  (∀ k v, s.chipMap.find k = some v → v.toBeFit = true) ∧
  (pre = [] → s.minRadius2 = none) ∧
  (pre ≠ [] → ∃ c0, chipCenter? pre s.constrainedChip = some c0 ∧
    s.minRadius2 = some (radius2 c0) ∧
    ∀ k c, chipCenter? pre k = some c → radius2 c0 ≤ radius2 c)

/-- The invariant of the first loop of the constructor of
`ConstrainedPolyModel` on the visit map, once the images `pre`, which start
with an image of visit `first`, have been visited: the map is ordered and not
empty, its keys are the visits of `pre`, the mapping of `first` is the new
identity mapping and every other one is the new polynomial mapping of degree
`visitDegree`. -/
def ConstrainedPolyModel.VisitInv (polys : PolyFactory) (visitDegree : Int) (first : Int)
    (pre : List CcdImage) (visitMap : MappingMap) : Prop :=
  visitMap.isEmpty = false ∧ visitMap.Ordered ∧
  (∀ k, k ∈ visitMap.map Prod.fst ↔ ∃ im ∈ pre, im.visit = k) ∧
  visitMap.find first = some SimpleGtransfoMapping.ofIdentity ∧
  ∀ k v, k ≠ first → visitMap.find k = some v →
    v = SimplePolyMapping visitDegree (polys.plain visitDegree)
/-! ## Notions used to state the greedy selection of the outliers -/

/-- The measurements at `a` and at `b` have a parameter index in common. -/
def PhotometryFit.sharesIndex {M : Type} (pm : PhotometryModel M) (fit : PhotometryFit M)
    (a b : MeasRef) : Bool :=
  match PhotometryFit.indicesOf pm fit a, PhotometryFit.indicesOf pm fit b with
  | some ia, some ib => ia.any fun k => ib.contains k
  | _, _ => false

/-- The greedy selection: the candidates are taken in turn, and a candidate is
appended to the selection iff it shares no parameter index with a measurement
selected before it. -/
def PhotometryFit.greedy {M : Type} (pm : PhotometryModel M) (fit : PhotometryFit M) :
    List MeasRef → List MeasRef → List MeasRef
  | [], selected => selected
  | r :: rest, selected =>
    if selected.any (fun x => PhotometryFit.sharesIndex pm fit r x) then
      greedy pm fit rest selected
    else greedy pm fit rest (selected ++ [r])

/-- The counters of `affectedParams` record the indices of the measurements
selected so far. -/
def PhotometryFit.AffectedBy {M : Type} (pm : PhotometryModel M) (fit : PhotometryFit M)
    (aff : List Int) (selected : List MeasRef) : Prop :=
  ∀ (k : Nat) (a : Int), aff[k]? = some a →
    0 ≤ a ∧ (a ≠ 0 ↔ ∃ x ∈ selected, ∃ ix, PhotometryFit.indicesOf pm fit x = some ix ∧ k ∈ ix)

/-! ## Notions used to state the properties of the derivatives -/

/-- What `LSDerivatives` reads for one valid measurement: the image, the
measured star, its fitted star, and the indices and derivatives that the model
returned for it (those of the vectors handed over when the model is not
fit). -/
structure Row where
  /-- The image of the measurement. -/
  im : CcdImage
  /-- The measured star. -/
  ms : MeasuredStar
  /-- The fitted star of the measured star. -/
  fs : FittedStar
  /-- The vector `indices` after the call of the model. -/
  idx : List Nat
  /-- The vector `h` after the call of the model. -/
  h : List ℚ
  deriving DecidableEq

namespace Row

variable {M : Type}

/-- The photometric factor `pf` of the measurement. -/
def pf (pm : PhotometryModel M) (fit : PhotometryFit M) (row : Row) : ℚ :=
  pm.photomFactor fit.photometryModel row.im row.ms

/-- The residual `flux - pf * fittedStar.flux` of the measurement. -/
def res (pm : PhotometryModel M) (fit : PhotometryFit M) (row : Row) : ℚ :=
  row.ms.flux - row.pf pm fit * row.fs.flux

/-- The flux error `sigma` of the measurement. -/
def sigma (row : Row) : ℚ := row.ms.eflux

/-- The triplets `(idx[k], column, h[k] * fittedStar.flux / sigma)` of the
measurement, for the column `column` of the Jacobian. -/
def modelTriplets (row : Row) (column : Nat) : List (Nat × Nat × ℚ) :=
  (row.idx.zip row.h).map fun p => (p.1, column, p.2 * row.fs.flux / row.sigma)

/-- The triplet `(index of the fitted star, column, pf / sigma)` of the
measurement. -/
def fluxTriplet (pm : PhotometryModel M) (fit : PhotometryFit M) (row : Row) (column : Nat) :
    Nat × Nat × ℚ :=
  (row.fs.indexInMatrix, column, row.pf pm fit / row.sigma)

/-- The triplets of the measurement: those of the model when the model is fit,
then that of the flux when fluxes are fit. -/
def triplets (pm : PhotometryModel M) (fit : PhotometryFit M) (row : Row) (column : Nat) :
    List (Nat × Nat × ℚ) :=
  (if fit.fittingModel then row.modelTriplets column else [])
    ++ (if fit.fittingFluxes then [row.fluxTriplet pm fit column] else [])

/-- What the model block adds to `rhs[l]` for the measurement: the sum of
`h[k] * res / sigma^2` over the `k` with `idx[k] = l`. -/
def modelGradient (pm : PhotometryModel M) (fit : PhotometryFit M) (row : Row) (l : Nat) : ℚ :=
  (((row.idx.zip row.h).filter fun p => p.1 = l).map fun p =>
    p.2 * row.res pm fit / sqr row.sigma).sum

/-- What the flux block adds to `rhs[l]` for the measurement:
`res * pf / sigma^2` at the index of the fitted star. -/
def fluxGradient (pm : PhotometryModel M) (fit : PhotometryFit M) (row : Row) (l : Nat) : ℚ :=
  if row.fs.indexInMatrix = l then row.res pm fit * row.pf pm fit / sqr row.sigma else 0

/-- What the measurement adds to `rhs[l]`. -/
def gradient (pm : PhotometryModel M) (fit : PhotometryFit M) (row : Row) (l : Nat) : ℚ :=
  (if fit.fittingModel then row.modelGradient pm fit l else 0)
    + (if fit.fittingFluxes then row.fluxGradient pm fit l else 0)

end Row

/-- The rows of the valid measurements of a catalog, in catalog order; the
vector `indices` goes from one call of the model to the next.  Not defined
when a valid measurement has no fitted star. -/
def catalogRows {M : Type} (pm : PhotometryModel M) (fit : PhotometryFit M) (im : CcdImage) :
    List MeasuredStar → List Nat → Option (List Row)
  | [], _ => some []
  | ms :: rest, indices =>
    if !ms.valid then catalogRows pm fit im rest indices
    else
      match fit.associations.fittedStar? ms.fittedStar with
      | none => none
      | some fs =>
        let r : List Nat × List ℚ :=
          if fit.fittingModel then
            pm.getIndicesAndDerivatives fit.photometryModel ms im indices
              (List.replicate PhotometryFit.npar_max 0)
          else (indices, List.replicate PhotometryFit.npar_max 0)
        match catalogRows pm fit im rest r.1 with
        | none => none
        | some rows => some ({ im := im, ms := ms, fs := fs, idx := r.1, h := r.2 } :: rows)

/-- The rows of the valid measurements of a list of images, image by image. -/
def imagesRows {M : Type} (pm : PhotometryModel M) (fit : PhotometryFit M) :
    List CcdImage → Option (List Row)
  | [] => some []
  | im :: rest =>
    match catalogRows pm fit im im.catalogForFit
        (List.replicate PhotometryFit.npar_max (2 ^ 32 - 1)),
      imagesRows pm fit rest with
    | some a, some b => some (a ++ b)
    | _, _ => none

/-- The triplets of a list of rows that take the consecutive columns from
`column` on. -/
def tripletsFrom {M : Type} (pm : PhotometryModel M) (fit : PhotometryFit M) :
    List Row → Nat → List (Nat × Nat × ℚ)
  | [], _ => []
  | row :: rest, column => row.triplets pm fit column ++ tripletsFrom pm fit rest (column + 1)

/-- The vector `after` is the vector `before` with `f l` added to every entry
`l`. -/
def AddedTo (before after : List ℚ) (f : Nat → ℚ) : Prop :=
  after.length = before.length ∧ ∀ l, after[l]? = (before[l]?).map fun x => x + f l

/-- The model triplets of a measurement with the value `h[k] / sigma`, without
the flux of the fitted star. -/
def Row.plainModelTriplets (row : Row) (column : Nat) : List (Nat × Nat × ℚ) :=
  (row.idx.zip row.h).map fun p => (p.1, column, p.2 / row.sigma)

/-- The weighted residual `r / sigma` of a measurement. -/
def Row.weightedResidual {M : Type} (pm : PhotometryModel M) (fit : PhotometryFit M)
    (row : Row) : ℚ :=
  row.res pm fit / row.sigma

/-- Entry `l` of the Jacobian of the triplets applied to the vector of the
weighted residuals: the sum over the rows, the measurement at position `j`
having the column `j` of the Jacobian, of `J[l, j] * (r_j / sigma_j)`. -/
def jacobianTimesResiduals {M : Type} (pm : PhotometryModel M) (fit : PhotometryFit M)
    (tList : TripletList) (rows : List Row) (l : Nat) : ℚ :=
  (rows.enum.map fun jr =>
    PhotometryFit.jacobianEntry tList l jr.1 * jr.2.weightedResidual pm fit).sum

/-! ## Notions used to state the step of the fit of the fluxes -/

/-- The product of a matrix, given by rows, and a vector. -/
def matVec (H : List (List ℚ)) (x : List ℚ) : List ℚ :=
  H.map fun row => (List.zipWith (fun h v => h * v) row x).sum

/-- The matrix is square, zero outside its diagonal and positive on it. -/
def DiagonalPositive (H : List (List ℚ)) : Prop :=
  ∀ (a : Nat) (row : List ℚ), H[a]? = some row →
    row.length = H.length ∧ 0 < row.getD a 0 ∧ ∀ b, b ≠ a → row.getD b 0 = 0

/-- The sum of `f image measurement` over the valid measurements of the fitted
star at position `a`. -/
def PhotometryFit.sumOverMeasurements {M : Type} (fit : PhotometryFit M) (a : Nat)
    (f : CcdImage → MeasuredStar → ℚ) : ℚ :=
  (fit.associations.ccdImageList.map fun im =>
    ((im.catalogForFit.filter fun ms => ms.valid && ms.fittedStar == a).map fun ms =>
      f im ms).sum).sum

/-- The weighted least-squares flux of the fitted star at position `a`:
`(sum of pf * flux / sigma^2) / (sum of pf^2 / sigma^2)` over its valid
measurements. -/
def PhotometryFit.leastSquaresFlux {M : Type} (pm : PhotometryModel M) (fit : PhotometryFit M)
    (a : Nat) : ℚ :=
  (fit.sumOverMeasurements a fun im ms =>
      pm.photomFactor fit.photometryModel im ms * ms.flux / sqr ms.eflux)
    / (fit.sumOverMeasurements a fun im ms =>
      sqr (pm.photomFactor fit.photometryModel im ms) / sqr ms.eflux)

/-- The chi2 contribution of the measurement `ms` of image `im`, whose fitted
star is `fs`, as `accumulateStat` computes it in doubles: every operation of
`sqr((flux - pf * fittedFlux) / eflux)` is rounded by `fl`. -/
def PhotometryFit.chi2ContributionWith {M : Type} (fl : ℚ → ℚ) (pm : PhotometryModel M)
    (fit : PhotometryFit M) (im : CcdImage) (ms : MeasuredStar) (fs : FittedStar) : ℚ :=
  fl (sqr (fl (fl (ms.flux - fl (pm.photomFactor fit.photometryModel im ms * fs.flux))
    / ms.eflux)))

/-- The chi2 contributions, computed in doubles, of all valid measurements of
all images, image by image in catalog order. -/
def PhotometryFit.validChi2sWith {M : Type} (fl : ℚ → ℚ) (pm : PhotometryModel M)
    (fit : PhotometryFit M) : List ℚ :=
  fit.associations.ccdImageList.flatMap fun im =>
    im.catalogForFit.filterMap fun ms =>
      if ms.valid then
        (fit.associations.fittedStar? ms.fittedStar).map
          (PhotometryFit.chi2ContributionWith fl pm fit im ms)
      else none

/-! ## Concrete inputs -/

/-- A constrained astrometry model with two chips, two visits and two images,
never fit so far. -/
def exampleAstrometryModel : ConstrainedAstrometryModel where
  mappings := [(⟨1, 1⟩, ⟨1, 1, false, false⟩), (⟨2, 1⟩, ⟨1, 2, false, false⟩)]
  chipMap := [(1, { index := 0, npar := 3, params := [1, 2, 3] }),
    (4, { index := 0, npar := 2, params := [1, 2] })]
  visitMap := [(1, { index := 0, npar := 0, params := [] }),
    (2, { index := 0, npar := 2, params := [5, 6] })]
  fittingChips := false
  fittingVisits := false

/-- A constrained polynomial model with the same chips and visits. -/
def examplePolyModel : ConstrainedPolyModel where
  mappings := [(0, ⟨1, 1, false, false⟩), (1, ⟨1, 2, false, false⟩)]
  chipMap := [(1, { index := 0, npar := 3, params := [1, 2, 3] }),
    (4, { index := 0, npar := 2, params := [1, 2] })]
  visitMap := [(1, { index := 0, npar := 0, params := [] }),
    (2, { index := 0, npar := 2, params := [5, 6] })]
  fittingChips := false
  fittingVisits := false

/-- A photometric model with one factor per visit, kept in a list: the factor
of visit `v` is parameter number `v`. -/
def examplePhotometryModel : PhotometryModel (List ℚ) where
  photomFactor := fun m im _ => m.getD im.visit.toNat 1
  getIndicesAndDerivatives := fun _ _ im _ h => ([im.visit.toNat], h)
  assignIndices := fun m _ firstIndex => (firstIndex + m.length, m)
  offsetParams := fun m delta => SimpleGtransfoMapping.addDelta m delta

/-- Two images of two fitted stars; the third measurement of the first image
is not valid.  With photometric factors 1 the chi2 contributions of the valid
measurements are 36, 4, 16 and 0. -/
def exampleAssociations : Associations where
  ccdImageList := [
    { visit := 0, ccdId := 1, catalogForFit := [
        { flux := 16, eflux := 1, valid := true, fittedStar := 0, ccdImage := 0 },
        { flux := 22, eflux := 1, valid := true, fittedStar := 1, ccdImage := 0 },
        { flux := 100, eflux := 1, valid := false, fittedStar := 1, ccdImage := 0 }] },
    { visit := 1, ccdId := 1, catalogForFit := [
        { flux := 14, eflux := 1, valid := true, fittedStar := 0, ccdImage := 1 },
        { flux := 20, eflux := 1, valid := true, fittedStar := 1, ccdImage := 1 }] }]
  fittedStarList := [
    { flux := 10, indexInMatrix := 0, measurementCount := 2 },
    { flux := 20, indexInMatrix := 0, measurementCount := 2 }]

/-- The fit as constructed on the example. -/
def exampleFit : PhotometryFit (List ℚ) :=
  PhotometryFit.new examplePhotometryModel exampleAssociations [1, 1] 0

/-- A sorting function: insertion sort by increasing chi2. -/
def exampleSort (chi2s : Chi2Vect) : Chi2Vect :=
  chi2s.insertionSort fun a b => a.chi2 ≤ b.chi2

/-- A square root that is exact on the squares of rational numbers. -/
def exampleSqrt (x : ℚ) : ℚ :=
  (Nat.sqrt x.num.toNat : ℚ) / (Nat.sqrt x.den : ℚ)

/-- A factorization that fails when the diagonal of the matrix has a zero and
otherwise solves with the diagonal alone; it is exact on diagonal matrices. -/
def exampleChol (H : List (List ℚ)) : Option (List ℚ → List ℚ) :=
  let diag := (List.range H.length).map fun i => (H.getD i []).getD i 0
  if diag.all (fun d => d ≠ 0) then some fun g => List.zipWith (fun x d => x / d) g diag
  else none

/-- Coefficient vectors that are all zero: `(d + 1) (d + 2)` coefficients for
a polynomial transform of degree `d`. -/
def examplePolys : PolyFactory where
  plain := fun d => List.replicate ((d.toNat + 1) * (d.toNat + 2)) 0
  fromDetector := fun _ d => List.replicate ((d.toNat + 1) * (d.toNat + 2)) 0
  fromWcs := fun _ d => List.replicate ((d.toNat + 1) * (d.toNat + 2)) 0
  normalized := fun _ d => List.replicate ((d.toNat + 1) * (d.toNat + 2)) 0

/-- Four images of two visits and two chips, without stars: chip 4 has its
centre at `(3, 4)` and chip 1 at `(1, 0)`; the list starts with visit 2 and
chip 4. -/
def exampleImages : List CcdImage := [
  { visit := 2, ccdId := 4, catalogForFit := [], detectorCenter := (3, 4) },
  { visit := 1, ccdId := 1, catalogForFit := [], detectorCenter := (1, 0) },
  { visit := 2, ccdId := 1, catalogForFit := [], detectorCenter := (1, 0) },
  { visit := 1, ccdId := 4, catalogForFit := [], detectorCenter := (3, 4) }]

/-- One image with one valid measurement of one fitted star, of chi2
contribution 9 for a photometric factor 1, and one measurement that is not
valid. -/
def exampleSingle : Associations where
  ccdImageList := [
    { visit := 0, ccdId := 1, catalogForFit := [
        { flux := 13, eflux := 1, valid := true, fittedStar := 0, ccdImage := 0 },
        { flux := 50, eflux := 1, valid := false, fittedStar := 0, ccdImage := 0 }] }]
  fittedStarList := [{ flux := 10, indexInMatrix := 0, measurementCount := 1 }]

/-- The fit as constructed on the associations with a single valid measurement. -/
def exampleSingleFit : PhotometryFit (List ℚ) :=
  PhotometryFit.new examplePhotometryModel exampleSingle [1] 0

/-- A photometric model with one factor per visit, as the one above, which
reports the derivative 1 of the factor of the image with respect to its
parameter. -/
def exampleScaleModel : PhotometryModel (List ℚ) where
  photomFactor := fun m im _ => m.getD im.visit.toNat 1
  getIndicesAndDerivatives := fun _ _ im _ h => ([im.visit.toNat], h.set 0 1)
  assignIndices := fun m _ firstIndex => (firstIndex + m.length, m)
  offsetParams := fun m delta => SimpleGtransfoMapping.addDelta m delta

/-- An image with one valid measurement, of flux 16 and flux error 2, and one
measurement that is not valid. -/
def exampleScaledImage : CcdImage where
  visit := 0
  ccdId := 1
  catalogForFit := [
    { flux := 16, eflux := 2, valid := true, fittedStar := 0, ccdImage := 0 },
    { flux := 50, eflux := 1, valid := false, fittedStar := 0, ccdImage := 0 }]

/-- That image with one fitted star of flux 10.  With the photometric factor 1
the residual of the valid measurement is 6 and its weighted residual 3. -/
def exampleScaled : Associations where
  ccdImageList := [exampleScaledImage]
  fittedStarList := [{ flux := 10, indexInMatrix := 0, measurementCount := 1 }]

/-- What `LSDerivatives` reads for the valid measurement of that image when
the model returns the index 0 and the derivative 1 and the fitted star has the
index `index`. -/
def exampleScaledRow (index : Nat) : Row where
  im := exampleScaledImage
  ms := { flux := 16, eflux := 2, valid := true, fittedStar := 0, ccdImage := 0 }
  fs := { flux := 10, indexInMatrix := index, measurementCount := 1 }
  idx := [0]
  h := (List.replicate 100 0).set 0 1

/-- The fit as constructed on these associations with the model that reports
its derivative, the factor of the one visit being 1. -/
def exampleScaledFit : PhotometryFit (List ℚ) :=
  PhotometryFit.new exampleScaleModel exampleScaled [1] 0

/-- The double `std::pow(x, 2) + std::pow(y, 2)` without its rounding: the
exact value while it is below `2^1024`, `+infinity` from there on. -/
def examplePow2sum (c : ℚ × ℚ) : Option ℚ :=
  if c.1 ^ 2 + c.2 ^ 2 < 2 ^ 1024 then some (c.1 ^ 2 + c.2 ^ 2) else none

/-- One image of chip 1 whose detector centre `(2^600, 0)` is finite and has a
squared radius `2^1200` beyond the range of doubles. -/
def exampleFarImages : List CcdImage := [
  { visit := 1, ccdId := 1, catalogForFit := [], detectorCenter := (2 ^ 600, 0) }]

/-- The integer nearest to `n / d`, the even one of two that are equally
near. -/
def roundQuotient (n d : Nat) : Nat :=
  if 2 * (n % d) < d then n / d
  else if d < 2 * (n % d) then n / d + 1
  else if n / d % 2 = 0 then n / d else n / d + 1

/-- The number of binary digits of `n`, counted in at most `fuel` halvings. -/
def bitLength : Nat → Nat → Nat
  | 0, _ => 0
  | fuel + 1, n => if n = 0 then 0 else bitLength fuel (n / 2) + 1

/-- The double nearest to the positive rational `n / d`, ties to even: a
significand of 53 bits.  The exponent is not bounded. -/
def roundPositive (n d : Nat) : ℚ :=
  let k : Int := (bitLength n n : Int) - (bitLength d d : Int)
  let e : Int :=
    if 0 ≤ k then (if 2 ^ k.toNat * d ≤ n then k else k - 1)
    else (if d ≤ 2 ^ (-k).toNat * n then k else k - 1)
  let s : Int := 52 - e
  if 0 ≤ s then (roundQuotient (n * 2 ^ s.toNat) d : ℚ) / (2 ^ s.toNat : Nat)
  else ((roundQuotient n (d * 2 ^ (-s).toNat) * 2 ^ (-s).toNat : Nat) : ℚ)

/-- The rounding of IEEE 754 double precision, to nearest and ties to even,
without the bounds of the exponent. -/
def roundToDouble (x : ℚ) : ℚ :=
  if x = 0 then 0
  else if 0 < x then roundPositive x.num.toNat x.den
  else -roundPositive (-x).num.toNat x.den

/-- The largest `r + t` with `t < 2 ^ b` whose square is at most `n`, found bit
by bit. -/
def integerSqrtBits : Nat → Nat → Nat → Nat
  | 0, _, r => r
  | b + 1, n, r =>
    if (r + 2 ^ b) ^ 2 ≤ n then integerSqrtBits b n (r + 2 ^ b) else integerSqrtBits b n r

/-- The integer square root of `n`. -/
def integerSqrt (n : Nat) : Nat := integerSqrtBits (bitLength n n) n 0

/-- A square root for doubles that is exact on the squares of rational
numbers, where the square root of doubles is exact too, and gives NaN on a
negative number. -/
def exampleSqrtDouble (x : ℚ) : Option ℚ :=
  if x < 0 then none else some ((integerSqrt x.num.toNat : ℚ) / (integerSqrt x.den : ℚ))

/-- One image with three valid measurements of three fitted stars of flux 0;
the three measured fluxes are `flux` and the flux errors are 1.  With the
photometric factor 1 the three chi2 contributions are the double that the
square of `flux` rounds to. -/
def exampleEqual (flux : ℚ) : Associations where
  ccdImageList := [
    { visit := 0, ccdId := 1, catalogForFit := [
        { flux := flux, eflux := 1, valid := true, fittedStar := 0, ccdImage := 0 },
        { flux := flux, eflux := 1, valid := true, fittedStar := 1, ccdImage := 0 },
        { flux := flux, eflux := 1, valid := true, fittedStar := 2, ccdImage := 0 }] }]
  fittedStarList := [
    { flux := 0, indexInMatrix := 0, measurementCount := 1 },
    { flux := 0, indexInMatrix := 0, measurementCount := 1 },
    { flux := 0, indexInMatrix := 0, measurementCount := 1 }]

/-- The fit as constructed on three equal measurements of flux `flux`, with
the fluxes to be fit. -/
def exampleEqualFit (flux : ℚ) : PhotometryFit (List ℚ) :=
  PhotometryFit.assignIndices examplePhotometryModel
    (PhotometryFit.new examplePhotometryModel (exampleEqual flux) [1] 0) "Fluxes"

/-- The double nearest to 2.3; its square rounds to the double
`5.289999999999999`. -/
def exampleFlux : ℚ := 2589569785738035 / 1125899906842624

/-! ## Lemmas on strings -/

theorem isPrefixOf_of_append (p q : List Char) :
    ∀ l : List Char, (p ++ q).isPrefixOf l = true → p.isPrefixOf l = true := by
  induction p with
  | nil => intro l _; simp
  | cons a p ih =>
    intro l h
    cases l with
    | nil => simp at h
    | cons b l =>
      simp only [List.cons_append, List.isPrefixOf, Bool.and_eq_true] at h ⊢
      exact ⟨h.1, ih l h.2⟩

theorem findFrom_of_append (p q : List Char) :
    ∀ (l : List Char) (n : Nat), findFrom (p ++ q) l n ≠ none → findFrom p l n ≠ none := by
  intro l
  induction l with
  | nil =>
    intro n h
    cases p with
    | nil => simp [findFrom]
    | cons a p => simp [findFrom] at h
  | cons c cs ih =>
    intro n h
    unfold findFrom at h ⊢
    by_cases hp : (p ++ q).isPrefixOf (c :: cs) = true
    · rw [if_pos (isPrefixOf_of_append p q _ hp)]; simp
    · rw [if_neg hp] at h
      by_cases hp2 : p.isPrefixOf (c :: cs) = true
      · rw [if_pos hp2]; simp
      · rw [if_neg hp2]; exact ih _ h

theorem find_chip_distortions (s : String) (h : (find s "DistortionsChip").isSome = true) :
    find s "Distortions" ≠ none := by
  have e : "DistortionsChip".toList = "Distortions".toList ++ "Chip".toList := by decide
  unfold find at h ⊢
  apply findFrom_of_append _ "Chip".toList
  rw [← e]
  intro hn; rw [hn] at h; simp at h

theorem find_visit_distortions (s : String) (h : (find s "DistortionsVisit").isSome = true) :
    find s "Distortions" ≠ none := by
  have e : "DistortionsVisit".toList = "Distortions".toList ++ "Visit".toList := by decide
  unfold find at h ⊢
  apply findFrom_of_append _ "Visit".toList
  rw [← e]
  intro hn; rw [hn] at h; simp at h

/-! ## Lemmas on the index blocks -/

theorem assignBlock_content (l : MappingMap) :
    ∀ index, (assignBlock l index).1.content = l.content := by
  induction l with
  | nil => intro index; rfl
  | cons e rest ih =>
    intro index
    obtain ⟨k, mp⟩ := e
    have h := ih (index + mp.getNpar)
    simp only [MappingMap.content] at h
    simp only [assignBlock, MappingMap.content, List.map_cons, h]
    rfl

theorem assignBlock_index (l : MappingMap) :
    ∀ index, (assignBlock l index).1.map (fun e => e.2.getIndex)
      = blockStarts index (l.map fun e => e.2.getNpar) := by
  induction l with
  | nil => intro index; rfl
  | cons e rest ih =>
    intro index
    obtain ⟨k, mp⟩ := e
    simp only [assignBlock, List.map_cons, blockStarts, ih]
    rfl

theorem assignBlock_next (l : MappingMap) :
    ∀ index, (assignBlock l index).2 = index + l.totalNpar := by
  induction l with
  | nil => intro index; rfl
  | cons e rest ih =>
    intro index
    obtain ⟨k, mp⟩ := e
    simp only [assignBlock, ih, MappingMap.totalNpar, List.map_cons, List.sum_cons]
    omega

theorem assignBlock_assigned (l : MappingMap) (index : Nat) :
    MappingMap.Assigned l (assignBlock l index).1 index :=
  ⟨assignBlock_content l index, assignBlock_index l index⟩

theorem content_npar (l : MappingMap) :
    l.content.map (fun e => e.2.1) = l.map fun e => e.2.getNpar := by
  simp [MappingMap.content]

theorem totalNpar_of_content {a b : MappingMap} (h : a.content = b.content) :
    a.totalNpar = b.totalNpar := by
  unfold MappingMap.totalNpar
  rw [← content_npar, h, content_npar]

theorem blockStarts_append (a b : List Nat) :
    ∀ s, blockStarts s (a ++ b) = blockStarts s a ++ blockStarts (s + a.sum) b := by
  induction a with
  | nil => intro s; simp [blockStarts]
  | cons n a ih =>
    intro s
    show s :: blockStarts (s + n) (a ++ b) = _
    rw [ih]
    simp only [List.cons_append, blockStarts, List.sum_cons, Nat.add_assoc]

/-- A `std::map` is determined by its entries: two ordered entry lists with
the same entries are equal. -/
theorem ordered_perm_eq {a b : MappingMap} (ha : a.Ordered) (hb : b.Ordered) (h : a.Perm b) :
    a = b := by
  have antisymm : IsAntisymm (Int × SimpleGtransfoMapping) (fun x y => x.1 < y.1) :=
    ⟨fun x y hxy hyx => absurd hxy (not_lt_of_gt hyx)⟩
  unfold MappingMap.Ordered at ha hb
  rw [List.pairwise_map] at ha hb
  exact List.eq_of_perm_of_sorted h ha hb

/-! ## Lemmas on the sides that `assignIndices` fits -/

theorem astrometry_fitsSides_assignIndices (m : ConstrainedAstrometryModel)
    (whatToFit : String) (firstIndex : Nat) (hD : find whatToFit "Distortions" ≠ none)
    (chips visits : Bool)
    (hc : chips = ((find whatToFit "DistortionsChip").isSome ||
      !(find whatToFit "DistortionsVisit").isSome))
    (hv : visits = ((find whatToFit "DistortionsVisit").isSome ||
      !(find whatToFit "DistortionsChip").isSome)) :
    m.FitsSides (m.assignIndices whatToFit firstIndex).2 firstIndex chips visits := by
  subst hc hv
  unfold ConstrainedAstrometryModel.FitsSides
  simp only [ConstrainedAstrometryModel.assignIndices, if_neg hD]
  cases (find whatToFit "DistortionsChip").isSome <;>
    cases (find whatToFit "DistortionsVisit").isSome <;>
    simp [TwoTransfoMapping.setWhatToFit, assignBlock_assigned, assignBlock_next] <;>
    (intro a b x y _ _ hb; subst hb; exact ⟨rfl, rfl⟩)

theorem poly_fitsSides_assignIndices (m : ConstrainedPolyModel)
    (whatToFit : String) (firstIndex : Nat) (hD : find whatToFit "Distortions" ≠ none)
    (chips visits : Bool)
    (hc : chips = ((find whatToFit "DistortionsChip").isSome ||
      !(find whatToFit "DistortionsVisit").isSome))
    (hv : visits = ((find whatToFit "DistortionsVisit").isSome ||
      !(find whatToFit "DistortionsChip").isSome)) :
    m.FitsSides (m.assignIndices firstIndex whatToFit).2 firstIndex chips visits := by
  subst hc hv
  unfold ConstrainedPolyModel.FitsSides
  simp only [ConstrainedPolyModel.assignIndices, if_neg hD]
  cases (find whatToFit "DistortionsChip").isSome <;>
    cases (find whatToFit "DistortionsVisit").isSome <;>
    simp [TwoTransfoMapping.setWhatToFit, assignBlock_assigned, assignBlock_next] <;>
    (intro a b x y _ _ hb; subst hb; exact ⟨rfl, rfl⟩)

/-! ## Lemmas on the indices of the fitted stars -/

theorem setIndices_next (l : List FittedStar) :
    ∀ ipar, (PhotometryFit.setIndices l ipar).2 = ipar + l.length := by
  induction l with
  | nil => intro ipar; rfl
  | cons fs rest ih =>
    intro ipar
    simp only [PhotometryFit.setIndices, ih, List.length_cons]
    omega

theorem setIndices_length (l : List FittedStar) :
    ∀ ipar, (PhotometryFit.setIndices l ipar).1.length = l.length := by
  induction l with
  | nil => intro ipar; rfl
  | cons fs rest ih =>
    intro ipar
    simp only [PhotometryFit.setIndices, ih, List.length_cons]

theorem setIndices_getElem? (l : List FittedStar) :
    ∀ (ipar i : Nat), (PhotometryFit.setIndices l ipar).1[i]?
      = (l[i]?).map (fun fs : FittedStar => fs.SetIndexInMatrix (ipar + i)) := by
  induction l with
  | nil => intro ipar i; simp [PhotometryFit.setIndices]
  | cons fs rest ih =>
    intro ipar i
    cases i with
    | zero => simp [PhotometryFit.setIndices]
    | succ i =>
      simp only [PhotometryFit.setIndices, List.getElem?_cons_succ, ih]
      congr 1
      funext fs
      congr 1
      omega

theorem setIndices_indices (l : List FittedStar) :
    ∀ ipar, (PhotometryFit.setIndices l ipar).1.map (fun fs => fs.indexInMatrix)
      = List.range' ipar l.length := by
  induction l with
  | nil => intro ipar; rfl
  | cons fs rest ih =>
    intro ipar
    simp only [PhotometryFit.setIndices, List.map_cons, ih, List.length_cons, List.range'_succ]
    rfl

theorem setIndices_mem_lt (l : List FittedStar) (ipar : Nat) (fs : FittedStar)
    (h : fs ∈ (PhotometryFit.setIndices l ipar).1) :
    ipar ≤ fs.indexInMatrix ∧ fs.indexInMatrix < ipar + l.length := by
  have hm : fs.indexInMatrix ∈ (PhotometryFit.setIndices l ipar).1.map
      (fun fs => fs.indexInMatrix) := List.mem_map_of_mem _ h
  rw [setIndices_indices, List.mem_range'_1] at hm
  exact hm

/-! ## Lemmas on the parameter offsets -/

theorem offsetFluxes_some (delta : List ℚ) (l : List FittedStar)
    (h : ∀ fs ∈ l, fs.indexInMatrix < delta.length) :
    ∃ l', PhotometryFit.offsetFluxes delta l = some l' := by
  induction l with
  | nil => exact ⟨[], rfl⟩
  | cons fs rest ih =>
    obtain ⟨rest', hrest⟩ := ih fun x hx => h x (List.mem_cons_of_mem _ hx)
    have hlt := h fs (List.mem_cons_self _ _)
    refine ⟨{ fs with flux := fs.flux + delta[fs.indexInMatrix] } :: rest', ?_⟩
    simp [PhotometryFit.offsetFluxes, List.getElem?_eq_getElem hlt, hrest]

theorem offsetFluxes_spec (delta : List ℚ) (l : List FittedStar) :
    ∀ l', PhotometryFit.offsetFluxes delta l = some l' →
      l'.length = l.length ∧
      ∀ (i : Nat) (fs : FittedStar), l[i]? = some fs →
        ∃ d, delta[fs.indexInMatrix]? = some d ∧
          l'[i]? = some { fs with flux := fs.flux + d } := by
  induction l with
  | nil =>
    intro l' h
    simp [PhotometryFit.offsetFluxes] at h
    subst h
    simp
  | cons fs rest ih =>
    intro l' h
    unfold PhotometryFit.offsetFluxes at h
    cases hd : delta[fs.indexInMatrix]? with
    | none => simp [hd] at h
    | some d =>
      cases hr : PhotometryFit.offsetFluxes delta rest with
      | none => simp [hd, hr] at h
      | some rest' =>
        simp only [hd, hr, Option.some.injEq] at h
        subst h
        obtain ⟨hlen, hget⟩ := ih rest' hr
        refine ⟨by simp [hlen], ?_⟩
        intro i x hx
        cases i with
        | zero =>
          simp only [List.getElem?_cons_zero, Option.some.injEq] at hx
          subst hx
          exact ⟨d, hd, by simp⟩
        | succ i =>
          simp only [List.getElem?_cons_succ] at hx ⊢
          exact hget i x hx

theorem offsetFluxes_zero (n : Nat) (l : List FittedStar)
    (h : ∀ fs ∈ l, fs.indexInMatrix < n) :
    PhotometryFit.offsetFluxes (List.replicate n (0 : ℚ)) l = some l := by
  induction l with
  | nil => rfl
  | cons fs rest ih =>
    have hrest := ih fun x hx => h x (List.mem_cons_of_mem _ hx)
    have hlt := h fs (List.mem_cons_self _ _)
    simp [PhotometryFit.offsetFluxes, List.getElem?_replicate, hlt, hrest]

theorem segment_zero (n start k : Nat) (h : start + k ≤ n) :
    segment (List.replicate n (0 : ℚ)) start k = some (List.replicate k 0) := by
  unfold segment
  rw [if_pos (by simpa using h)]
  simp only [List.drop_replicate, List.take_replicate, Option.some.injEq]
  congr 1
  omega

theorem addDelta_zero (ps : List ℚ) :
    ∀ k, SimpleGtransfoMapping.addDelta ps (List.replicate k 0) = ps := by
  induction ps with
  | nil => intro k; cases k <;> rfl
  | cons p ps ih =>
    intro k
    cases k with
    | zero => rfl
    | succ k =>
      simp only [List.replicate_succ, SimpleGtransfoMapping.addDelta, ih, add_zero]

theorem offsetBlock_zero (n : Nat) (l : MappingMap)
    (h : ∀ e ∈ l, e.2.getIndex + e.2.getNpar ≤ n) :
    offsetBlock (List.replicate n (0 : ℚ)) l = some l := by
  induction l with
  | nil => rfl
  | cons e rest ih =>
    obtain ⟨k, mp⟩ := e
    have hrest := ih fun x hx => h x (List.mem_cons_of_mem _ hx)
    have hseg := segment_zero n mp.getIndex mp.getNpar (h (k, mp) (List.mem_cons_self _ _))
    simp only [offsetBlock, hseg, hrest, SimpleGtransfoMapping.offsetParams, addDelta_zero]

theorem blockStarts_within (l : MappingMap) :
    ∀ s, l.map (fun e => e.2.getIndex) = blockStarts s (l.map fun e => e.2.getNpar) →
      ∀ e ∈ l, s ≤ e.2.getIndex ∧ e.2.getIndex + e.2.getNpar ≤ s + l.totalNpar := by
  induction l with
  | nil => intro s _ e he; cases he
  | cons x rest ih =>
    intro s h e he
    simp only [List.map_cons, blockStarts, List.cons.injEq] at h
    simp only [MappingMap.totalNpar, List.map_cons, List.sum_cons]
    rcases List.mem_cons.mp he with rfl | hmem
    · constructor
      · omega
      · rw [h.1]; omega
    · have := ih _ h.2 e hmem
      simp only [MappingMap.totalNpar] at this
      omega

/-- After `assignIndices` with "Fluxes": the flag is set, the star at position
`i` has index `_nParModel + i`, and every star index is below `_nParTot`. -/
theorem fluxes_layout_after_assignIndices {M : Type} (pm : PhotometryModel M)
    (fit : PhotometryFit M) (whatToFit : String) (hF : find whatToFit "Fluxes" ≠ none) :
    (PhotometryFit.assignIndices pm fit whatToFit).fittingFluxes = true ∧
    (∀ (i : Nat) (fs : FittedStar),
      (PhotometryFit.assignIndices pm fit whatToFit).associations.fittedStarList[i]? = some fs →
        fs.indexInMatrix = (PhotometryFit.assignIndices pm fit whatToFit).nParModel + i) ∧
    (∀ fs ∈ (PhotometryFit.assignIndices pm fit whatToFit).associations.fittedStarList,
      fs.indexInMatrix < (PhotometryFit.assignIndices pm fit whatToFit).nParTot) := by
  have hs : (find whatToFit "Fluxes").isSome = true := Option.isSome_iff_ne_none.mpr hF
  simp only [PhotometryFit.assignIndices, hs, if_true]
  refine ⟨trivial, ?_, ?_⟩
  · intro i fs hfs
    rw [setIndices_getElem?] at hfs
    cases hget : fit.associations.fittedStarList[i]? with
    | none => simp [hget] at hfs
    | some x =>
      simp only [hget, Option.map_some', Option.some.injEq] at hfs
      subst hfs
      rfl
  · intro fs hfs
    rw [setIndices_next]
    exact (setIndices_mem_lt _ _ fs hfs).2

/-- After `assignIndices` with "Distortions" the fitted sub-mappings have
consecutive blocks from `firstIndex`, which end at the returned index. -/
theorem assignIndices_blocks (m : ConstrainedAstrometryModel) (whatToFit : String)
    (firstIndex : Nat) (hD : find whatToFit "Distortions" ≠ none) :
    (m.assignIndices whatToFit firstIndex).2.fitted.map (fun e => e.2.getIndex)
      = blockStarts firstIndex
          ((m.assignIndices whatToFit firstIndex).2.fitted.map fun e => e.2.getNpar) ∧
    (m.assignIndices whatToFit firstIndex).1
      = firstIndex + (m.assignIndices whatToFit firstIndex).2.fitted.totalNpar := by
  constructor
  · simp only [ConstrainedAstrometryModel.assignIndices, if_neg hD,
      ConstrainedAstrometryModel.fitted]
    split_ifs <;>
      simp [blockStarts_append, assignBlock_index, assignBlock_next, blockStarts,
        ← content_npar, assignBlock_content, MappingMap.totalNpar]
  · simp only [ConstrainedAstrometryModel.assignIndices, if_neg hD,
      ConstrainedAstrometryModel.fitted, MappingMap.totalNpar]
    split_ifs <;>
      simp [assignBlock_next, ← content_npar, assignBlock_content, MappingMap.totalNpar,
        Nat.add_assoc]

/-! ## Lemmas on the chi2 vector -/

theorem sqr_eq_sq (x : ℚ) : sqr x = x ^ 2 := by
  unfold sqr; ring

/-- What the inner loop of `accumulateStat` appends for one catalog. -/
theorem accumulateCatalog_spec {M : Type} (pm : PhotometryModel M) (fit : PhotometryFit M)
    (im : CcdImage) (i : Nat) (cat : List MeasuredStar) :
    ∀ (j : Nat) (acc r : Chi2Vect),
      PhotometryFit.accumulateCatalog pm fit Chi2Vect.AddEntry im i cat j acc = some r →
      ∃ new : Chi2Vect, r = acc ++ new ∧
        new.map (fun e => e.chi2) = cat.filterMap (fun ms =>
          if ms.valid then
            (fit.associations.fittedStar? ms.fittedStar).map
              (PhotometryFit.chi2Contribution pm fit im ms)
          else none) ∧
        ∀ e ∈ new, e.measuredStar.image = i ∧ j ≤ e.measuredStar.star ∧
          ∃ (ms : MeasuredStar) (fs : FittedStar),
            cat[e.measuredStar.star - j]? = some ms ∧ ms.valid = true ∧
            fit.associations.fittedStar? ms.fittedStar = some fs ∧
            e.chi2 = PhotometryFit.chi2Contribution pm fit im ms fs := by
  induction cat with
  | nil =>
    intro j acc r h
    simp only [PhotometryFit.accumulateCatalog, Option.some.injEq] at h
    exact ⟨[], by simp [h], by simp, by simp⟩
  | cons ms rest ih =>
    intro j acc r h
    unfold PhotometryFit.accumulateCatalog at h
    cases hv : ms.valid with
    | false =>
      simp only [hv, Bool.not_false, if_true] at h
      obtain ⟨new, hr, hmap, hmem⟩ := ih (j + 1) acc r h
      refine ⟨new, hr, by simp [hv, hmap], ?_⟩
      intro e he
      obtain ⟨h1, h2, ms', fs, hget, hrest⟩ := hmem e he
      refine ⟨h1, by omega, ms', fs, ?_, hrest⟩
      have : e.measuredStar.star - j = (e.measuredStar.star - (j + 1)) + 1 := by omega
      rw [this, List.getElem?_cons_succ]
      exact hget
    | true =>
      simp only [hv, Bool.not_true, Bool.false_eq_true, if_false] at h
      cases hfs : fit.associations.fittedStar? ms.fittedStar with
      | none => simp [hfs] at h
      | some fs =>
        simp only [hfs] at h
        obtain ⟨new, hr, hmap, hmem⟩ := ih (j + 1) _ r h
        refine ⟨⟨sqr ((ms.flux - pm.photomFactor fit.photometryModel im ms * fs.flux)
          / ms.eflux), ⟨i, j⟩⟩ :: new, ?_, ?_, ?_⟩
        · rw [hr]; simp [Chi2Vect.AddEntry]
        · simp [hv, hfs, hmap, PhotometryFit.chi2Contribution, sqr_eq_sq]
        · intro e he
          rcases List.mem_cons.mp he with rfl | he'
          · refine ⟨rfl, le_refl _, ms, fs, by simp, hv, hfs, ?_⟩
            simp [PhotometryFit.chi2Contribution, sqr_eq_sq]
          · obtain ⟨h1, h2, ms', fs', hget, hrest⟩ := hmem e he'
            refine ⟨h1, by omega, ms', fs', ?_, hrest⟩
            have : e.measuredStar.star - j = (e.measuredStar.star - (j + 1)) + 1 := by omega
            rw [this, List.getElem?_cons_succ]
            exact hget

/-- What the outer loop of `accumulateStat` appends for a list of images. -/
theorem accumulateImages_spec {M : Type} (pm : PhotometryModel M) (fit : PhotometryFit M)
    (ims : List CcdImage) :
    ∀ (i : Nat) (acc r : Chi2Vect),
      PhotometryFit.accumulateImages pm fit Chi2Vect.AddEntry ims i acc = some r →
      ∃ new : Chi2Vect, r = acc ++ new ∧
        new.map (fun e => e.chi2) = ims.flatMap (fun im => im.catalogForFit.filterMap (fun ms =>
          if ms.valid then
            (fit.associations.fittedStar? ms.fittedStar).map
              (PhotometryFit.chi2Contribution pm fit im ms)
          else none)) ∧
        ∀ e ∈ new, i ≤ e.measuredStar.image ∧
          ∃ (im : CcdImage) (ms : MeasuredStar) (fs : FittedStar),
            ims[e.measuredStar.image - i]? = some im ∧
            im.catalogForFit[e.measuredStar.star]? = some ms ∧ ms.valid = true ∧
            fit.associations.fittedStar? ms.fittedStar = some fs ∧
            e.chi2 = PhotometryFit.chi2Contribution pm fit im ms fs := by
  induction ims with
  | nil =>
    intro i acc r h
    simp only [PhotometryFit.accumulateImages, Option.some.injEq] at h
    exact ⟨[], by simp [h], by simp, by simp⟩
  | cons im rest ih =>
    intro i acc r h
    unfold PhotometryFit.accumulateImages at h
    cases hc : PhotometryFit.accumulateCatalog pm fit Chi2Vect.AddEntry im i
        im.catalogForFit 0 acc with
    | none => simp [hc] at h
    | some acc' =>
      simp only [hc] at h
      obtain ⟨new1, hr1, hmap1, hmem1⟩ := accumulateCatalog_spec pm fit im i _ 0 acc acc' hc
      obtain ⟨new2, hr2, hmap2, hmem2⟩ := ih (i + 1) acc' r h
      refine ⟨new1 ++ new2, by rw [hr2, hr1, List.append_assoc], ?_, ?_⟩
      · simp [hmap1, hmap2]
      · intro e he
        rcases List.mem_append.mp he with he1 | he2
        · obtain ⟨h1, _, ms, fs, hget, hrest⟩ := hmem1 e he1
          refine ⟨by omega, im, ms, fs, by simp [h1], ?_, hrest⟩
          simpa using hget
        · obtain ⟨h1, im', ms, fs, hget, hrest⟩ := hmem2 e he2
          refine ⟨by omega, im', ms, fs, ?_, hrest⟩
          have : e.measuredStar.image - i = (e.measuredStar.image - (i + 1)) + 1 := by omega
          rw [this, List.getElem?_cons_succ]
          exact hget

/-- The chi2 vector that `findOutliers` collects: its chi2 values are the
contributions of the valid measurements, and each entry points to the valid
measurement it comes from. -/
theorem accumulateStat_spec {M : Type} (pm : PhotometryModel M) (fit : PhotometryFit M)
    (chi2s : Chi2Vect)
    (h : PhotometryFit.accumulateStat pm fit Chi2Vect.AddEntry ([] : Chi2Vect) = some chi2s) :
    chi2s.map (fun e => e.chi2) = PhotometryFit.validChi2s pm fit ∧
    ∀ e ∈ chi2s, PhotometryFit.IsValidWithChi2 pm fit e.measuredStar e.chi2 := by
  obtain ⟨new, hr, hmap, hmem⟩ := accumulateImages_spec pm fit _ 0 [] chi2s h
  simp only [List.nil_append] at hr
  subst hr
  refine ⟨hmap, ?_⟩
  intro e he
  obtain ⟨_, im, ms, fs, hget, hrest⟩ := hmem e he
  exact ⟨im, ms, fs, by simpa using hget, hrest⟩

/-! ## Lemmas on the mean, the variance and the cut -/

theorem sum_sq_dev (l : List ℚ) (c : ℚ) :
    (l.map fun x => (x - c) ^ 2).sum
      = (l.map fun x => x ^ 2).sum - 2 * c * l.sum + l.length * c ^ 2 := by
  induction l with
  | nil => simp
  | cons x l ih =>
    simp only [List.map_cons, List.sum_cons, ih, List.length_cons, Nat.cast_add, Nat.cast_one]
    ring

/-- The variance that `findOutliers` computes, mean of the squares minus
square of the mean, is the population variance. -/
theorem variance_formula (l : List ℚ) (hl : l.length ≠ 0) :
    (l.map sqr).sum / l.length - sqr (l.sum / l.length) = populationVariance l := by
  have hn : (l.length : ℚ) ≠ 0 := by exact_mod_cast hl
  have hsq : l.map sqr = l.map fun x => x ^ 2 := by
    apply List.map_congr_left
    intro x _
    exact sqr_eq_sq x
  unfold populationVariance mean
  rw [sum_sq_dev, hsq, sqr_eq_sq]
  field_simp
  ring

theorem outlierCut_eq (sqrt : ℚ → ℚ) (nSigCut : ℚ) (sorted chi2s : Chi2Vect) (vals : List ℚ)
    (hperm : sorted.Perm chi2s) (hvals : chi2s.map (fun e => e.chi2) = vals)
    (hne : chi2s.length ≠ 0) :
    PhotometryFit.outlierCut sqrt nSigCut sorted
      = mean vals + nSigCut * sqrt (populationVariance vals) := by
  have hlen : sorted.length = vals.length := by
    rw [hperm.length_eq, ← hvals, List.length_map]
  have hvne : vals.length ≠ 0 := by
    rw [← hvals, List.length_map]; exact hne
  have hsum : PhotometryFit.chi2Sum sorted = vals.sum := by
    unfold PhotometryFit.chi2Sum
    rw [← hvals]
    exact (hperm.map _).sum_eq
  have hsum2 : PhotometryFit.chi2Sum2 sorted = (vals.map sqr).sum := by
    unfold PhotometryFit.chi2Sum2
    rw [← hvals, List.map_map]
    exact (hperm.map _).sum_eq
  unfold PhotometryFit.outlierCut
  simp only [hsum, hsum2, hlen]
  rw [variance_formula vals hvne]
  rfl

/-! ## Lemmas on the main loop of `findOutliers` -/

/-- Whatever the loop appends comes from an entry of the list it walks whose
chi2 is not below the cut, and its parameter indices were obtained. -/
theorem outlierLoop_mem {M : Type} (pm : PhotometryModel M) (fit : PhotometryFit M) (cut : ℚ)
    (l : List Chi2Entry) :
    ∀ (aff : List Int) (outs res : List MeasRef),
      PhotometryFit.outlierLoop pm fit cut l aff outs = some res →
      ∀ x ∈ res, x ∈ outs ∨ ∃ e ∈ l, e.measuredStar = x ∧ ¬ e.chi2 < cut ∧
        ∃ ix, PhotometryFit.indicesOf pm fit x = some ix := by
  induction l with
  | nil =>
    intro aff outs res h x hx
    simp only [PhotometryFit.outlierLoop, Option.some.injEq] at h
    subst h
    exact Or.inl hx
  | cons e rest ih =>
    intro aff outs res h x hx
    unfold PhotometryFit.outlierLoop at h
    by_cases hcut : e.chi2 < cut
    · simp only [hcut, if_true, Option.some.injEq] at h
      subst h
      exact Or.inl hx
    · simp only [hcut, if_false] at h
      cases hms : fit.associations.measuredStar? e.measuredStar with
      | none => simp [hms] at h
      | some ms =>
        simp only [hms] at h
        cases hind : PhotometryFit.getMeasuredStarIndices pm fit ms with
        | none => simp [hind] at h
        | some indices =>
          simp only [hind] at h
          cases hdrop : PhotometryFit.dropIt aff indices with
          | none => simp [hdrop] at h
          | some drop_it =>
            simp only [hdrop] at h
            cases drop_it with
            | false =>
              simp only [Bool.false_eq_true, if_false] at h
              rcases ih aff outs res h x hx with h1 | ⟨e', he', h2⟩
              · exact Or.inl h1
              · exact Or.inr ⟨e', List.mem_cons_of_mem _ he', h2⟩
            | true =>
              simp only [if_true] at h
              cases hinc : PhotometryFit.increment aff indices with
              | none => simp [hinc] at h
              | some aff' =>
                simp only [hinc] at h
                rcases ih aff' _ res h x hx with h1 | ⟨e', he', h2⟩
                · rcases List.mem_append.mp h1 with h3 | h3
                  · exact Or.inl h3
                  · simp only [List.mem_singleton] at h3
                    refine Or.inr ⟨e, List.mem_cons_self _ _, h3.symm, hcut, indices, ?_⟩
                    rw [h3]
                    simp only [PhotometryFit.indicesOf, hms, hind]
                · exact Or.inr ⟨e', List.mem_cons_of_mem _ he', h2⟩

/-! ## Lemmas on the vector of affected parameters -/

theorem dropIt_true (aff : List Int) (l : List Nat)
    (h : PhotometryFit.dropIt aff l = some true) : ∀ k ∈ l, aff[k]? = some 0 := by
  induction l with
  | nil => intro k hk; cases hk
  | cons i rest ih =>
    unfold PhotometryFit.dropIt at h
    cases ha : aff[i]? with
    | none => simp [ha] at h
    | some a =>
      cases hd : PhotometryFit.dropIt aff rest with
      | none => simp [ha, hd] at h
      | some d =>
        simp only [ha, hd, Option.some.injEq] at h
        by_cases ha0 : a = 0
        · subst ha0
          simp only [bne_self_eq_false, Bool.false_eq_true, if_false] at h
          subst h
          intro k hk
          rcases List.mem_cons.mp hk with rfl | hk'
          · exact ha
          · exact ih hd k hk'
        · have : (a != 0) = true := by simpa using ha0
          simp [this] at h

theorem dropIt_some (aff : List Int) (l : List Nat) (h : ∀ k ∈ l, k < aff.length) :
    ∃ d, PhotometryFit.dropIt aff l = some d := by
  induction l with
  | nil => exact ⟨true, rfl⟩
  | cons i rest ih =>
    obtain ⟨d, hd⟩ := ih fun k hk => h k (List.mem_cons_of_mem _ hk)
    have hi := h i (List.mem_cons_self _ _)
    exact ⟨if (aff[i] != 0) = true then false else d,
      by simp only [PhotometryFit.dropIt, List.getElem?_eq_getElem hi, hd]⟩

theorem increment_length (l : List Nat) :
    ∀ aff aff' : List Int, PhotometryFit.increment aff l = some aff' →
      aff'.length = aff.length := by
  induction l with
  | nil =>
    intro aff aff' h
    simp only [PhotometryFit.increment, Option.some.injEq] at h
    rw [h]
  | cons i rest ih =>
    intro aff aff' h
    unfold PhotometryFit.increment at h
    cases ha : aff[i]? with
    | none => simp [ha] at h
    | some a =>
      simp only [ha] at h
      rw [ih _ _ h, List.length_set]

theorem increment_some (l : List Nat) :
    ∀ aff : List Int, (∀ k ∈ l, k < aff.length) →
      ∃ aff', PhotometryFit.increment aff l = some aff' := by
  induction l with
  | nil => intro aff _; exact ⟨aff, rfl⟩
  | cons i rest ih =>
    intro aff h
    have hi := h i (List.mem_cons_self _ _)
    obtain ⟨aff', h'⟩ := ih (aff.set i (aff[i] + 1))
      (fun k hk => by rw [List.length_set]; exact h k (List.mem_cons_of_mem _ hk))
    exact ⟨aff', by simp only [PhotometryFit.increment, List.getElem?_eq_getElem hi, h']⟩

/-- Incrementing never lowers a counter. -/
theorem increment_mono (l : List Nat) :
    ∀ aff aff' : List Int, PhotometryFit.increment aff l = some aff' →
      ∀ (k : Nat) (a : Int), aff[k]? = some a → ∃ a', aff'[k]? = some a' ∧ a ≤ a' := by
  induction l with
  | nil =>
    intro aff aff' h k a hk
    simp only [PhotometryFit.increment, Option.some.injEq] at h
    subst h
    exact ⟨a, hk, le_refl _⟩
  | cons i rest ih =>
    intro aff aff' h k a hk
    unfold PhotometryFit.increment at h
    cases ha : aff[i]? with
    | none => simp [ha] at h
    | some b =>
      simp only [ha] at h
      by_cases hik : i = k
      · subst hik
        have hlt : i < aff.length := by
          by_contra hc
          rw [List.getElem?_eq_none (by omega)] at hk
          cases hk
        have hb : b = a := by rw [ha] at hk; exact Option.some.inj hk
        subst hb
        have hset : (aff.set i (b + 1))[i]? = some (b + 1) := by
          rw [List.getElem?_set]; simp [hlt]
        obtain ⟨a', h1, h2⟩ := ih _ _ h i (b + 1) hset
        exact ⟨a', h1, by omega⟩
      · have hset : (aff.set i (b + 1))[k]? = some a := by
          rw [List.getElem?_set]; simp [hik, hk]
        exact ih _ _ h k a hset

/-- After the increments every index of the list has a positive counter, when
no counter was negative before. -/
theorem increment_pos (l : List Nat) :
    ∀ aff aff' : List Int, (∀ (k : Nat) (a : Int), aff[k]? = some a → 0 ≤ a) →
      PhotometryFit.increment aff l = some aff' →
      ∀ k ∈ l, ∃ a', aff'[k]? = some a' ∧ 0 < a' := by
  induction l with
  | nil => intro aff aff' _ _ k hk; cases hk
  | cons i rest ih =>
    intro aff aff' hnn h k hk
    have h0 := h
    unfold PhotometryFit.increment at h
    cases ha : aff[i]? with
    | none => simp [ha] at h
    | some b =>
      simp only [ha] at h
      have hlt : i < aff.length := by
        by_contra hc
        rw [List.getElem?_eq_none (by omega)] at ha
        cases ha
      have hb := hnn i b ha
      have hnn' : ∀ (k : Nat) (a : Int), (aff.set i (b + 1))[k]? = some a → 0 ≤ a := by
        intro k a hka
        rw [List.getElem?_set] at hka
        by_cases hik : i = k
        · simp only [hik, if_true] at hka
          subst hik
          simp only [hlt, if_true, Option.some.injEq] at hka
          omega
        · simp only [hik, if_false] at hka
          exact hnn k a hka
      rcases List.mem_cons.mp hk with rfl | hk'
      · have hset : (aff.set k (b + 1))[k]? = some (b + 1) := by
          rw [List.getElem?_set]; simp [hlt]
        obtain ⟨a', h1, h2⟩ := increment_mono rest _ _ h k (b + 1) hset
        exact ⟨a', h1, by omega⟩
      · exact ih _ _ hnn' h k hk'

theorem increment_nonneg (l : List Nat) (aff aff' : List Int)
    (hnn : ∀ (k : Nat) (a : Int), aff[k]? = some a → 0 ≤ a)
    (h : PhotometryFit.increment aff l = some aff') :
    ∀ (k : Nat) (a : Int), aff'[k]? = some a → 0 ≤ a := by
  intro k a hk
  have hlen := increment_length l aff aff' h
  have hlt : k < aff.length := by
    by_contra hc
    rw [List.getElem?_eq_none (by omega)] at hk
    cases hk
  obtain ⟨a', h1, h2⟩ := increment_mono l aff aff' h k aff[k] (List.getElem?_eq_getElem hlt)
  rw [hk] at h1
  have := hnn k aff[k] (List.getElem?_eq_getElem hlt)
  have e : a = a' := Option.some.inj h1
  omega

/-! ## The selection loop keeps the selected measurements apart -/

theorem outlierLoop_disjoint {M : Type} (pm : PhotometryModel M) (fit : PhotometryFit M)
    (cut : ℚ) (l : List Chi2Entry) :
    ∀ (aff : List Int) (outs res : List MeasRef),
      (∀ (k : Nat) (a : Int), aff[k]? = some a → 0 ≤ a) →
      (∀ r ∈ outs, ∀ ir, PhotometryFit.indicesOf pm fit r = some ir →
        ∀ k ∈ ir, ∃ a, aff[k]? = some a ∧ 0 < a) →
      outs.Pairwise (PhotometryFit.NoSharedIndex pm fit) →
      PhotometryFit.outlierLoop pm fit cut l aff outs = some res →
      res.Pairwise (PhotometryFit.NoSharedIndex pm fit) := by
  induction l with
  | nil =>
    intro aff outs res _ _ hpw h
    simp only [PhotometryFit.outlierLoop, Option.some.injEq] at h
    subst h
    exact hpw
  | cons e rest ih =>
    intro aff outs res hnn hpos hpw h
    unfold PhotometryFit.outlierLoop at h
    by_cases hcut : e.chi2 < cut
    · simp only [hcut, if_true, Option.some.injEq] at h
      subst h
      exact hpw
    · simp only [hcut, if_false] at h
      cases hms : fit.associations.measuredStar? e.measuredStar with
      | none => simp [hms] at h
      | some ms =>
        simp only [hms] at h
        cases hind : PhotometryFit.getMeasuredStarIndices pm fit ms with
        | none => simp [hind] at h
        | some indices =>
          simp only [hind] at h
          have hof : PhotometryFit.indicesOf pm fit e.measuredStar = some indices := by
            simp only [PhotometryFit.indicesOf, hms, hind]
          cases hdrop : PhotometryFit.dropIt aff indices with
          | none => simp [hdrop] at h
          | some drop_it =>
            simp only [hdrop] at h
            cases drop_it with
            | false =>
              simp only [Bool.false_eq_true, if_false] at h
              exact ih aff outs res hnn hpos hpw h
            | true =>
              simp only [if_true] at h
              cases hinc : PhotometryFit.increment aff indices with
              | none => simp [hinc] at h
              | some aff' =>
                simp only [hinc] at h
                have hzero := dropIt_true aff indices hdrop
                apply ih aff' (outs ++ [e.measuredStar]) res
                  (increment_nonneg indices aff aff' hnn hinc) _ _ h
                · intro r hr ir hir k hk
                  rcases List.mem_append.mp hr with hr' | hr'
                  · obtain ⟨a, ha, ha0⟩ := hpos r hr' ir hir k hk
                    obtain ⟨a', h1, h2⟩ := increment_mono indices aff aff' hinc k a ha
                    exact ⟨a', h1, by omega⟩
                  · simp only [List.mem_singleton] at hr'
                    subst hr'
                    rw [hof] at hir
                    cases hir
                    exact increment_pos indices aff aff' hnn hinc k hk
                · rw [List.pairwise_append]
                  refine ⟨hpw, List.pairwise_singleton _ _, ?_⟩
                  intro a ha b hb
                  simp only [List.mem_singleton] at hb
                  subst hb
                  intro ia ib hia hib k hka hkb
                  rw [hof] at hib
                  cases hib
                  obtain ⟨x, hx, hx0⟩ := hpos a ha ia hia k hka
                  have := hzero k hkb
                  rw [hx] at this
                  cases this
                  exact absurd hx0 (lt_irrefl _)

/-! ## The calls return -/

theorem outlierLoop_some {M : Type} (pm : PhotometryModel M) (fit : PhotometryFit M)
    (cut : ℚ) (n : Nat) (l : List Chi2Entry)
    (hl : ∀ e ∈ l, ∃ ms indices, fit.associations.measuredStar? e.measuredStar = some ms ∧
      PhotometryFit.getMeasuredStarIndices pm fit ms = some indices ∧
      ∀ k ∈ indices, k < n) :
    ∀ (aff : List Int) (outs : List MeasRef), aff.length = n →
      ∃ res, PhotometryFit.outlierLoop pm fit cut l aff outs = some res := by
  induction l with
  | nil => intro aff outs _; exact ⟨outs, rfl⟩
  | cons e rest ih =>
    intro aff outs hlen
    have ih' := ih fun x hx => hl x (List.mem_cons_of_mem _ hx)
    obtain ⟨ms, indices, hms, hind, hlt⟩ := hl e (List.mem_cons_self _ _)
    unfold PhotometryFit.outlierLoop
    by_cases hcut : e.chi2 < cut
    · exact ⟨outs, by simp only [hcut, if_true]⟩
    · simp only [hcut, if_false, hms, hind]
      obtain ⟨d, hd⟩ := dropIt_some aff indices (fun k hk => hlen ▸ hlt k hk)
      simp only [hd]
      cases d with
      | false =>
        simp only [Bool.false_eq_true, if_false]
        exact ih' aff outs hlen
      | true =>
        simp only [if_true]
        obtain ⟨aff', haff'⟩ := increment_some indices aff (fun k hk => hlen ▸ hlt k hk)
        simp only [haff']
        exact ih' aff' _ (by rw [increment_length indices aff aff' haff', hlen])

theorem accumulateCatalog_some {M : Type} (pm : PhotometryModel M) (fit : PhotometryFit M)
    (im : CcdImage) (i : Nat) (cat : List MeasuredStar)
    (h : ∀ ms ∈ cat, ms.valid = true → ms.fittedStar < fit.associations.fittedStarList.length) :
    ∀ (j : Nat) (acc : Chi2Vect),
      ∃ r, PhotometryFit.accumulateCatalog pm fit Chi2Vect.AddEntry im i cat j acc = some r := by
  induction cat with
  | nil => intro j acc; exact ⟨acc, rfl⟩
  | cons ms rest ih =>
    intro j acc
    have ih' := ih fun x hx => h x (List.mem_cons_of_mem _ hx)
    unfold PhotometryFit.accumulateCatalog
    cases hv : ms.valid with
    | false =>
      simp only [Bool.not_false, if_true]
      exact ih' _ _
    | true =>
      simp only [Bool.not_true, Bool.false_eq_true, if_false]
      have hlt := h ms (List.mem_cons_self _ _) hv
      simp only [Associations.fittedStar?, List.getElem?_eq_getElem hlt]
      exact ih' _ _

theorem accumulateImages_some {M : Type} (pm : PhotometryModel M) (fit : PhotometryFit M)
    (ims : List CcdImage)
    (h : ∀ im ∈ ims, ∀ ms ∈ im.catalogForFit, ms.valid = true →
      ms.fittedStar < fit.associations.fittedStarList.length) :
    ∀ (i : Nat) (acc : Chi2Vect),
      ∃ r, PhotometryFit.accumulateImages pm fit Chi2Vect.AddEntry ims i acc = some r := by
  induction ims with
  | nil => intro i acc; exact ⟨acc, rfl⟩
  | cons im rest ih =>
    intro i acc
    obtain ⟨acc', hacc'⟩ := accumulateCatalog_some pm fit im i im.catalogForFit
      (h im (List.mem_cons_self _ _)) 0 acc
    unfold PhotometryFit.accumulateImages
    simp only [hacc']
    exact ih (fun x hx => h x (List.mem_cons_of_mem _ hx)) _ _

theorem getMeasuredStarIndices_some {M : Type} (pm : PhotometryModel M) (fit : PhotometryFit M)
    (ms : MeasuredStar) (h1 : ms.fittedStar < fit.associations.fittedStarList.length)
    (h2 : ms.ccdImage < fit.associations.ccdImageList.length) :
    ∃ l, PhotometryFit.getMeasuredStarIndices pm fit ms = some l := by
  unfold PhotometryFit.getMeasuredStarIndices
  simp only [Associations.fittedStar?, List.getElem?_eq_getElem h1,
    List.getElem?_eq_getElem h2]
  cases fit.fittingModel <;> cases fit.fittingFluxes <;> simp

/-- On well-linked associations whose measurement indices are in range
`findOutliers` returns a list. -/
theorem findOutliers_returns {M : Type} (pm : PhotometryModel M) (sqrt : ℚ → ℚ)
    (sort : Chi2Vect → Chi2Vect) (fit : PhotometryFit M) (nSigCut : ℚ)
    (outliers : List MeasRef)
    (hsort : ∀ l, (sort l).Perm l) (hlink : fit.associations.WellLinked)
    (hrange : PhotometryFit.IndicesInRange pm fit) :
    ∃ outs, PhotometryFit.findOutliers pm sqrt sort fit nSigCut outliers = some outs := by
  obtain ⟨chi2s, hacc⟩ := accumulateImages_some pm fit fit.associations.ccdImageList
    (fun im him ms hms hv => (hlink im him ms hms hv).1) 0 []
  have hacc' : PhotometryFit.accumulateStat pm fit Chi2Vect.AddEntry ([] : Chi2Vect)
      = some chi2s := hacc
  obtain ⟨_, hgood⟩ := accumulateStat_spec pm fit chi2s hacc'
  unfold PhotometryFit.findOutliers
  simp only [hacc']
  by_cases hn : chi2s.length = 0
  · exact ⟨outliers, by simp only [hn, if_true]⟩
  · simp only [hn, if_false]
    apply outlierLoop_some pm fit _ fit.nParTot
    · intro e he
      have he' : e ∈ chi2s := (hsort chi2s).mem_iff.mp (List.mem_reverse.mp he)
      obtain ⟨im, ms, fs, h1, h2, h3, h4, h5⟩ := hgood e he'
      have him : im ∈ fit.associations.ccdImageList := List.mem_iff_getElem?.mpr ⟨_, h1⟩
      have hms : ms ∈ im.catalogForFit := List.mem_iff_getElem?.mpr ⟨_, h2⟩
      obtain ⟨hl1, hl2⟩ := hlink im him ms hms h3
      obtain ⟨l, hl⟩ := getMeasuredStarIndices_some pm fit ms hl1 hl2
      refine ⟨ms, l, ?_, hl, hrange im him ms hms h3 l hl⟩
      simp only [Associations.measuredStar?, h1, h2]
    · simp

/-! ## The layout of `assignIndices` keeps the indices in range -/

theorem indicesInRange_of_layout {M : Type} (pm : PhotometryModel M) (fit : PhotometryFit M)
    (hstars : fit.fittingFluxes = true →
      ∀ fs ∈ fit.associations.fittedStarList, fs.indexInMatrix < fit.nParTot)
    (hle : fit.nParModel ≤ fit.nParTot)
    (hmodel : fit.fittingModel = true →
      pm.IndicesBelow fit.photometryModel fit.associations fit.nParModel) :
    PhotometryFit.IndicesInRange pm fit := by
  intro im him0 ms hms0 _ l hl k hk
  unfold PhotometryFit.getMeasuredStarIndices at hl
  cases hfm : fit.fittingModel with
  | false =>
    simp only [hfm, Bool.false_eq_true, if_false] at hl
    cases hff : fit.fittingFluxes with
    | false =>
      simp only [hff, Bool.false_eq_true, if_false, Option.some.injEq] at hl
      subst hl
      cases hk
    | true =>
      simp only [hff, if_true] at hl
      cases hfs : fit.associations.fittedStar? ms.fittedStar with
      | none => simp [hfs] at hl
      | some fs =>
        simp only [hfs, List.nil_append, Option.some.injEq] at hl
        subst hl
        simp only [List.mem_singleton] at hk
        subst hk
        exact hstars hff fs (List.mem_iff_getElem?.mpr ⟨_, hfs⟩)
  | true =>
    simp only [hfm, if_true] at hl
    cases him : fit.associations.ccdImageList[ms.ccdImage]? with
    | none => simp [him] at hl
    | some im' =>
      simp only [him] at hl
      cases hff : fit.fittingFluxes with
      | false =>
        simp only [hff, Bool.false_eq_true, if_false, Option.some.injEq] at hl
        subst hl
        exact lt_of_lt_of_le (hmodel hfm im him0 ms hms0 im'
          (List.mem_iff_getElem?.mpr ⟨_, him⟩) _ _ k hk) hle
      | true =>
        simp only [hff, if_true] at hl
        cases hfs : fit.associations.fittedStar? ms.fittedStar with
        | none => simp [hfs] at hl
        | some fs =>
          simp only [hfs, Option.some.injEq] at hl
          subst hl
          rcases List.mem_append.mp hk with hk1 | hk2
          · exact lt_of_lt_of_le (hmodel hfm im him0 ms hms0 im'
              (List.mem_iff_getElem?.mpr ⟨_, him⟩) _ _ k hk1) hle
          · simp only [List.mem_singleton] at hk2
            subst hk2
            exact hstars hff fs (List.mem_iff_getElem?.mpr ⟨_, hfs⟩)

theorem assignIndices_nParModel_le {M : Type} (pm : PhotometryModel M) (fit : PhotometryFit M)
    (whatToFit : String) :
    (PhotometryFit.assignIndices pm fit whatToFit).nParModel
      ≤ (PhotometryFit.assignIndices pm fit whatToFit).nParTot := by
  simp only [PhotometryFit.assignIndices]
  split_ifs <;> simp [setIndices_next]

theorem assignIndices_wellLinked {M : Type} (pm : PhotometryModel M) (fit : PhotometryFit M)
    (whatToFit : String) (h : fit.associations.WellLinked) :
    (PhotometryFit.assignIndices pm fit whatToFit).associations.WellLinked := by
  have hlen : (PhotometryFit.assignIndices pm fit whatToFit).associations.fittedStarList.length
      = fit.associations.fittedStarList.length := by
    simp only [PhotometryFit.assignIndices]
    split_ifs <;> simp [setIndices_length]
  intro im him ms hms hv
  have := h im him ms hms hv
  rw [hlen]
  exact this

theorem assignIndices_indicesInRange {M : Type} (pm : PhotometryModel M)
    (fit : PhotometryFit M) (whatToFit : String)
    (hmodel : (PhotometryFit.assignIndices pm fit whatToFit).fittingModel = true →
      pm.IndicesBelow (PhotometryFit.assignIndices pm fit whatToFit).photometryModel
        (PhotometryFit.assignIndices pm fit whatToFit).associations
        (PhotometryFit.assignIndices pm fit whatToFit).nParModel) :
    PhotometryFit.IndicesInRange pm (PhotometryFit.assignIndices pm fit whatToFit) := by
  apply indicesInRange_of_layout pm _ _ (assignIndices_nParModel_le pm fit whatToFit) hmodel
  intro hff
  have hF : find whatToFit "Fluxes" ≠ none := by
    simp only [PhotometryFit.assignIndices] at hff
    exact Option.isSome_iff_ne_none.mp hff
  exact (fluxes_layout_after_assignIndices pm fit whatToFit hF).2.2

/-! ## Lemmas on the slices of the parameter offsets -/

theorem segment_eq_slice (delta : List ℚ) (mp : SimpleGtransfoMapping)
    (h : mp.getIndex + mp.getNpar ≤ delta.length) :
    segment delta mp.getIndex mp.getNpar = some (mp.slice delta) := by
  unfold segment SimpleGtransfoMapping.slice
  rw [if_pos h]

theorem offsetBlock_eq_offsetAll (delta : List ℚ) (l : MappingMap)
    (h : ∀ e ∈ l, e.2.getIndex + e.2.getNpar ≤ delta.length) :
    offsetBlock delta l = some (l.offsetAll delta) := by
  induction l with
  | nil => rfl
  | cons e rest ih =>
    obtain ⟨k, mp⟩ := e
    have hrest := ih fun x hx => h x (List.mem_cons_of_mem _ hx)
    have hseg := segment_eq_slice delta mp (h (k, mp) (List.mem_cons_self _ _))
    simp only [offsetBlock, hseg, hrest, MappingMap.offsetAll, List.map_cons]

/-- The slices of blocks laid out one after the other, put end to end, are the
stretch of `delta` that the blocks span. -/
theorem slices_cover (delta : List ℚ) (l : MappingMap) :
    ∀ s, l.map (fun e => e.2.getIndex) = blockStarts s (l.map fun e => e.2.getNpar) →
      l.flatMap (fun e => e.2.slice delta) = (delta.drop s).take l.totalNpar := by
  induction l with
  | nil => intro s _; simp [MappingMap.totalNpar]
  | cons e rest ih =>
    intro s h
    simp only [List.map_cons, blockStarts, List.cons.injEq] at h
    have hr := ih _ h.2
    rw [List.flatMap_cons, hr]
    simp only [MappingMap.totalNpar, List.map_cons, List.sum_cons, SimpleGtransfoMapping.slice,
      h.1]
    rw [List.take_add, List.drop_drop]

/-- After `ConstrainedPolyModel::assignIndices` with "Distortions" the fitted
sub-mappings have consecutive blocks from `firstIndex`, which end at the
returned index. -/
theorem poly_assignIndices_blocks (m : ConstrainedPolyModel) (whatToFit : String)
    (firstIndex : Nat) (hD : find whatToFit "Distortions" ≠ none) :
    (m.assignIndices firstIndex whatToFit).2.fitted.map (fun e => e.2.getIndex)
      = blockStarts firstIndex
          ((m.assignIndices firstIndex whatToFit).2.fitted.map fun e => e.2.getNpar) ∧
    (m.assignIndices firstIndex whatToFit).1
      = firstIndex + (m.assignIndices firstIndex whatToFit).2.fitted.totalNpar := by
  constructor
  · simp only [ConstrainedPolyModel.assignIndices, if_neg hD, ConstrainedPolyModel.fitted]
    split_ifs <;>
      simp [blockStarts_append, assignBlock_index, assignBlock_next, blockStarts,
        ← content_npar, assignBlock_content, MappingMap.totalNpar]
  · simp only [ConstrainedPolyModel.assignIndices, if_neg hD, ConstrainedPolyModel.fitted,
      MappingMap.totalNpar]
    split_ifs <;>
      simp [assignBlock_next, ← content_npar, assignBlock_content, MappingMap.totalNpar,
        Nat.add_assoc]

theorem astrometry_offsetParams_eq (m : ConstrainedAstrometryModel) (delta : List ℚ)
    (h : ∀ e ∈ m.fitted, e.2.getIndex + e.2.getNpar ≤ delta.length) :
    m.offsetParams delta = some { m with
      chipMap := if m.fittingChips = true then m.chipMap.offsetAll delta else m.chipMap,
      visitMap := if m.fittingVisits = true then m.visitMap.offsetAll delta else m.visitMap } := by
  have hc : m.fittingChips = true → offsetBlock delta m.chipMap
      = some (m.chipMap.offsetAll delta) := fun hf =>
    offsetBlock_eq_offsetAll delta _ fun e he =>
      h e (by simp [ConstrainedAstrometryModel.fitted, hf, he])
  have hv : m.fittingVisits = true → offsetBlock delta m.visitMap
      = some (m.visitMap.offsetAll delta) := fun hf =>
    offsetBlock_eq_offsetAll delta _ fun e he =>
      h e (by simp [ConstrainedAstrometryModel.fitted, hf, he])
  obtain ⟨mappings, chipMap, visitMap, fittingChips, fittingVisits⟩ := m
  cases fittingChips <;> cases fittingVisits <;>
    simp_all [ConstrainedAstrometryModel.offsetParams]

theorem poly_offsetParams_eq (m : ConstrainedPolyModel) (delta : List ℚ)
    (h : ∀ e ∈ m.fitted, e.2.getIndex + e.2.getNpar ≤ delta.length) :
    m.offsetParams delta = some { m with
      chipMap := if m.fittingChips = true then m.chipMap.offsetAll delta else m.chipMap,
      visitMap := if m.fittingVisits = true then m.visitMap.offsetAll delta else m.visitMap } := by
  have hc : m.fittingChips = true → offsetBlock delta m.chipMap
      = some (m.chipMap.offsetAll delta) := fun hf =>
    offsetBlock_eq_offsetAll delta _ fun e he =>
      h e (by simp [ConstrainedPolyModel.fitted, hf, he])
  have hv : m.fittingVisits = true → offsetBlock delta m.visitMap
      = some (m.visitMap.offsetAll delta) := fun hf =>
    offsetBlock_eq_offsetAll delta _ fun e he =>
      h e (by simp [ConstrainedPolyModel.fitted, hf, he])
  obtain ⟨mappings, chipMap, visitMap, fittingChips, fittingVisits⟩ := m
  cases fittingChips <;> cases fittingVisits <;>
    simp_all [ConstrainedPolyModel.offsetParams]

/-! ## Lemmas on `accumulateStat` with any accumulator -/

/-- The inner loop with any accumulator does what it does with the chi2
vector, the entries being fed to the accumulator afterwards. -/
theorem accumulateCatalog_fusion {M A : Type} (pm : PhotometryModel M) (fit : PhotometryFit M)
    (AddEntry : A → ℚ → Nat → MeasRef → A) (a0 : A) (im : CcdImage) (i : Nat)
    (cat : List MeasuredStar) :
    ∀ (j : Nat) (v : Chi2Vect),
      PhotometryFit.accumulateCatalog pm fit AddEntry im i cat j
          (v.foldl (fun a e => AddEntry a e.chi2 1 e.measuredStar) a0)
        = (PhotometryFit.accumulateCatalog pm fit Chi2Vect.AddEntry im i cat j v).map
            fun v' => v'.foldl (fun a e => AddEntry a e.chi2 1 e.measuredStar) a0 := by
  induction cat with
  | nil => intro j v; rfl
  | cons ms rest ih =>
    intro j v
    unfold PhotometryFit.accumulateCatalog
    cases hv : ms.valid with
    | false =>
      simp only [Bool.not_false, if_true]
      exact ih (j + 1) v
    | true =>
      simp only [Bool.not_true, Bool.false_eq_true, if_false]
      cases hfs : fit.associations.fittedStar? ms.fittedStar with
      | none => rfl
      | some fs =>
        simp only []
        rw [← ih (j + 1)]
        simp [Chi2Vect.AddEntry, List.foldl_append]

theorem accumulateImages_fusion {M A : Type} (pm : PhotometryModel M) (fit : PhotometryFit M)
    (AddEntry : A → ℚ → Nat → MeasRef → A) (a0 : A) (ims : List CcdImage) :
    ∀ (i : Nat) (v : Chi2Vect),
      PhotometryFit.accumulateImages pm fit AddEntry ims i
          (v.foldl (fun a e => AddEntry a e.chi2 1 e.measuredStar) a0)
        = (PhotometryFit.accumulateImages pm fit Chi2Vect.AddEntry ims i v).map
            fun v' => v'.foldl (fun a e => AddEntry a e.chi2 1 e.measuredStar) a0 := by
  induction ims with
  | nil => intro i v; rfl
  | cons im rest ih =>
    intro i v
    unfold PhotometryFit.accumulateImages
    rw [accumulateCatalog_fusion]
    cases hc : PhotometryFit.accumulateCatalog pm fit Chi2Vect.AddEntry im i
        im.catalogForFit 0 v with
    | none => rfl
    | some v' =>
      simp only [Option.map_some']
      exact ih (i + 1) v'

/-- `accumulateStat` with any accumulator feeds it the entries of the chi2
vector, in order. -/
theorem accumulateStat_fusion {M A : Type} (pm : PhotometryModel M) (fit : PhotometryFit M)
    (AddEntry : A → ℚ → Nat → MeasRef → A) (a0 : A) :
    PhotometryFit.accumulateStat pm fit AddEntry a0
      = (PhotometryFit.accumulateStat pm fit Chi2Vect.AddEntry ([] : Chi2Vect)).map
          fun v => v.foldl (fun a e => AddEntry a e.chi2 1 e.measuredStar) a0 :=
  accumulateImages_fusion pm fit AddEntry a0 _ 0 []

theorem accumulateCatalog_length {M : Type} (pm : PhotometryModel M) (fit : PhotometryFit M)
    (im : CcdImage) (i : Nat) (cat : List MeasuredStar) :
    ∀ (j : Nat) (acc r : Chi2Vect),
      PhotometryFit.accumulateCatalog pm fit Chi2Vect.AddEntry im i cat j acc = some r →
      r.length = acc.length + cat.countP fun ms => ms.valid := by
  induction cat with
  | nil =>
    intro j acc r h
    simp only [PhotometryFit.accumulateCatalog, Option.some.injEq] at h
    simp [h]
  | cons ms rest ih =>
    intro j acc r h
    unfold PhotometryFit.accumulateCatalog at h
    cases hv : ms.valid with
    | false =>
      simp only [hv, Bool.not_false, if_true] at h
      rw [ih _ _ _ h, List.countP_cons_of_neg _ _ (by simp [hv])]
    | true =>
      simp only [hv, Bool.not_true, Bool.false_eq_true, if_false] at h
      cases hfs : fit.associations.fittedStar? ms.fittedStar with
      | none => simp [hfs] at h
      | some fs =>
        simp only [hfs] at h
        rw [ih _ _ _ h, List.countP_cons_of_pos _ _ (by simp [hv])]
        simp only [Chi2Vect.AddEntry, List.length_append, List.length_singleton]
        omega

theorem accumulateImages_length {M : Type} (pm : PhotometryModel M) (fit : PhotometryFit M)
    (ims : List CcdImage) :
    ∀ (i : Nat) (acc r : Chi2Vect),
      PhotometryFit.accumulateImages pm fit Chi2Vect.AddEntry ims i acc = some r →
      r.length = acc.length
        + (ims.map fun im => im.catalogForFit.countP fun ms => ms.valid).sum := by
  induction ims with
  | nil =>
    intro i acc r h
    simp only [PhotometryFit.accumulateImages, Option.some.injEq] at h
    simp [h]
  | cons im rest ih =>
    intro i acc r h
    unfold PhotometryFit.accumulateImages at h
    cases hc : PhotometryFit.accumulateCatalog pm fit Chi2Vect.AddEntry im i
        im.catalogForFit 0 acc with
    | none => simp [hc] at h
    | some acc' =>
      simp only [hc] at h
      rw [ih _ _ _ h, accumulateCatalog_length pm fit im i _ 0 acc acc' hc]
      simp only [List.map_cons, List.sum_cons]
      omega

theorem chi2_foldl (v : Chi2Vect) :
    ∀ c : Chi2, v.foldl (fun a e => Chi2.AddEntry a e.chi2 1 e.measuredStar) c
      = { chi2 := c.chi2 + (v.map fun e => e.chi2).sum, ndof := c.ndof + v.length } := by
  induction v with
  | nil => intro c; simp
  | cons e rest ih =>
    intro c
    rw [List.foldl_cons, ih]
    simp only [Chi2.AddEntry, List.map_cons, List.sum_cons, List.length_cons, Nat.cast_add,
      Nat.cast_one, Chi2.mk.injEq]
    constructor
    · ring
    · ring

/-! ## Lemmas on lists with one entry replaced -/

theorem countP_set {α : Type} (P : α → Bool) (l : List α) :
    ∀ (i : Nat) (x y : α), l[i]? = some y →
      (l.set i x).countP P + (if P y then 1 else 0)
        = l.countP P + (if P x then 1 else 0) := by
  induction l with
  | nil => intro i x y h; simp at h
  | cons a l ih =>
    intro i x y h
    cases i with
    | zero =>
      simp only [List.getElem?_cons_zero, Option.some.injEq] at h
      subst h
      simp only [List.set_cons_zero, List.countP_cons]
      omega
    | succ i =>
      simp only [List.getElem?_cons_succ] at h
      have := ih i x y h
      simp only [List.set_cons_succ, List.countP_cons]
      omega

theorem sum_map_set {α : Type} (f : α → Nat) (l : List α) :
    ∀ (i : Nat) (x y : α), l[i]? = some y →
      ((l.set i x).map f).sum + f y = (l.map f).sum + f x := by
  induction l with
  | nil => intro i x y h; simp at h
  | cons a l ih =>
    intro i x y h
    cases i with
    | zero =>
      simp only [List.getElem?_cons_zero, Option.some.injEq] at h
      subst h
      simp only [List.set_cons_zero, List.map_cons, List.sum_cons]
      omega
    | succ i =>
      simp only [List.getElem?_cons_succ] at h
      have := ih i x y h
      simp only [List.set_cons_succ, List.map_cons, List.sum_cons]
      omega

theorem map_set_of_eq {α β : Type} (f : α → β) (l : List α) (i : Nat) (x y : α)
    (h : l[i]? = some y) (hf : f x = f y) : (l.set i x).map f = l.map f := by
  rw [List.map_set]
  apply List.ext_getElem?
  intro n
  rw [List.getElem?_set]
  by_cases hin : i = n
  · subst hin
    have hlt : i < l.length := by
      by_contra hc
      rw [List.getElem?_eq_none (by omega)] at h
      cases h
    have hy : l[i] = y := by
      rw [List.getElem?_eq_getElem hlt] at h
      exact Option.some.inj h
    simp [hlt, hf, hy]
  · simp [hin]

/-! ## Lemmas on the rejection of one measurement -/

theorem measuredStar?_eq_some (a : Associations) (r : MeasRef) (ms : MeasuredStar) :
    a.measuredStar? r = some ms ↔
      ∃ im, a.ccdImageList[r.image]? = some im ∧ im.catalogForFit[r.star]? = some ms := by
  unfold Associations.measuredStar?
  cases h : a.ccdImageList[r.image]? with
  | none => simp
  | some im => simp

theorem setValid_eq (a : Associations) (r : MeasRef) (v : Bool) (im : CcdImage)
    (ms : MeasuredStar) (him : a.ccdImageList[r.image]? = some im)
    (hms : im.catalogForFit[r.star]? = some ms) :
    a.setValid r v =
      { a with
        ccdImageList :=
          a.ccdImageList.set r.image
            { im with catalogForFit := im.catalogForFit.set r.star { ms with valid := v } } } := by
  simp only [Associations.setValid, him, hms]

theorem setValid_eq_self (a : Associations) (r : MeasRef) (v : Bool)
    (h : a.measuredStar? r = none) : a.setValid r v = a := by
  unfold Associations.measuredStar? at h
  cases him : a.ccdImageList[r.image]? with
  | none => simp only [Associations.setValid, him]
  | some im =>
    rw [him] at h
    simp only [Option.bind_some] at h
    simp only [Associations.setValid, him, h]

theorem lt_of_getElem?_some {α : Type} {l : List α} {i : Nat} {x : α} (h : l[i]? = some x) :
    i < l.length := by
  by_contra hc
  rw [List.getElem?_eq_none (by omega)] at h
  cases h

theorem setValid_measuredStar?_self (a : Associations) (r : MeasRef) (v : Bool)
    (ms : MeasuredStar) (h : a.measuredStar? r = some ms) :
    (a.setValid r v).measuredStar? r = some { ms with valid := v } := by
  obtain ⟨im, him, hms⟩ := (measuredStar?_eq_some a r ms).mp h
  rw [setValid_eq a r v im ms him hms]
  rw [measuredStar?_eq_some]
  refine ⟨({ im with catalogForFit :=
    im.catalogForFit.set r.star ({ ms with valid := v } : MeasuredStar) } : CcdImage), ?_, ?_⟩
  · simp [List.getElem?_set, lt_of_getElem?_some him]
  · simp [List.getElem?_set, lt_of_getElem?_some hms]

theorem setValid_measuredStar?_other (a : Associations) (r r' : MeasRef) (v : Bool)
    (hne : r' ≠ r) : (a.setValid r v).measuredStar? r' = a.measuredStar? r' := by
  cases h : a.measuredStar? r with
  | none => rw [setValid_eq_self a r v h]
  | some ms =>
    obtain ⟨im, him, hms⟩ := (measuredStar?_eq_some a r ms).mp h
    rw [setValid_eq a r v im ms him hms]
    simp only [Associations.measuredStar?]
    by_cases hi : r.image = r'.image
    · have hs : r.star ≠ r'.star := by
        intro hs
        apply hne
        cases r; cases r'
        simp only [MeasRef.mk.injEq] at *
        exact ⟨hi.symm, hs.symm⟩
      rw [List.getElem?_set, if_pos hi, if_pos (lt_of_getElem?_some him)]
      rw [← hi, him]
      simp only [Option.bind_some, List.getElem?_set, if_neg hs]
    · rw [List.getElem?_set, if_neg hi]

theorem setValid_fittedStarList (a : Associations) (r : MeasRef) (v : Bool) :
    (a.setValid r v).fittedStarList = a.fittedStarList := by
  cases h : a.measuredStar? r with
  | none => rw [setValid_eq_self a r v h]
  | some ms =>
    obtain ⟨im, him, hms⟩ := (measuredStar?_eq_some a r ms).mp h
    rw [setValid_eq a r v im ms him hms]

theorem decrementCount_ccdImageList (a : Associations) (p : Nat) :
    (a.decrementCount p).ccdImageList = a.ccdImageList := by
  unfold Associations.decrementCount
  cases a.fittedStarList[p]? with
  | none => rfl
  | some fs => rfl

theorem decrementCount_measuredStar? (a : Associations) (p : Nat) (r : MeasRef) :
    (a.decrementCount p).measuredStar? r = a.measuredStar? r := by
  simp only [Associations.measuredStar?, decrementCount_ccdImageList]

theorem decrementCount_getElem? (a : Associations) (q p : Nat) (fs : FittedStar)
    (h : a.fittedStarList[p]? = some fs) :
    (a.decrementCount q).fittedStarList[p]?
      = some { fs with measurementCount :=
          fs.measurementCount - (if q = p then 1 else 0) } := by
  unfold Associations.decrementCount
  by_cases hq : q = p
  · subst hq
    simp [h, List.getElem?_set, lt_of_getElem?_some h]
  · cases hfs : a.fittedStarList[q]? with
    | none => simp [h, hq]
    | some fs' => simp [List.getElem?_set, hq, h]

theorem decrementCount_getElem?_none (a : Associations) (q p : Nat)
    (h : a.fittedStarList[p]? = none) : (a.decrementCount q).fittedStarList[p]? = none := by
  unfold Associations.decrementCount
  cases hfs : a.fittedStarList[q]? with
  | none => exact h
  | some fs' =>
    simp only [List.getElem?_eq_none_iff, List.length_set]
    exact List.getElem?_eq_none_iff.mp h

theorem setValid_validPointing (a : Associations) (r : MeasRef) (ms : MeasuredStar) (p : Nat)
    (h : a.measuredStar? r = some ms) :
    (a.setValid r false).validPointing p
        + (if (ms.valid && ms.fittedStar == p) = true then 1 else 0)
      = a.validPointing p := by
  obtain ⟨im, him, hms⟩ := (measuredStar?_eq_some a r ms).mp h
  rw [setValid_eq a r false im ms him hms]
  unfold Associations.validPointing
  have h1 := sum_map_set
    (fun im : CcdImage => im.catalogForFit.countP fun ms => ms.valid && ms.fittedStar == p)
    a.ccdImageList r.image
    ({ im with catalogForFit :=
      im.catalogForFit.set r.star ({ ms with valid := false } : MeasuredStar) } : CcdImage) im him
  have h2 := countP_set (fun ms : MeasuredStar => ms.valid && ms.fittedStar == p)
    im.catalogForFit r.star ({ ms with valid := false } : MeasuredStar) ms hms
  simp only [Bool.false_and, Bool.false_eq_true, if_false, Nat.add_zero] at h2
  dsimp only at h1 h2 ⊢
  omega

theorem frame_setValid (a : Associations) (r : MeasRef) (v : Bool) :
    (a.setValid r v).frame = a.frame := by
  cases h : a.measuredStar? r with
  | none => rw [setValid_eq_self a r v h]
  | some ms =>
    obtain ⟨im, him, hms⟩ := (measuredStar?_eq_some a r ms).mp h
    rw [setValid_eq a r v im ms him hms]
    · simp only [Associations.frame, Associations.mk.injEq, and_true]
      apply map_set_of_eq _ _ _ _ im him
      simp only [CcdImage.mk.injEq, true_and, and_true]
      exact map_set_of_eq _ _ _ _ ms hms rfl

theorem frame_decrementCount (a : Associations) (p : Nat) :
    (a.decrementCount p).frame = a.frame := by
  unfold Associations.decrementCount
  cases hfs : a.fittedStarList[p]? with
  | none => rfl
  | some fs =>
    simp only [Associations.frame, Associations.mk.injEq, true_and]
    exact map_set_of_eq _ _ _ _ fs hfs rfl

/-! ## Lemmas on the rejection of a list of measurements -/

theorem reject_measuredStar?_self (a : Associations) (r : MeasRef) (q : Nat)
    (ms : MeasuredStar) (h : a.measuredStar? r = some ms) :
    ((a.setValid r false).decrementCount q).measuredStar? r
      = some { ms with valid := false } := by
  rw [decrementCount_measuredStar?, setValid_measuredStar?_self a r false ms h]

theorem reject_measuredStar?_other (a : Associations) (r r' : MeasRef) (q : Nat)
    (hne : r' ≠ r) :
    ((a.setValid r false).decrementCount q).measuredStar? r' = a.measuredStar? r' := by
  rw [decrementCount_measuredStar?, setValid_measuredStar?_other a r r' false hne]

theorem reject_pointsAt (a : Associations) (r r' : MeasRef) (q p : Nat) :
    ((a.setValid r false).decrementCount q).pointsAt r' p = a.pointsAt r' p := by
  unfold Associations.pointsAt
  by_cases hne : r' = r
  · subst hne
    cases h : a.measuredStar? r' with
    | none => rw [decrementCount_measuredStar?, setValid_eq_self a r' false h, h]
    | some ms => rw [reject_measuredStar?_self a r' q ms h]
  · rw [reject_measuredStar?_other a r r' q hne]

theorem reject_frame (a : Associations) (r : MeasRef) (q : Nat) :
    ((a.setValid r false).decrementCount q).frame = a.frame := by
  rw [frame_decrementCount, frame_setValid]

theorem reject_getElem? (a : Associations) (r : MeasRef) (q p : Nat) (fs : FittedStar)
    (h : a.fittedStarList[p]? = some fs) :
    ((a.setValid r false).decrementCount q).fittedStarList[p]?
      = some { fs with measurementCount :=
          fs.measurementCount - (if q = p then 1 else 0) } := by
  apply decrementCount_getElem?
  rw [setValid_fittedStarList]
  exact h

theorem reject_validPointing (a : Associations) (r : MeasRef) (q p : Nat) (ms : MeasuredStar)
    (h : a.measuredStar? r = some ms) (hv : ms.valid = true) :
    ((a.setValid r false).decrementCount q).validPointing p
        + (if ms.fittedStar = p then 1 else 0)
      = a.validPointing p := by
  have h1 := setValid_validPointing a r ms p h
  have h2 : ((a.setValid r false).decrementCount q).validPointing p
      = (a.setValid r false).validPointing p := by
    simp only [Associations.validPointing, decrementCount_ccdImageList]
  rw [h2, ← h1]
  simp [hv]

theorem rejectAll_cons (a a' : Associations) (i : MeasRef) (rest : List MeasRef)
    (h : Associations.rejectAll a (i :: rest) = some a') :
    ∃ out fs, a.measuredStar? i = some out ∧ a.fittedStarList[out.fittedStar]? = some fs ∧
      Associations.rejectAll ((a.setValid i false).decrementCount out.fittedStar) rest
        = some a' := by
  unfold Associations.rejectAll at h
  cases hms : a.measuredStar? i with
  | none => simp [hms] at h
  | some out =>
    cases hfs : a.fittedStar? out.fittedStar with
    | none => simp [hms, hfs] at h
    | some fs =>
      simp only [hms, hfs] at h
      exact ⟨out, fs, rfl, hfs, h⟩

theorem rejectAll_frame : ∀ (outs : List MeasRef) (a a' : Associations),
    Associations.rejectAll a outs = some a' → a'.frame = a.frame := by
  intro outs
  induction outs with
  | nil =>
    intro a a' h
    simp only [Associations.rejectAll, Option.some.injEq] at h
    rw [h]
  | cons i rest ih =>
    intro a a' h
    obtain ⟨out, fs, _, _, h3⟩ := rejectAll_cons a a' i rest h
    rw [ih _ _ h3, reject_frame]

theorem rejectAll_measuredStar?_other : ∀ (outs : List MeasRef) (a a' : Associations),
    Associations.rejectAll a outs = some a' →
      ∀ r, r ∉ outs → a'.measuredStar? r = a.measuredStar? r := by
  intro outs
  induction outs with
  | nil =>
    intro a a' h r _
    simp only [Associations.rejectAll, Option.some.injEq] at h
    rw [h]
  | cons i rest ih =>
    intro a a' h r hr
    obtain ⟨out, fs, _, _, h3⟩ := rejectAll_cons a a' i rest h
    simp only [List.mem_cons, not_or] at hr
    rw [ih _ _ h3 r hr.2, reject_measuredStar?_other a i r _ hr.1]

theorem rejectAll_stays_invalid : ∀ (outs : List MeasRef) (a a' : Associations),
    Associations.rejectAll a outs = some a' →
      ∀ r ms, a.measuredStar? r = some ms → ms.valid = false →
        ∃ ms', a'.measuredStar? r = some ms' ∧ ms'.valid = false := by
  intro outs
  induction outs with
  | nil =>
    intro a a' h r ms hms hv
    simp only [Associations.rejectAll, Option.some.injEq] at h
    subst h
    exact ⟨ms, hms, hv⟩
  | cons i rest ih =>
    intro a a' h r ms hms hv
    obtain ⟨out, fs, h1, _, h3⟩ := rejectAll_cons a a' i rest h
    by_cases hne : r = i
    · subst hne
      exact ih _ _ h3 r _ (reject_measuredStar?_self a r _ out h1) rfl
    · apply ih _ _ h3 r ms _ hv
      rw [reject_measuredStar?_other a i r _ hne]
      exact hms

theorem rejectAll_invalid : ∀ (outs : List MeasRef) (a a' : Associations),
    Associations.rejectAll a outs = some a' →
      ∀ r ∈ outs, ∃ ms', a'.measuredStar? r = some ms' ∧ ms'.valid = false := by
  intro outs
  induction outs with
  | nil => intro a a' _ r hr; cases hr
  | cons i rest ih =>
    intro a a' h r hr
    obtain ⟨out, fs, h1, _, h3⟩ := rejectAll_cons a a' i rest h
    by_cases hne : r = i
    · subst hne
      exact rejectAll_stays_invalid rest _ a' h3 r _
        (reject_measuredStar?_self a r _ out h1) rfl
    · rcases List.mem_cons.mp hr with hr | hr
      · exact absurd hr hne
      · exact ih _ _ h3 r hr

theorem rejectAll_counts : ∀ (outs : List MeasRef) (a a' : Associations),
    Associations.rejectAll a outs = some a' →
      ∀ (p : Nat) (fs : FittedStar), a.fittedStarList[p]? = some fs →
        ∃ fs', a'.fittedStarList[p]? = some fs' ∧
          fs'.measurementCount
            = fs.measurementCount - ((outs.countP fun r => a.pointsAt r p : Nat) : Int) := by
  intro outs
  induction outs with
  | nil =>
    intro a a' h p fs hfs
    simp only [Associations.rejectAll, Option.some.injEq] at h
    subst h
    exact ⟨fs, hfs, by simp⟩
  | cons i rest ih =>
    intro a a' h p fs hfs
    obtain ⟨out, fs0, h1, _, h3⟩ := rejectAll_cons a a' i rest h
    obtain ⟨fs', hfs', hc⟩ := ih _ _ h3 p _ (reject_getElem? a i out.fittedStar p fs hfs)
    refine ⟨fs', hfs', ?_⟩
    rw [hc]
    have hp : (fun r => ((a.setValid i false).decrementCount out.fittedStar).pointsAt r p)
        = fun r => a.pointsAt r p := by
      funext r
      exact reject_pointsAt a i r out.fittedStar p
    rw [hp, List.countP_cons]
    have hi : a.pointsAt i p = (out.fittedStar == p) := by
      simp only [Associations.pointsAt, h1]
    rw [hi]
    by_cases hq : out.fittedStar = p
    · simp only [hq, if_true, beq_self_eq_true]
      push_cast
      ring
    · have : (out.fittedStar == p) = false := by simpa using hq
      simp only [hq, if_false, this, Bool.false_eq_true]
      push_cast
      ring

theorem rejectAll_validPointing : ∀ (outs : List MeasRef) (a a' : Associations),
    Associations.rejectAll a outs = some a' → outs.Nodup →
      (∀ r ∈ outs, ∃ ms, a.measuredStar? r = some ms ∧ ms.valid = true) →
        ∀ p : Nat, a'.validPointing p + (outs.countP fun r => a.pointsAt r p)
          = a.validPointing p := by
  intro outs
  induction outs with
  | nil =>
    intro a a' h _ _ p
    simp only [Associations.rejectAll, Option.some.injEq] at h
    subst h
    simp
  | cons i rest ih =>
    intro a a' h hnd hv p
    obtain ⟨out, fs0, h1, _, h3⟩ := rejectAll_cons a a' i rest h
    have hnd' := List.nodup_cons.mp hnd
    have hv' : ∀ r ∈ rest, ∃ ms,
        ((a.setValid i false).decrementCount out.fittedStar).measuredStar? r = some ms ∧
          ms.valid = true := by
      intro r hr
      have hne : r ≠ i := fun e => hnd'.1 (e ▸ hr)
      rw [reject_measuredStar?_other a i r _ hne]
      exact hv r (List.mem_cons_of_mem _ hr)
    have h4 := ih _ _ h3 hnd'.2 hv' p
    have hp : (fun r => ((a.setValid i false).decrementCount out.fittedStar).pointsAt r p)
        = fun r => a.pointsAt r p := by
      funext r
      exact reject_pointsAt a i r out.fittedStar p
    rw [hp] at h4
    obtain ⟨ms, hms, hvalid⟩ := hv i (List.mem_cons_self _ _)
    rw [h1] at hms
    cases hms
    have h5 := reject_validPointing a i out.fittedStar p out h1 hvalid
    rw [List.countP_cons]
    have hi : a.pointsAt i p = (out.fittedStar == p) := by
      simp only [Associations.pointsAt, h1]
    rw [hi]
    by_cases hq : out.fittedStar = p
    · rw [if_pos hq] at h5
      have hb : (out.fittedStar == p) = true := by simpa using hq
      rw [hb, if_pos rfl]
      omega
    · rw [if_neg hq] at h5
      have hb : (out.fittedStar == p) = false := by simpa using hq
      rw [hb, if_neg Bool.false_ne_true]
      omega

theorem frame_fittedStarList_length (a a' : Associations) (h : a'.frame = a.frame) :
    a'.fittedStarList.length = a.fittedStarList.length := by
  have := congrArg (fun x => x.fittedStarList.length) h
  simpa [Associations.frame] using this

theorem rejectAll_countsConsistent (outs : List MeasRef) (a a' : Associations)
    (h : Associations.rejectAll a outs = some a') (hnd : outs.Nodup)
    (hv : ∀ r ∈ outs, ∃ ms, a.measuredStar? r = some ms ∧ ms.valid = true)
    (hc : a.CountsConsistent) : a'.CountsConsistent := by
  intro p fs' hfs'
  have hlen := frame_fittedStarList_length a a' (rejectAll_frame outs a a' h)
  have hp : p < a.fittedStarList.length := hlen ▸ lt_of_getElem?_some hfs'
  have hfs : a.fittedStarList[p]? = some a.fittedStarList[p] := List.getElem?_eq_getElem hp
  obtain ⟨fs'', hfs'', hcount⟩ := rejectAll_counts outs a a' h p _ hfs
  rw [hfs'] at hfs''
  cases hfs''
  rw [hcount, hc p _ hfs]
  have := rejectAll_validPointing outs a a' h hnd hv p
  omega

namespace PhotometryFit

variable {M : Type}

theorem outliersContributions_rejectAll (pm : PhotometryModel M) :
    ∀ (outliers : List MeasRef) (fit fit' : PhotometryFit M) (tList tList' : TripletList)
      (grad grad' : List ℚ),
      outliersContributions pm fit outliers tList grad = some (fit', tList', grad') →
        Associations.rejectAll fit.associations outliers = some fit'.associations ∧
          fit' = { fit with associations := fit'.associations } := by
  intro outliers
  induction outliers with
  | nil =>
    intro fit fit' tList tList' grad grad' h
    simp only [outliersContributions, Option.some.injEq, Prod.mk.injEq] at h
    obtain ⟨h, _, _⟩ := h
    subst h
    exact ⟨rfl, rfl⟩
  | cons i rest ih =>
    intro fit fit' tList tList' grad grad' h
    unfold outliersContributions at h
    cases hms : fit.associations.measuredStar? i with
    | none => simp [hms] at h
    | some out =>
      simp only [hms] at h
      cases hls : LSDerivativesImage pm fit out.ccdImage tList grad (some [i]) with
      | none => simp [hls] at h
      | some tg =>
        obtain ⟨tl1, g1⟩ := tg
        simp only [hls] at h
        cases hfs : fit.associations.fittedStar? out.fittedStar with
        | none => simp [hfs] at h
        | some fs =>
          simp only [hfs] at h
          obtain ⟨h1, h2⟩ := ih _ _ _ _ _ _ h
          refine ⟨?_, ?_⟩
          · unfold Associations.rejectAll
            simp only [hms, hfs]
            exact h1
          · rw [h2]
end PhotometryFit

theorem decrementCount_getElem?_ne (a : Associations) (q p : Nat) (hne : q ≠ p) :
    (a.decrementCount q).fittedStarList[p]? = a.fittedStarList[p]? := by
  unfold Associations.decrementCount
  cases hfs : a.fittedStarList[q]? with
  | none => rfl
  | some fs => simp only [List.getElem?_set, if_neg hne]

theorem rejectAll_getElem?_other : ∀ (outs : List MeasRef) (a a' : Associations),
    Associations.rejectAll a outs = some a' →
      ∀ p : Nat, (∀ r ∈ outs, a.pointsAt r p = false) →
        a'.fittedStarList[p]? = a.fittedStarList[p]? := by
  intro outs
  induction outs with
  | nil =>
    intro a a' h p _
    simp only [Associations.rejectAll, Option.some.injEq] at h
    rw [h]
  | cons i rest ih =>
    intro a a' h p hp
    obtain ⟨out, fs, h1, _, h3⟩ := rejectAll_cons a a' i rest h
    have hi := hp i (List.mem_cons_self _ _)
    simp only [Associations.pointsAt, h1, beq_eq_false_iff_ne, ne_eq] at hi
    rw [ih _ _ h3 p, decrementCount_getElem?_ne _ _ _ hi, setValid_fittedStarList]
    intro r hr
    rw [reject_pointsAt]
    exact hp r (List.mem_cons_of_mem _ hr)

theorem outlierLoop_prefix {M : Type} (pm : PhotometryModel M) (fit : PhotometryFit M)
    (cut : ℚ) : ∀ (chi2s : List Chi2Entry) (aff : List Int) (outliers outs : List MeasRef),
      PhotometryFit.outlierLoop pm fit cut chi2s aff outliers = some outs →
        outliers <+: outs := by
  intro chi2s
  induction chi2s with
  | nil =>
    intro aff outliers outs h
    simp only [PhotometryFit.outlierLoop, Option.some.injEq] at h
    subst h
    exact List.prefix_refl _
  | cons i rest ih =>
    intro aff outliers outs h
    unfold PhotometryFit.outlierLoop at h
    split at h
    · simp only [Option.some.injEq] at h
      subst h
      exact List.prefix_refl _
    · split at h
      · cases h
      · split at h
        · cases h
        · split at h
          · cases h
          · split at h
            · split at h
              · cases h
              · exact (List.prefix_append _ _).trans (ih _ _ _ h)
            · exact ih _ _ _ h

theorem findOutliers_prefix {M : Type} (pm : PhotometryModel M) (sqrt : ℚ → ℚ)
    (sort : Chi2Vect → Chi2Vect) (fit : PhotometryFit M) (nSigCut : ℚ)
    (outliers outs : List MeasRef)
    (h : PhotometryFit.findOutliers pm sqrt sort fit nSigCut outliers = some outs) :
    outliers <+: outs := by
  unfold PhotometryFit.findOutliers at h
  split at h
  · cases h
  · simp only at h
    split at h
    · simp only [Option.some.injEq] at h
      subst h
      exact List.prefix_refl _
    · exact outlierLoop_prefix pm fit _ _ _ _ _ h

/-! ## Lemmas on the gradient filled by `LSDerivatives` -/

theorem addVec_length (a b : List ℚ) (h : b.length = a.length) :
    (addVec a b).length = a.length := by
  simp [addVec, h]

theorem addVec_assoc : ∀ (a b c : List ℚ), addVec (addVec a b) c = addVec a (addVec b c) := by
  intro a
  induction a with
  | nil => intro b c; simp [addVec]
  | cons x a ih =>
    intro b c
    cases b with
    | nil => simp [addVec]
    | cons y b =>
      cases c with
      | nil => simp [addVec]
      | cons z c =>
        have := ih b c
        simp only [addVec, List.zipWith_cons_cons, List.cons.injEq] at this ⊢
        exact ⟨add_assoc x y z, this⟩

theorem addVec_zeros (a : List ℚ) : addVec a (List.replicate a.length 0) = a := by
  induction a with
  | nil => simp [addVec]
  | cons x a ih =>
    simp only [addVec, List.length_cons, List.replicate_succ, List.zipWith_cons_cons,
      add_zero, List.cons.injEq, true_and] at ih ⊢
    exact ih

theorem zeros_addVec (c : List ℚ) : addVec (List.replicate c.length 0) c = c := by
  induction c with
  | nil => simp [addVec]
  | cons x a ih =>
    simp only [addVec, List.length_cons, List.replicate_succ, List.zipWith_cons_cons,
      zero_add, List.cons.injEq, true_and] at ih ⊢
    exact ih

theorem unitVec_length (n l : Nat) (v : ℚ) : (unitVec n l v).length = n := by
  simp [unitVec]

theorem set_add_eq : ∀ (r : List ℚ) (l : Nat) (x v : ℚ), r[l]? = some x →
    r.set l (x + v) = addVec r (unitVec r.length l v) := by
  intro r
  induction r with
  | nil => intro l x v h; simp at h
  | cons y r ih =>
    intro l x v h
    cases l with
    | zero =>
      simp only [List.getElem?_cons_zero, Option.some.injEq] at h
      subst h
      have := addVec_zeros r
      simp only [addVec] at this
      simp only [List.set_cons_zero, addVec, unitVec, List.length_cons, List.replicate_succ,
        List.zipWith_cons_cons, this]
    | succ l =>
      simp only [List.getElem?_cons_succ] at h
      have := ih l x v h
      simp only [addVec, unitVec] at this
      simp only [List.set_cons_succ, addVec, unitVec, List.length_cons, List.replicate_succ,
        List.zipWith_cons_cons, add_zero, this]

theorem addAt_shift (rhs : List ℚ) (l : Nat) (v : ℚ) (rhs' : List ℚ)
    (h : addAt rhs l v = some rhs') (rhs2 : List ℚ) (h2 : rhs2.length = rhs.length) :
    addAt rhs2 l v = some (addVec rhs2 (unitVec rhs.length l v)) := by
  unfold addAt at h ⊢
  cases hl : rhs[l]? with
  | none => simp [hl] at h
  | some x =>
    have hlt : l < rhs2.length := h2 ▸ lt_of_getElem?_some hl
    rw [List.getElem?_eq_getElem hlt]
    simp only [Option.some.injEq]
    rw [← h2]
    exact set_add_eq rhs2 l _ v (List.getElem?_eq_getElem hlt)

namespace PhotometryFit

variable {M : Type}

theorem modelDerivatives_shift (h : List ℚ) (fsFlux sigma res : ℚ) :
    ∀ (idx : List Nat) (k kT : Nat) (tl : TripletList) (rhs : List ℚ)
      (out : TripletList × List ℚ),
      modelDerivatives h fsFlux sigma res kT idx k tl rhs = some out →
        ∃ c : List ℚ, c.length = rhs.length ∧
          ∀ (kT2 : Nat) (tl2 : TripletList) (rhs2 : List ℚ), rhs2.length = rhs.length →
            ∃ tl2', modelDerivatives h fsFlux sigma res kT2 idx k tl2 rhs2
              = some (tl2', addVec rhs2 c) := by
  intro idx
  induction idx with
  | nil =>
    intro k kT tl rhs out _
    refine ⟨List.replicate rhs.length 0, by simp, ?_⟩
    intro kT2 tl2 rhs2 h2
    refine ⟨tl2, ?_⟩
    rw [← h2, addVec_zeros]
    rfl
  | cons l rest ih =>
    intro k kT tl rhs out hcall
    unfold modelDerivatives at hcall
    cases hk : h[k]? with
    | none => simp [hk] at hcall
    | some hkv =>
      simp only [hk] at hcall
      cases ha : addAt rhs l (hkv * res / sqr sigma) with
      | none => simp [ha] at hcall
      | some rhs1 =>
        simp only [ha] at hcall
        have hs := addAt_shift rhs l _ rhs1 ha
        have hlen1 : rhs1.length = rhs.length := by
          have := hs rhs rfl
          rw [ha] at this
          simp only [Option.some.injEq] at this
          rw [this]
          exact addVec_length _ _ (unitVec_length _ _ _)
        obtain ⟨c1, hc1, hall⟩ := ih _ _ _ _ _ hcall
        refine ⟨addVec (unitVec rhs.length l (hkv * res / sqr sigma)) c1, ?_, ?_⟩
        · rw [addVec_length _ _ (by rw [hc1, hlen1, unitVec_length]), unitVec_length]
        · intro kT2 tl2 rhs2 h2
          have hlen2 : (addVec rhs2 (unitVec rhs.length l (hkv * res / sqr sigma))).length
              = rhs1.length := by
            rw [addVec_length _ _ (by rw [unitVec_length, h2]), h2, hlen1]
          obtain ⟨tl2', h3⟩ := hall kT2 (tl2.AddTriplet l kT2 (hkv * fsFlux / sigma)) _ hlen2
          refine ⟨tl2', ?_⟩
          rw [modelDerivatives]
          simp only [hk, hs rhs2 h2]
          rw [h3, addVec_assoc]

end PhotometryFit

namespace PhotometryFit

variable {M : Type}

theorem addAt_length (rhs : List ℚ) (l : Nat) (v : ℚ) (rhs' : List ℚ)
    (h : addAt rhs l v = some rhs') : rhs'.length = rhs.length := by
  have := addAt_shift rhs l v rhs' h rhs rfl
  rw [h] at this
  simp only [Option.some.injEq] at this
  rw [this]
  exact addVec_length _ _ (unitVec_length _ _ _)

theorem modelPart_shift (pm : PhotometryModel M) (fit : PhotometryFit M) (ccdImage : CcdImage)
    (ms : MeasuredStar) (fs : FittedStar) (sigma res : ℚ) (h : List ℚ) (idx : List Nat)
    (k : Nat) (tl : TripletList) (rhs : List ℚ) (idx' : List Nat) (tl' : TripletList)
    (rhs' : List ℚ)
    (hcall : modelPart pm fit ccdImage ms fs sigma res h idx k tl rhs
      = some (idx', tl', rhs')) :
    ∃ c : List ℚ, c.length = rhs.length ∧
      ∀ (k2 : Nat) (tl2 : TripletList) (rhs2 : List ℚ), rhs2.length = rhs.length →
        ∃ tl2', modelPart pm fit ccdImage ms fs sigma res h idx k2 tl2 rhs2
          = some (idx', tl2', addVec rhs2 c) := by
  unfold modelPart at hcall
  by_cases hm : fit.fittingModel = true
  · simp only [hm, if_true] at hcall
    cases hmd : modelDerivatives
        (pm.getIndicesAndDerivatives fit.photometryModel ms ccdImage idx h).2 fs.flux sigma
        res k (pm.getIndicesAndDerivatives fit.photometryModel ms ccdImage idx h).1 0 tl
        rhs with
    | none => simp [hmd] at hcall
    | some tr =>
      simp only [hmd, Option.some.injEq, Prod.mk.injEq] at hcall
      obtain ⟨c, hc, hall⟩ := modelDerivatives_shift _ _ _ _ _ _ _ _ _ _ hmd
      refine ⟨c, hc, ?_⟩
      intro k2 tl2 rhs2 h2
      obtain ⟨tl2', h3⟩ := hall k2 tl2 rhs2 h2
      refine ⟨tl2', ?_⟩
      unfold modelPart
      simp only [hm, if_true, h3]
      rw [hcall.1]
  · simp only [hm, if_false, Option.some.injEq, Prod.mk.injEq, Bool.false_eq_true] at hcall
    refine ⟨List.replicate rhs.length 0, by simp, ?_⟩
    intro k2 tl2 rhs2 h2
    refine ⟨tl2, ?_⟩
    unfold modelPart
    simp only [hm, if_false, Bool.false_eq_true]
    rw [← h2, addVec_zeros, hcall.1]

theorem modelPart_length (pm : PhotometryModel M) (fit : PhotometryFit M) (ccdImage : CcdImage)
    (ms : MeasuredStar) (fs : FittedStar) (sigma res : ℚ) (h : List ℚ) (idx : List Nat)
    (k : Nat) (tl : TripletList) (rhs : List ℚ) (idx' : List Nat) (tl' : TripletList)
    (rhs' : List ℚ)
    (hcall : modelPart pm fit ccdImage ms fs sigma res h idx k tl rhs
      = some (idx', tl', rhs')) : rhs'.length = rhs.length := by
  obtain ⟨c, hc, hall⟩ := modelPart_shift pm fit ccdImage ms fs sigma res h idx k tl rhs
    idx' tl' rhs' hcall
  obtain ⟨tl2', h3⟩ := hall k tl rhs rfl
  rw [hcall] at h3
  simp only [Option.some.injEq, Prod.mk.injEq, true_and] at h3
  rw [h3.2]
  exact addVec_length _ _ hc

theorem fluxesPart_shift (fit : PhotometryFit M) (fs : FittedStar) (pf sigma res : ℚ)
    (k : Nat) (tl : TripletList) (rhs : List ℚ) (tl' : TripletList) (rhs' : List ℚ)
    (hcall : fluxesPart fit fs pf sigma res k tl rhs = some (tl', rhs')) :
    ∃ c : List ℚ, c.length = rhs.length ∧
      ∀ (k2 : Nat) (tl2 : TripletList) (rhs2 : List ℚ), rhs2.length = rhs.length →
        ∃ tl2', fluxesPart fit fs pf sigma res k2 tl2 rhs2 = some (tl2', addVec rhs2 c) := by
  unfold fluxesPart at hcall
  by_cases hm : fit.fittingFluxes = true
  · simp only [hm, if_true] at hcall
    cases ha : addAt rhs fs.indexInMatrix (res * pf / sqr sigma) with
    | none => simp [ha] at hcall
    | some rhs1 =>
      refine ⟨unitVec rhs.length fs.indexInMatrix (res * pf / sqr sigma),
        unitVec_length _ _ _, ?_⟩
      intro k2 tl2 rhs2 h2
      refine ⟨tl2.AddTriplet fs.indexInMatrix k2 (pf / sigma), ?_⟩
      unfold fluxesPart
      simp only [hm, if_true, addAt_shift rhs _ _ rhs1 ha rhs2 h2]
  · simp only [hm, if_false, Option.some.injEq, Prod.mk.injEq, Bool.false_eq_true] at hcall
    refine ⟨List.replicate rhs.length 0, by simp, ?_⟩
    intro k2 tl2 rhs2 h2
    refine ⟨tl2, ?_⟩
    unfold fluxesPart
    simp only [hm, if_false, Bool.false_eq_true]
    rw [← h2, addVec_zeros]

theorem derivativesLoop_shift (pm : PhotometryModel M) (fit : PhotometryFit M)
    (ccdImage : CcdImage) :
    ∀ (cat : List MeasuredStar) (idx : List Nat) (k : Nat) (tl : TripletList) (rhs : List ℚ)
      (out : Nat × TripletList × List ℚ),
      derivativesLoop pm fit ccdImage cat idx k tl rhs = some out →
        ∃ c : List ℚ, c.length = rhs.length ∧
          ∀ (k2 : Nat) (tl2 : TripletList) (rhs2 : List ℚ), rhs2.length = rhs.length →
            ∃ k2' tl2', derivativesLoop pm fit ccdImage cat idx k2 tl2 rhs2
              = some (k2', tl2', addVec rhs2 c) := by
  intro cat
  induction cat with
  | nil =>
    intro idx k tl rhs out _
    refine ⟨List.replicate rhs.length 0, by simp, ?_⟩
    intro k2 tl2 rhs2 h2
    refine ⟨k2, tl2, ?_⟩
    rw [← h2, addVec_zeros]
    rfl
  | cons ms rest ih =>
    intro idx k tl rhs out hcall
    rw [derivativesLoop] at hcall
    by_cases hv : ms.valid = true
    · simp only [hv, Bool.not_true, Bool.false_eq_true, if_false] at hcall
      cases hfs : fit.associations.fittedStar? ms.fittedStar with
      | none => simp [hfs] at hcall
      | some fs =>
        simp only [hfs] at hcall
        cases hA : modelPart pm fit ccdImage ms fs ms.eflux
            (ms.flux - pm.photomFactor fit.photometryModel ccdImage ms * fs.flux)
            (List.replicate npar_max 0) idx k tl rhs with
        | none => simp [hA] at hcall
        | some rA =>
          obtain ⟨idx1, tl1, rhs1⟩ := rA
          simp only [hA] at hcall
          cases hB : fluxesPart fit fs (pm.photomFactor fit.photometryModel ccdImage ms)
              ms.eflux
              (ms.flux - pm.photomFactor fit.photometryModel ccdImage ms * fs.flux)
              k tl1 rhs1 with
          | none => simp [hB] at hcall
          | some rB =>
            obtain ⟨tl3, rhs3⟩ := rB
            simp only [hB] at hcall
            obtain ⟨cA, hcA, hallA⟩ := modelPart_shift _ _ _ _ _ _ _ _ _ _ _ _ _ _ _ hA
            obtain ⟨cB, hcB, hallB⟩ := fluxesPart_shift _ _ _ _ _ _ _ _ _ _ hB
            obtain ⟨cC, hcC, hallC⟩ := ih _ _ _ _ _ hcall
            have hl1 : rhs1.length = rhs.length := modelPart_length _ _ _ _ _ _ _ _ _ _ _ _ _ _ _ hA
            have hl3 : rhs3.length = rhs1.length := by
              obtain ⟨t, ht⟩ := hallB k tl1 rhs1 rfl
              rw [hB] at ht
              simp only [Option.some.injEq, Prod.mk.injEq] at ht
              rw [ht.2]
              exact addVec_length _ _ hcB
            refine ⟨addVec cA (addVec cB cC), ?_, ?_⟩
            · rw [addVec_length, hcA]
              rw [addVec_length, hcB, hcA, hl1]
              rw [hcC, hcB, hl3]
            · intro k2 tl2 rhs2 h2
              obtain ⟨tlA, hA2⟩ := hallA k2 tl2 rhs2 h2
              have hlA : (addVec rhs2 cA).length = rhs1.length := by
                rw [addVec_length _ _ (by rw [hcA, h2]), h2, hl1]
              obtain ⟨tlB, hB2⟩ := hallB k2 tlA (addVec rhs2 cA) hlA
              have hlB : (addVec (addVec rhs2 cA) cB).length = rhs3.length := by
                rw [addVec_length _ _ (by rw [hcB, hlA]), hlA, hl3]
              obtain ⟨k2', tlC, hC2⟩ := hallC (k2 + 1) tlB _ hlB
              refine ⟨k2', tlC, ?_⟩
              rw [derivativesLoop]
              simp only [hv, Bool.not_true, Bool.false_eq_true, if_false, hfs, hA2, hB2, hC2]
              rw [addVec_assoc, addVec_assoc]
    · have hv' : ms.valid = false := by simpa using hv
      simp only [hv', Bool.not_false, if_true] at hcall
      obtain ⟨c, hc, hall⟩ := ih _ _ _ _ _ hcall
      refine ⟨c, hc, ?_⟩
      intro k2 tl2 rhs2 h2
      obtain ⟨k2', tl2', h3⟩ := hall k2 tl2 rhs2 h2
      refine ⟨k2', tl2', ?_⟩
      rw [derivativesLoop]
      simp only [hv', Bool.not_false, if_true]
      exact h3

theorem LSDerivativesImage_shift (pm : PhotometryModel M) (fit : PhotometryFit M) (ci : Nat)
    (tl : TripletList) (rhs : List ℚ) (msl : Option (List MeasRef))
    (out : TripletList × List ℚ)
    (hcall : LSDerivativesImage pm fit ci tl rhs msl = some out) :
    ∃ c : List ℚ, c.length = rhs.length ∧
      ∀ (tl2 : TripletList) (rhs2 : List ℚ), rhs2.length = rhs.length →
        ∃ tl2', LSDerivativesImage pm fit ci tl2 rhs2 msl = some (tl2', addVec rhs2 c) := by
  unfold LSDerivativesImage at hcall
  cases him : fit.associations.ccdImageList[ci]? with
  | none => rw [him] at hcall; cases hcall
  | some im =>
    rw [him] at hcall
    dsimp only at hcall
    cases hcat : derivativesCatalog fit ci im msl with
    | none => rw [hcat] at hcall; cases hcall
    | some cat =>
      rw [hcat] at hcall
      dsimp only at hcall
      cases hl : derivativesLoop pm fit im cat (List.replicate npar_max (2 ^ 32 - 1))
          tl.NextFreeIndex tl rhs with
      | none => rw [hl] at hcall; cases hcall
      | some r =>
        obtain ⟨c, hc, hall⟩ := derivativesLoop_shift pm fit im _ _ _ _ _ _ hl
        refine ⟨c, hc, ?_⟩
        intro tl2 rhs2 h2
        obtain ⟨k2', tl2', h3⟩ := hall tl2.NextFreeIndex tl2 rhs2 h2
        refine ⟨tl2'.SetNextFreeIndex k2', ?_⟩
        unfold LSDerivativesImage
        rw [him]
        dsimp only
        rw [hcat]
        dsimp only
        rw [h3]

end PhotometryFit

namespace PhotometryFit

variable {M : Type}

theorem setIndices_flux (l : List FittedStar) :
    ∀ ipar : Nat, (setIndices l ipar).1.map (fun fs => fs.flux) = l.map fun fs => fs.flux := by
  induction l with
  | nil => intro ipar; rfl
  | cons fs rest ih =>
    intro ipar
    simp only [setIndices, List.map_cons, ih]
    rfl

theorem assignIndices_flux (pm : PhotometryModel M) (fit : PhotometryFit M)
    (whatToFit : String) :
    (assignIndices pm fit whatToFit).associations.fittedStarList.map (fun fs => fs.flux)
      = fit.associations.fittedStarList.map fun fs => fs.flux := by
  simp only [assignIndices]
  split
  · exact setIndices_flux _ _
  · rfl

theorem offsetParams_done_after_assignIndices (pm : PhotometryModel M) (fit : PhotometryFit M)
    (whatToFit : String) (n : Nat) (delta : List ℚ)
    (hsize : delta.length = (assignIndices pm fit whatToFit).nParTot) :
    ∃ fit3, offsetParams pm { assignIndices pm fit whatToFit with lastNTrip := n } delta
      = Outcome.done fit3 := by
  unfold offsetParams
  have h1 : ¬ delta.length ≠ (assignIndices pm fit whatToFit).nParTot := fun h => h hsize
  simp only [if_neg h1]
  by_cases hF : find whatToFit "Fluxes" = none
  · have hff : (assignIndices pm fit whatToFit).fittingFluxes = false := by
      simp [assignIndices, hF]
    simp only [hff, Bool.false_eq_true, if_false]
    exact ⟨_, rfl⟩
  · obtain ⟨hff, _, hlt⟩ := fluxes_layout_after_assignIndices pm fit whatToFit hF
    obtain ⟨l', hl'⟩ := offsetFluxes_some delta
      (assignIndices pm fit whatToFit).associations.fittedStarList
      (fun fs hfs => hsize ▸ hlt fs hfs)
    simp only [hff, if_true, hl']
    exact ⟨_, rfl⟩

end PhotometryFit

theorem exampleChol_length (H : List (List ℚ)) (solve : List ℚ → List ℚ) (g : List ℚ)
    (h : exampleChol H = some solve) : (solve g).length = min g.length H.length := by
  unfold exampleChol at h
  simp only at h
  split at h
  · simp only [Option.some.injEq] at h
    subst h
    simp
  · cases h

/-! ## Lemmas on the maps of sub-mappings -/

namespace MappingMap

theorem find_isSome_iff (l : MappingMap) (k : Int) :
    (find l k).isSome = true ↔ k ∈ l.map Prod.fst := by
  induction l with
  | nil => simp [find]
  | cons e rest ih =>
    obtain ⟨k', v⟩ := e
    unfold find
    by_cases h : k' = k
    · simp [h]
    · simp only [if_neg h, ih, List.map_cons, List.mem_cons]
      constructor
      · exact Or.inr
      · rintro (h' | h')
        · exact absurd h'.symm h
        · exact h'

theorem find_insert_self (l : MappingMap) (k : Int) (v : SimpleGtransfoMapping) :
    find (insert l k v) k = some v := by
  induction l with
  | nil => simp [insert, find]
  | cons e rest ih =>
    obtain ⟨k', v'⟩ := e
    unfold insert
    by_cases h1 : k < k'
    · simp [h1, find]
    · by_cases h2 : k = k'
      · simp [h1, h2, find]
      · simp only [if_neg h1, if_neg h2]
        unfold find
        rw [if_neg (Ne.symm h2)]
        exact ih

theorem find_insert_ne (l : MappingMap) (k k' : Int) (v : SimpleGtransfoMapping)
    (hne : k' ≠ k) : find (insert l k v) k' = find l k' := by
  induction l with
  | nil => simp [insert, find, Ne.symm hne]
  | cons e rest ih =>
    obtain ⟨k'', v'⟩ := e
    unfold insert
    by_cases h1 : k < k''
    · simp only [if_pos h1]
      rw [find, if_neg (Ne.symm hne)]
    · by_cases h2 : k = k''
      · simp only [if_neg h1, if_pos h2]
        subst h2
        rw [find, if_neg (Ne.symm hne), find, if_neg (Ne.symm hne)]
      · simp only [if_neg h1, if_neg h2]
        unfold find
        rw [ih]

theorem mem_keys_insert (l : MappingMap) (k k' : Int) (v : SimpleGtransfoMapping) :
    k' ∈ (insert l k v).map Prod.fst ↔ k' = k ∨ k' ∈ l.map Prod.fst := by
  rw [← find_isSome_iff, ← find_isSome_iff]
  by_cases h : k' = k
  · subst h
    simp [find_insert_self]
  · rw [find_insert_ne l k k' v h]
    simp [h]

theorem ordered_insert (l : MappingMap) (k : Int) (v : SimpleGtransfoMapping)
    (h : l.Ordered) : (insert l k v).Ordered := by
  induction l with
  | nil => simp [insert, Ordered]
  | cons e rest ih =>
    obtain ⟨k', v'⟩ := e
    unfold Ordered at h ⊢
    simp only [List.map_cons, List.pairwise_cons] at h
    unfold insert
    by_cases h1 : k < k'
    · simp only [if_pos h1, List.map_cons, List.pairwise_cons, List.mem_cons]
      refine ⟨?_, h⟩
      rintro a (rfl | ha)
      · exact h1
      · exact lt_trans h1 (h.1 a ha)
    · by_cases h2 : k = k'
      · simp only [if_neg h1, if_pos h2, List.map_cons, List.pairwise_cons]
        subst h2
        exact h
      · simp only [if_neg h1, if_neg h2, List.map_cons, List.pairwise_cons]
        refine ⟨?_, ih h.2⟩
        intro a ha
        rcases (mem_keys_insert rest k a v).mp ha with rfl | ha'
        · omega
        · exact h.1 a ha'

theorem keys_update (l : MappingMap) (k : Int)
    (f : SimpleGtransfoMapping → SimpleGtransfoMapping) :
    (update l k f).map Prod.fst = l.map Prod.fst := by
  induction l with
  | nil => rfl
  | cons e rest ih =>
    obtain ⟨k', v⟩ := e
    unfold update
    by_cases h : k' = k
    · simp [h]
    · simp [h, ih]

theorem insert_ne_nil (l : MappingMap) (k : Int) (v : SimpleGtransfoMapping) :
    (insert l k v).isEmpty = false := by
  cases l with
  | nil => rfl
  | cons e rest =>
    obtain ⟨k', v'⟩ := e
    unfold insert
    split
    · rfl
    · split <;> rfl

end MappingMap

theorem findMapping?_insertMapping {K : Type} [DecidableEq K]
    (l : List (K × TwoTransfoMapping)) (k k' : K) (v : TwoTransfoMapping) :
    findMapping? (insertMapping l k v) k' = if k' = k then some v else findMapping? l k' := by
  induction l with
  | nil =>
    by_cases h : k' = k
    · simp [insertMapping, findMapping?, h]
    · simp [insertMapping, findMapping?, h, Ne.symm h]
  | cons e rest ih =>
    obtain ⟨k'', v'⟩ := e
    unfold insertMapping
    by_cases h : k'' = k
    · subst h
      by_cases h2 : k' = k''
      · simp [findMapping?, h2]
      · simp [findMapping?, h2, Ne.symm h2]
    · simp only [if_neg h]
      unfold findMapping?
      by_cases h2 : k' = k
      · subst h2
        simp only [if_neg h, ih, if_true]
      · simp only [ih, if_neg h2]

/-! ## Lemmas on the constructors of the constrained models -/

theorem chipCenter?_isSome (l : List CcdImage) (k : Int) :
    (chipCenter? l k).isSome = true ↔ ∃ im ∈ l, im.ccdId = k := by
  unfold chipCenter?
  rw [Option.isSome_map', List.find?_isSome]
  simp

theorem chipCenter?_append_of_mem (pre : List CcdImage) (im : CcdImage) (k : Int)
    (h : ∃ im' ∈ pre, im'.ccdId = k) : chipCenter? (pre ++ [im]) k = chipCenter? pre k := by
  have hs := (chipCenter?_isSome pre k).mpr h
  unfold chipCenter? at hs ⊢
  rw [List.find?_append]
  cases hf : pre.find? (fun im => decide (im.ccdId = k)) with
  | none => simp [hf] at hs
  | some x => rfl

theorem chipCenter?_append_of_not_mem (pre : List CcdImage) (im : CcdImage) (k : Int)
    (h : ¬ ∃ im' ∈ pre, im'.ccdId = k) :
    chipCenter? (pre ++ [im]) k = if im.ccdId = k then some im.detectorCenter else none := by
  have hs : (chipCenter? pre k).isSome ≠ true := fun e => h ((chipCenter?_isSome pre k).mp e)
  unfold chipCenter? at hs ⊢
  rw [List.find?_append]
  cases hf : pre.find? (fun im => decide (im.ccdId = k)) with
  | some x => simp [hf] at hs
  | none =>
    by_cases hk : im.ccdId = k
    · simp [hk]
    · simp [hk]

theorem exists_mem_append_singleton {α : Type} (pre : List α) (x : α) (P : α → Prop) :
    (∃ y ∈ pre ++ [x], P y) ↔ P x ∨ ∃ y ∈ pre, P y := by
  constructor
  · rintro ⟨y, hy, hp⟩
    rcases List.mem_append.mp hy with hy | hy
    · exact Or.inr ⟨y, hy, hp⟩
    · simp only [List.mem_singleton] at hy
      subst hy
      exact Or.inl hp
  · rintro (hp | ⟨y, hy, hp⟩)
    · exact ⟨x, by simp, hp⟩
    · exact ⟨y, List.mem_append_left _ hy, hp⟩

namespace ConstrainedAstrometryModel

theorem firstLoopStep_visitMap (polys : PolyFactory) (chipOrder visitOrder : Int)
    (s : FirstLoop) (im : CcdImage) :
    (firstLoopStep polys chipOrder visitOrder s im).visitMap
      = match s.visitMap.find im.visit with
        | none => s.visitMap.insert im.visit
            (SimplePolyMapping visitOrder (polys.plain visitOrder))
        | some _ => s.visitMap := by
  unfold firstLoopStep
  cases h : s.chipMap.find im.ccdId <;> simp only [h]

theorem firstLoopStep_inv (polys : PolyFactory) (chipOrder visitOrder : Int)
    (pre : List CcdImage) (s : FirstLoop) (im : CcdImage) (h : FirstLoop.Inv pre s) :
    FirstLoop.Inv (pre ++ [im]) (firstLoopStep polys chipOrder visitOrder s im) := by
  obtain ⟨hco, hvo, hck, hvk, hfit, hnil, hmin⟩ := h
  have hvisit : (firstLoopStep polys chipOrder visitOrder s im).visitMap.Ordered ∧
      ∀ k, k ∈ (firstLoopStep polys chipOrder visitOrder s im).visitMap.map Prod.fst ↔
        ∃ im' ∈ pre ++ [im], im'.visit = k := by
    rw [firstLoopStep_visitMap]
    cases hf : s.visitMap.find im.visit with
    | none =>
      refine ⟨MappingMap.ordered_insert _ _ _ hvo, ?_⟩
      intro k
      rw [MappingMap.mem_keys_insert, exists_mem_append_singleton, hvk k]
      constructor
      · rintro (h | h)
        · exact Or.inl h.symm
        · exact Or.inr h
      · rintro (h | h)
        · exact Or.inl h.symm
        · exact Or.inr h
    | some v =>
      refine ⟨hvo, ?_⟩
      intro k
      rw [exists_mem_append_singleton, hvk k]
      constructor
      · exact Or.inr
      · rintro (h | h)
        · have : im.visit ∈ s.visitMap.map Prod.fst :=
            (MappingMap.find_isSome_iff _ _).mp (by rw [hf]; rfl)
          exact (hvk k).mp (h ▸ this)
        · exact h
  cases hf : s.chipMap.find im.ccdId with
  | some v =>
    have hin : ∃ im' ∈ pre, im'.ccdId = im.ccdId :=
      (hck _).mp ((MappingMap.find_isSome_iff _ _).mp (by rw [hf]; rfl))
    have hpre : pre ≠ [] := by
      obtain ⟨im', him', _⟩ := hin
      exact List.ne_nil_of_mem him'
    have hs : firstLoopStep polys chipOrder visitOrder s im
        = { s with visitMap := (firstLoopStep polys chipOrder visitOrder s im).visitMap } := by
      rw [firstLoopStep_visitMap]
      unfold firstLoopStep
      simp only [hf]
    have hcenter : ∀ k, chipCenter? (pre ++ [im]) k = chipCenter? pre k := by
      intro k
      by_cases hk : ∃ im' ∈ pre, im'.ccdId = k
      · exact chipCenter?_append_of_mem pre im k hk
      · rw [chipCenter?_append_of_not_mem pre im k hk]
        have hne : im.ccdId ≠ k := fun e => hk (e ▸ hin)
        rw [if_neg hne]
        cases hc : chipCenter? pre k with
        | none => rfl
        | some c => exact absurd ((chipCenter?_isSome pre k).mp (by rw [hc]; rfl)) hk
    refine ⟨?_, hvisit.1, ?_, hvisit.2, ?_, ?_, ?_⟩
    · rw [hs]; exact hco
    · intro k
      rw [hs, exists_mem_append_singleton]
      simp only
      rw [hck k]
      constructor
      · exact Or.inr
      · rintro (h | h)
        · exact h ▸ hin
        · exact h
    · rw [hs]; exact hfit
    · intro hnil'
      simp at hnil'
    · intro _
      obtain ⟨c0, h1, h2, h3⟩ := hmin hpre
      rw [hs]
      simp only
      refine ⟨c0, ?_, h2, ?_⟩
      · rw [hcenter]; exact h1
      · intro k c hc
        rw [hcenter] at hc
        exact h3 k c hc
  | none =>
    have hnot : ¬ ∃ im' ∈ pre, im'.ccdId = im.ccdId := by
      intro hin
      have := (MappingMap.find_isSome_iff _ _).mpr ((hck _).mpr hin)
      rw [hf] at this
      cases this
    have hs : firstLoopStep polys chipOrder visitOrder s im
        = { visitMap := (firstLoopStep polys chipOrder visitOrder s im).visitMap,
            chipMap := s.chipMap.insert im.ccdId
              (SimplePolyMapping chipOrder (polys.fromDetector im chipOrder)),
            minRadius2 := if closer (radius2 im.detectorCenter) s.minRadius2 = true
              then some (radius2 im.detectorCenter) else s.minRadius2,
            constrainedChip := if closer (radius2 im.detectorCenter) s.minRadius2 = true
              then im.ccdId else s.constrainedChip } := by
      rw [firstLoopStep_visitMap]
      unfold firstLoopStep
      simp only [hf, radius2]
    have hcself : chipCenter? (pre ++ [im]) im.ccdId = some im.detectorCenter := by
      rw [chipCenter?_append_of_not_mem pre im _ hnot, if_pos rfl]
    have hcother : ∀ k, k ≠ im.ccdId → chipCenter? (pre ++ [im]) k = chipCenter? pre k := by
      intro k hk
      by_cases hin : ∃ im' ∈ pre, im'.ccdId = k
      · exact chipCenter?_append_of_mem pre im k hin
      · rw [chipCenter?_append_of_not_mem pre im k hin, if_neg (Ne.symm hk)]
        cases hc : chipCenter? pre k with
        | none => rfl
        | some c => exact absurd ((chipCenter?_isSome pre k).mp (by rw [hc]; rfl)) hin
    refine ⟨?_, hvisit.1, ?_, hvisit.2, ?_, ?_, ?_⟩
    · rw [hs]; exact MappingMap.ordered_insert _ _ _ hco
    · intro k
      rw [hs, exists_mem_append_singleton]
      simp only
      rw [MappingMap.mem_keys_insert, hck k]
      constructor
      · rintro (h | h)
        · exact Or.inl h.symm
        · exact Or.inr h
      · rintro (h | h)
        · exact Or.inl h.symm
        · exact Or.inr h
    · intro k v hv
      rw [hs] at hv
      simp only at hv
      by_cases hk : k = im.ccdId
      · subst hk
        rw [MappingMap.find_insert_self] at hv
        cases hv
        rfl
      · rw [MappingMap.find_insert_ne _ _ _ _ hk] at hv
        exact hfit k v hv
    · intro hnil'
      simp at hnil'
    · intro _
      rw [hs]
      simp only
      cases hm : s.minRadius2 with
      | none =>
        have hpre : pre = [] := by
          by_contra hne
          obtain ⟨c0, _, h2, _⟩ := hmin hne
          rw [hm] at h2
          cases h2
        simp only [closer, if_true]
        refine ⟨im.detectorCenter, hcself, rfl, ?_⟩
        intro k c hc
        by_cases hk : k = im.ccdId
        · subst hk
          rw [hcself] at hc
          cases hc
          exact le_refl _
        · rw [hcother k hk, hpre] at hc
          simp [chipCenter?] at hc
      | some r =>
        have hpre : pre ≠ [] := by
          intro he
          rw [hnil he] at hm
          cases hm
        obtain ⟨c0, h1, h2, h3⟩ := hmin hpre
        rw [hm] at h2
        simp only [Option.some.injEq] at h2
        by_cases hlt : radius2 im.detectorCenter < r
        · simp only [closer, hlt, decide_True, if_true]
          refine ⟨im.detectorCenter, hcself, rfl, ?_⟩
          intro k c hc
          by_cases hk : k = im.ccdId
          · subst hk
            rw [hcself] at hc
            cases hc
            exact le_refl _
          · rw [hcother k hk] at hc
            have := h3 k c hc
            rw [← h2] at this
            exact le_trans (le_of_lt hlt) this
        · simp only [closer, hlt, decide_False, Bool.false_eq_true, if_false]
          have hne : s.constrainedChip ≠ im.ccdId := by
            intro e
            apply hnot
            rw [← e]
            exact (chipCenter?_isSome pre _).mp (by rw [h1]; rfl)
          refine ⟨c0, ?_, by rw [h2], ?_⟩
          · rw [hcother _ hne]; exact h1
          · intro k c hc
            by_cases hk : k = im.ccdId
            · subst hk
              rw [hcself] at hc
              cases hc
              rw [← h2]
              exact not_lt.mp hlt
            · rw [hcother k hk] at hc
              exact h3 k c hc

theorem firstLoop_inv (polys : PolyFactory) (chipOrder visitOrder : Int) :
    ∀ (l pre : List CcdImage) (s : FirstLoop), FirstLoop.Inv pre s →
      FirstLoop.Inv (pre ++ l) (l.foldl (firstLoopStep polys chipOrder visitOrder) s) := by
  intro l
  induction l with
  | nil => intro pre s h; simpa using h
  | cons im rest ih =>
    intro pre s h
    have := ih (pre ++ [im]) _ (firstLoopStep_inv polys chipOrder visitOrder pre s im h)
    simpa using this

theorem firstLoop_inv_init :
    FirstLoop.Inv [] { visitMap := [], chipMap := [], minRadius2 := none,
                       constrainedChip := -1 } := by
  refine ⟨?_, ?_, ?_, ?_, ?_, ?_, ?_⟩
  · simp [MappingMap.Ordered]
  · simp [MappingMap.Ordered]
  · intro k; simp
  · intro k; simp
  · intro k v h; simp [MappingMap.find] at h
  · intro _; rfl
  · intro h; exact absurd rfl h

end ConstrainedAstrometryModel

namespace ConstrainedAstrometryModel

theorem secondLoop_fold (polys : PolyFactory) (chipOrder : Int) :
    ∀ (l : List CcdImage) (s : MappingMap × List (CcdImageKey × TwoTransfoMapping)),
      (∀ im ∈ l, (s.1.find im.ccdId).isSome = true) →
        (l.foldl (secondLoopStep polys chipOrder) s).1 = s.1 ∧
        (∀ key : CcdImageKey,
          findMapping? s.2 key = some (TwoTransfoMapping.new key.ccd key.visit) →
            findMapping? (l.foldl (secondLoopStep polys chipOrder) s).2 key
              = some (TwoTransfoMapping.new key.ccd key.visit)) ∧
        ∀ im ∈ l, findMapping? (l.foldl (secondLoopStep polys chipOrder) s).2 im.getHashKey
          = some (TwoTransfoMapping.new im.ccdId im.visit) := by
  intro l
  induction l with
  | nil =>
    intro s _
    exact ⟨rfl, fun _ h => h, fun im him => by cases him⟩
  | cons im rest ih =>
    intro s hs
    have hsome := hs im (List.mem_cons_self _ _)
    have hstep : secondLoopStep polys chipOrder s im
        = (s.1, insertMapping s.2 im.getHashKey (TwoTransfoMapping.new im.ccdId im.visit)) := by
      unfold secondLoopStep
      cases hf : s.1.find im.ccdId with
      | none => rw [hf] at hsome; cases hsome
      | some v => simp only [hf]
    have hrest : ∀ im' ∈ rest,
        ((secondLoopStep polys chipOrder s im).1.find im'.ccdId).isSome = true := by
      intro im' him'
      rw [hstep]
      exact hs im' (List.mem_cons_of_mem _ him')
    obtain ⟨h1, h2, h3⟩ := ih (secondLoopStep polys chipOrder s im) hrest
    have hkeep : ∀ key : CcdImageKey,
        findMapping? s.2 key = some (TwoTransfoMapping.new key.ccd key.visit) →
          findMapping? (secondLoopStep polys chipOrder s im).2 key
            = some (TwoTransfoMapping.new key.ccd key.visit) := by
      intro key hkey
      rw [hstep]
      simp only
      rw [findMapping?_insertMapping]
      by_cases hk : key = im.getHashKey
      · rw [if_pos hk, hk]
        rfl
      · rw [if_neg hk]
        exact hkey
    have hself : findMapping? (secondLoopStep polys chipOrder s im).2 im.getHashKey
        = some (TwoTransfoMapping.new im.ccdId im.visit) := by
      rw [hstep]
      simp only
      rw [findMapping?_insertMapping, if_pos rfl]
    simp only [List.foldl_cons]
    refine ⟨?_, ?_, ?_⟩
    · rw [h1, hstep]
    · intro key hkey
      exact h2 key (hkeep key hkey)
    · intro im' him'
      rcases List.mem_cons.mp him' with rfl | hr
      · exact h2 im'.getHashKey hself
      · exact h3 im' hr

theorem new_spec (polys : PolyFactory) (l : List CcdImage) (chipOrder visitOrder : Int)
    (hne : l ≠ []) :
    ∃ (s : FirstLoop) (v : SimpleGtransfoMapping) (m : ConstrainedAstrometryModel),
      FirstLoop.Inv l s ∧ s.chipMap.find s.constrainedChip = some v ∧
      new polys l chipOrder visitOrder = Except.ok m ∧
      m.chipMap = s.chipMap.update s.constrainedChip (fun mapping => mapping.setToBeFit false) ∧
      m.visitMap = s.visitMap ∧
      ∀ im ∈ l, findMapping? m.mappings im.getHashKey
        = some (TwoTransfoMapping.new im.ccdId im.visit) := by
  have hinv := firstLoop_inv polys chipOrder visitOrder l [] _ firstLoop_inv_init
  rw [List.nil_append] at hinv
  generalize hs : l.foldl (firstLoopStep polys chipOrder visitOrder)
    { visitMap := [], chipMap := [], minRadius2 := none, constrainedChip := -1 } = s at hinv
  obtain ⟨hco, hvo, hck, hvk, hfit, hnil, hmin⟩ := hinv
  obtain ⟨c0, h1, h2, h3⟩ := hmin hne
  have hmem := (hck _).mpr ((chipCenter?_isSome l _).mp (by rw [h1]; rfl))
  have hsome := (MappingMap.find_isSome_iff _ _).mpr hmem
  obtain ⟨v, hv⟩ := Option.isSome_iff_exists.mp hsome
  have hchips : ∀ im ∈ l,
      (MappingMap.find
        (s.chipMap.update s.constrainedChip (fun mapping => mapping.setToBeFit false))
        im.ccdId).isSome = true := by
    intro im him
    rw [MappingMap.find_isSome_iff, MappingMap.keys_update]
    exact (hck _).mpr ⟨im, him, rfl⟩
  obtain ⟨g1, _, g3⟩ := secondLoop_fold polys chipOrder l
    (s.chipMap.update s.constrainedChip (fun mapping => mapping.setToBeFit false), []) hchips
  refine ⟨s, v,
    { mappings := (l.foldl (secondLoopStep polys chipOrder)
        (s.chipMap.update s.constrainedChip (fun mapping => mapping.setToBeFit false), [])).2,
      chipMap := (l.foldl (secondLoopStep polys chipOrder)
        (s.chipMap.update s.constrainedChip (fun mapping => mapping.setToBeFit false), [])).1,
      visitMap := s.visitMap, fittingChips := false, fittingVisits := false },
    ⟨hco, hvo, hck, hvk, hfit, hnil, hmin⟩, hv, ?_, g1, rfl, g3⟩
  unfold new
  simp only [hs, hv]

end ConstrainedAstrometryModel

namespace ConstrainedPolyModel

theorem firstLoopStep_fst (polys : PolyFactory) (initFromWCS : Bool)
    (chipDegree visitDegree : Int) (s : MappingMap × MappingMap) (im : CcdImage) :
    (firstLoopStep polys initFromWCS chipDegree visitDegree s im).1
      = match s.1.find im.visit with
        | none =>
          if s.1.isEmpty then s.1.insert im.visit SimpleGtransfoMapping.ofIdentity
          else s.1.insert im.visit (SimplePolyMapping visitDegree (polys.plain visitDegree))
        | some _ => s.1 := rfl

theorem firstLoopStep_visitInv (polys : PolyFactory) (initFromWCS : Bool)
    (chipDegree visitDegree : Int) (first : Int) (pre : List CcdImage)
    (s : MappingMap × MappingMap) (im : CcdImage)
    (h : VisitInv polys visitDegree first pre s.1) :
    VisitInv polys visitDegree first (pre ++ [im])
      (firstLoopStep polys initFromWCS chipDegree visitDegree s im).1 := by
  obtain ⟨hne, hord, hkeys, hfirst, hother⟩ := h
  rw [firstLoopStep_fst]
  cases hf : s.1.find im.visit with
  | some v =>
    refine ⟨hne, hord, ?_, hfirst, hother⟩
    intro k
    rw [exists_mem_append_singleton, hkeys k]
    constructor
    · exact Or.inr
    · rintro (h | h)
      · have : im.visit ∈ s.1.map Prod.fst :=
          (MappingMap.find_isSome_iff _ _).mp (by rw [hf]; rfl)
        exact (hkeys k).mp (h ▸ this)
      · exact h
  | none =>
    have hnf : im.visit ≠ first := by
      intro e
      rw [e, hfirst] at hf
      cases hf
    simp only [hne, Bool.false_eq_true, if_false]
    refine ⟨MappingMap.insert_ne_nil _ _ _, MappingMap.ordered_insert _ _ _ hord, ?_, ?_, ?_⟩
    · intro k
      rw [MappingMap.mem_keys_insert, exists_mem_append_singleton, hkeys k]
      constructor
      · rintro (h | h)
        · exact Or.inl h.symm
        · exact Or.inr h
      · rintro (h | h)
        · exact Or.inl h.symm
        · exact Or.inr h
    · rw [MappingMap.find_insert_ne _ _ _ _ (Ne.symm hnf)]
      exact hfirst
    · intro k v hk hv
      by_cases hki : k = im.visit
      · subst hki
        rw [MappingMap.find_insert_self] at hv
        cases hv
        rfl
      · rw [MappingMap.find_insert_ne _ _ _ _ hki] at hv
        exact hother k v hk hv

theorem firstLoop_visitInv (polys : PolyFactory) (initFromWCS : Bool)
    (chipDegree visitDegree : Int) (first : Int) :
    ∀ (l pre : List CcdImage) (s : MappingMap × MappingMap),
      VisitInv polys visitDegree first pre s.1 →
        VisitInv polys visitDegree first (pre ++ l)
          (l.foldl (firstLoopStep polys initFromWCS chipDegree visitDegree) s).1 := by
  intro l
  induction l with
  | nil => intro pre s h; simpa using h
  | cons im rest ih =>
    intro pre s h
    have := ih (pre ++ [im]) _
      (firstLoopStep_visitInv polys initFromWCS chipDegree visitDegree first pre s im h)
    simpa using this

theorem new_visitInv (polys : PolyFactory) (im0 : CcdImage) (rest : List CcdImage)
    (initFromWCS : Bool) (nNotFit : Nat) (chipDegree visitDegree : Int) :
    VisitInv polys visitDegree im0.visit (im0 :: rest)
      (new polys (im0 :: rest) initFromWCS nNotFit chipDegree visitDegree).visitMap := by
  have h0 : VisitInv polys visitDegree im0.visit [im0]
      (firstLoopStep polys initFromWCS chipDegree visitDegree ([], []) im0).1 := by
    rw [firstLoopStep_fst]
    refine ⟨?_, ?_, ?_, ?_, ?_⟩
    · simp [MappingMap.find, MappingMap.insert]
    · simp [MappingMap.find, MappingMap.insert, MappingMap.Ordered]
    · intro k
      simp [MappingMap.find, MappingMap.insert, eq_comm]
    · simp [MappingMap.find, MappingMap.insert]
    · intro k v hk hv
      simp [MappingMap.find, MappingMap.insert, Ne.symm hk] at hv
  have := firstLoop_visitInv polys initFromWCS chipDegree visitDegree im0.visit rest [im0] _ h0
  exact this

end ConstrainedPolyModel

/-! ## The derivatives are defined on the layout of `assignIndices` -/

theorem addAt_some (rhs : List ℚ) (l : Nat) (v : ℚ) (h : l < rhs.length) :
    ∃ rhs', addAt rhs l v = some rhs' ∧ rhs'.length = rhs.length := by
  unfold addAt
  rw [List.getElem?_eq_getElem h]
  exact ⟨_, rfl, by simp⟩

namespace PhotometryFit

variable {M : Type}

theorem modelDerivatives_some (h : List ℚ) (fsFlux sigma res : ℚ) (kT : Nat) :
    ∀ (idx : List Nat) (k : Nat) (tl : TripletList) (rhs : List ℚ),
      k + idx.length ≤ h.length → (∀ l ∈ idx, l < rhs.length) →
        ∃ out, modelDerivatives h fsFlux sigma res kT idx k tl rhs = some out ∧
          out.2.length = rhs.length := by
  intro idx
  induction idx with
  | nil => intro k tl rhs _ _; exact ⟨_, rfl, rfl⟩
  | cons l rest ih =>
    intro k tl rhs hh hidx
    simp only [List.length_cons] at hh
    have hk : k < h.length := by omega
    obtain ⟨rhs1, ha, hlen⟩ := addAt_some rhs l (h[k] * res / sqr sigma)
      (hidx l (List.mem_cons_self _ _))
    obtain ⟨out, ho, hol⟩ := ih (k + 1) (tl.AddTriplet l kT (h[k] * fsFlux / sigma)) rhs1
      (by omega) (fun x hx => hlen ▸ hidx x (List.mem_cons_of_mem _ hx))
    refine ⟨out, ?_, hol.trans hlen⟩
    rw [modelDerivatives]
    simp only [List.getElem?_eq_getElem hk, ha]
    exact ho

theorem derivativesLoop_some (pm : PhotometryModel M) (fit : PhotometryFit M)
    (ccdImage : CcdImage) (n : Nat) :
    ∀ (cat : List MeasuredStar) (idx : List Nat) (k : Nat) (tl : TripletList) (rhs : List ℚ),
      rhs.length = n →
      (∀ ms ∈ cat, ms.valid = true →
        ∃ fs, fit.associations.fittedStar? ms.fittedStar = some fs ∧
          (fit.fittingFluxes = true → fs.indexInMatrix < n)) →
      (fit.fittingModel = true → ∀ ms ∈ cat, ∀ indices : List Nat,
        (∀ l ∈ (pm.getIndicesAndDerivatives fit.photometryModel ms ccdImage indices
            (List.replicate npar_max 0)).1, l < n) ∧
        (pm.getIndicesAndDerivatives fit.photometryModel ms ccdImage indices
            (List.replicate npar_max 0)).1.length
          ≤ (pm.getIndicesAndDerivatives fit.photometryModel ms ccdImage indices
              (List.replicate npar_max 0)).2.length) →
      ∃ out, derivativesLoop pm fit ccdImage cat idx k tl rhs = some out ∧
        out.2.2.length = n := by
  intro cat
  induction cat with
  | nil => intro idx k tl rhs hn _ _; exact ⟨_, rfl, hn⟩
  | cons ms rest ih =>
    intro idx k tl rhs hn hstars hmodel
    have hstars' : ∀ ms' ∈ rest, ms'.valid = true →
        ∃ fs, fit.associations.fittedStar? ms'.fittedStar = some fs ∧
          (fit.fittingFluxes = true → fs.indexInMatrix < n) :=
      fun ms' h' => hstars ms' (List.mem_cons_of_mem _ h')
    have hmodel' : fit.fittingModel = true → ∀ ms' ∈ rest, ∀ indices : List Nat,
        (∀ l ∈ (pm.getIndicesAndDerivatives fit.photometryModel ms' ccdImage indices
            (List.replicate npar_max 0)).1, l < n) ∧
        (pm.getIndicesAndDerivatives fit.photometryModel ms' ccdImage indices
            (List.replicate npar_max 0)).1.length
          ≤ (pm.getIndicesAndDerivatives fit.photometryModel ms' ccdImage indices
              (List.replicate npar_max 0)).2.length :=
      fun hm ms' h' => hmodel hm ms' (List.mem_cons_of_mem _ h')
    rw [derivativesLoop]
    by_cases hv : ms.valid = true
    · obtain ⟨fs, hfs, hidx⟩ := hstars ms (List.mem_cons_self _ _) hv
      simp only [hv, Bool.not_true, Bool.false_eq_true, if_false, hfs]
      have hA : ∃ rA, modelPart pm fit ccdImage ms fs ms.eflux
          (ms.flux - pm.photomFactor fit.photometryModel ccdImage ms * fs.flux)
          (List.replicate npar_max 0) idx k tl rhs = some rA ∧ rA.2.2.length = n := by
        unfold modelPart
        by_cases hm : fit.fittingModel = true
        · simp only [hm, if_true]
          obtain ⟨h1, h2⟩ := hmodel hm ms (List.mem_cons_self _ _) idx
          obtain ⟨out, ho, hol⟩ := modelDerivatives_some
            (pm.getIndicesAndDerivatives fit.photometryModel ms ccdImage idx
              (List.replicate npar_max 0)).2 fs.flux ms.eflux
            (ms.flux - pm.photomFactor fit.photometryModel ccdImage ms * fs.flux) k
            (pm.getIndicesAndDerivatives fit.photometryModel ms ccdImage idx
              (List.replicate npar_max 0)).1 0 tl rhs (by omega)
            (fun l hl => hn ▸ h1 l hl)
          simp only [ho]
          exact ⟨_, rfl, hol.trans hn⟩
        · simp only [hm, Bool.false_eq_true, if_false]
          exact ⟨_, rfl, hn⟩
      obtain ⟨⟨idx1, tl1, rhs1⟩, hA1, hA2⟩ := hA
      simp only at hA2
      have hB : ∃ rB, fluxesPart fit fs (pm.photomFactor fit.photometryModel ccdImage ms)
          ms.eflux (ms.flux - pm.photomFactor fit.photometryModel ccdImage ms * fs.flux)
          k tl1 rhs1 = some rB ∧ rB.2.length = n := by
        unfold fluxesPart
        by_cases hf : fit.fittingFluxes = true
        · simp only [hf, if_true]
          obtain ⟨rhs2, ha, hlen⟩ := addAt_some rhs1 fs.indexInMatrix
            ((ms.flux - pm.photomFactor fit.photometryModel ccdImage ms * fs.flux) *
              pm.photomFactor fit.photometryModel ccdImage ms / sqr ms.eflux)
            (hA2 ▸ hidx hf)
          simp only [ha]
          exact ⟨_, rfl, hlen.trans hA2⟩
        · simp only [hf, Bool.false_eq_true, if_false]
          exact ⟨_, rfl, hA2⟩
      obtain ⟨⟨tl2, rhs2⟩, hB1, hB2⟩ := hB
      simp only at hB2
      simp only [hA1, hB1]
      exact ih idx1 (k + 1) tl2 rhs2 hB2 hstars' hmodel'
    · have hv' : ms.valid = false := by simpa using hv
      simp only [hv', Bool.not_false, if_true]
      exact ih idx k tl rhs hn hstars' hmodel'

theorem derivativesImages_some (pm : PhotometryModel M) (fit : PhotometryFit M) (n : Nat)
    (hlink : fit.associations.WellLinked)
    (hstars : fit.fittingFluxes = true →
      ∀ fs ∈ fit.associations.fittedStarList, fs.indexInMatrix < n)
    (hbelow : fit.fittingModel = true →
      pm.IndicesBelow fit.photometryModel fit.associations n)
    (hcover : fit.fittingModel = true →
      pm.DerivativesCover fit.photometryModel fit.associations) :
    ∀ (l : List CcdImage) (ci : Nat) (tl : TripletList) (rhs : List ℚ),
      fit.associations.ccdImageList.drop ci = l → rhs.length = n →
        ∃ out, derivativesImages pm fit l ci tl rhs = some out ∧ out.2.length = n := by
  intro l
  induction l with
  | nil => intro ci tl rhs _ hn; exact ⟨_, rfl, hn⟩
  | cons im rest ih =>
    intro ci tl rhs hdrop hn
    have hci : fit.associations.ccdImageList[ci]? = some im := by
      have := congrArg List.head? hdrop
      simpa [List.head?_drop] using this
    have him : im ∈ fit.associations.ccdImageList := List.mem_iff_getElem?.mpr ⟨ci, hci⟩
    have hrest : fit.associations.ccdImageList.drop (ci + 1) = rest := by
      have := congrArg List.tail hdrop
      simpa [List.tail_drop] using this
    obtain ⟨out, ho, hol⟩ := derivativesLoop_some pm fit im n im.catalogForFit
      (List.replicate npar_max (2 ^ 32 - 1)) tl.NextFreeIndex tl rhs hn
      (by
        intro ms hms hv
        have hlt := (hlink im him ms hms hv).1
        refine ⟨fit.associations.fittedStarList[ms.fittedStar], ?_, ?_⟩
        · exact List.getElem?_eq_getElem hlt
        · intro hf
          exact hstars hf _ (List.getElem_mem _))
      (by
        intro hm ms hms indices
        exact ⟨hbelow hm im him ms hms im him indices _,
          hcover hm im him ms hms im him indices⟩)
    obtain ⟨k1, tl1, rhs1⟩ := out
    simp only at hol
    obtain ⟨out2, ho2, hol2⟩ := ih (ci + 1) (tl1.SetNextFreeIndex k1) rhs1 hrest hol
    refine ⟨out2, ?_, hol2⟩
    rw [derivativesImages]
    have hli : LSDerivativesImage pm fit ci tl rhs none
        = some (tl1.SetNextFreeIndex k1, rhs1) := by
      unfold LSDerivativesImage
      rw [hci]
      dsimp only [derivativesCatalog]
      rw [ho]
    rw [hli]
    exact ho2

theorem LSDerivatives_some (pm : PhotometryModel M) (fit : PhotometryFit M) (n : Nat)
    (hlink : fit.associations.WellLinked)
    (hstars : fit.fittingFluxes = true →
      ∀ fs ∈ fit.associations.fittedStarList, fs.indexInMatrix < n)
    (hbelow : fit.fittingModel = true →
      pm.IndicesBelow fit.photometryModel fit.associations n)
    (hcover : fit.fittingModel = true →
      pm.DerivativesCover fit.photometryModel fit.associations)
    (tl : TripletList) (rhs : List ℚ) (hn : rhs.length = n) :
    ∃ out, LSDerivatives pm fit tl rhs = some out ∧ out.2.length = n :=
  derivativesImages_some pm fit n hlink hstars hbelow hcover _ 0 tl rhs rfl hn

end PhotometryFit

theorem hessian_length (nParTot : Nat) (tList : TripletList) :
    (PhotometryFit.hessian nParTot tList).length = nParTot := by
  simp [PhotometryFit.hessian]

theorem LSDerivatives_some_after_assignIndices {M : Type} (pm : PhotometryModel M)
    (fit : PhotometryFit M) (whatToFit : String)
    (hlink : fit.associations.WellLinked)
    (hbelow : (PhotometryFit.assignIndices pm fit whatToFit).fittingModel = true →
      pm.IndicesBelow (PhotometryFit.assignIndices pm fit whatToFit).photometryModel
        (PhotometryFit.assignIndices pm fit whatToFit).associations
        (PhotometryFit.assignIndices pm fit whatToFit).nParModel)
    (hcover : (PhotometryFit.assignIndices pm fit whatToFit).fittingModel = true →
      pm.DerivativesCover (PhotometryFit.assignIndices pm fit whatToFit).photometryModel
        (PhotometryFit.assignIndices pm fit whatToFit).associations)
    (tl : TripletList) :
    ∃ out, PhotometryFit.LSDerivatives pm (PhotometryFit.assignIndices pm fit whatToFit) tl
        (List.replicate (PhotometryFit.assignIndices pm fit whatToFit).nParTot 0) = some out ∧
      out.2.length = (PhotometryFit.assignIndices pm fit whatToFit).nParTot := by
  apply PhotometryFit.LSDerivatives_some pm _ _
    (assignIndices_wellLinked pm fit whatToFit hlink) ?_ ?_ hcover _ _ (by simp)
  · intro hff
    have hF : find whatToFit "Fluxes" ≠ none := by
      simp only [PhotometryFit.assignIndices] at hff
      exact Option.isSome_iff_ne_none.mp hff
    exact (fluxes_layout_after_assignIndices pm fit whatToFit hF).2.2
  · intro hm im him ms hms im' him' indices h k hk
    exact lt_of_lt_of_le (hbelow hm im him ms hms im' him' indices h k hk)
      (assignIndices_nParModel_le pm fit whatToFit)

theorem example_indicesBelow (whatToFit : String) :
    examplePhotometryModel.IndicesBelow
      (PhotometryFit.assignIndices examplePhotometryModel exampleFit whatToFit).photometryModel
      (PhotometryFit.assignIndices examplePhotometryModel exampleFit whatToFit).associations
      2 := by
  intro im _ ms _ im' him' indices h k hk
  have hv : im'.visit = 0 ∨ im'.visit = 1 := by
    have hl : (PhotometryFit.assignIndices examplePhotometryModel exampleFit
        whatToFit).associations.ccdImageList = exampleAssociations.ccdImageList := rfl
    rw [hl] at him'
    have hall : ∀ x ∈ exampleAssociations.ccdImageList, x.visit = 0 ∨ x.visit = 1 := by
      decide
    exact hall im' him'
  simp only [examplePhotometryModel, List.mem_singleton] at hk
  rcases hv with hv | hv <;> rw [hv] at hk <;> subst hk <;> decide

theorem example_derivativesCover (model : List ℚ) (a : Associations) :
    examplePhotometryModel.DerivativesCover model a := by
  intro im _ ms _ im' _ indices
  simp [examplePhotometryModel, PhotometryFit.npar_max]

/-! ## Lemmas on the per-image tables -/

theorem findMapping?_isSome_iff {K : Type} [DecidableEq K] (l : List (K × TwoTransfoMapping))
    (k : K) : (findMapping? l k).isSome = true ↔ k ∈ l.map Prod.fst := by
  induction l with
  | nil => simp [findMapping?]
  | cons e rest ih =>
    obtain ⟨k', v⟩ := e
    unfold findMapping?
    by_cases h : k' = k
    · simp [h]
    · simp only [if_neg h, ih, List.map_cons, List.mem_cons]
      constructor
      · exact Or.inr
      · rintro (h' | h')
        · exact absurd h'.symm h
        · exact h'

theorem findMapping?_map_isSome {K : Type} [DecidableEq K] (l : List (K × TwoTransfoMapping))
    (f : TwoTransfoMapping → TwoTransfoMapping) (k : K) :
    findMapping? (l.map fun i => (i.1, f i.2)) k = (findMapping? l k).map f := by
  induction l with
  | nil => rfl
  | cons e rest ih =>
    obtain ⟨k', v⟩ := e
    simp only [List.map_cons, findMapping?]
    by_cases h : k' = k
    · simp [h]
    · simp only [if_neg h, ih]

namespace ConstrainedAstrometryModel

theorem secondLoop_keys (polys : PolyFactory) (chipOrder : Int) :
    ∀ (l : List CcdImage) (s : MappingMap × List (CcdImageKey × TwoTransfoMapping))
      (key : CcdImageKey),
      (findMapping? (l.foldl (secondLoopStep polys chipOrder) s).2 key).isSome = true ↔
        ((findMapping? s.2 key).isSome = true ∨ ∃ im ∈ l, im.getHashKey = key) := by
  intro l
  induction l with
  | nil => intro s key; simp
  | cons im rest ih =>
    intro s key
    simp only [List.foldl_cons]
    rw [ih]
    have hstep : (secondLoopStep polys chipOrder s im).2
        = insertMapping s.2 im.getHashKey (TwoTransfoMapping.new im.ccdId im.visit) := rfl
    rw [hstep, findMapping?_insertMapping]
    by_cases hk : key = im.getHashKey
    · simp [hk]
    · simp only [if_neg hk, List.mem_cons, exists_eq_or_imp]
      constructor
      · rintro (h | h)
        · exact Or.inl h
        · exact Or.inr (Or.inr h)
      · rintro (h | h | h)
        · exact Or.inl h
        · exact absurd h.symm hk
        · exact Or.inr h

theorem new_nil (polys : PolyFactory) (chipOrder visitOrder : Int) :
    new polys [] chipOrder visitOrder = Except.error Exception.outOfRange := rfl

theorem new_ok_mappings (polys : PolyFactory) (l : List CcdImage) (chipOrder visitOrder : Int)
    (m : ConstrainedAstrometryModel) (hnew : new polys l chipOrder visitOrder = Except.ok m) :
    ∃ chipMap : MappingMap,
      m.mappings = (l.foldl (secondLoopStep polys chipOrder) (chipMap, [])).2 := by
  unfold new at hnew
  simp only at hnew
  split at hnew
  · cases hnew
  · cases hnew
    exact ⟨_, rfl⟩

theorem new_mappings (polys : PolyFactory) (l : List CcdImage) (chipOrder visitOrder : Int)
    (m : ConstrainedAstrometryModel) (hnew : new polys l chipOrder visitOrder = Except.ok m) :
    (∀ im ∈ l, findMapping? m.mappings im.getHashKey
      = some (TwoTransfoMapping.new im.ccdId im.visit)) ∧
    ∀ key, (findMapping? m.mappings key).isSome = true ↔ ∃ im ∈ l, im.getHashKey = key := by
  have hne : l ≠ [] := by
    intro h
    rw [h, new_nil] at hnew
    cases hnew
  obtain ⟨s, v, m0, _, hv, hnew0, _, _, hmap⟩ := new_spec polys l chipOrder visitOrder hne
  have hm : m0 = m := by
    rw [hnew0] at hnew
    cases hnew
    rfl
  subst hm
  refine ⟨hmap, ?_⟩
  intro key
  obtain ⟨chipMap, hmm⟩ := new_ok_mappings polys l chipOrder visitOrder m0 hnew
  rw [hmm, secondLoop_keys polys chipOrder l (chipMap, []) key]
  simp [findMapping?]

end ConstrainedAstrometryModel

namespace ConstrainedPolyModel

theorem secondLoop_outside (polys : PolyFactory) (chipDegree : Int) :
    ∀ (l : List CcdImage) (i : Nat) (s : MappingMap × List (Nat × TwoTransfoMapping))
      (p : Nat), p < i ∨ i + l.length ≤ p →
        findMapping? (secondLoop polys chipDegree l i s).2 p = findMapping? s.2 p := by
  intro l
  induction l with
  | nil => intro i s p _; rfl
  | cons im rest ih =>
    intro i s p hp
    rw [secondLoop]
    simp only [List.length_cons] at hp
    rw [ih (i + 1) _ p (by omega)]
    simp only
    rw [findMapping?_insertMapping, if_neg (by omega)]

theorem secondLoop_inside (polys : PolyFactory) (chipDegree : Int) :
    ∀ (l : List CcdImage) (i : Nat) (s : MappingMap × List (Nat × TwoTransfoMapping))
      (j : Nat) (im : CcdImage), l[j]? = some im →
        findMapping? (secondLoop polys chipDegree l i s).2 (i + j)
          = some (TwoTransfoMapping.new im.ccdId im.visit) := by
  intro l
  induction l with
  | nil => intro i s j im h; simp at h
  | cons im0 rest ih =>
    intro i s j im h
    rw [secondLoop]
    cases j with
    | zero =>
      simp only [List.getElem?_cons_zero, Option.some.injEq] at h
      subst h
      rw [secondLoop_outside polys chipDegree rest (i + 1) _ (i + 0) (by omega)]
      simp only [Nat.add_zero]
      rw [findMapping?_insertMapping, if_pos rfl]
    | succ j =>
      simp only [List.getElem?_cons_succ] at h
      rw [show i + (j + 1) = i + 1 + j by omega]
      exact ih (i + 1) _ j im h

theorem poly_new_mappings (polys : PolyFactory) (l : List CcdImage) (initFromWCS : Bool)
    (nNotFit : Nat) (chipDegree visitDegree : Int) :
    (∀ p, l.length ≤ p →
      findMapping? (new polys l initFromWCS nNotFit chipDegree visitDegree).mappings p
        = none) ∧
    ∀ p im, l[p]? = some im →
      findMapping? (new polys l initFromWCS nNotFit chipDegree visitDegree).mappings p
        = some (TwoTransfoMapping.new im.ccdId im.visit) := by
  constructor
  · intro p hp
    have := secondLoop_outside polys chipDegree l 0
      ((l.foldl (firstLoopStep polys initFromWCS chipDegree visitDegree) ([], [])).2, []) p
      (by omega)
    simpa [new, findMapping?] using this
  · intro p im hp
    have := secondLoop_inside polys chipDegree l 0
      ((l.foldl (firstLoopStep polys initFromWCS chipDegree visitDegree) ([], [])).2, []) p
      im hp
    simpa [new] using this

end ConstrainedPolyModel

/-! ## The selection loop is the greedy selection -/

theorem dropIt_false (aff : List Int) (l : List Nat)
    (h : PhotometryFit.dropIt aff l = some false) :
    ∃ k ∈ l, ∃ a, aff[k]? = some a ∧ a ≠ 0 := by
  induction l with
  | nil => simp [PhotometryFit.dropIt] at h
  | cons i rest ih =>
    unfold PhotometryFit.dropIt at h
    cases ha : aff[i]? with
    | none => simp [ha] at h
    | some a =>
      cases hd : PhotometryFit.dropIt aff rest with
      | none => simp [ha, hd] at h
      | some d =>
        simp only [ha, hd, Option.some.injEq] at h
        by_cases ha0 : a = 0
        · subst ha0
          simp only [bne_self_eq_false, Bool.false_eq_true, if_false] at h
          subst h
          obtain ⟨k, hk, a, hka, hne⟩ := ih hd
          exact ⟨k, List.mem_cons_of_mem _ hk, a, hka, hne⟩
        · exact ⟨i, List.mem_cons_self _ _, a, ha, ha0⟩

theorem increment_not_mem (l : List Nat) :
    ∀ aff aff' : List Int, PhotometryFit.increment aff l = some aff' →
      ∀ k, k ∉ l → aff'[k]? = aff[k]? := by
  induction l with
  | nil =>
    intro aff aff' h k _
    simp only [PhotometryFit.increment, Option.some.injEq] at h
    rw [h]
  | cons i rest ih =>
    intro aff aff' h k hk
    unfold PhotometryFit.increment at h
    cases ha : aff[i]? with
    | none => simp [ha] at h
    | some a =>
      simp only [ha] at h
      simp only [List.mem_cons, not_or] at hk
      rw [ih _ _ h k hk.2, List.getElem?_set, if_neg (Ne.symm hk.1)]

theorem greedy_keeps_selected {M : Type} (pm : PhotometryModel M) (fit : PhotometryFit M) :
    ∀ (l selected : List MeasRef), selected <+: PhotometryFit.greedy pm fit l selected := by
  intro l
  induction l with
  | nil => intro selected; exact List.prefix_refl _
  | cons r rest ih =>
    intro selected
    unfold PhotometryFit.greedy
    split
    · exact ih selected
    · exact (List.prefix_append _ _).trans (ih _)

theorem indicesOf_eq {M : Type} (pm : PhotometryModel M) (fit : PhotometryFit M) (r : MeasRef)
    (ms : MeasuredStar) (h : fit.associations.measuredStar? r = some ms) :
    PhotometryFit.indicesOf pm fit r = PhotometryFit.getMeasuredStarIndices pm fit ms := by
  simp only [PhotometryFit.indicesOf, h]

theorem sharesIndex_of_mem {M : Type} (pm : PhotometryModel M) (fit : PhotometryFit M)
    (a b : MeasRef) (ia ib : List Nat) (ha : PhotometryFit.indicesOf pm fit a = some ia)
    (hb : PhotometryFit.indicesOf pm fit b = some ib) :
    PhotometryFit.sharesIndex pm fit a b = true ↔ ∃ k ∈ ia, k ∈ ib := by
  simp [PhotometryFit.sharesIndex, ha, hb]

theorem outlierLoop_greedy {M : Type} (pm : PhotometryModel M) (fit : PhotometryFit M)
    (cut : ℚ) :
    ∀ (l : List Chi2Entry) (aff : List Int) (pre sel res : List MeasRef),
      PhotometryFit.AffectedBy pm fit aff sel →
      (∀ x ∈ sel, ∃ ix, PhotometryFit.indicesOf pm fit x = some ix) →
      PhotometryFit.outlierLoop pm fit cut l aff (pre ++ sel) = some res →
      res = pre ++ PhotometryFit.greedy pm fit
        ((l.takeWhile fun e => !decide (e.chi2 < cut)).map fun e => e.measuredStar) sel := by
  intro l
  induction l with
  | nil =>
    intro aff pre sel res _ _ h
    simp only [PhotometryFit.outlierLoop, Option.some.injEq] at h
    subst h
    rfl
  | cons e rest ih =>
    intro aff pre sel res hinv hsel h
    unfold PhotometryFit.outlierLoop at h
    by_cases hcut : e.chi2 < cut
    · simp only [hcut, if_true, Option.some.injEq] at h
      subst h
      simp [List.takeWhile, hcut, PhotometryFit.greedy]
    · simp only [hcut, if_false] at h
      have htw : ((e :: rest).takeWhile fun e => !decide (e.chi2 < cut))
          = e :: rest.takeWhile fun e => !decide (e.chi2 < cut) := by
        simp [List.takeWhile, hcut]
      rw [htw, List.map_cons, PhotometryFit.greedy]
      cases hms : fit.associations.measuredStar? e.measuredStar with
      | none => simp [hms] at h
      | some ms =>
        simp only [hms] at h
        cases hind : PhotometryFit.getMeasuredStarIndices pm fit ms with
        | none => simp [hind] at h
        | some indices =>
          simp only [hind] at h
          have hix : PhotometryFit.indicesOf pm fit e.measuredStar = some indices := by
            rw [indicesOf_eq pm fit _ ms hms, hind]
          cases hd : PhotometryFit.dropIt aff indices with
          | none => simp [hd] at h
          | some d =>
            simp only [hd] at h
            cases d with
            | false =>
              simp only [Bool.false_eq_true, if_false] at h
              obtain ⟨k, hk, a, hka, hne⟩ := dropIt_false aff indices hd
              obtain ⟨x, hx, ix, hxi, hkx⟩ := ((hinv k a hka).2).mp hne
              have hany : sel.any (fun x => PhotometryFit.sharesIndex pm fit e.measuredStar x)
                  = true := by
                rw [List.any_eq_true]
                exact ⟨x, hx, (sharesIndex_of_mem pm fit _ _ _ _ hix hxi).mpr ⟨k, hk, hkx⟩⟩
              rw [if_pos hany]
              exact ih aff pre sel res hinv hsel h
            | true =>
              simp only [if_true] at h
              have hzero := dropIt_true aff indices hd
              have hany : ¬ sel.any
                  (fun x => PhotometryFit.sharesIndex pm fit e.measuredStar x) = true := by
                rw [List.any_eq_true]
                rintro ⟨x, hx, hsh⟩
                obtain ⟨ix, hxi⟩ := hsel x hx
                obtain ⟨k, hk, hkx⟩ := (sharesIndex_of_mem pm fit _ _ _ _ hix hxi).mp hsh
                have := ((hinv k 0 (hzero k hk)).2).mpr ⟨x, hx, ix, hxi, hkx⟩
                exact this rfl
              rw [if_neg hany]
              cases hinc : PhotometryFit.increment aff indices with
              | none => simp [hinc] at h
              | some aff' =>
                simp only [hinc] at h
                rw [List.append_assoc] at h
                refine ih aff' pre (sel ++ [e.measuredStar]) res ?_ ?_ h
                · intro k a' hka'
                  have hnn : ∀ (k : Nat) (a : Int), aff[k]? = some a → 0 ≤ a :=
                    fun k a hk => (hinv k a hk).1
                  refine ⟨increment_nonneg indices aff aff' hnn hinc k a' hka', ?_⟩
                  by_cases hk : k ∈ indices
                  · obtain ⟨a'', h1, h2⟩ := increment_pos indices aff aff' hnn hinc k hk
                    rw [hka'] at h1
                    cases h1
                    constructor
                    · intro _
                      exact ⟨e.measuredStar, by simp, indices, hix, hk⟩
                    · intro _
                      omega
                  · rw [increment_not_mem indices aff aff' hinc k hk] at hka'
                    rw [(hinv k a' hka').2]
                    constructor
                    · rintro ⟨x, hx, ix, hxi, hkx⟩
                      exact ⟨x, List.mem_append_left _ hx, ix, hxi, hkx⟩
                    · rintro ⟨x, hx, ix, hxi, hkx⟩
                      rcases List.mem_append.mp hx with hx | hx
                      · exact ⟨x, hx, ix, hxi, hkx⟩
                      · simp only [List.mem_singleton] at hx
                        subst hx
                        rw [hix] at hxi
                        cases hxi
                        exact absurd hkx hk
                · intro x hx
                  rcases List.mem_append.mp hx with hx | hx
                  · exact hsel x hx
                  · simp only [List.mem_singleton] at hx
                    subst hx
                    exact ⟨indices, hix⟩

theorem takeWhile_eq_filter_of_descending (cut : ℚ) :
    ∀ l : List Chi2Entry, l.Pairwise (fun a b => b.chi2 ≤ a.chi2) →
      (l.takeWhile fun e => !decide (e.chi2 < cut))
        = l.filter fun e => !decide (e.chi2 < cut) := by
  intro l
  induction l with
  | nil => intro _; rfl
  | cons e rest ih =>
    intro h
    rw [List.pairwise_cons] at h
    by_cases hcut : e.chi2 < cut
    · have hnone : rest.filter (fun e => !decide (e.chi2 < cut)) = [] := by
        rw [List.filter_eq_nil_iff]
        intro x hx
        have := h.1 x hx
        simp only [Bool.not_eq_true', decide_eq_false_iff_not, not_not]
        exact lt_of_le_of_lt this hcut
      simp [List.takeWhile, List.filter, hcut, hnone]
    · simp [List.takeWhile, List.filter, hcut, ih h.2]

theorem affectedBy_zero {M : Type} (pm : PhotometryModel M) (fit : PhotometryFit M) (n : Nat) :
    PhotometryFit.AffectedBy pm fit (List.replicate n 0) [] := by
  intro k a hk
  rw [List.getElem?_replicate] at hk
  split_ifs at hk
  cases hk
  simp

theorem findOutliers_eq_greedy {M : Type} (pm : PhotometryModel M) (sqrt : ℚ → ℚ)
    (sort : Chi2Vect → Chi2Vect) (fit : PhotometryFit M) (nSigCut : ℚ)
    (outliers outs : List MeasRef) (hperm : ∀ l, (sort l).Perm l)
    (h : PhotometryFit.findOutliers pm sqrt sort fit nSigCut outliers = some outs) :
    ∃ chi2s, PhotometryFit.accumulateStat pm fit Chi2Vect.AddEntry ([] : Chi2Vect)
        = some chi2s ∧
      outs = outliers ++ PhotometryFit.greedy pm fit
        (((sort chi2s).reverse.takeWhile fun e =>
            !decide (e.chi2 < PhotometryFit.outlierCut sqrt nSigCut (sort chi2s))).map
          fun e => e.measuredStar) [] ∧
      (chi2s.length = 0 → outs = outliers) := by
  unfold PhotometryFit.findOutliers at h
  cases hacc : PhotometryFit.accumulateStat pm fit Chi2Vect.AddEntry ([] : Chi2Vect) with
  | none => simp [hacc] at h
  | some chi2s =>
    simp only [hacc] at h
    refine ⟨chi2s, rfl, ?_⟩
    by_cases hn : chi2s.length = 0
    · simp only [hn, if_true, Option.some.injEq] at h
      subst h
      have hnil : chi2s = [] := List.length_eq_zero.mp hn
      have hs : sort chi2s = [] := by
        have := hperm chi2s
        rw [hnil] at this ⊢
        exact List.Perm.eq_nil this
      rw [hs]
      simp [PhotometryFit.greedy]
    · simp only [hn, if_false] at h
      refine ⟨?_, fun h0 => absurd h0 hn⟩
      have h' : PhotometryFit.outlierLoop pm fit
          (PhotometryFit.outlierCut sqrt nSigCut (sort chi2s)) (sort chi2s).reverse
          (List.replicate fit.nParTot 0) (outliers ++ []) = some outs := by
        rw [List.append_nil]
        exact h
      exact outlierLoop_greedy pm fit _ _ _ outliers [] outs
        (affectedBy_zero pm fit _) (fun x hx => by cases hx) h'

theorem exampleSort_perm (l : Chi2Vect) : (exampleSort l).Perm l :=
  List.perm_insertionSort _ l

theorem exampleSort_sorted (l : Chi2Vect) :
    (exampleSort l).Pairwise fun a b => a.chi2 ≤ b.chi2 := by
  haveI : IsTotal Chi2Entry (fun a b => a.chi2 ≤ b.chi2) := ⟨fun a b => le_total a.chi2 b.chi2⟩
  haveI : IsTrans Chi2Entry (fun a b => a.chi2 ≤ b.chi2) :=
    ⟨fun a b c hab hbc => le_trans hab hbc⟩
  exact List.sorted_insertionSort (fun a b : Chi2Entry => a.chi2 ≤ b.chi2) l

/-! ## Measurements that all have the same chi2 -/

theorem mean_of_const (l : List ℚ) (c : ℚ) (hne : l ≠ []) (hall : ∀ x ∈ l, x = c) :
    mean l = c := by
  have hl : l = List.replicate l.length c := List.eq_replicate_iff.mpr ⟨rfl, hall⟩
  have hn : (l.length : ℚ) ≠ 0 := by
    have : l.length ≠ 0 := fun h => hne (List.length_eq_zero.mp h)
    exact_mod_cast this
  unfold mean
  rw [hl, List.sum_replicate, List.length_replicate, nsmul_eq_mul]
  field_simp

theorem variance_of_const (l : List ℚ) (c : ℚ) (hne : l ≠ []) (hall : ∀ x ∈ l, x = c) :
    populationVariance l = 0 := by
  unfold populationVariance
  rw [mean_of_const l c hne hall]
  have hz : (l.map fun x => (x - c) ^ 2) = l.map fun _ => (0 : ℚ) := by
    apply List.map_congr_left
    intro x hx
    rw [hall x hx]
    ring
  rw [hz]
  simp

/-! ## The derivatives, row by row -/

theorem addedTo_refl (a : List ℚ) : AddedTo a a fun _ => 0 := by
  refine ⟨rfl, ?_⟩
  intro l
  cases a[l]? <;> simp

theorem addedTo_trans {a b c : List ℚ} {f g : Nat → ℚ} (h1 : AddedTo a b f)
    (h2 : AddedTo b c g) : AddedTo a c fun l => f l + g l := by
  refine ⟨h2.1.trans h1.1, ?_⟩
  intro l
  rw [h2.2 l, h1.2 l]
  cases a[l]? with
  | none => rfl
  | some x => simp [add_assoc]

theorem addedTo_congr {a b : List ℚ} {f g : Nat → ℚ} (h : AddedTo a b f)
    (hfg : ∀ l, f l = g l) : AddedTo a b g := by
  refine ⟨h.1, ?_⟩
  intro l
  rw [h.2 l, hfg l]

theorem addAt_addedTo (rhs : List ℚ) (i : Nat) (v : ℚ) (rhs' : List ℚ)
    (h : addAt rhs i v = some rhs') : AddedTo rhs rhs' fun l => if i = l then v else 0 := by
  unfold addAt at h
  cases hi : rhs[i]? with
  | none => simp [hi] at h
  | some x =>
    simp only [hi, Option.some.injEq] at h
    subst h
    refine ⟨by simp, ?_⟩
    intro l
    rw [List.getElem?_set]
    by_cases hil : i = l
    · subst hil
      simp [hi, lt_of_getElem?_some hi]
    · simp only [if_neg hil]
      cases rhs[l]? <;> simp

namespace PhotometryFit

variable {M : Type}

theorem modelDerivatives_rows (h : List ℚ) (fsFlux sigma res : ℚ) (kT : Nat) :
    ∀ (idx : List Nat) (k : Nat) (tl tl' : TripletList) (rhs rhs' : List ℚ),
      modelDerivatives h fsFlux sigma res kT idx k tl rhs = some (tl', rhs') →
        idx.length ≤ (h.drop k).length ∧
        tl'.triplets = tl.triplets
          ++ (idx.zip (h.drop k)).map (fun p => (p.1, kT, p.2 * fsFlux / sigma)) ∧
        tl'.nextFreeIndex = tl.nextFreeIndex ∧
        AddedTo rhs rhs' fun l =>
          (((idx.zip (h.drop k)).filter fun p => p.1 = l).map fun p =>
            p.2 * res / sqr sigma).sum := by
  intro idx
  induction idx with
  | nil =>
    intro k tl tl' rhs rhs' hcall
    simp only [modelDerivatives, Option.some.injEq, Prod.mk.injEq] at hcall
    obtain ⟨h1, h2⟩ := hcall
    subst h1 h2
    refine ⟨by simp, by simp, rfl, ?_⟩
    exact addedTo_congr (addedTo_refl rhs) (fun l => by simp)
  | cons i rest ih =>
    intro k tl tl' rhs rhs' hcall
    unfold modelDerivatives at hcall
    cases hk : h[k]? with
    | none => simp [hk] at hcall
    | some hkv =>
      simp only [hk] at hcall
      cases ha : addAt rhs i (hkv * res / sqr sigma) with
      | none => simp [ha] at hcall
      | some rhs1 =>
        simp only [ha] at hcall
        obtain ⟨hlen, htr, hnext, hadd⟩ := ih _ _ _ _ _ hcall
        have hklt : k < h.length := lt_of_getElem?_some hk
        have hdrop : h.drop k = hkv :: h.drop (k + 1) := by
          rw [List.drop_eq_getElem_cons hklt]
          congr 1
          rw [List.getElem?_eq_getElem hklt] at hk
          exact Option.some.inj hk
        refine ⟨?_, ?_, ?_, ?_⟩
        · rw [hdrop]
          simp only [List.length_cons]
          omega
        · rw [htr, hdrop]
          simp [TripletList.AddTriplet]
        · rw [hnext]
          rfl
        · refine addedTo_congr (addedTo_trans (addAt_addedTo rhs i _ rhs1 ha) hadd) ?_
          intro l
          rw [hdrop]
          by_cases hil : i = l
          · simp [List.filter_cons, hil]
          · simp [List.filter_cons, hil]

end PhotometryFit

namespace PhotometryFit

variable {M : Type}

theorem modelPart_rows (pm : PhotometryModel M) (fit : PhotometryFit M) (ccdImage : CcdImage)
    (ms : MeasuredStar) (fs : FittedStar) (sigma res : ℚ) (h : List ℚ) (idx : List Nat)
    (k : Nat) (tl : TripletList) (rhs : List ℚ) (idx' : List Nat) (tl' : TripletList)
    (rhs' : List ℚ)
    (hcall : modelPart pm fit ccdImage ms fs sigma res h idx k tl rhs
      = some (idx', tl', rhs')) :
    idx' = (if fit.fittingModel then
        pm.getIndicesAndDerivatives fit.photometryModel ms ccdImage idx h else (idx, h)).1 ∧
    tl'.triplets = tl.triplets ++
      (if fit.fittingModel then
        ((pm.getIndicesAndDerivatives fit.photometryModel ms ccdImage idx h).1.zip
          (pm.getIndicesAndDerivatives fit.photometryModel ms ccdImage idx h).2).map
          (fun p => (p.1, k, p.2 * fs.flux / sigma))
      else []) ∧
    tl'.nextFreeIndex = tl.nextFreeIndex ∧
    AddedTo rhs rhs' (fun l =>
      if fit.fittingModel then
        ((((pm.getIndicesAndDerivatives fit.photometryModel ms ccdImage idx h).1.zip
          (pm.getIndicesAndDerivatives fit.photometryModel ms ccdImage idx h).2).filter
            fun p => p.1 = l).map fun p => p.2 * res / sqr sigma).sum
      else 0) := by
  unfold modelPart at hcall
  by_cases hm : fit.fittingModel = true
  · simp only [hm, if_true] at hcall ⊢
    cases hmd : modelDerivatives
        (pm.getIndicesAndDerivatives fit.photometryModel ms ccdImage idx h).2 fs.flux sigma
        res k (pm.getIndicesAndDerivatives fit.photometryModel ms ccdImage idx h).1 0 tl
        rhs with
    | none => simp [hmd] at hcall
    | some tr =>
      obtain ⟨t1, r1⟩ := tr
      simp only [hmd, Option.some.injEq, Prod.mk.injEq] at hcall
      obtain ⟨h1, h2, h3⟩ := hcall
      subst h1 h2 h3
      obtain ⟨_, htr, hnext, hadd⟩ := modelDerivatives_rows _ _ _ _ _ _ _ _ _ _ _ hmd
      simp only [List.drop_zero] at htr hadd
      exact ⟨rfl, htr, hnext, hadd⟩
  · simp only [hm, Bool.false_eq_true, if_false, Option.some.injEq, Prod.mk.injEq] at hcall ⊢
    obtain ⟨h1, h2, h3⟩ := hcall
    subst h1 h2 h3
    exact ⟨rfl, by simp, rfl, addedTo_refl _⟩

theorem fluxesPart_rows (fit : PhotometryFit M) (fs : FittedStar) (pf sigma res : ℚ)
    (k : Nat) (tl : TripletList) (rhs : List ℚ) (tl' : TripletList) (rhs' : List ℚ)
    (hcall : fluxesPart fit fs pf sigma res k tl rhs = some (tl', rhs')) :
    tl'.triplets = tl.triplets ++
      (if fit.fittingFluxes then [(fs.indexInMatrix, k, pf / sigma)] else []) ∧
    tl'.nextFreeIndex = tl.nextFreeIndex ∧
    AddedTo rhs rhs' (fun l =>
      if fit.fittingFluxes then
        (if fs.indexInMatrix = l then res * pf / sqr sigma else 0)
      else 0) := by
  unfold fluxesPart at hcall
  by_cases hf : fit.fittingFluxes = true
  · simp only [hf, if_true] at hcall ⊢
    cases ha : addAt rhs fs.indexInMatrix (res * pf / sqr sigma) with
    | none => simp [ha] at hcall
    | some rhs1 =>
      simp only [ha, Option.some.injEq, Prod.mk.injEq] at hcall
      obtain ⟨h1, h2⟩ := hcall
      subst h1 h2
      exact ⟨rfl, rfl, addAt_addedTo _ _ _ _ ha⟩
  · simp only [hf, Bool.false_eq_true, if_false, Option.some.injEq, Prod.mk.injEq] at hcall ⊢
    obtain ⟨h1, h2⟩ := hcall
    subst h1 h2
    exact ⟨by simp, rfl, addedTo_refl _⟩

theorem derivativesLoop_rows (pm : PhotometryModel M) (fit : PhotometryFit M)
    (ccdImage : CcdImage) :
    ∀ (cat : List MeasuredStar) (idx : List Nat) (k : Nat) (tl : TripletList) (rhs : List ℚ)
      (k' : Nat) (tl' : TripletList) (rhs' : List ℚ),
      derivativesLoop pm fit ccdImage cat idx k tl rhs = some (k', tl', rhs') →
        ∃ rows, catalogRows pm fit ccdImage cat idx = some rows ∧
          k' = k + rows.length ∧
          tl'.triplets = tl.triplets ++ tripletsFrom pm fit rows k ∧
          tl'.nextFreeIndex = tl.nextFreeIndex ∧
          AddedTo rhs rhs' fun l => (rows.map fun row => row.gradient pm fit l).sum := by
  intro cat
  induction cat with
  | nil =>
    intro idx k tl rhs k' tl' rhs' hcall
    simp only [derivativesLoop, Option.some.injEq, Prod.mk.injEq] at hcall
    obtain ⟨h1, h2, h3⟩ := hcall
    subst h1 h2 h3
    exact ⟨[], rfl, rfl, by simp [tripletsFrom], rfl,
      addedTo_congr (addedTo_refl _) (fun l => by simp)⟩
  | cons ms rest ih =>
    intro idx k tl rhs k' tl' rhs' hcall
    rw [derivativesLoop] at hcall
    rw [catalogRows]
    by_cases hv : ms.valid = true
    · simp only [hv, Bool.not_true, Bool.false_eq_true, if_false] at hcall ⊢
      cases hfs : fit.associations.fittedStar? ms.fittedStar with
      | none => simp [hfs] at hcall
      | some fs =>
        simp only [hfs] at hcall ⊢
        cases hA : modelPart pm fit ccdImage ms fs ms.eflux
            (ms.flux - pm.photomFactor fit.photometryModel ccdImage ms * fs.flux)
            (List.replicate npar_max 0) idx k tl rhs with
        | none => simp [hA] at hcall
        | some rA =>
          obtain ⟨idx1, tl1, rhs1⟩ := rA
          simp only [hA] at hcall
          cases hB : fluxesPart fit fs (pm.photomFactor fit.photometryModel ccdImage ms)
              ms.eflux
              (ms.flux - pm.photomFactor fit.photometryModel ccdImage ms * fs.flux)
              k tl1 rhs1 with
          | none => simp [hB] at hcall
          | some rB =>
            obtain ⟨tl2, rhs2⟩ := rB
            simp only [hB] at hcall
            obtain ⟨hi1, htA, hnA, haA⟩ := modelPart_rows _ _ _ _ _ _ _ _ _ _ _ _ _ _ _ hA
            obtain ⟨htB, hnB, haB⟩ := fluxesPart_rows _ _ _ _ _ _ _ _ _ _ hB
            obtain ⟨rows, hrows, hk', htC, hnC, haC⟩ := ih _ _ _ _ _ _ _ hcall
            rw [hi1] at hrows
            rw [hrows]
            refine ⟨_, rfl, ?_, ?_, ?_, ?_⟩
            · simp only [List.length_cons]
              omega
            · rw [htC, htB, htA]
              simp only [tripletsFrom, Row.triplets, Row.modelTriplets, Row.fluxTriplet, Row.pf,
                Row.sigma, List.append_assoc]
              by_cases hm : fit.fittingModel = true
              · simp [hm]
              · simp [hm]
            · rw [hnC, hnB, hnA]
            · refine addedTo_congr (addedTo_trans (addedTo_trans haA haB) haC) ?_
              intro l
              simp only [List.map_cons, List.sum_cons, Row.gradient, Row.modelGradient,
                Row.fluxGradient, Row.res, Row.pf, Row.sigma]
              by_cases hm : fit.fittingModel = true
              · simp [hm]
              · simp [hm]
    · have hv' : ms.valid = false := by simpa using hv
      simp only [hv', Bool.not_false, if_true] at hcall ⊢
      exact ih _ _ _ _ _ _ _ hcall

end PhotometryFit

theorem tripletsFrom_append {M : Type} (pm : PhotometryModel M) (fit : PhotometryFit M) :
    ∀ (a b : List Row) (k : Nat),
      tripletsFrom pm fit (a ++ b) k
        = tripletsFrom pm fit a k ++ tripletsFrom pm fit b (k + a.length) := by
  intro a
  induction a with
  | nil => intro b k; simp [tripletsFrom]
  | cons row rest ih =>
    intro b k
    have := ih b (k + 1)
    rw [show k + 1 + rest.length = k + (rest.length + 1) by omega] at this
    show row.triplets pm fit k ++ tripletsFrom pm fit (rest ++ b) (k + 1)
      = (row.triplets pm fit k ++ tripletsFrom pm fit rest (k + 1))
          ++ tripletsFrom pm fit b (k + (rest.length + 1))
    rw [this, List.append_assoc]

namespace PhotometryFit

variable {M : Type}

theorem LSDerivativesImage_rows (pm : PhotometryModel M) (fit : PhotometryFit M) (ci : Nat)
    (im : CcdImage) (tl : TripletList) (rhs : List ℚ) (tl' : TripletList) (rhs' : List ℚ)
    (him : fit.associations.ccdImageList[ci]? = some im)
    (hcall : LSDerivativesImage pm fit ci tl rhs none = some (tl', rhs')) :
    ∃ rows, catalogRows pm fit im im.catalogForFit (List.replicate npar_max (2 ^ 32 - 1))
        = some rows ∧
      tl'.triplets = tl.triplets ++ tripletsFrom pm fit rows tl.nextFreeIndex ∧
      tl'.nextFreeIndex = tl.nextFreeIndex + rows.length ∧
      AddedTo rhs rhs' fun l => (rows.map fun row => row.gradient pm fit l).sum := by
  unfold LSDerivativesImage at hcall
  rw [him] at hcall
  dsimp only [derivativesCatalog] at hcall
  cases hl : derivativesLoop pm fit im im.catalogForFit
      (List.replicate npar_max (2 ^ 32 - 1)) tl.NextFreeIndex tl rhs with
  | none => rw [hl] at hcall; cases hcall
  | some r =>
    obtain ⟨k1, tl1, rhs1⟩ := r
    rw [hl] at hcall
    dsimp only at hcall
    simp only [Option.some.injEq, Prod.mk.injEq] at hcall
    obtain ⟨h1, h2⟩ := hcall
    subst h1 h2
    obtain ⟨rows, hrows, hk, htr, _, hadd⟩ := derivativesLoop_rows pm fit im _ _ _ _ _ _ _ _ hl
    exact ⟨rows, hrows, htr, hk, hadd⟩

theorem derivativesImages_rows (pm : PhotometryModel M) (fit : PhotometryFit M) :
    ∀ (l : List CcdImage) (ci : Nat) (tl : TripletList) (rhs : List ℚ) (tl' : TripletList)
      (rhs' : List ℚ),
      fit.associations.ccdImageList.drop ci = l →
      derivativesImages pm fit l ci tl rhs = some (tl', rhs') →
        ∃ rows, imagesRows pm fit l = some rows ∧
          tl'.triplets = tl.triplets ++ tripletsFrom pm fit rows tl.nextFreeIndex ∧
          tl'.nextFreeIndex = tl.nextFreeIndex + rows.length ∧
          AddedTo rhs rhs' fun l => (rows.map fun row => row.gradient pm fit l).sum := by
  intro l
  induction l with
  | nil =>
    intro ci tl rhs tl' rhs' _ hcall
    simp only [derivativesImages, Option.some.injEq, Prod.mk.injEq] at hcall
    obtain ⟨h1, h2⟩ := hcall
    subst h1 h2
    exact ⟨[], rfl, by simp [tripletsFrom], rfl,
      addedTo_congr (addedTo_refl _) (fun l => by simp)⟩
  | cons im rest ih =>
    intro ci tl rhs tl' rhs' hdrop hcall
    have hci : fit.associations.ccdImageList[ci]? = some im := by
      have := congrArg List.head? hdrop
      simpa [List.head?_drop] using this
    have hrest : fit.associations.ccdImageList.drop (ci + 1) = rest := by
      have := congrArg List.tail hdrop
      simpa [List.tail_drop] using this
    rw [derivativesImages] at hcall
    cases hli : LSDerivativesImage pm fit ci tl rhs none with
    | none => rw [hli] at hcall; cases hcall
    | some r =>
      obtain ⟨tl1, rhs1⟩ := r
      rw [hli] at hcall
      dsimp only at hcall
      obtain ⟨rowsA, hA, htA, hnA, haA⟩ := LSDerivativesImage_rows pm fit ci im _ _ _ _ hci hli
      obtain ⟨rowsB, hB, htB, hnB, haB⟩ := ih _ _ _ _ _ hrest hcall
      refine ⟨rowsA ++ rowsB, ?_, ?_, ?_, ?_⟩
      · rw [imagesRows, hA, hB]
      · rw [htB, htA, hnA, tripletsFrom_append, List.append_assoc]
      · rw [hnB, hnA, List.length_append]
        omega
      · refine addedTo_congr (addedTo_trans haA haB) ?_
        intro l
        simp only [List.map_append, List.sum_append]

theorem LSDerivatives_rows (pm : PhotometryModel M) (fit : PhotometryFit M)
    (tl : TripletList) (rhs : List ℚ) (tl' : TripletList) (rhs' : List ℚ)
    (hcall : LSDerivatives pm fit tl rhs = some (tl', rhs')) :
    ∃ rows, imagesRows pm fit fit.associations.ccdImageList = some rows ∧
      tl'.triplets = tl.triplets ++ tripletsFrom pm fit rows tl.nextFreeIndex ∧
      tl'.nextFreeIndex = tl.nextFreeIndex + rows.length ∧
      AddedTo rhs rhs' fun l => (rows.map fun row => row.gradient pm fit l).sum :=
  derivativesImages_rows pm fit _ 0 tl rhs tl' rhs' rfl hcall

end PhotometryFit

/-- The rows of a catalog are its valid measurements, in order, each with its
fitted star and with what the model returned for it. -/
theorem catalogRows_spec {M : Type} (pm : PhotometryModel M) (fit : PhotometryFit M)
    (im : CcdImage) :
    ∀ (cat : List MeasuredStar) (idx : List Nat) (rows : List Row),
      catalogRows pm fit im cat idx = some rows →
        rows.map (fun row => row.ms) = cat.filter (fun ms => ms.valid) ∧
        ∀ row ∈ rows, row.im = im ∧ row.ms ∈ cat ∧ row.ms.valid = true ∧
          fit.associations.fittedStar? row.ms.fittedStar = some row.fs ∧
          ∃ indices : List Nat, (row.idx, row.h)
            = (if fit.fittingModel then
                pm.getIndicesAndDerivatives fit.photometryModel row.ms im indices
                  (List.replicate PhotometryFit.npar_max 0)
              else (indices, List.replicate PhotometryFit.npar_max 0)) := by
  intro cat
  induction cat with
  | nil =>
    intro idx rows h
    simp only [catalogRows, Option.some.injEq] at h
    subst h
    exact ⟨rfl, fun row hr => by cases hr⟩
  | cons ms rest ih =>
    intro idx rows h
    rw [catalogRows] at h
    by_cases hv : ms.valid = true
    · simp only [hv, Bool.not_true, Bool.false_eq_true, if_false] at h
      cases hfs : fit.associations.fittedStar? ms.fittedStar with
      | none => simp [hfs] at h
      | some fs =>
        simp only [hfs] at h
        cases hr : catalogRows pm fit im rest
            (if fit.fittingModel = true then
              pm.getIndicesAndDerivatives fit.photometryModel ms im idx
                (List.replicate PhotometryFit.npar_max 0)
            else (idx, List.replicate PhotometryFit.npar_max 0)).1 with
        | none => simp [hr] at h
        | some rows' =>
          simp only [hr, Option.some.injEq] at h
          subst h
          obtain ⟨h1, h2⟩ := ih _ _ hr
          refine ⟨by simp [List.filter_cons, hv, h1], ?_⟩
          intro row hrow
          rcases List.mem_cons.mp hrow with rfl | hrow'
          · exact ⟨rfl, List.mem_cons_self _ _, hv, hfs, idx, rfl⟩
          · obtain ⟨g1, g2, g3⟩ := h2 row hrow'
            exact ⟨g1, List.mem_cons_of_mem _ g2, g3⟩
    · have hv' : ms.valid = false := by simpa using hv
      simp only [hv', Bool.not_false, if_true] at h
      obtain ⟨h1, h2⟩ := ih _ _ h
      refine ⟨by simp [List.filter_cons, hv', h1], ?_⟩
      intro row hrow
      obtain ⟨g1, g2, g3⟩ := h2 row hrow
      exact ⟨g1, List.mem_cons_of_mem _ g2, g3⟩

/-- The rows of a list of images are the valid measurements of their catalogs,
image by image. -/
theorem imagesRows_spec {M : Type} (pm : PhotometryModel M) (fit : PhotometryFit M) :
    ∀ (l : List CcdImage) (rows : List Row), imagesRows pm fit l = some rows →
      rows.map (fun row => (row.im, row.ms))
        = l.flatMap (fun im => (im.catalogForFit.filter fun ms => ms.valid).map
            fun ms => (im, ms)) ∧
      rows.length = (l.map fun im => im.catalogForFit.countP fun ms => ms.valid).sum ∧
      ∀ row ∈ rows, row.im ∈ l ∧ row.ms ∈ row.im.catalogForFit ∧ row.ms.valid = true ∧
        fit.associations.fittedStar? row.ms.fittedStar = some row.fs ∧
        ∃ indices : List Nat, (row.idx, row.h)
          = (if fit.fittingModel then
              pm.getIndicesAndDerivatives fit.photometryModel row.ms row.im indices
                (List.replicate PhotometryFit.npar_max 0)
            else (indices, List.replicate PhotometryFit.npar_max 0)) := by
  intro l
  induction l with
  | nil =>
    intro rows h
    simp only [imagesRows, Option.some.injEq] at h
    subst h
    exact ⟨rfl, rfl, fun row hr => by cases hr⟩
  | cons im rest ih =>
    intro rows h
    rw [imagesRows] at h
    cases hA : catalogRows pm fit im im.catalogForFit
        (List.replicate PhotometryFit.npar_max (2 ^ 32 - 1)) with
    | none => rw [hA] at h; cases h
    | some a =>
      cases hB : imagesRows pm fit rest with
      | none => rw [hA, hB] at h; cases h
      | some b =>
        rw [hA, hB] at h
        simp only [Option.some.injEq] at h
        subst h
        obtain ⟨a1, a2⟩ := catalogRows_spec pm fit im _ _ _ hA
        obtain ⟨b1, b2, b3⟩ := ih _ hB
        refine ⟨?_, ?_, ?_⟩
        · rw [List.map_append, b1, List.flatMap_cons]
          congr 1
          rw [← a1, List.map_map]
          apply List.map_congr_left
          intro row hrow
          simp only [Function.comp_apply, (a2 row hrow).1]
        · rw [List.length_append, b2, List.map_cons, List.sum_cons]
          congr 1
          rw [← List.length_map a (fun row => row.ms), a1, List.countP_eq_length_filter]
        · intro row hrow
          rcases List.mem_append.mp hrow with hr | hr
          · obtain ⟨g1, g2, g3, g4, g5⟩ := a2 row hr
            subst g1
            exact ⟨List.mem_cons_self _ _, g2, g3, g4, g5⟩
          · obtain ⟨g1, g2⟩ := b3 row hr
            exact ⟨List.mem_cons_of_mem _ g1, g2⟩

theorem exampleScaled_wellLinked (whatToFit : String) :
    (PhotometryFit.assignIndices exampleScaleModel exampleScaledFit
      whatToFit).associations.WellLinked := by
  apply assignIndices_wellLinked
  unfold Associations.WellLinked
  decide

theorem exampleScaled_indicesBelow (whatToFit : String) (n : Nat) (hn : 0 < n) :
    exampleScaleModel.IndicesBelow
      (PhotometryFit.assignIndices exampleScaleModel exampleScaledFit whatToFit).photometryModel
      (PhotometryFit.assignIndices exampleScaleModel exampleScaledFit whatToFit).associations
      n := by
  intro im _ ms _ im' him' indices h k hk
  have hl : (PhotometryFit.assignIndices exampleScaleModel exampleScaledFit
      whatToFit).associations.ccdImageList = exampleScaled.ccdImageList := rfl
  rw [hl] at him'
  have hall : ∀ x ∈ exampleScaled.ccdImageList, x.visit = 0 := by decide
  simp only [exampleScaleModel, List.mem_singleton, hall im' him'] at hk
  subst hk
  exact hn

theorem exampleScale_derivativesCover (model : List ℚ) (a : Associations) :
    exampleScaleModel.DerivativesCover model a := by
  intro im _ ms _ im' _ indices
  simp [exampleScaleModel, PhotometryFit.npar_max]

/-! ## Lemmas on the step of the fit of the fluxes -/

theorem sum_range_getElem? {α : Type} (F : Option α → ℚ) :
    ∀ l : List α, ((List.range l.length).map fun j => F (l[j]?)).sum
      = (l.map fun x => F (some x)).sum := by
  intro l
  induction l with
  | nil => rfl
  | cons x rest ih =>
    rw [List.length_cons, List.range_succ_eq_map, List.map_cons, List.map_map, List.sum_cons,
      List.map_cons, List.sum_cons, ← ih]
    simp only [List.getElem?_cons_zero]
    congr 2
    apply List.map_congr_left
    intro j _
    simp only [Function.comp_apply, Nat.succ_eq_add_one, List.getElem?_cons_succ]

theorem sum_zipWith_zero : ∀ (row x : List ℚ), (∀ b, row.getD b 0 = 0) →
    (List.zipWith (fun h v => h * v) row x).sum = 0 := by
  intro row
  induction row with
  | nil => intro x _; rfl
  | cons r rs ih =>
    intro x h
    cases x with
    | nil => rfl
    | cons y ys =>
      have h0 : r = 0 := by simpa using h 0
      have ht : ∀ b, rs.getD b 0 = 0 := fun b => by simpa using h (b + 1)
      simp [h0, ih ys ht]

theorem sum_zipWith_single : ∀ (row x : List ℚ) (a : Nat), row.length = x.length →
    (∀ b, b ≠ a → row.getD b 0 = 0) →
    (List.zipWith (fun h v => h * v) row x).sum = row.getD a 0 * x.getD a 0 := by
  intro row
  induction row with
  | nil => intro x a _ _; simp
  | cons r rs ih =>
    intro x a hlen h
    cases x with
    | nil => simp at hlen
    | cons y ys =>
      cases a with
      | zero =>
        have ht : ∀ b, rs.getD b 0 = 0 := fun b => by simpa using h (b + 1) (by omega)
        simp [sum_zipWith_zero rs ys ht]
      | succ a =>
        have h0 : r = 0 := by simpa using h 0 (by omega)
        have ht : ∀ b, b ≠ a → rs.getD b 0 = 0 := fun b hb => by
          simpa using h (b + 1) (by omega)
        have := ih ys a (by simpa using hlen) ht
        simp [h0, this]

theorem matVec_diagonal (H : List (List ℚ)) (x : List ℚ) (hH : DiagonalPositive H)
    (hx : x.length = H.length) (a : Nat) (row : List ℚ) (ha : H[a]? = some row) :
    (matVec H x)[a]? = some (row.getD a 0 * x.getD a 0) := by
  obtain ⟨hlen, _, hz⟩ := hH a row ha
  simp only [matVec, List.getElem?_map, ha, Option.map_some']
  rw [sum_zipWith_single row x a (hlen.trans hx.symm) hz]

theorem matVec_length (H : List (List ℚ)) (x : List ℚ) : (matVec H x).length = H.length := by
  simp [matVec]

/-- On a matrix that is zero outside its positive diagonal the example
factorization succeeds and its `solve` is exact. -/
theorem exampleChol_exact (H : List (List ℚ)) (hH : DiagonalPositive H) :
    ∃ solve, exampleChol H = some solve ∧
      ∀ g : List ℚ, g.length = H.length →
        (solve g).length = H.length ∧ matVec H (solve g) = g := by
  have hdiag : ∀ i, i < H.length → (H.getD i []).getD i 0 ≠ 0 := by
    intro i hi
    have hget : H[i]? = some (H.getD i []) := by
      rw [List.getD_eq_getElem?_getD, List.getElem?_eq_getElem hi]
      rfl
    exact ne_of_gt (hH i _ hget).2.1
  have hall : (((List.range H.length).map fun i => (H.getD i []).getD i 0).all
      fun d => d ≠ 0) = true := by
    rw [List.all_eq_true]
    intro d hd
    obtain ⟨i, hi, rfl⟩ := List.mem_map.mp hd
    simpa using hdiag i (List.mem_range.mp hi)
  refine ⟨fun g => List.zipWith (fun x d => x / d) g
    ((List.range H.length).map fun i => (H.getD i []).getD i 0), ?_, ?_⟩
  · unfold exampleChol
    simp only [hall, if_true]
  · intro g hg
    have hl : (List.zipWith (fun x d => x / d) g
        ((List.range H.length).map fun i => (H.getD i []).getD i 0)).length = H.length := by
      simp [hg]
    refine ⟨hl, ?_⟩
    apply List.ext_getElem?
    intro a
    by_cases ha : a < H.length
    · have hget : H[a]? = some (H.getD a []) := by
        rw [List.getD_eq_getElem?_getD, List.getElem?_eq_getElem ha]
        rfl
      rw [matVec_diagonal H _ hH hl a _ hget]
      have hga : a < g.length := hg ▸ ha
      rw [List.getElem?_eq_getElem hga]
      congr 1
      rw [List.getD_eq_getElem?_getD (List.zipWith _ _ _), List.getElem?_zipWith]
      simp only [List.getElem?_eq_getElem hga, List.getElem?_map, List.getElem?_range ha,
        Option.map_some', Option.getD_some]
      have hd := hdiag a ha
      generalize (H.getD a []).getD a 0 = d at hd ⊢
      field_simp
    · rw [List.getElem?_eq_none (by rw [matVec_length]; omega),
        List.getElem?_eq_none (by omega)]

theorem jacobianEntry_fluxes {M : Type} (pm : PhotometryModel M) (fit : PhotometryFit M)
    (hm : fit.fittingModel = false) (hf : fit.fittingFluxes = true) (a col : Nat) :
    ∀ (rows : List Row) (k : Nat),
      (((tripletsFrom pm fit rows k).filter fun t => t.1 = a ∧ t.2.1 = col).map
          fun t => t.2.2).sum
        = (((if k ≤ col then rows[col - k]? else none).map fun row : Row =>
            if row.fs.indexInMatrix = a then row.pf pm fit / row.sigma else 0).getD 0) := by
  intro rows
  induction rows with
  | nil => intro k; simp [tripletsFrom]
  | cons row rest ih =>
    intro k
    have hrow : row.triplets pm fit k = [(row.fs.indexInMatrix, k, row.pf pm fit / row.sigma)] := by
      simp [Row.triplets, hm, hf, Row.fluxTriplet]
    rw [tripletsFrom, hrow, List.singleton_append, List.filter_cons]
    rcases Nat.lt_trichotomy col k with hlt | heq | hgt
    · have h1 : ¬ (k ≤ col) := by omega
      have h2 : ¬ (k + 1 ≤ col) := by omega
      have h3 : ¬ (k = col) := by omega
      have := ih (k + 1)
      simp only [h2, if_false, Option.map_none', Option.getD_none] at this
      simp only [h1, h3, and_false, decide_False, Bool.false_eq_true, if_false,
        Option.map_none', Option.getD_none]
      exact this
    · subst heq
      have h2 : ¬ (col + 1 ≤ col) := by omega
      have := ih (col + 1)
      simp only [h2, if_false, Option.map_none', Option.getD_none] at this
      simp only [le_refl, if_true, Nat.sub_self, List.getElem?_cons_zero, Option.map_some',
        Option.getD_some, and_true]
      by_cases hi : row.fs.indexInMatrix = a
      · simp only [hi, decide_True, if_true, List.map_cons, List.sum_cons, this, add_zero]
      · simp only [hi, decide_False, Bool.false_eq_true, if_false, this]
    · have h1 : k ≤ col := by omega
      have h2 : k + 1 ≤ col := by omega
      have h3 : ¬ (k = col) := by omega
      have := ih (k + 1)
      simp only [h2, if_true] at this
      have h4 : col - k = (col - (k + 1)) + 1 := by omega
      simp only [h1, if_true, h3, and_false, decide_False, Bool.false_eq_true, if_false, this]
      rw [h4, List.getElem?_cons_succ]

theorem hessian_entry_fluxes {M : Type} (pm : PhotometryModel M) (fit : PhotometryFit M)
    (hm : fit.fittingModel = false) (hf : fit.fittingFluxes = true) (rows : List Row)
    (tl : TripletList) (htrip : tl.triplets = tripletsFrom pm fit rows 0)
    (hnext : tl.nextFreeIndex = rows.length) (a b : Nat) :
    ((List.range tl.NextFreeIndex).map fun j =>
        PhotometryFit.jacobianEntry tl a j * PhotometryFit.jacobianEntry tl b j).sum
      = (rows.map fun row =>
          (if row.fs.indexInMatrix = a then row.pf pm fit / row.sigma else 0)
            * (if row.fs.indexInMatrix = b then row.pf pm fit / row.sigma else 0)).sum := by
  have hje : ∀ c j, PhotometryFit.jacobianEntry tl c j
      = (((rows[j]?).map fun row : Row =>
          if row.fs.indexInMatrix = c then row.pf pm fit / row.sigma else 0).getD 0) := by
    intro c j
    unfold PhotometryFit.jacobianEntry
    rw [htrip]
    have := jacobianEntry_fluxes pm fit hm hf c j rows 0
    simpa using this
  simp only [TripletList.NextFreeIndex, hnext, hje]
  exact sum_range_getElem?
    (fun o => ((o.map fun row : Row =>
        if row.fs.indexInMatrix = a then row.pf pm fit / row.sigma else 0).getD 0)
      * ((o.map fun row : Row =>
        if row.fs.indexInMatrix = b then row.pf pm fit / row.sigma else 0).getD 0)) rows

theorem sum_catalog_of_star (a : Nat) (im : CcdImage) (F : CcdImage → MeasuredStar → ℚ) :
    ∀ cat : List MeasuredStar,
      ((((cat.filter fun ms => ms.valid).map fun ms => (im, ms)).map
          fun p : CcdImage × MeasuredStar =>
            if p.2.fittedStar = a then F p.1 p.2 else 0).sum)
        = ((cat.filter fun ms => ms.valid && ms.fittedStar == a).map fun ms => F im ms).sum := by
  intro cat
  induction cat with
  | nil => rfl
  | cons ms rest ih =>
    by_cases hv : ms.valid = true
    · by_cases hs : ms.fittedStar = a
      · simp only [List.filter_cons, hv, if_true, List.map_cons, List.sum_cons, hs, ih,
          Bool.true_and, beq_self_eq_true]
      · have hb : (ms.fittedStar == a) = false := by simpa using hs
        simp only [List.filter_cons, hv, if_true, List.map_cons, List.sum_cons, hs, if_false,
          ih, Bool.true_and, hb, Bool.false_eq_true, zero_add]
    · have hv' : ms.valid = false := by simpa using hv
      simp only [List.filter_cons, hv', Bool.false_eq_true, if_false, Bool.false_and, ih]

theorem sum_rows_of_star {M : Type} (fit : PhotometryFit M) (rows : List Row) (a : Nat)
    (F : CcdImage → MeasuredStar → ℚ)
    (hmap : rows.map (fun row => (row.im, row.ms))
      = fit.associations.ccdImageList.flatMap (fun im =>
          (im.catalogForFit.filter fun ms => ms.valid).map fun ms => (im, ms))) :
    (rows.map fun row => if row.ms.fittedStar = a then F row.im row.ms else 0).sum
      = fit.sumOverMeasurements a F := by
  have h1 : (rows.map fun row => if row.ms.fittedStar = a then F row.im row.ms else 0)
      = (rows.map (fun row => (row.im, row.ms))).map
          fun p : CcdImage × MeasuredStar => if p.2.fittedStar = a then F p.1 p.2 else 0 := by
    rw [List.map_map]
    rfl
  rw [h1, hmap]
  unfold PhotometryFit.sumOverMeasurements
  generalize fit.associations.ccdImageList = images
  induction images with
  | nil => rfl
  | cons im rest ih =>
    rw [List.flatMap_cons, List.map_append, List.sum_append, List.map_cons, List.sum_cons, ih,
      sum_catalog_of_star]

theorem sumOverMeasurements_pos {M : Type} (fit : PhotometryFit M) (a : Nat)
    (F : CcdImage → MeasuredStar → ℚ) (hnn : ∀ im ms, 0 ≤ F im ms)
    (hex : ∃ im ∈ fit.associations.ccdImageList, ∃ ms ∈ im.catalogForFit,
      ms.valid = true ∧ ms.fittedStar = a ∧ 0 < F im ms) :
    0 < fit.sumOverMeasurements a F := by
  obtain ⟨im, him, ms, hms, hv, hs, hpos⟩ := hex
  unfold PhotometryFit.sumOverMeasurements
  have hinner : ∀ im' : CcdImage, 0 ≤ ((im'.catalogForFit.filter
      fun ms => ms.valid && ms.fittedStar == a).map fun ms => F im' ms).sum := by
    intro im'
    apply List.sum_nonneg
    intro x hx
    obtain ⟨m, _, rfl⟩ := List.mem_map.mp hx
    exact hnn _ _
  have h1 : F im ms ≤ ((im.catalogForFit.filter
      fun ms => ms.valid && ms.fittedStar == a).map fun ms => F im ms).sum := by
    apply List.single_le_sum
    · intro x hx
      obtain ⟨m, _, rfl⟩ := List.mem_map.mp hx
      exact hnn _ _
    · apply List.mem_map.mpr
      exact ⟨ms, List.mem_filter.mpr ⟨hms, by simp [hv, hs]⟩, rfl⟩
  have h2 : ((im.catalogForFit.filter
      fun ms => ms.valid && ms.fittedStar == a).map fun ms => F im ms).sum
      ≤ (fit.associations.ccdImageList.map fun im =>
        ((im.catalogForFit.filter fun ms => ms.valid && ms.fittedStar == a).map fun ms =>
          F im ms).sum).sum := by
    apply List.single_le_sum
    · intro x hx
      obtain ⟨m, _, rfl⟩ := List.mem_map.mp hx
      exact hinner _
    · exact List.mem_map.mpr ⟨im, him, rfl⟩
  exact lt_of_lt_of_le hpos (h1.trans h2)

/-- The state after `assignIndices` when "Fluxes" is in `whatToFit` and "Model"
is not: the model is neither fit nor touched, there is one parameter per
fitted star, and the star at position `i` has the index `i`. -/
theorem assignIndices_fluxes_only {M : Type} (pm : PhotometryModel M) (fit : PhotometryFit M)
    (whatToFit : String) (hF : find whatToFit "Fluxes" ≠ none)
    (hM : find whatToFit "Model" = none) :
    (PhotometryFit.assignIndices pm fit whatToFit).fittingModel = false ∧
    (PhotometryFit.assignIndices pm fit whatToFit).fittingFluxes = true ∧
    (PhotometryFit.assignIndices pm fit whatToFit).nParTot
      = fit.associations.fittedStarList.length ∧
    (PhotometryFit.assignIndices pm fit whatToFit).photometryModel = fit.photometryModel ∧
    (PhotometryFit.assignIndices pm fit whatToFit).associations.ccdImageList
      = fit.associations.ccdImageList ∧
    ∀ i : Nat, (PhotometryFit.assignIndices pm fit whatToFit).associations.fittedStarList[i]?
      = (fit.associations.fittedStarList[i]?).map fun fs => fs.SetIndexInMatrix i := by
  have hs : (find whatToFit "Fluxes").isSome = true := Option.isSome_iff_ne_none.mpr hF
  simp only [PhotometryFit.assignIndices, hs, hM, Option.isSome_none, Bool.false_eq_true,
    if_false, if_true, setIndices_next, zero_add, true_and]
  intro i
  rw [setIndices_getElem?]
  simp only [zero_add]

theorem sum_map_sub_mul {α : Type} (u v : α → ℚ) (c : ℚ) :
    ∀ l : List α, (l.map fun x => u x - c * v x).sum = (l.map u).sum - c * (l.map v).sum := by
  intro l
  induction l with
  | nil => simp
  | cons x rest ih =>
    simp only [List.map_cons, List.sum_cons, ih]
    ring

/-- With fluxes alone, the Hessian of the triplets of the rows is zero outside
its diagonal, whose entry `a` is the sum of `(pf / sigma)^2` over the rows of
the star of index `a`. -/
theorem hessian_fluxes_diagonal {M : Type} (pm : PhotometryModel M) (fit : PhotometryFit M)
    (hm : fit.fittingModel = false) (hf : fit.fittingFluxes = true) (rows : List Row)
    (tl : TripletList) (htrip : tl.triplets = tripletsFrom pm fit rows 0)
    (hnext : tl.nextFreeIndex = rows.length) (n : Nat)
    (hpos : ∀ a, a < n → 0 < (rows.map fun row =>
      if row.fs.indexInMatrix = a then sqr (row.pf pm fit / row.sigma) else 0).sum) :
    DiagonalPositive (PhotometryFit.hessian n tl) ∧
    ∀ a, a < n → ∃ row, (PhotometryFit.hessian n tl)[a]? = some row ∧
      row.getD a 0 = (rows.map fun row =>
        if row.fs.indexInMatrix = a then sqr (row.pf pm fit / row.sigma) else 0).sum := by
  have hrowOf : ∀ a, a < n → (PhotometryFit.hessian n tl)[a]?
      = some ((List.range n).map fun b => (rows.map fun row =>
          (if row.fs.indexInMatrix = a then row.pf pm fit / row.sigma else 0)
            * (if row.fs.indexInMatrix = b then row.pf pm fit / row.sigma else 0)).sum) := by
    intro a ha
    unfold PhotometryFit.hessian
    rw [List.getElem?_map, List.getElem?_range ha, Option.map_some']
    congr 1
    apply List.map_congr_left
    intro b _
    exact hessian_entry_fluxes pm fit hm hf rows tl htrip hnext a b
  have hdiag : ∀ a, (rows.map fun row =>
        (if row.fs.indexInMatrix = a then row.pf pm fit / row.sigma else 0)
          * (if row.fs.indexInMatrix = a then row.pf pm fit / row.sigma else 0)).sum
      = (rows.map fun row =>
        if row.fs.indexInMatrix = a then sqr (row.pf pm fit / row.sigma) else 0).sum := by
    intro a
    congr 1
    apply List.map_congr_left
    intro row _
    by_cases h : row.fs.indexInMatrix = a
    · simp only [h, if_true, sqr]
    · simp only [h, if_false, mul_zero]
  have hoff : ∀ a b, b ≠ a → (rows.map fun row =>
        (if row.fs.indexInMatrix = a then row.pf pm fit / row.sigma else 0)
          * (if row.fs.indexInMatrix = b then row.pf pm fit / row.sigma else 0)).sum = 0 := by
    intro a b hba
    apply List.sum_eq_zero
    intro x hx
    obtain ⟨row, _, rfl⟩ := List.mem_map.mp hx
    by_cases h : row.fs.indexInMatrix = a
    · have h' : ¬ row.fs.indexInMatrix = b := fun hb => hba (hb.symm.trans h)
      simp only [h', if_false, mul_zero]
    · simp only [h, if_false, zero_mul]
  have hgetD : ∀ a b, a < n → b < n → ∀ row, (PhotometryFit.hessian n tl)[a]? = some row →
      row.getD b 0 = (rows.map fun row =>
          (if row.fs.indexInMatrix = a then row.pf pm fit / row.sigma else 0)
            * (if row.fs.indexInMatrix = b then row.pf pm fit / row.sigma else 0)).sum := by
    intro a b ha hb row hrow
    rw [hrowOf a ha, Option.some.injEq] at hrow
    subst hrow
    rw [List.getD_eq_getElem?_getD, List.getElem?_map, List.getElem?_range hb]
    rfl
  constructor
  · intro a row hrow
    have ha : a < n := by
      have := (List.getElem?_eq_some_iff.mp hrow).1
      rwa [hessian_length] at this
    refine ⟨?_, ?_, ?_⟩
    · rw [hrowOf a ha, Option.some.injEq] at hrow
      subst hrow
      simp [hessian_length]
    · rw [hgetD a a ha ha row hrow, hdiag]
      exact hpos a ha
    · intro b hba
      by_cases hb : b < n
      · rw [hgetD a b ha hb row hrow]
        exact hoff a b hba
      · rw [hrowOf a ha, Option.some.injEq] at hrow
        subst hrow
        rw [List.getD_eq_getElem?_getD, List.getElem?_eq_none (by simp; omega)]
        rfl
  · intro a ha
    refine ⟨_, hrowOf a ha, ?_⟩
    rw [hgetD a a ha ha _ (hrowOf a ha), hdiag]

/-! ## Lemmas on the constructor with the arithmetic of doubles -/

namespace ConstrainedAstrometryModel

theorem firstLoopStepWith_maps (pow2sum : ℚ × ℚ → Option ℚ) (polys : PolyFactory)
    (chipOrder visitOrder : Int) (s s' : FirstLoop) (im : CcdImage)
    (hc : s'.chipMap = s.chipMap) (hv : s'.visitMap = s.visitMap) :
    (firstLoopStepWith pow2sum polys chipOrder visitOrder s' im).chipMap
      = (firstLoopStep polys chipOrder visitOrder s im).chipMap ∧
    (firstLoopStepWith pow2sum polys chipOrder visitOrder s' im).visitMap
      = (firstLoopStep polys chipOrder visitOrder s im).visitMap := by
  unfold firstLoopStepWith firstLoopStep
  simp only [hc, hv]
  cases h1 : s.chipMap.find im.ccdId <;> cases h2 : s.visitMap.find im.visit <;>
    simp only [h1, h2, and_self]

theorem firstLoopWith_maps (pow2sum : ℚ × ℚ → Option ℚ) (polys : PolyFactory)
    (chipOrder visitOrder : Int) :
    ∀ (l : List CcdImage) (s s' : FirstLoop),
      s'.chipMap = s.chipMap → s'.visitMap = s.visitMap →
      (l.foldl (firstLoopStepWith pow2sum polys chipOrder visitOrder) s').chipMap
        = (l.foldl (firstLoopStep polys chipOrder visitOrder) s).chipMap ∧
      (l.foldl (firstLoopStepWith pow2sum polys chipOrder visitOrder) s').visitMap
        = (l.foldl (firstLoopStep polys chipOrder visitOrder) s).visitMap := by
  intro l
  induction l with
  | nil => intro s s' hc hv; exact ⟨hc, hv⟩
  | cons im rest ih =>
    intro s s' hc hv
    obtain ⟨h1, h2⟩ := firstLoopStepWith_maps pow2sum polys chipOrder visitOrder s s' im hc hv
    exact ih _ _ h1 h2

/-- With exact arithmetic the constructor with the arithmetic as an argument is
the constructor `new`. -/
theorem newWith_exact (polys : PolyFactory) (l : List CcdImage) (chipOrder visitOrder : Int) :
    newWith (fun c => some (c.1 ^ 2 + c.2 ^ 2)) polys l chipOrder visitOrder
      = new polys l chipOrder visitOrder := by
  have hstep : ∀ (s : FirstLoop) (im : CcdImage),
      firstLoopStepWith (fun c => some (c.1 ^ 2 + c.2 ^ 2)) polys chipOrder visitOrder s im
        = firstLoopStep polys chipOrder visitOrder s im := by
    intro s im
    unfold firstLoopStepWith firstLoopStep
    cases hf : s.chipMap.find im.ccdId with
    | some v => simp only [hf]
    | none =>
      cases hm : s.minRadius2 with
      | none => simp [hf, hm, closerDouble, closer]
      | some x =>
        by_cases hlt : im.detectorCenter.1 ^ 2 + im.detectorCenter.2 ^ 2 < x
        · simp [hf, hm, closerDouble, closer, hlt]
        · simp [hf, hm, closerDouble, closer, hlt]
  have hfold : ∀ (l : List CcdImage) (s : FirstLoop),
      l.foldl (firstLoopStepWith (fun c => some (c.1 ^ 2 + c.2 ^ 2)) polys chipOrder
        visitOrder) s = l.foldl (firstLoopStep polys chipOrder visitOrder) s := by
    intro l
    induction l with
    | nil => intro s; rfl
    | cons im rest ih => intro s; simp only [List.foldl_cons, hstep, ih]
  unfold newWith new firstLoopWith
  rw [hfold]

/-- What the first loop of the constructor knows of the chip to hold fixed,
once the images `pre` have been visited: while `minRadius2` is infinite no
chip has been chosen and the centre of every chip met has an infinite squared
radius; once it is finite the chosen chip is a chip of `pre` whose squared
radius it is, and no chip of `pre` has a smaller one. -/
theorem firstLoopStepWith_chosen (pow2sum : ℚ × ℚ → Option ℚ) (polys : PolyFactory)
    (chipOrder visitOrder : Int) (pre : List CcdImage) (s s' : FirstLoop) (im : CcdImage)
    (hinv : FirstLoop.Inv pre s) (hc : s'.chipMap = s.chipMap)
    (h0 : s'.minRadius2 = none → s'.constrainedChip = -1 ∧
      ∀ k c, chipCenter? pre k = some c → pow2sum c = none)
    (h1 : ∀ x, s'.minRadius2 = some x → ∃ c0,
      chipCenter? pre s'.constrainedChip = some c0 ∧ pow2sum c0 = some x ∧
      ∀ k c y, chipCenter? pre k = some c → pow2sum c = some y → x ≤ y) :
    ((firstLoopStepWith pow2sum polys chipOrder visitOrder s' im).minRadius2 = none →
      (firstLoopStepWith pow2sum polys chipOrder visitOrder s' im).constrainedChip = -1 ∧
      ∀ k c, chipCenter? (pre ++ [im]) k = some c → pow2sum c = none) ∧
    ∀ x, (firstLoopStepWith pow2sum polys chipOrder visitOrder s' im).minRadius2 = some x →
      ∃ c0, chipCenter? (pre ++ [im])
          (firstLoopStepWith pow2sum polys chipOrder visitOrder s' im).constrainedChip
          = some c0 ∧ pow2sum c0 = some x ∧
        ∀ k c y, chipCenter? (pre ++ [im]) k = some c → pow2sum c = some y → x ≤ y := by
  obtain ⟨_, _, hck, _, _, _, _⟩ := hinv
  cases hf : s.chipMap.find im.ccdId with
  | some v =>
    have hin : ∃ im' ∈ pre, im'.ccdId = im.ccdId :=
      (hck _).mp ((MappingMap.find_isSome_iff _ _).mp (by rw [hf]; rfl))
    have hcenter : ∀ k, chipCenter? (pre ++ [im]) k = chipCenter? pre k := by
      intro k
      by_cases hk : ∃ im' ∈ pre, im'.ccdId = k
      · exact chipCenter?_append_of_mem pre im k hk
      · rw [chipCenter?_append_of_not_mem pre im k hk]
        have hne : im.ccdId ≠ k := fun e => hk (e ▸ hin)
        rw [if_neg hne]
        cases hcc : chipCenter? pre k with
        | none => rfl
        | some c => exact absurd ((chipCenter?_isSome pre k).mp (by rw [hcc]; rfl)) hk
    have hmin : (firstLoopStepWith pow2sum polys chipOrder visitOrder s' im).minRadius2
        = s'.minRadius2 := by
      unfold firstLoopStepWith
      simp only [hc, hf]
    have hcc : (firstLoopStepWith pow2sum polys chipOrder visitOrder s' im).constrainedChip
        = s'.constrainedChip := by
      unfold firstLoopStepWith
      simp only [hc, hf]
    rw [hmin, hcc]
    simp only [hcenter]
    exact ⟨h0, h1⟩
  | none =>
    have hnot : ¬ ∃ im' ∈ pre, im'.ccdId = im.ccdId := by
      intro hin
      have := (MappingMap.find_isSome_iff _ _).mpr ((hck _).mpr hin)
      rw [hf] at this
      cases this
    have hcself : chipCenter? (pre ++ [im]) im.ccdId = some im.detectorCenter := by
      rw [chipCenter?_append_of_not_mem pre im _ hnot, if_pos rfl]
    have hcother : ∀ k, k ≠ im.ccdId → chipCenter? (pre ++ [im]) k = chipCenter? pre k := by
      intro k hk
      by_cases hin : ∃ im' ∈ pre, im'.ccdId = k
      · exact chipCenter?_append_of_mem pre im k hin
      · rw [chipCenter?_append_of_not_mem pre im k hin, if_neg (Ne.symm hk)]
        cases hcc : chipCenter? pre k with
        | none => rfl
        | some c => exact absurd ((chipCenter?_isSome pre k).mp (by rw [hcc]; rfl)) hin
    have hmin : (firstLoopStepWith pow2sum polys chipOrder visitOrder s' im).minRadius2
        = if closerDouble (pow2sum im.detectorCenter) s'.minRadius2 = true
          then pow2sum im.detectorCenter else s'.minRadius2 := by
      unfold firstLoopStepWith
      simp only [hc, hf]
    have hcc : (firstLoopStepWith pow2sum polys chipOrder visitOrder s' im).constrainedChip
        = if closerDouble (pow2sum im.detectorCenter) s'.minRadius2 = true
          then im.ccdId else s'.constrainedChip := by
      unfold firstLoopStepWith
      simp only [hc, hf]
    rw [hmin, hcc]
    cases hr : pow2sum im.detectorCenter with
    | none =>
      simp only [closerDouble, Bool.false_eq_true, if_false]
      constructor
      · intro hm
        refine ⟨(h0 hm).1, ?_⟩
        intro k c hkc
        by_cases hk : k = im.ccdId
        · subst hk
          rw [hcself] at hkc
          cases hkc
          exact hr
        · rw [hcother k hk] at hkc
          exact (h0 hm).2 k c hkc
      · intro x hm
        obtain ⟨c0, g1, g2, g3⟩ := h1 x hm
        have hne : s'.constrainedChip ≠ im.ccdId := by
          intro e
          apply hnot
          rw [← e]
          exact (chipCenter?_isSome pre _).mp (by rw [g1]; rfl)
        refine ⟨c0, by rw [hcother _ hne]; exact g1, g2, ?_⟩
        intro k c y hkc hy
        by_cases hk : k = im.ccdId
        · subst hk
          rw [hcself] at hkc
          cases hkc
          rw [hr] at hy
          cases hy
        · rw [hcother k hk] at hkc
          exact g3 k c y hkc hy
    | some r =>
      cases hm : s'.minRadius2 with
      | none =>
        simp only [closerDouble, if_true]
        constructor
        · intro h; cases h
        · intro x hx
          simp only [Option.some.injEq] at hx
          subst hx
          refine ⟨im.detectorCenter, hcself, hr, ?_⟩
          intro k c y hkc hy
          by_cases hk : k = im.ccdId
          · subst hk
            rw [hcself] at hkc
            cases hkc
            rw [hr] at hy
            cases hy
            exact le_refl _
          · rw [hcother k hk] at hkc
            rw [(h0 hm).2 k c hkc] at hy
            cases hy
      | some x0 =>
        obtain ⟨c0, g1, g2, g3⟩ := h1 x0 hm
        by_cases hlt : r < x0
        · simp only [closerDouble, hlt, decide_True, if_true]
          constructor
          · intro h; cases h
          · intro x hx
            simp only [Option.some.injEq] at hx
            subst hx
            refine ⟨im.detectorCenter, hcself, hr, ?_⟩
            intro k c y hkc hy
            by_cases hk : k = im.ccdId
            · subst hk
              rw [hcself] at hkc
              cases hkc
              rw [hr] at hy
              cases hy
              exact le_refl _
            · rw [hcother k hk] at hkc
              exact le_trans (le_of_lt hlt) (g3 k c y hkc hy)
        · simp only [closerDouble, hlt, decide_False, Bool.false_eq_true, if_false]
          constructor
          · intro h; cases h
          · intro x hx
            simp only [Option.some.injEq] at hx
            subst hx
            have hne : s'.constrainedChip ≠ im.ccdId := by
              intro e
              apply hnot
              rw [← e]
              exact (chipCenter?_isSome pre _).mp (by rw [g1]; rfl)
            refine ⟨c0, by rw [hcother _ hne]; exact g1, g2, ?_⟩
            intro k c y hkc hy
            by_cases hk : k = im.ccdId
            · subst hk
              rw [hcself] at hkc
              cases hkc
              rw [hr] at hy
              cases hy
              exact not_lt.mp hlt
            · rw [hcother k hk] at hkc
              exact g3 k c y hkc hy

theorem firstLoopWith_chosen (pow2sum : ℚ × ℚ → Option ℚ) (polys : PolyFactory)
    (chipOrder visitOrder : Int) :
    ∀ (l pre : List CcdImage) (s s' : FirstLoop),
      FirstLoop.Inv pre s → s'.chipMap = s.chipMap → s'.visitMap = s.visitMap →
      (s'.minRadius2 = none → s'.constrainedChip = -1 ∧
        ∀ k c, chipCenter? pre k = some c → pow2sum c = none) →
      (∀ x, s'.minRadius2 = some x → ∃ c0,
        chipCenter? pre s'.constrainedChip = some c0 ∧ pow2sum c0 = some x ∧
        ∀ k c y, chipCenter? pre k = some c → pow2sum c = some y → x ≤ y) →
      ((l.foldl (firstLoopStepWith pow2sum polys chipOrder visitOrder) s').minRadius2 = none →
        (l.foldl (firstLoopStepWith pow2sum polys chipOrder visitOrder) s').constrainedChip
          = -1 ∧
        ∀ k c, chipCenter? (pre ++ l) k = some c → pow2sum c = none) ∧
      ∀ x, (l.foldl (firstLoopStepWith pow2sum polys chipOrder visitOrder) s').minRadius2
          = some x →
        ∃ c0, chipCenter? (pre ++ l)
            (l.foldl (firstLoopStepWith pow2sum polys chipOrder visitOrder) s').constrainedChip
            = some c0 ∧ pow2sum c0 = some x ∧
          ∀ k c y, chipCenter? (pre ++ l) k = some c → pow2sum c = some y → x ≤ y := by
  intro l
  induction l with
  | nil =>
    intro pre s s' _ _ _ h0 h1
    simp only [List.foldl_nil, List.append_nil]
    exact ⟨h0, h1⟩
  | cons im rest ih =>
    intro pre s s' hinv hc hv h0 h1
    obtain ⟨g0, g1⟩ := firstLoopStepWith_chosen pow2sum polys chipOrder visitOrder pre s s' im
      hinv hc h0 h1
    obtain ⟨m1, m2⟩ := firstLoopStepWith_maps pow2sum polys chipOrder visitOrder s s' im hc hv
    have := ih (pre ++ [im]) _ _
      (firstLoopStep_inv polys chipOrder visitOrder pre s im hinv) m1 m2 g0 g1
    simpa using this

/-- The constructor with the arithmetic of doubles: the maps of its first loop
are those of the first loop in exact arithmetic, the keys of the chip map are
the chips of the list, the chip to hold fixed is as `firstLoopStepWith_chosen`
says, and the constructor returns iff that chip is a key of the chip map; the
model returned has the chip map of the first loop with that chip not to be fit,
and its visit map. -/
theorem newWith_spec (pow2sum : ℚ × ℚ → Option ℚ) (polys : PolyFactory) (l : List CcdImage)
    (chipOrder visitOrder : Int) :
    FirstLoop.Inv l (l.foldl (firstLoopStep polys chipOrder visitOrder)
      { visitMap := [], chipMap := [], minRadius2 := none, constrainedChip := -1 }) ∧
    (firstLoopWith pow2sum polys chipOrder visitOrder l).chipMap
      = (l.foldl (firstLoopStep polys chipOrder visitOrder)
          { visitMap := [], chipMap := [], minRadius2 := none, constrainedChip := -1 }).chipMap ∧
    (firstLoopWith pow2sum polys chipOrder visitOrder l).visitMap
      = (l.foldl (firstLoopStep polys chipOrder visitOrder)
          { visitMap := [], chipMap := [], minRadius2 := none,
            constrainedChip := -1 }).visitMap ∧
    (∀ k, k ∈ (firstLoopWith pow2sum polys chipOrder visitOrder l).chipMap.map Prod.fst ↔
      ∃ im ∈ l, im.ccdId = k) ∧
    ((firstLoopWith pow2sum polys chipOrder visitOrder l).minRadius2 = none →
      (firstLoopWith pow2sum polys chipOrder visitOrder l).constrainedChip = -1 ∧
      ∀ k c, chipCenter? l k = some c → pow2sum c = none) ∧
    (∀ x, (firstLoopWith pow2sum polys chipOrder visitOrder l).minRadius2 = some x →
      ∃ c0, chipCenter? l (firstLoopWith pow2sum polys chipOrder visitOrder l).constrainedChip
          = some c0 ∧ pow2sum c0 = some x ∧
        ∀ k c y, chipCenter? l k = some c → pow2sum c = some y → x ≤ y) ∧
    ((firstLoopWith pow2sum polys chipOrder visitOrder l).constrainedChip
        ∈ (firstLoopWith pow2sum polys chipOrder visitOrder l).chipMap.map Prod.fst →
      ∃ m, newWith pow2sum polys l chipOrder visitOrder = Except.ok m ∧
        m.chipMap = (firstLoopWith pow2sum polys chipOrder visitOrder l).chipMap.update
          (firstLoopWith pow2sum polys chipOrder visitOrder l).constrainedChip
          (fun mapping => mapping.setToBeFit false) ∧
        m.visitMap = (firstLoopWith pow2sum polys chipOrder visitOrder l).visitMap) ∧
    ((firstLoopWith pow2sum polys chipOrder visitOrder l).constrainedChip
        ∉ (firstLoopWith pow2sum polys chipOrder visitOrder l).chipMap.map Prod.fst →
      newWith pow2sum polys l chipOrder visitOrder = Except.error Exception.outOfRange) := by
  have hinv := firstLoop_inv polys chipOrder visitOrder l [] _ firstLoop_inv_init
  rw [List.nil_append] at hinv
  obtain ⟨m1, m2⟩ := firstLoopWith_maps pow2sum polys chipOrder visitOrder l
    { visitMap := [], chipMap := [], minRadius2 := none, constrainedChip := -1 }
    { visitMap := [], chipMap := [], minRadius2 := none, constrainedChip := -1 } rfl rfl
  obtain ⟨g0, g1⟩ := firstLoopWith_chosen pow2sum polys chipOrder visitOrder l []
    { visitMap := [], chipMap := [], minRadius2 := none, constrainedChip := -1 }
    { visitMap := [], chipMap := [], minRadius2 := none, constrainedChip := -1 }
    firstLoop_inv_init rfl rfl
    (fun _ => ⟨rfl, fun k c h => by simp [chipCenter?] at h⟩)
    (fun x h => by cases h)
  rw [List.nil_append] at g0 g1
  have hck : ∀ k, k ∈ (firstLoopWith pow2sum polys chipOrder visitOrder l).chipMap.map Prod.fst
      ↔ ∃ im ∈ l, im.ccdId = k := by
    intro k
    unfold firstLoopWith
    rw [m1]
    exact hinv.2.2.1 k
  refine ⟨hinv, m1, m2, hck, g0, g1, ?_, ?_⟩
  · intro hmem
    have hsome := (MappingMap.find_isSome_iff _ _).mpr hmem
    obtain ⟨v, hv⟩ := Option.isSome_iff_exists.mp hsome
    have hchips : ∀ im ∈ l,
        (MappingMap.find
          ((firstLoopWith pow2sum polys chipOrder visitOrder l).chipMap.update
            (firstLoopWith pow2sum polys chipOrder visitOrder l).constrainedChip
            (fun mapping => mapping.setToBeFit false))
          im.ccdId).isSome = true := by
      intro im him
      rw [MappingMap.find_isSome_iff, MappingMap.keys_update]
      exact (hck _).mpr ⟨im, him, rfl⟩
    obtain ⟨e1, _, _⟩ := secondLoop_fold polys chipOrder l
      ((firstLoopWith pow2sum polys chipOrder visitOrder l).chipMap.update
        (firstLoopWith pow2sum polys chipOrder visitOrder l).constrainedChip
        (fun mapping => mapping.setToBeFit false), []) hchips
    unfold newWith
    simp only [hv]
    exact ⟨_, rfl, e1, rfl⟩
  · intro hmem
    have hnone : (firstLoopWith pow2sum polys chipOrder visitOrder l).chipMap.find
        (firstLoopWith pow2sum polys chipOrder visitOrder l).constrainedChip = none := by
      cases hf : (firstLoopWith pow2sum polys chipOrder visitOrder l).chipMap.find
          (firstLoopWith pow2sum polys chipOrder visitOrder l).constrainedChip with
      | none => rfl
      | some v =>
        exact absurd ((MappingMap.find_isSome_iff _ _).mp (by rw [hf]; rfl)) hmem
    unfold newWith
    simp only [hnone]

end ConstrainedAstrometryModel

/-! ## Lemmas on the index of `assignIndices` as an `unsigned` -/

theorem assignBlockUnsigned_content (l : MappingMap) :
    ∀ index, (assignBlockUnsigned l index).1.content = l.content := by
  induction l with
  | nil => intro index; rfl
  | cons e rest ih =>
    intro index
    obtain ⟨k, mp⟩ := e
    have h := ih ((index + mp.getNpar) % 2 ^ 32)
    simp only [MappingMap.content] at h
    simp only [assignBlockUnsigned, MappingMap.content, List.map_cons, h]
    rfl

namespace ConstrainedAstrometryModel

theorem assignIndicesUnsigned_total (m : ConstrainedAstrometryModel) (whatToFit : String)
    (firstIndex : Nat) :
    (m.assignIndicesUnsigned whatToFit firstIndex).2.fitted.totalNpar
      = (m.assignIndices whatToFit firstIndex).2.fitted.totalNpar := by
  simp only [assignIndicesUnsigned, assignIndices, fitted, MappingMap.totalNpar]
  split_ifs <;>
    simp [← content_npar, assignBlock_content, assignBlockUnsigned_content]

end ConstrainedAstrometryModel

/-! ## Lemmas on the layout of the models built from permuted lists -/

namespace ConstrainedAstrometryModel

end ConstrainedAstrometryModel
/-! ## The outlier cut in the arithmetic of doubles -/

/-- What the inner loop of `accumulateStatWith` appends for one catalog. -/
theorem accumulateCatalogWith_spec {M : Type} (fl : ℚ → ℚ) (pm : PhotometryModel M)
    (fit : PhotometryFit M) (im : CcdImage) (i : Nat) (cat : List MeasuredStar) :
    ∀ (j : Nat) (acc r : Chi2Vect),
      PhotometryFit.accumulateCatalogWith fl pm fit Chi2Vect.AddEntry im i cat j acc = some r →
      ∃ new : Chi2Vect, r = acc ++ new ∧
        new.map (fun e => e.chi2) = cat.filterMap (fun ms =>
          if ms.valid then
            (fit.associations.fittedStar? ms.fittedStar).map
              (PhotometryFit.chi2ContributionWith fl pm fit im ms)
          else none) ∧
        ∀ e ∈ new, e.measuredStar.image = i ∧ j ≤ e.measuredStar.star ∧
          ∃ (ms : MeasuredStar),
            cat[e.measuredStar.star - j]? = some ms ∧ ms.valid = true := by
  induction cat with
  | nil =>
    intro j acc r h
    simp only [PhotometryFit.accumulateCatalogWith, Option.some.injEq] at h
    exact ⟨[], by simp [h], by simp, by simp⟩
  | cons ms rest ih =>
    intro j acc r h
    unfold PhotometryFit.accumulateCatalogWith at h
    cases hv : ms.valid with
    | false =>
      simp only [hv, Bool.not_false, if_true] at h
      obtain ⟨new, hr, hmap, hmem⟩ := ih (j + 1) acc r h
      refine ⟨new, hr, by simp [hv, hmap], ?_⟩
      intro e he
      obtain ⟨h1, h2, ms', hget, hrest⟩ := hmem e he
      refine ⟨h1, by omega, ms', ?_, hrest⟩
      have : e.measuredStar.star - j = (e.measuredStar.star - (j + 1)) + 1 := by omega
      rw [this, List.getElem?_cons_succ]
      exact hget
    | true =>
      simp only [hv, Bool.not_true, Bool.false_eq_true, if_false] at h
      cases hfs : fit.associations.fittedStar? ms.fittedStar with
      | none => simp [hfs] at h
      | some fs =>
        simp only [hfs] at h
        obtain ⟨new, hr, hmap, hmem⟩ := ih (j + 1) _ r h
        refine ⟨⟨PhotometryFit.chi2ContributionWith fl pm fit im ms fs, ⟨i, j⟩⟩ :: new,
          ?_, ?_, ?_⟩
        · rw [hr]; simp [Chi2Vect.AddEntry, PhotometryFit.chi2ContributionWith]
        · simp [hv, hfs, hmap]
        · intro e he
          rcases List.mem_cons.mp he with rfl | he'
          · exact ⟨rfl, le_refl _, ms, by simp, hv⟩
          · obtain ⟨h1, h2, ms', hget, hrest⟩ := hmem e he'
            refine ⟨h1, by omega, ms', ?_, hrest⟩
            have : e.measuredStar.star - j = (e.measuredStar.star - (j + 1)) + 1 := by omega
            rw [this, List.getElem?_cons_succ]
            exact hget

/-- What the outer loop of `accumulateStatWith` appends for a list of images. -/
theorem accumulateImagesWith_spec {M : Type} (fl : ℚ → ℚ) (pm : PhotometryModel M)
    (fit : PhotometryFit M) (ims : List CcdImage) :
    ∀ (i : Nat) (acc r : Chi2Vect),
      PhotometryFit.accumulateImagesWith fl pm fit Chi2Vect.AddEntry ims i acc = some r →
      ∃ new : Chi2Vect, r = acc ++ new ∧
        new.map (fun e => e.chi2) = ims.flatMap (fun im => im.catalogForFit.filterMap (fun ms =>
          if ms.valid then
            (fit.associations.fittedStar? ms.fittedStar).map
              (PhotometryFit.chi2ContributionWith fl pm fit im ms)
          else none)) ∧
        ∀ e ∈ new, i ≤ e.measuredStar.image ∧
          ∃ (im : CcdImage) (ms : MeasuredStar),
            ims[e.measuredStar.image - i]? = some im ∧
            im.catalogForFit[e.measuredStar.star]? = some ms ∧ ms.valid = true := by
  induction ims with
  | nil =>
    intro i acc r h
    simp only [PhotometryFit.accumulateImagesWith, Option.some.injEq] at h
    exact ⟨[], by simp [h], by simp, by simp⟩
  | cons im rest ih =>
    intro i acc r h
    unfold PhotometryFit.accumulateImagesWith at h
    cases hc : PhotometryFit.accumulateCatalogWith fl pm fit Chi2Vect.AddEntry im i
        im.catalogForFit 0 acc with
    | none => simp [hc] at h
    | some acc' =>
      simp only [hc] at h
      obtain ⟨new1, hr1, hmap1, hmem1⟩ :=
        accumulateCatalogWith_spec fl pm fit im i _ 0 acc acc' hc
      obtain ⟨new2, hr2, hmap2, hmem2⟩ := ih (i + 1) acc' r h
      refine ⟨new1 ++ new2, by rw [hr2, hr1, List.append_assoc], ?_, ?_⟩
      · simp [hmap1, hmap2]
      · intro e he
        rcases List.mem_append.mp he with he1 | he2
        · obtain ⟨h1, _, ms, hget, hrest⟩ := hmem1 e he1
          refine ⟨by omega, im, ms, by simp [h1], ?_, hrest⟩
          simpa using hget
        · obtain ⟨h1, im', ms, hget, hrest⟩ := hmem2 e he2
          refine ⟨by omega, im', ms, ?_, hrest⟩
          have : e.measuredStar.image - i = (e.measuredStar.image - (i + 1)) + 1 := by omega
          rw [this, List.getElem?_cons_succ]
          exact hget

/-- The chi2 vector that `findOutliersWith` collects: its chi2 values are the
contributions, computed in doubles, of the valid measurements, and each entry
points to a valid measurement. -/
theorem accumulateStatWith_spec {M : Type} (fl : ℚ → ℚ) (pm : PhotometryModel M)
    (fit : PhotometryFit M) (chi2s : Chi2Vect)
    (h : PhotometryFit.accumulateStatWith fl pm fit Chi2Vect.AddEntry ([] : Chi2Vect)
      = some chi2s) :
    chi2s.map (fun e => e.chi2) = PhotometryFit.validChi2sWith fl pm fit ∧
    ∀ e ∈ chi2s, ∃ (im : CcdImage) (ms : MeasuredStar),
      fit.associations.ccdImageList[e.measuredStar.image]? = some im ∧
      im.catalogForFit[e.measuredStar.star]? = some ms ∧ ms.valid = true := by
  obtain ⟨new, hr, hmap, hmem⟩ := accumulateImagesWith_spec fl pm fit _ 0 [] chi2s h
  simp only [List.nil_append] at hr
  subst hr
  refine ⟨hmap, ?_⟩
  intro e he
  obtain ⟨_, im, ms, hget, hrest⟩ := hmem e he
  exact ⟨im, ms, by simpa using hget, hrest⟩

theorem accumulateCatalogWith_some {M : Type} (fl : ℚ → ℚ) (pm : PhotometryModel M)
    (fit : PhotometryFit M) (im : CcdImage) (i : Nat) (cat : List MeasuredStar)
    (h : ∀ ms ∈ cat, ms.valid = true → ms.fittedStar < fit.associations.fittedStarList.length) :
    ∀ (j : Nat) (acc : Chi2Vect),
      ∃ r, PhotometryFit.accumulateCatalogWith fl pm fit Chi2Vect.AddEntry im i cat j acc
        = some r := by
  induction cat with
  | nil => intro j acc; exact ⟨acc, rfl⟩
  | cons ms rest ih =>
    intro j acc
    have ih' := ih fun x hx => h x (List.mem_cons_of_mem _ hx)
    unfold PhotometryFit.accumulateCatalogWith
    cases hv : ms.valid with
    | false =>
      simp only [Bool.not_false, if_true]
      exact ih' _ _
    | true =>
      simp only [Bool.not_true, Bool.false_eq_true, if_false]
      have hlt := h ms (List.mem_cons_self _ _) hv
      simp only [Associations.fittedStar?, List.getElem?_eq_getElem hlt]
      exact ih' _ _

theorem accumulateImagesWith_some {M : Type} (fl : ℚ → ℚ) (pm : PhotometryModel M)
    (fit : PhotometryFit M) (ims : List CcdImage)
    (h : ∀ im ∈ ims, ∀ ms ∈ im.catalogForFit, ms.valid = true →
      ms.fittedStar < fit.associations.fittedStarList.length) :
    ∀ (i : Nat) (acc : Chi2Vect),
      ∃ r, PhotometryFit.accumulateImagesWith fl pm fit Chi2Vect.AddEntry ims i acc
        = some r := by
  induction ims with
  | nil => intro i acc; exact ⟨acc, rfl⟩
  | cons im rest ih =>
    intro i acc
    obtain ⟨acc', hacc'⟩ := accumulateCatalogWith_some fl pm fit im i im.catalogForFit
      (h im (List.mem_cons_self _ _)) 0 acc
    unfold PhotometryFit.accumulateImagesWith
    simp only [hacc']
    exact ih (fun x hx => h x (List.mem_cons_of_mem _ hx)) _ _

/-- With a cut that is a number the loop of `findOutliersWith` is the loop of
`findOutliers`. -/
theorem outlierLoopWith_some {M : Type} (pm : PhotometryModel M) (fit : PhotometryFit M)
    (cut : ℚ) :
    ∀ (l : List Chi2Entry) (aff : List Int) (outs : List MeasRef),
      PhotometryFit.outlierLoopWith pm fit (some cut) l aff outs
        = PhotometryFit.outlierLoop pm fit cut l aff outs := by
  intro l
  induction l with
  | nil => intro aff outs; rfl
  | cons e rest ih =>
    intro aff outs
    unfold PhotometryFit.outlierLoopWith PhotometryFit.outlierLoop
    simp only [PhotometryFit.belowCut, decide_eq_true_eq, ih]

/-- The sums of `findOutliersWith` over equal chi2 values `c` are exact when
the multiples of `c` and of the rounded square of `c` are doubles. -/
theorem chi2SumsWith_const (fl : ℚ → ℚ) (c : ℚ) (n : Nat)
    (hexact : ∀ k : Nat, 1 ≤ k → k ≤ n →
      fl (k * c) = k * c ∧ fl (k * fl (sqr c)) = k * fl (sqr c)) :
    ∀ (l : List Chi2Entry) (j : Nat), (∀ e ∈ l, e.chi2 = c) → j + l.length ≤ n →
      PhotometryFit.chi2SumsWith fl l (j * c, j * fl (sqr c))
        = (((j + l.length : Nat) : ℚ) * c, ((j + l.length : Nat) : ℚ) * fl (sqr c)) := by
  intro l
  induction l with
  | nil => intro j _ _; simp [PhotometryFit.chi2SumsWith]
  | cons e rest ih =>
    intro j hall hlen
    have hc : e.chi2 = c := hall e (List.mem_cons_self _ _)
    simp only [List.length_cons] at hlen
    obtain ⟨h1, h2⟩ := hexact (j + 1) (by omega) (by omega)
    have e1 : (j : ℚ) * c + c = ((j + 1 : Nat) : ℚ) * c := by push_cast; ring
    have e2 : (j : ℚ) * fl (sqr c) + fl (sqr c) = ((j + 1 : Nat) : ℚ) * fl (sqr c) := by
      push_cast; ring
    unfold PhotometryFit.chi2SumsWith
    simp only [hc, e1, e2, h1, h2]
    rw [ih (j + 1) (fun x hx => hall x (List.mem_cons_of_mem _ hx)) (by omega)]
    simp only [List.length_cons]
    have : j + 1 + rest.length = j + (rest.length + 1) := by omega
    rw [this]

/-- The variance, the standard deviation and the cut of `findOutliersWith`
over equal chi2 values `c` whose sums are exact. -/
theorem outlierCutWith_const (fl : ℚ → ℚ) (sqrt : ℚ → Option ℚ) (nSigCut c : ℚ)
    (l : List Chi2Entry) (hfl : fl 0 = 0) (hsqrt : sqrt 0 = some 0) (hne : l ≠ [])
    (hall : ∀ e ∈ l, e.chi2 = c)
    (hexact : ∀ k : Nat, 1 ≤ k → k ≤ l.length →
      fl (k * c) = k * c ∧ fl (k * fl (sqr c)) = k * fl (sqr c)) :
    PhotometryFit.averageWith fl l = c ∧
    PhotometryFit.varianceWith fl l = 0 ∧
    PhotometryFit.sigmaWith fl sqrt l = some 0 ∧
    PhotometryFit.outlierCutWith fl sqrt nSigCut l = some c := by
  have hpos : 1 ≤ l.length := by
    cases l with
    | nil => exact absurd rfl hne
    | cons _ _ => simp
  have hn : (l.length : ℚ) ≠ 0 := by
    have : 0 < l.length := hpos
    exact_mod_cast this.ne'
  obtain ⟨h1, h2⟩ := hexact 1 (le_refl _) hpos
  simp only [Nat.cast_one, one_mul] at h1 h2
  have hs := chi2SumsWith_const fl c l.length hexact l 0 hall (by omega)
  simp only [Nat.cast_zero, zero_mul, zero_add] at hs
  have havg : PhotometryFit.averageWith fl l = c := by
    unfold PhotometryFit.averageWith
    rw [hs]
    simp only
    rw [mul_div_cancel_left₀ _ hn, h1]
  have hvar : PhotometryFit.varianceWith fl l = 0 := by
    unfold PhotometryFit.varianceWith
    rw [havg, hs]
    simp only
    rw [mul_div_cancel_left₀ _ hn, h2, sub_self, hfl]
  have hsig : PhotometryFit.sigmaWith fl sqrt l = some 0 := by
    unfold PhotometryFit.sigmaWith
    rw [hvar, hsqrt]
  refine ⟨havg, hvar, hsig, ?_⟩
  unfold PhotometryFit.outlierCutWith
  simp only [hsig, havg, mul_zero, hfl, add_zero, h1]

/-- Every chi2 contribution computed in doubles is a rounded number. -/
theorem validChi2sWith_rounded {M : Type} (fl : ℚ → ℚ) (pm : PhotometryModel M)
    (fit : PhotometryFit M) (x : ℚ) (hx : x ∈ PhotometryFit.validChi2sWith fl pm fit) :
    ∃ y, x = fl y := by
  unfold PhotometryFit.validChi2sWith at hx
  obtain ⟨im, _, hx⟩ := List.mem_flatMap.mp hx
  obtain ⟨ms, _, hx⟩ := List.mem_filterMap.mp hx
  cases hv : ms.valid with
  | false => simp [hv] at hx
  | true =>
    simp only [hv, if_true, Option.map_eq_some'] at hx
    obtain ⟨fs, _, hfs⟩ := hx
    exact ⟨_, hfs.symm⟩

/-! ## The properties -/

/-- C1: when `findOutliers` is called with an empty list, every measurement
that it appends to `outliers` has parameter indices, those that
`getMeasuredStarIndices` returns for it, and no two appended measurements have
an index in common; this holds for every state of the fit, every `nSigCut` and
whatever order the sort leaves.  With the layout of `assignIndices` on
well-linked associations, and a model whose indices stay below the count it
announced, the call does return a list. -/
theorem PhotometryFit.findOutliers_no_shared_index {M : Type} (pm : PhotometryModel M)
    (sqrt : ℚ → ℚ) (sort : Chi2Vect → Chi2Vect) (fit : PhotometryFit M) (nSigCut : ℚ) :
    (∀ outs, findOutliers pm sqrt sort fit nSigCut [] = some outs →
      (∀ r ∈ outs, ∃ ir, indicesOf pm fit r = some ir) ∧
      outs.Pairwise (NoSharedIndex pm fit)) ∧
    (∀ (fit0 : PhotometryFit M) (whatToFit : String),
      fit = assignIndices pm fit0 whatToFit →
      fit0.associations.WellLinked →
      (fit.fittingModel = true →
        pm.IndicesBelow fit.photometryModel fit.associations fit.nParModel) →
      (∀ l, (sort l).Perm l) →
      ∃ outs, findOutliers pm sqrt sort fit nSigCut [] = some outs) := by
  constructor
  · intro outs h
    unfold findOutliers at h
    cases hacc : accumulateStat pm fit Chi2Vect.AddEntry ([] : Chi2Vect) with
    | none => simp [hacc] at h
    | some chi2s =>
      simp only [hacc] at h
      by_cases hn : chi2s.length = 0
      · simp only [hn, if_true, Option.some.injEq] at h
        subst h
        exact ⟨fun r hr => (by cases hr), List.Pairwise.nil⟩
      · simp only [hn, if_false] at h
        refine ⟨fun r hr => ?_,
          outlierLoop_disjoint pm fit _ _ _ [] outs ?_ ?_ List.Pairwise.nil h⟩
        · rcases outlierLoop_mem pm fit _ _ _ _ _ h r hr with h1 | ⟨_, _, _, _, hix⟩
          · cases h1
          · exact hix
        · intro k a hk
          rw [List.getElem?_replicate] at hk
          split_ifs at hk
          cases hk
          exact le_refl _
        · intro r hr
          cases hr
  · intro fit0 whatToFit hfit hlink hmodel hsort
    subst hfit
    exact findOutliers_returns pm sqrt sort _ nSigCut [] hsort
      (assignIndices_wellLinked pm fit0 whatToFit hlink)
      (assignIndices_indicesInRange pm fit0 whatToFit hmodel)

/-- Witness of C1: on the example fit with "Model" (one parameter per visit)
and `nSigCut = 0` the cut is 14; the measurements of chi2 36 and 16 are both
selected, their indices 0 and 1 being different. -/
theorem PhotometryFit.findOutliers_no_shared_index_witness :
    exampleFit.associations.WellLinked ∧
    (∀ l, (exampleSort l).Perm l) ∧
    PhotometryFit.findOutliers examplePhotometryModel exampleSqrt exampleSort
      (PhotometryFit.assignIndices examplePhotometryModel exampleFit "Model") 0 []
      = some [⟨0, 0⟩, ⟨1, 0⟩] ∧
    [(⟨0, 0⟩ : MeasRef), ⟨1, 0⟩].Pairwise
      (PhotometryFit.NoSharedIndex examplePhotometryModel
        (PhotometryFit.assignIndices examplePhotometryModel exampleFit "Model")) := by
  have hlink : exampleFit.associations.WellLinked := by
    unfold Associations.WellLinked
    decide
  have hsort : ∀ l, (exampleSort l).Perm l := fun l => List.perm_insertionSort _ l
  have heval : PhotometryFit.findOutliers examplePhotometryModel exampleSqrt exampleSort
      (PhotometryFit.assignIndices examplePhotometryModel exampleFit "Model") 0 []
      = some [⟨0, 0⟩, ⟨1, 0⟩] := by
    decide!
  have hmodel : (PhotometryFit.assignIndices examplePhotometryModel exampleFit
        "Model").fittingModel = true →
      examplePhotometryModel.IndicesBelow
        (PhotometryFit.assignIndices examplePhotometryModel exampleFit "Model").photometryModel
        (PhotometryFit.assignIndices examplePhotometryModel exampleFit "Model").associations
        (PhotometryFit.assignIndices examplePhotometryModel exampleFit "Model").nParModel := by
    intro _ im _ ms _ im' him' indices h k hk
    have hn : (PhotometryFit.assignIndices examplePhotometryModel exampleFit
        "Model").nParModel = 2 := by decide
    have hv : im'.visit = 0 ∨ im'.visit = 1 := by
      have hall : ∀ x ∈ (PhotometryFit.assignIndices examplePhotometryModel exampleFit
          "Model").associations.ccdImageList, x.visit = 0 ∨ x.visit = 1 := by decide
      exact hall im' him'
    rw [hn]
    simp only [examplePhotometryModel, List.mem_singleton] at hk
    rcases hv with hv | hv <;> rw [hv] at hk <;> subst hk <;> decide
  have h := PhotometryFit.findOutliers_no_shared_index examplePhotometryModel exampleSqrt
    exampleSort (PhotometryFit.assignIndices examplePhotometryModel exampleFit "Model") 0
  obtain ⟨outs, houts⟩ := h.2 exampleFit "Model" rfl hlink hmodel hsort
  exact ⟨hlink, hsort, heval, (h.1 _ heval).2⟩

/-- C2: every measurement that `findOutliers`, called with an empty list,
appends to `outliers` is a valid measured star of the catalog of some image,
and its chi2 contribution `((flux - pf * fittedFlux) / eflux)^2` is not below
`mean + nSigCut * sigma`, where `mean` is the mean and `sigma` the square root
of the population variance of the chi2 contributions of all valid
measurements; so no invalid measurement and none below the cut is appended.
On associations that are well linked, with every index of a valid measurement
below `_nParTot`, the call does return a list. -/
theorem PhotometryFit.findOutliers_above_cut {M : Type} (pm : PhotometryModel M)
    (sqrt : ℚ → ℚ) (sort : Chi2Vect → Chi2Vect) (fit : PhotometryFit M) (nSigCut : ℚ)
    (hsort : ∀ l, (sort l).Perm l) :
    (fit.associations.WellLinked → IndicesInRange pm fit →
      ∃ outs, findOutliers pm sqrt sort fit nSigCut [] = some outs) ∧
    (∀ outs, findOutliers pm sqrt sort fit nSigCut [] = some outs →
      ∀ r ∈ outs, ∃ (im : CcdImage) (ms : MeasuredStar) (fs : FittedStar),
        fit.associations.ccdImageList[r.image]? = some im ∧
        im.catalogForFit[r.star]? = some ms ∧
        ms.valid = true ∧
        fit.associations.fittedStar? ms.fittedStar = some fs ∧
        ¬ chi2Contribution pm fit im ms fs
            < mean (validChi2s pm fit)
              + nSigCut * sqrt (populationVariance (validChi2s pm fit))) := by
  refine ⟨fun hlink hrange =>
    findOutliers_returns pm sqrt sort fit nSigCut [] hsort hlink hrange, ?_⟩
  intro outs h r hr
  unfold findOutliers at h
  cases hacc : accumulateStat pm fit Chi2Vect.AddEntry ([] : Chi2Vect) with
  | none => simp [hacc] at h
  | some chi2s =>
    simp only [hacc] at h
    obtain ⟨hvals, hgood⟩ := accumulateStat_spec pm fit chi2s hacc
    by_cases hn : chi2s.length = 0
    · simp only [hn, if_true, Option.some.injEq] at h
      subst h
      cases hr
    · simp only [hn, if_false] at h
      rcases outlierLoop_mem pm fit _ _ _ _ _ h r hr with h1 | ⟨e, he, hx, hcut, _⟩
      · cases h1
      · have he' : e ∈ chi2s := (hsort chi2s).mem_iff.mp (List.mem_reverse.mp he)
        obtain ⟨im, ms, fs, h1, h2, h3, h4, h5⟩ := hgood e he'
        rw [outlierCut_eq sqrt nSigCut (sort chi2s) chi2s _ (hsort chi2s) hvals hn] at hcut
        subst hx
        exact ⟨im, ms, fs, h1, h2, h3, h4, h5 ▸ hcut⟩

/-- Witness of C2: on the example fit with "Model Fluxes" and `nSigCut = 0`
only the measurement of chi2 36 is selected (the one of chi2 16 shares the
flux of its star); it is valid and its chi2 is not below the cut. -/
theorem PhotometryFit.findOutliers_above_cut_witness :
    (∀ l, (exampleSort l).Perm l) ∧
    PhotometryFit.findOutliers examplePhotometryModel exampleSqrt exampleSort
      (PhotometryFit.assignIndices examplePhotometryModel exampleFit "Model Fluxes") 0 []
      = some [⟨0, 0⟩] ∧
    ∃ (im : CcdImage) (ms : MeasuredStar) (fs : FittedStar),
      (PhotometryFit.assignIndices examplePhotometryModel exampleFit
        "Model Fluxes").associations.ccdImageList[0]? = some im ∧
      im.catalogForFit[0]? = some ms ∧
      ms.valid = true ∧
      (PhotometryFit.assignIndices examplePhotometryModel exampleFit
        "Model Fluxes").associations.fittedStar? ms.fittedStar = some fs ∧
      ¬ PhotometryFit.chi2Contribution examplePhotometryModel
          (PhotometryFit.assignIndices examplePhotometryModel exampleFit "Model Fluxes")
          im ms fs
        < mean (PhotometryFit.validChi2s examplePhotometryModel
            (PhotometryFit.assignIndices examplePhotometryModel exampleFit "Model Fluxes"))
          + 0 * exampleSqrt (populationVariance
              (PhotometryFit.validChi2s examplePhotometryModel
                (PhotometryFit.assignIndices examplePhotometryModel exampleFit
                  "Model Fluxes"))) := by
  have hsort : ∀ l, (exampleSort l).Perm l := fun l => List.perm_insertionSort _ l
  have heval : PhotometryFit.findOutliers examplePhotometryModel exampleSqrt exampleSort
      (PhotometryFit.assignIndices examplePhotometryModel exampleFit "Model Fluxes") 0 []
      = some [⟨0, 0⟩] := by
    decide!
  exact ⟨hsort, heval,
    (PhotometryFit.findOutliers_above_cut examplePhotometryModel exampleSqrt exampleSort
      (PhotometryFit.assignIndices examplePhotometryModel exampleFit "Model Fluxes") 0
      hsort).2 _ heval ⟨0, 0⟩ (List.mem_singleton.mpr rfl)⟩

/-- C4: after `PhotometryFit::assignIndices(whatToFit)` the flag
`_fittingModel` holds iff `whatToFit` contains "Model" and `_fittingFluxes` iff
it contains "Fluxes"; `_nParModel` is what the model's
`assignIndices(whatToFit, 0)` returns when the model is fit and 0 otherwise;
when fluxes are fit the star at position `i` of `fittedStarList` is the old one
with index `_nParModel + i`, `_nParTot` is `_nParModel` plus the number of
fitted stars and the star indices, in list order, are exactly the indices from
`_nParModel` up to `_nParTot`; when fluxes are not fit `_nParTot = _nParModel`;
and a freshly constructed `PhotometryFit` has `_nParTot = 0`. -/
theorem PhotometryFit.assignIndices_counts {M : Type} (pm : PhotometryModel M)
    (fit : PhotometryFit M) (whatToFit : String) :
    ((assignIndices pm fit whatToFit).fittingModel = true ↔ find whatToFit "Model" ≠ none) ∧
    ((assignIndices pm fit whatToFit).fittingFluxes = true ↔ find whatToFit "Fluxes" ≠ none) ∧
    (assignIndices pm fit whatToFit).nParModel
      = (if find whatToFit "Model" ≠ none then
          (pm.assignIndices fit.photometryModel whatToFit 0).1 else 0) ∧
    (find whatToFit "Fluxes" ≠ none →
      (∀ i : Nat, (assignIndices pm fit whatToFit).associations.fittedStarList[i]?
        = (fit.associations.fittedStarList[i]?).map (fun fs : FittedStar =>
            fs.SetIndexInMatrix ((assignIndices pm fit whatToFit).nParModel + i))) ∧
      (assignIndices pm fit whatToFit).nParTot
        = (assignIndices pm fit whatToFit).nParModel + fit.associations.fittedStarList.length ∧
      (assignIndices pm fit whatToFit).associations.fittedStarList.map
          (fun fs => fs.indexInMatrix)
        = List.range' (assignIndices pm fit whatToFit).nParModel
            ((assignIndices pm fit whatToFit).nParTot
              - (assignIndices pm fit whatToFit).nParModel)) ∧
    (find whatToFit "Fluxes" = none →
      (assignIndices pm fit whatToFit).nParTot = (assignIndices pm fit whatToFit).nParModel) ∧
    ∀ (associations : Associations) (photometryModel : M) (fluxError : ℚ),
      (PhotometryFit.new pm associations photometryModel fluxError).nParTot = 0 := by
  refine ⟨?_, ?_, ?_, ?_, ?_, ?_⟩
  · simp [assignIndices, Option.isSome_iff_ne_none]
  · simp [assignIndices, Option.isSome_iff_ne_none]
  · simp only [assignIndices, Option.isSome_iff_ne_none]
    split_ifs <;> rfl
  · intro hF
    have hs : (find whatToFit "Fluxes").isSome = true := Option.isSome_iff_ne_none.mpr hF
    simp only [assignIndices, hs, if_true]
    refine ⟨fun i => setIndices_getElem? _ _ i, setIndices_next _ _, ?_⟩
    rw [setIndices_indices, setIndices_next, Nat.add_sub_cancel_left]
  · intro hF
    simp [assignIndices, hF]
  · intro associations photometryModel fluxError
    have h1 : find "" "Model" = none := by decide
    have h2 : find "" "Fluxes" = none := by decide
    simp [PhotometryFit.new, assignIndices, h1, h2]

/-- Witness of C4: on the example, fitting "Model Fluxes" gives the model the
indices 0 and 1 and the two stars the indices 2 and 3. -/
theorem PhotometryFit.assignIndices_counts_witness :
    find "Model Fluxes" "Fluxes" ≠ none ∧
    (PhotometryFit.assignIndices examplePhotometryModel exampleFit "Model Fluxes").nParTot
      = (PhotometryFit.assignIndices examplePhotometryModel exampleFit "Model Fluxes").nParModel
        + exampleFit.associations.fittedStarList.length ∧
    (PhotometryFit.assignIndices examplePhotometryModel exampleFit "Model Fluxes").nParTot
      = 4 :=
  ⟨by decide,
   ((PhotometryFit.assignIndices_counts examplePhotometryModel exampleFit
      "Model Fluxes").2.2.2.1 (by decide)).2.1,
   by decide⟩

/-- C5 as stated fails: without "Distortions" in `whatToFit` both constrained
models return 0 from `firstIndex = 5`, not 5. -/
theorem assignIndices_without_distortions_not_firstIndex :
    find "Positions" "Distortions" = none ∧
    (exampleAstrometryModel.assignIndices "Positions" 5).1 ≠ 5 ∧
    (examplePolyModel.assignIndices 5 "Positions").1 ≠ 5 := by
  decide

/-- C5, amended: without "Distortions" in `whatToFit` the `assignIndices` of
both constrained models returns 0 whatever `firstIndex` is, so the returned
index is `firstIndex` exactly when `firstIndex` is 0. -/
theorem assignIndices_without_distortions_returns_zero
    (ma : ConstrainedAstrometryModel) (mp : ConstrainedPolyModel)
    (whatToFit : String) (firstIndex : Nat) (hD : find whatToFit "Distortions" = none) :
    (ma.assignIndices whatToFit firstIndex).1 = 0 ∧
    (mp.assignIndices firstIndex whatToFit).1 = 0 ∧
    ((ma.assignIndices whatToFit firstIndex).1 = firstIndex ↔ firstIndex = 0) ∧
    ((mp.assignIndices firstIndex whatToFit).1 = firstIndex ↔ firstIndex = 0) := by
  have ha : (ma.assignIndices whatToFit firstIndex).1 = 0 := by
    simp [ConstrainedAstrometryModel.assignIndices, hD]
  have hp : (mp.assignIndices firstIndex whatToFit).1 = 0 := by
    simp [ConstrainedPolyModel.assignIndices, hD]
  refine ⟨ha, hp, ?_, ?_⟩
  · rw [ha]; exact eq_comm
  · rw [hp]; exact eq_comm

/-- Witness of the amended C5, at `whatToFit = "Positions"` and `firstIndex = 5`. -/
theorem assignIndices_without_distortions_returns_zero_witness :
    find "Positions" "Distortions" = none ∧
    (exampleAstrometryModel.assignIndices "Positions" 5).1 = 0 ∧
    (examplePolyModel.assignIndices 5 "Positions").1 = 0 :=
  ⟨by decide,
   (assignIndices_without_distortions_returns_zero exampleAstrometryModel examplePolyModel
      "Positions" 5 (by decide)).1,
   (assignIndices_without_distortions_returns_zero exampleAstrometryModel examplePolyModel
      "Positions" 5 (by decide)).2.1⟩

/-- C6: without "Distortions" in `whatToFit` the `assignIndices` of both
constrained models returns 0 and leaves the model as it was: the fitting flags,
the chip and visit mappings with their start indices, and the per-image
mappings. -/
theorem assignIndices_without_distortions_unchanged
    (ma : ConstrainedAstrometryModel) (mp : ConstrainedPolyModel)
    (whatToFit : String) (firstIndex : Nat) (hD : find whatToFit "Distortions" = none) :
    ma.assignIndices whatToFit firstIndex = (0, ma) ∧
    mp.assignIndices firstIndex whatToFit = (0, mp) := by
  constructor
  · simp [ConstrainedAstrometryModel.assignIndices, hD]
  · simp [ConstrainedPolyModel.assignIndices, hD]

/-- Witness of C6, at `whatToFit = "Positions Fluxes"` and `firstIndex = 7`. -/
theorem assignIndices_without_distortions_unchanged_witness :
    find "Positions Fluxes" "Distortions" = none ∧
    exampleAstrometryModel.assignIndices "Positions Fluxes" 7 = (0, exampleAstrometryModel) ∧
    examplePolyModel.assignIndices 7 "Positions Fluxes" = (0, examplePolyModel) :=
  ⟨by decide,
   assignIndices_without_distortions_unchanged exampleAstrometryModel examplePolyModel
     "Positions Fluxes" 7 (by decide)⟩

/-- C7: in the `assignIndices` of both constrained models, a `whatToFit` that
contains "Distortions" but neither "DistortionsChip" nor "DistortionsVisit"
fits chips and visits (both maps receive blocks of indices, chips first, and
every two-transform mapping is set to fit both sides); one that contains
"DistortionsChip" and not "DistortionsVisit" fits the chips only, one that
contains "DistortionsVisit" and not "DistortionsChip" fits the visits only (the
other map is untouched), and one that contains both fits both. -/
theorem assignIndices_sides
    (ma : ConstrainedAstrometryModel) (mp : ConstrainedPolyModel)
    (whatToFit : String) (firstIndex : Nat) :
    (find whatToFit "Distortions" ≠ none →
      (find whatToFit "DistortionsChip").isSome = false →
      (find whatToFit "DistortionsVisit").isSome = false →
        ma.FitsSides (ma.assignIndices whatToFit firstIndex).2 firstIndex true true ∧
        mp.FitsSides (mp.assignIndices firstIndex whatToFit).2 firstIndex true true) ∧
    ((find whatToFit "DistortionsChip").isSome = true →
      (find whatToFit "DistortionsVisit").isSome = false →
        ma.FitsSides (ma.assignIndices whatToFit firstIndex).2 firstIndex true false ∧
        mp.FitsSides (mp.assignIndices firstIndex whatToFit).2 firstIndex true false) ∧
    ((find whatToFit "DistortionsChip").isSome = false →
      (find whatToFit "DistortionsVisit").isSome = true →
        ma.FitsSides (ma.assignIndices whatToFit firstIndex).2 firstIndex false true ∧
        mp.FitsSides (mp.assignIndices firstIndex whatToFit).2 firstIndex false true) ∧
    ((find whatToFit "DistortionsChip").isSome = true →
      (find whatToFit "DistortionsVisit").isSome = true →
        ma.FitsSides (ma.assignIndices whatToFit firstIndex).2 firstIndex true true ∧
        mp.FitsSides (mp.assignIndices firstIndex whatToFit).2 firstIndex true true) := by
  refine ⟨fun hD hc hv => ?_, fun hc hv => ?_, fun hc hv => ?_, fun hc hv => ?_⟩
  · exact ⟨astrometry_fitsSides_assignIndices ma whatToFit firstIndex hD _ _ (by simp [hc, hv])
      (by simp [hc, hv]),
      poly_fitsSides_assignIndices mp whatToFit firstIndex hD _ _ (by simp [hc, hv])
      (by simp [hc, hv])⟩
  · have hD := find_chip_distortions whatToFit hc
    exact ⟨astrometry_fitsSides_assignIndices ma whatToFit firstIndex hD _ _ (by simp [hc, hv])
      (by simp [hc, hv]),
      poly_fitsSides_assignIndices mp whatToFit firstIndex hD _ _ (by simp [hc, hv])
      (by simp [hc, hv])⟩
  · have hD := find_visit_distortions whatToFit hv
    exact ⟨astrometry_fitsSides_assignIndices ma whatToFit firstIndex hD _ _ (by simp [hc, hv])
      (by simp [hc, hv]),
      poly_fitsSides_assignIndices mp whatToFit firstIndex hD _ _ (by simp [hc, hv])
      (by simp [hc, hv])⟩
  · have hD := find_chip_distortions whatToFit hc
    exact ⟨astrometry_fitsSides_assignIndices ma whatToFit firstIndex hD _ _ (by simp [hc, hv])
      (by simp [hc, hv]),
      poly_fitsSides_assignIndices mp whatToFit firstIndex hD _ _ (by simp [hc, hv])
      (by simp [hc, hv])⟩

/-- Witness of C7: "Distortions Positions" fits both sides of the example
models, "DistortionsVisit" the visits only, "DistortionsChip" the chips only and
"DistortionsChip DistortionsVisit" both. -/
theorem assignIndices_sides_witness :
    (exampleAstrometryModel.FitsSides
        (exampleAstrometryModel.assignIndices "Distortions Positions" 5).2 5 true true ∧
      examplePolyModel.FitsSides
        (examplePolyModel.assignIndices 5 "Distortions Positions").2 5 true true) ∧
    (exampleAstrometryModel.FitsSides
        (exampleAstrometryModel.assignIndices "DistortionsChip" 5).2 5 true false ∧
      examplePolyModel.FitsSides
        (examplePolyModel.assignIndices 5 "DistortionsChip").2 5 true false) ∧
    (exampleAstrometryModel.FitsSides
        (exampleAstrometryModel.assignIndices "DistortionsVisit" 5).2 5 false true ∧
      examplePolyModel.FitsSides
        (examplePolyModel.assignIndices 5 "DistortionsVisit").2 5 false true) ∧
    (exampleAstrometryModel.FitsSides
        (exampleAstrometryModel.assignIndices "DistortionsChip DistortionsVisit" 5).2 5
          true true ∧
      examplePolyModel.FitsSides
        (examplePolyModel.assignIndices 5 "DistortionsChip DistortionsVisit").2 5 true true) :=
  ⟨(assignIndices_sides exampleAstrometryModel examplePolyModel "Distortions Positions" 5).1
      (by decide) (by decide) (by decide),
   (assignIndices_sides exampleAstrometryModel examplePolyModel "DistortionsChip" 5).2.1
      (by decide) (by decide),
   (assignIndices_sides exampleAstrometryModel examplePolyModel "DistortionsVisit" 5).2.2.1
      (by decide) (by decide),
   (assignIndices_sides exampleAstrometryModel examplePolyModel
      "DistortionsChip DistortionsVisit" 5).2.2.2 (by decide) (by decide)⟩

/-- C8: `PhotometryFit::offsetParams` throws the invalid-parameter error iff
the size of `delta` differs from `_nParTot`, and the state at the throw is the
state before the call: no flux and no model parameter has changed. -/
theorem PhotometryFit.offsetParams_throws_iff {M : Type} (pm : PhotometryModel M)
    (fit : PhotometryFit M) (delta : List ℚ) :
    ((∃ s, offsetParams pm fit delta = Outcome.invalidParameterError s)
      ↔ delta.length ≠ fit.nParTot) ∧
    ∀ s, offsetParams pm fit delta = Outcome.invalidParameterError s → s = fit := by
  unfold offsetParams
  by_cases h : delta.length ≠ fit.nParTot
  · simp only [if_pos h]
    exact ⟨⟨fun _ => h, fun _ => ⟨fit, rfl⟩⟩, fun s hs => by cases hs; rfl⟩
  · simp only [if_neg h]
    have key : ∀ s, ¬ ((if fit.fittingFluxes = true then
        match offsetFluxes delta fit.associations.fittedStarList with
        | none => Outcome.undefined
        | some fsl =>
          Outcome.done { fit with
            photometryModel := if fit.fittingModel = true then
              pm.offsetParams fit.photometryModel delta else fit.photometryModel,
            associations := { fit.associations with fittedStarList := fsl } }
        else Outcome.done { fit with
          photometryModel := if fit.fittingModel = true then
            pm.offsetParams fit.photometryModel delta else fit.photometryModel })
        = Outcome.invalidParameterError s) := by
      intro s hs
      cases hfl : offsetFluxes delta fit.associations.fittedStarList <;>
        cases hff : fit.fittingFluxes <;> simp [hfl, hff] at hs
    exact ⟨⟨fun ⟨s, hs⟩ => absurd hs (key s), fun h' => absurd h' h⟩,
      fun s hs => absurd hs (key s)⟩

/-- Witness of C8: on the freshly constructed example fit (`_nParTot = 0`) a
`delta` of size 1 is refused. -/
theorem PhotometryFit.offsetParams_throws_iff_witness :
    [(1 : ℚ)].length ≠ exampleFit.nParTot ∧
    ∃ s, PhotometryFit.offsetParams examplePhotometryModel exampleFit [1]
      = PhotometryFit.Outcome.invalidParameterError s :=
  ⟨by decide,
   (PhotometryFit.offsetParams_throws_iff examplePhotometryModel exampleFit [1]).1.mpr
     (by decide)⟩

/-- C9: for a `delta` of size `_nParTot`, `PhotometryFit::offsetParams`
returns, and when fluxes are fit (every star index being inside `delta`) each
fitted star comes out with its old flux plus the entry of `delta` at its matrix
index and nothing else changed in it; when fluxes are not fit the associations,
and so every flux, are unchanged; and right after `assignIndices` with "Fluxes"
the star at position `i` receives `delta[_nParModel + i]`. -/
theorem PhotometryFit.offsetParams_fluxes {M : Type} (pm : PhotometryModel M)
    (fit : PhotometryFit M) (delta : List ℚ) (hsize : delta.length = fit.nParTot) :
    (fit.fittingFluxes = true →
      (∀ fs ∈ fit.associations.fittedStarList, fs.indexInMatrix < fit.nParTot) →
      ∃ fit', offsetParams pm fit delta = Outcome.done fit' ∧
        fit'.associations.fittedStarList.length = fit.associations.fittedStarList.length ∧
        ∀ (i : Nat) (fs : FittedStar), fit.associations.fittedStarList[i]? = some fs →
          ∃ d, delta[fs.indexInMatrix]? = some d ∧
            fit'.associations.fittedStarList[i]? = some { fs with flux := fs.flux + d }) ∧
    (fit.fittingFluxes = false →
      ∃ fit', offsetParams pm fit delta = Outcome.done fit' ∧
        fit'.associations = fit.associations) ∧
    (∀ (fit0 : PhotometryFit M) (whatToFit : String),
      fit = assignIndices pm fit0 whatToFit → find whatToFit "Fluxes" ≠ none →
      ∃ fit', offsetParams pm fit delta = Outcome.done fit' ∧
        fit'.associations.fittedStarList.length = fit.associations.fittedStarList.length ∧
        ∀ (i : Nat) (fs : FittedStar), fit.associations.fittedStarList[i]? = some fs →
          ∃ d, delta[fit.nParModel + i]? = some d ∧
            fit'.associations.fittedStarList[i]? = some { fs with flux := fs.flux + d }) := by
  have general : fit.fittingFluxes = true →
      (∀ fs ∈ fit.associations.fittedStarList, fs.indexInMatrix < fit.nParTot) →
      ∃ fit', offsetParams pm fit delta = Outcome.done fit' ∧
        fit'.associations.fittedStarList.length = fit.associations.fittedStarList.length ∧
        ∀ (i : Nat) (fs : FittedStar), fit.associations.fittedStarList[i]? = some fs →
          ∃ d, delta[fs.indexInMatrix]? = some d ∧
            fit'.associations.fittedStarList[i]? = some { fs with flux := fs.flux + d } := by
    intro hF hidx
    obtain ⟨l', hl'⟩ := offsetFluxes_some delta fit.associations.fittedStarList
      (fun fs hfs => hsize ▸ hidx fs hfs)
    obtain ⟨hlen, hget⟩ := offsetFluxes_spec delta _ l' hl'
    refine ⟨{ fit with
        photometryModel := if fit.fittingModel = true then
          pm.offsetParams fit.photometryModel delta else fit.photometryModel,
        associations := { fit.associations with fittedStarList := l' } }, ?_, hlen, hget⟩
    simp only [offsetParams, hsize, ne_eq, not_true_eq_false, if_false, hF, if_true, hl']
  refine ⟨general, ?_, ?_⟩
  · intro hF
    refine ⟨{ fit with
        photometryModel := if fit.fittingModel = true then
          pm.offsetParams fit.photometryModel delta else fit.photometryModel }, ?_, rfl⟩
    simp [offsetParams, hsize, hF]
  · intro fit0 whatToFit hfit hFl
    have hlay := fluxes_layout_after_assignIndices pm fit0 whatToFit hFl
    rw [← hfit] at hlay
    obtain ⟨hflag, hidx, hlt⟩ := hlay
    obtain ⟨fit', hdone, hlen, hget⟩ := general hflag hlt
    refine ⟨fit', hdone, hlen, ?_⟩
    intro i fs hfs
    obtain ⟨d, hd, hnew⟩ := hget i fs hfs
    rw [hidx i fs hfs] at hd
    exact ⟨d, hd, hnew⟩

/-- Witness of C9: the example fit with "Model Fluxes" (`_nParModel = 2`,
`_nParTot = 4`) and `delta = [1/10, 1/5, 3, 5]`: the call returns and the first
star, of flux 10, receives `delta[2] = 3`. -/
theorem PhotometryFit.offsetParams_fluxes_witness :
    [(1 : ℚ) / 10, 1 / 5, 3, 5].length
      = (PhotometryFit.assignIndices examplePhotometryModel exampleFit "Model Fluxes").nParTot ∧
    find "Model Fluxes" "Fluxes" ≠ none ∧
    ∃ fit', PhotometryFit.offsetParams examplePhotometryModel
        (PhotometryFit.assignIndices examplePhotometryModel exampleFit "Model Fluxes")
        [(1 : ℚ) / 10, 1 / 5, 3, 5] = PhotometryFit.Outcome.done fit' ∧
      fit'.associations.fittedStarList[0]?
        = some { flux := 10 + 3, indexInMatrix := 2, measurementCount := 2 } := by
  refine ⟨by decide, by decide, ?_⟩
  obtain ⟨fit', hdone, _, hget⟩ :=
    (PhotometryFit.offsetParams_fluxes examplePhotometryModel
      (PhotometryFit.assignIndices examplePhotometryModel exampleFit "Model Fluxes")
      [(1 : ℚ) / 10, 1 / 5, 3, 5] (by decide)).2.2 exampleFit "Model Fluxes" rfl (by decide)
  obtain ⟨d, hd, hnew⟩ := hget 0 { flux := 10, indexInMatrix := 2, measurementCount := 2 }
    (by decide)
  have hd3 : d = 3 := by
    have h2 : (PhotometryFit.assignIndices examplePhotometryModel exampleFit
        "Model Fluxes").nParModel + 0 = 2 := by decide
    rw [h2] at hd
    simpa using hd.symm
  subst hd3
  exact ⟨fit', hdone, hnew⟩

/-- C10: `offsetParams` with an all-zero `delta` of the right size changes
nothing.  `PhotometryFit::offsetParams` (star indices inside `delta`) returns
with the associations, and so every flux, and every member of the fit as
before, the model object being what the model's own `offsetParams` makes of the
zero vector when the model is fit.
`ConstrainedAstrometryModel::offsetParams` (blocks of the fitted sub-mappings
inside `delta`) hands every fitted sub-mapping the all-zero slice of its
length and returns the model as it was, every chip and visit parameter
included; this holds in particular right after `assignIndices` for every
all-zero `delta` that reaches the returned index. -/
theorem offsetParams_zero {M : Type} (pm : PhotometryModel M) (fit : PhotometryFit M)
    (m : ConstrainedAstrometryModel) (n : Nat) :
    ((fit.fittingFluxes = true →
        ∀ fs ∈ fit.associations.fittedStarList, fs.indexInMatrix < fit.nParTot) →
      PhotometryFit.offsetParams pm fit (List.replicate fit.nParTot 0)
        = PhotometryFit.Outcome.done { fit with
            photometryModel := if fit.fittingModel = true then
              pm.offsetParams fit.photometryModel (List.replicate fit.nParTot 0)
              else fit.photometryModel }) ∧
    ((∀ e ∈ m.fitted, e.2.getIndex + e.2.getNpar ≤ n) →
      (∀ e ∈ m.fitted, segment (List.replicate n 0) e.2.getIndex e.2.getNpar
        = some (List.replicate e.2.getNpar 0)) ∧
      m.offsetParams (List.replicate n 0) = some m) ∧
    (∀ (whatToFit : String) (firstIndex : Nat), find whatToFit "Distortions" ≠ none →
      (m.assignIndices whatToFit firstIndex).1 ≤ n →
      (∀ e ∈ (m.assignIndices whatToFit firstIndex).2.fitted,
        segment (List.replicate n 0) e.2.getIndex e.2.getNpar
          = some (List.replicate e.2.getNpar 0)) ∧
      (m.assignIndices whatToFit firstIndex).2.offsetParams (List.replicate n 0)
        = some (m.assignIndices whatToFit firstIndex).2) := by
  have astro : ∀ m : ConstrainedAstrometryModel,
      (∀ e ∈ m.fitted, e.2.getIndex + e.2.getNpar ≤ n) →
      (∀ e ∈ m.fitted, segment (List.replicate n 0) e.2.getIndex e.2.getNpar
        = some (List.replicate e.2.getNpar 0)) ∧
      m.offsetParams (List.replicate n 0) = some m := by
    intro m h
    refine ⟨fun e he => segment_zero n _ _ (h e he), ?_⟩
    have hc : m.fittingChips = true → offsetBlock (List.replicate n (0 : ℚ)) m.chipMap
        = some m.chipMap := fun hf =>
      offsetBlock_zero n _ fun e he =>
        h e (by simp [ConstrainedAstrometryModel.fitted, hf, he])
    have hv : m.fittingVisits = true → offsetBlock (List.replicate n (0 : ℚ)) m.visitMap
        = some m.visitMap := fun hf =>
      offsetBlock_zero n _ fun e he =>
        h e (by simp [ConstrainedAstrometryModel.fitted, hf, he])
    obtain ⟨mappings, chipMap, visitMap, fittingChips, fittingVisits⟩ := m
    cases fittingChips <;> cases fittingVisits <;>
      simp_all [ConstrainedAstrometryModel.offsetParams]
  refine ⟨?_, astro m, ?_⟩
  · intro hidx
    cases hF : fit.fittingFluxes with
    | false => simp [PhotometryFit.offsetParams, hF]
    | true =>
      have hz := offsetFluxes_zero fit.nParTot fit.associations.fittedStarList (hidx hF)
      simp [PhotometryFit.offsetParams, hF, hz]
  · intro whatToFit firstIndex hD hn
    apply astro
    intro e he
    have hstarts := assignIndices_blocks m whatToFit firstIndex hD
    have := (blockStarts_within _ firstIndex hstarts.1 e he).2
    rw [← hstarts.2] at this
    omega

/-- Witness of C10: the example fit with "Model Fluxes" and an all-zero `delta`
of size 4, and the example astrometry model after `assignIndices("Distortions", 5)`
(which returns 12) with an all-zero `delta` of size 12. -/
theorem offsetParams_zero_witness :
    (PhotometryFit.offsetParams examplePhotometryModel
        (PhotometryFit.assignIndices examplePhotometryModel exampleFit "Model Fluxes")
        (List.replicate 4 0)
      = PhotometryFit.Outcome.done
          { PhotometryFit.assignIndices examplePhotometryModel exampleFit "Model Fluxes" with
            photometryModel := examplePhotometryModel.offsetParams [1, 1]
              (List.replicate 4 0) }) ∧
    (exampleAstrometryModel.assignIndices "Distortions" 5).2.offsetParams (List.replicate 12 0)
      = some (exampleAstrometryModel.assignIndices "Distortions" 5).2 :=
  ⟨(offsetParams_zero examplePhotometryModel
      (PhotometryFit.assignIndices examplePhotometryModel exampleFit "Model Fluxes")
      exampleAstrometryModel 12).1 (by decide),
   ((offsetParams_zero examplePhotometryModel
      (PhotometryFit.assignIndices examplePhotometryModel exampleFit "Model Fluxes")
      exampleAstrometryModel 12).2.2 "Distortions" 5 (by decide) (by decide)).2⟩

/-- C11: after an `assignIndices` with "Distortions" that returned `next`,
`offsetParams(delta)`, for a `delta` that reaches `next`, returns the model in
which every sub-mapping of a side being fit has been offset by exactly its
slice `delta[getIndex, getIndex + getNpar)` and the sub-mappings of a side not
being fit are as they were; the slices handed out, put end to end in the order
of the calls, are the entries of `delta` from `firstIndex` up to `next`, each
once.  The chip side is being fit unless only "DistortionsVisit" is given, and
the visit side unless only "DistortionsChip" is given.  This holds for
`ConstrainedAstrometryModel` and for `ConstrainedPolyModel`. -/
theorem offsetParams_slices (ma : ConstrainedAstrometryModel) (mp : ConstrainedPolyModel)
    (whatToFit : String) (firstIndex : Nat) (delta : List ℚ)
    (hD : find whatToFit "Distortions" ≠ none) :
    ((ma.assignIndices whatToFit firstIndex).1 ≤ delta.length →
      (ma.assignIndices whatToFit firstIndex).2.offsetParams delta
        = some { (ma.assignIndices whatToFit firstIndex).2 with
            chipMap :=
              if (ma.assignIndices whatToFit firstIndex).2.fittingChips = true then
                (ma.assignIndices whatToFit firstIndex).2.chipMap.offsetAll delta
              else (ma.assignIndices whatToFit firstIndex).2.chipMap,
            visitMap :=
              if (ma.assignIndices whatToFit firstIndex).2.fittingVisits = true then
                (ma.assignIndices whatToFit firstIndex).2.visitMap.offsetAll delta
              else (ma.assignIndices whatToFit firstIndex).2.visitMap } ∧
      (∀ e ∈ (ma.assignIndices whatToFit firstIndex).2.fitted,
        segment delta e.2.getIndex e.2.getNpar = some (e.2.slice delta)) ∧
      (ma.assignIndices whatToFit firstIndex).2.fitted.flatMap (fun e => e.2.slice delta)
        = (delta.drop firstIndex).take
            ((ma.assignIndices whatToFit firstIndex).1 - firstIndex)) ∧
    ((mp.assignIndices firstIndex whatToFit).1 ≤ delta.length →
      (mp.assignIndices firstIndex whatToFit).2.offsetParams delta
        = some { (mp.assignIndices firstIndex whatToFit).2 with
            chipMap :=
              if (mp.assignIndices firstIndex whatToFit).2.fittingChips = true then
                (mp.assignIndices firstIndex whatToFit).2.chipMap.offsetAll delta
              else (mp.assignIndices firstIndex whatToFit).2.chipMap,
            visitMap :=
              if (mp.assignIndices firstIndex whatToFit).2.fittingVisits = true then
                (mp.assignIndices firstIndex whatToFit).2.visitMap.offsetAll delta
              else (mp.assignIndices firstIndex whatToFit).2.visitMap } ∧
      (∀ e ∈ (mp.assignIndices firstIndex whatToFit).2.fitted,
        segment delta e.2.getIndex e.2.getNpar = some (e.2.slice delta)) ∧
      (mp.assignIndices firstIndex whatToFit).2.fitted.flatMap (fun e => e.2.slice delta)
        = (delta.drop firstIndex).take
            ((mp.assignIndices firstIndex whatToFit).1 - firstIndex)) ∧
    ((ma.assignIndices whatToFit firstIndex).2.fittingChips
        = ((find whatToFit "DistortionsChip").isSome ||
            !(find whatToFit "DistortionsVisit").isSome) ∧
      (ma.assignIndices whatToFit firstIndex).2.fittingVisits
        = ((find whatToFit "DistortionsVisit").isSome ||
            !(find whatToFit "DistortionsChip").isSome)) ∧
    ((mp.assignIndices firstIndex whatToFit).2.fittingChips
        = ((find whatToFit "DistortionsChip").isSome ||
            !(find whatToFit "DistortionsVisit").isSome) ∧
      (mp.assignIndices firstIndex whatToFit).2.fittingVisits
        = ((find whatToFit "DistortionsVisit").isSome ||
            !(find whatToFit "DistortionsChip").isSome)) := by
  have hsa := astrometry_fitsSides_assignIndices ma whatToFit firstIndex hD _ _ rfl rfl
  have hsp := poly_fitsSides_assignIndices mp whatToFit firstIndex hD _ _ rfl rfl
  refine ⟨?_, ?_, ⟨hsa.1, hsa.2.1⟩, ⟨hsp.1, hsp.2.1⟩⟩
  · intro hn
    have hb := assignIndices_blocks ma whatToFit firstIndex hD
    have hin : ∀ e ∈ (ma.assignIndices whatToFit firstIndex).2.fitted,
        e.2.getIndex + e.2.getNpar ≤ delta.length := by
      intro e he
      have := (blockStarts_within _ firstIndex hb.1 e he).2
      rw [← hb.2] at this
      omega
    refine ⟨astrometry_offsetParams_eq _ delta hin,
      fun e he => segment_eq_slice delta e.2 (hin e he), ?_⟩
    rw [slices_cover delta _ firstIndex hb.1, hb.2, Nat.add_sub_cancel_left]
  · intro hn
    have hb := poly_assignIndices_blocks mp whatToFit firstIndex hD
    have hin : ∀ e ∈ (mp.assignIndices firstIndex whatToFit).2.fitted,
        e.2.getIndex + e.2.getNpar ≤ delta.length := by
      intro e he
      have := (blockStarts_within _ firstIndex hb.1 e he).2
      rw [← hb.2] at this
      omega
    refine ⟨poly_offsetParams_eq _ delta hin,
      fun e he => segment_eq_slice delta e.2 (hin e he), ?_⟩
    rw [slices_cover delta _ firstIndex hb.1, hb.2, Nat.add_sub_cancel_left]

/-- Witness of C11: on the two example models, after
`assignIndices("DistortionsVisit", 5)`, which returns 7, a `delta` of size 7
offsets the visit mappings by the entries 5 and 6 of `delta` and leaves the
chip mappings as they were. -/
theorem offsetParams_slices_witness :
    find "DistortionsVisit" "Distortions" ≠ none ∧
    (exampleAstrometryModel.assignIndices "DistortionsVisit" 5).1
      ≤ ([0, 0, 0, 0, 0, 10, 20] : List ℚ).length ∧
    ((exampleAstrometryModel.assignIndices "DistortionsVisit" 5).2.offsetParams
        [0, 0, 0, 0, 0, 10, 20]).map (fun m => (m.chipMap, m.visitMap))
      = some ([(1, { index := 0, npar := 3, params := [1, 2, 3] }),
          (4, { index := 0, npar := 2, params := [1, 2] })],
        [(1, { index := 5, npar := 0, params := [] }),
          (2, { index := 5, npar := 2, params := [15, 26] })]) ∧
    (exampleAstrometryModel.assignIndices "DistortionsVisit" 5).2.fitted.flatMap
        (fun e => e.2.slice [0, 0, 0, 0, 0, 10, 20])
      = (([0, 0, 0, 0, 0, 10, 20] : List ℚ).drop 5).take
          ((exampleAstrometryModel.assignIndices "DistortionsVisit" 5).1 - 5) ∧
    (examplePolyModel.assignIndices 5 "DistortionsVisit").2.fitted.flatMap
        (fun e => e.2.slice [0, 0, 0, 0, 0, 10, 20])
      = (([0, 0, 0, 0, 0, 10, 20] : List ℚ).drop 5).take
          ((examplePolyModel.assignIndices 5 "DistortionsVisit").1 - 5) ∧
    (exampleAstrometryModel.assignIndices "DistortionsVisit" 5).2.fittingChips = false :=
  ⟨by decide, by decide, by decide!,
   ((offsetParams_slices exampleAstrometryModel examplePolyModel "DistortionsVisit" 5
      [0, 0, 0, 0, 0, 10, 20] (by decide)).1 (by decide)).2.2,
   ((offsetParams_slices exampleAstrometryModel examplePolyModel "DistortionsVisit" 5
      [0, 0, 0, 0, 0, 10, 20] (by decide)).2.1 (by decide)).2.2,
   (offsetParams_slices exampleAstrometryModel examplePolyModel "DistortionsVisit" 5
      [0, 0, 0, 0, 0, 10, 20] (by decide)).2.2.1.1.trans (by decide)⟩

/-- C12: the `Chi2` that `PhotometryFit::computeChi2` returns has `chi2` equal
to the sum of `((flux - photomFactor * fittedFlux) / eflux)^2` over the valid
measurements of all the fit catalogs, and `ndof` equal to the number of those
measurements minus `_nParTot`; measurements that are not valid count in
neither.  On well-linked associations the call returns. -/
theorem PhotometryFit.computeChi2_value {M : Type} (pm : PhotometryModel M)
    (fit : PhotometryFit M) :
    (∀ c, computeChi2 pm fit = some c →
      c.chi2 = (validChi2s pm fit).sum ∧
      c.ndof = (fit.associations.validCount : Int) - fit.nParTot) ∧
    (fit.associations.WellLinked → ∃ c, computeChi2 pm fit = some c) := by
  have key : computeChi2 pm fit
      = (accumulateStat pm fit Chi2Vect.AddEntry ([] : Chi2Vect)).map fun v =>
          ({ chi2 := (v.map fun e => e.chi2).sum,
             ndof := (v.length : Int) - fit.nParTot } : Chi2) := by
    unfold computeChi2
    rw [accumulateStat_fusion pm fit Chi2.AddEntry]
    cases accumulateStat pm fit Chi2Vect.AddEntry ([] : Chi2Vect) with
    | none => rfl
    | some v => simp [chi2_foldl]
  constructor
  · intro c hc
    rw [key] at hc
    cases hacc : accumulateStat pm fit Chi2Vect.AddEntry ([] : Chi2Vect) with
    | none => simp [hacc] at hc
    | some v =>
      simp only [hacc, Option.map_some', Option.some.injEq] at hc
      subst hc
      have hlen := accumulateImages_length pm fit _ 0 [] v hacc
      simp only [List.length_nil, Nat.zero_add] at hlen
      exact ⟨by rw [(accumulateStat_spec pm fit v hacc).1],
        by simp only [hlen, Associations.validCount]⟩
  · intro hlink
    obtain ⟨v, hv⟩ := accumulateImages_some pm fit fit.associations.ccdImageList
      (fun im him ms hms hval => (hlink im him ms hms hval).1) 0 []
    have hv' : accumulateStat pm fit Chi2Vect.AddEntry ([] : Chi2Vect) = some v := hv
    exact ⟨_, by rw [key, hv']; rfl⟩

/-- Witness of C12: on the example fit with "Model Fluxes" (`_nParTot = 4`)
the four valid measurements give `chi2 = 36 + 4 + 16 + 0` and `ndof = 4 - 4`. -/
theorem PhotometryFit.computeChi2_value_witness :
    exampleFit.associations.WellLinked ∧
    PhotometryFit.computeChi2 examplePhotometryModel
      (PhotometryFit.assignIndices examplePhotometryModel exampleFit "Model Fluxes")
      = some { chi2 := 56, ndof := 0 } ∧
    (56 : ℚ) = (PhotometryFit.validChi2s examplePhotometryModel
      (PhotometryFit.assignIndices examplePhotometryModel exampleFit "Model Fluxes")).sum := by
  have hlink : exampleFit.associations.WellLinked := by
    unfold Associations.WellLinked
    decide
  have heval : PhotometryFit.computeChi2 examplePhotometryModel
      (PhotometryFit.assignIndices examplePhotometryModel exampleFit "Model Fluxes")
      = some { chi2 := 56, ndof := 0 } := by
    decide!
  have h := PhotometryFit.computeChi2_value examplePhotometryModel
    (PhotometryFit.assignIndices examplePhotometryModel exampleFit "Model Fluxes")
  obtain ⟨c, _⟩ := h.2 (assignIndices_wellLinked examplePhotometryModel exampleFit
    "Model Fluxes" hlink)
  exact ⟨hlink, heval, (h.1 _ heval).1⟩

/-- C13: when before `outliersContributions` the measurement count of every
fitted star is the number of valid measured stars pointing at it, and
`outliers` lists valid measurements without repetition, then after the call
every listed measurement is invalid, the count of every fitted star has
decreased by the number of listed measurements pointing at it, and the count
of every fitted star is again the number of valid measured stars pointing at
it. -/
theorem PhotometryFit.outliersContributions_counts {M : Type} (pm : PhotometryModel M)
    (fit fit' : PhotometryFit M) (outliers : List MeasRef) (tList tList' : TripletList)
    (grad grad' : List ℚ)
    (hcons : fit.associations.CountsConsistent)
    (hnodup : outliers.Nodup)
    (hvalid : ∀ r ∈ outliers, ∃ ms, fit.associations.measuredStar? r = some ms ∧
      ms.valid = true)
    (hcall : PhotometryFit.outliersContributions pm fit outliers tList grad
      = some (fit', tList', grad')) :
    (∀ r ∈ outliers, ∃ ms, fit'.associations.measuredStar? r = some ms ∧ ms.valid = false) ∧
    fit'.associations.fittedStarList.length = fit.associations.fittedStarList.length ∧
    (∀ (p : Nat) (fs : FittedStar), fit.associations.fittedStarList[p]? = some fs →
      ∃ fs', fit'.associations.fittedStarList[p]? = some fs' ∧
        fs'.measurementCount = fs.measurementCount
          - ((outliers.countP fun r => fit.associations.pointsAt r p : Nat) : Int)) ∧
    fit'.associations.CountsConsistent := by
  obtain ⟨h, _⟩ := PhotometryFit.outliersContributions_rejectAll pm outliers fit fit'
    tList tList' grad grad' hcall
  exact ⟨rejectAll_invalid outliers _ _ h,
    frame_fittedStarList_length _ _ (rejectAll_frame outliers _ _ h),
    rejectAll_counts outliers _ _ h,
    rejectAll_countsConsistent outliers _ _ h hnodup hvalid hcons⟩

/-- Witness of C13: on the example fit, with the indices of "Model Fluxes",
the call with the first measurement of the first image as only outlier returns
and has the stated effects. -/
theorem PhotometryFit.outliersContributions_counts_witness :
    ∃ (fit' : PhotometryFit (List ℚ)) (tList' : TripletList) (grad' : List ℚ),
      PhotometryFit.outliersContributions examplePhotometryModel
          (PhotometryFit.assignIndices examplePhotometryModel exampleFit "Model Fluxes")
          [⟨0, 0⟩] (TripletList.new 10) [0, 0, 0, 0] = some (fit', tList', grad') ∧
      (∀ r ∈ [(⟨0, 0⟩ : MeasRef)],
        ∃ ms, fit'.associations.measuredStar? r = some ms ∧ ms.valid = false) ∧
      fit'.associations.fittedStarList.length
        = (PhotometryFit.assignIndices examplePhotometryModel exampleFit
            "Model Fluxes").associations.fittedStarList.length ∧
      (∀ (p : Nat) (fs : FittedStar),
        (PhotometryFit.assignIndices examplePhotometryModel exampleFit
            "Model Fluxes").associations.fittedStarList[p]? = some fs →
        ∃ fs', fit'.associations.fittedStarList[p]? = some fs' ∧
          fs'.measurementCount = fs.measurementCount
            - (([(⟨0, 0⟩ : MeasRef)].countP fun r =>
                (PhotometryFit.assignIndices examplePhotometryModel exampleFit
                  "Model Fluxes").associations.pointsAt r p : Nat) : Int)) ∧
      fit'.associations.CountsConsistent := by
  have hs : (PhotometryFit.outliersContributions examplePhotometryModel
      (PhotometryFit.assignIndices examplePhotometryModel exampleFit "Model Fluxes")
      [⟨0, 0⟩] (TripletList.new 10) [0, 0, 0, 0]).isSome = true := by decide!
  obtain ⟨⟨fit', tList', grad'⟩, h⟩ := Option.isSome_iff_exists.mp hs
  refine ⟨fit', tList', grad', h, ?_⟩
  refine PhotometryFit.outliersContributions_counts examplePhotometryModel _ fit' [⟨0, 0⟩]
    (TripletList.new 10) tList' [0, 0, 0, 0] grad' ?_ (by decide) ?_ h
  · intro p fs hp
    match p with
    | 0 =>
      have : fs.measurementCount = 2 := by
        have h2 : (PhotometryFit.assignIndices examplePhotometryModel exampleFit
          "Model Fluxes").associations.fittedStarList[0]?
            = some { flux := 10, indexInMatrix := 2, measurementCount := 2 } := by decide!
        rw [h2] at hp
        cases hp
        rfl
      rw [this]
      decide
    | 1 =>
      have : fs.measurementCount = 2 := by
        have h2 : (PhotometryFit.assignIndices examplePhotometryModel exampleFit
          "Model Fluxes").associations.fittedStarList[1]?
            = some { flux := 20, indexInMatrix := 3, measurementCount := 2 } := by decide!
        rw [h2] at hp
        cases hp
        rfl
      rw [this]
      decide
    | n + 2 =>
      have h2 : (PhotometryFit.assignIndices examplePhotometryModel exampleFit
        "Model Fluxes").associations.fittedStarList.length = 2 := by decide
      have := lt_of_getElem?_some hp
      omega
  · intro r hr
    simp only [List.mem_singleton] at hr
    subst hr
    exact ⟨{ flux := 16, eflux := 1, valid := true, fittedStar := 0, ccdImage := 0 },
      by decide!, rfl⟩

/-- Counterexample to C14 as stated: on the example fit, with the indices of
"Model Fluxes" and a zero gradient, the call with the first measurement of the
first image as only outlier leaves the gradient `[0, 0, 6, 0]`; the
contribution of that measurement is `[0, 0, 6, 0]`, so the gradient is not
its value before minus the contribution. -/
theorem outliersContributions_gradient_not_subtracted :
    (PhotometryFit.outliersContributions examplePhotometryModel
        (PhotometryFit.assignIndices examplePhotometryModel exampleFit "Model Fluxes")
        [⟨0, 0⟩] (TripletList.new 10) [0, 0, 0, 0]).map (fun x => x.2.2)
      = some [0, 0, 6, 0] ∧
    PhotometryFit.contribution examplePhotometryModel
        (PhotometryFit.assignIndices examplePhotometryModel exampleFit "Model Fluxes")
        ⟨0, 0⟩ 4 = some [0, 0, 6, 0] ∧
    ([0, 0, 6, 0] : List ℚ) ≠ subVec [0, 0, 0, 0] [0, 0, 6, 0] := by
  refine ⟨by decide!, by decide!, by decide!⟩

/-- C14, amended: `outliersContributions` adds each outlier's contribution to
the gradient.  After the call the gradient is its value before plus, for each
listed outlier in turn, the right-hand side that the single-measurement call
of `LSDerivatives` computes for it from zero, once the outliers listed before
it have been rejected. -/
theorem PhotometryFit.outliersContributions_gradient {M : Type} (pm : PhotometryModel M)
    (fit fit' : PhotometryFit M) (outliers : List MeasRef) (tList tList' : TripletList)
    (grad grad' : List ℚ)
    (hcall : PhotometryFit.outliersContributions pm fit outliers tList grad
      = some (fit', tList', grad')) :
    ∃ cs : List (List ℚ),
      PhotometryFit.contributions pm fit outliers grad.length = some cs ∧
        grad' = cs.foldl addVec grad := by
  induction outliers generalizing fit tList grad with
  | nil =>
    simp only [PhotometryFit.outliersContributions, Option.some.injEq, Prod.mk.injEq] at hcall
    refine ⟨[], rfl, ?_⟩
    rw [← hcall.2.2]
    rfl
  | cons i rest ih =>
    unfold PhotometryFit.outliersContributions at hcall
    cases hms : fit.associations.measuredStar? i with
    | none => simp [hms] at hcall
    | some out =>
      simp only [hms] at hcall
      cases hls : PhotometryFit.LSDerivativesImage pm fit out.ccdImage tList grad
          (some [i]) with
      | none => simp [hls] at hcall
      | some tg =>
        obtain ⟨tl1, g1⟩ := tg
        simp only [hls] at hcall
        cases hfs : fit.associations.fittedStar? out.fittedStar with
        | none => simp [hfs] at hcall
        | some fs =>
          simp only [hfs] at hcall
          obtain ⟨c, hc, hall⟩ := PhotometryFit.LSDerivativesImage_shift pm fit _ _ _ _ _ hls
          have hg1 : g1 = addVec grad c := by
            obtain ⟨t, ht⟩ := hall tList grad rfl
            rw [hls] at ht
            simp only [Option.some.injEq, Prod.mk.injEq] at ht
            exact ht.2
          have hlen : g1.length = grad.length := by
            rw [hg1]
            exact addVec_length _ _ hc
          obtain ⟨cs, hcs, hgrad⟩ := ih _ _ _ hcall
          refine ⟨c :: cs, ?_, ?_⟩
          · obtain ⟨t0, ht0⟩ := hall (TripletList.new 0) (List.replicate grad.length 0)
              (by simp)
            have hcontr : PhotometryFit.contribution pm fit i grad.length = some c := by
              unfold PhotometryFit.contribution
              simp only [hms, ht0, Option.map_some']
              rw [← hc, zeros_addVec]
            have hrej : fit.associations.rejectAll [i]
                = some ((fit.associations.setValid i false).decrementCount out.fittedStar) := by
              simp only [Associations.rejectAll, hms, hfs]
            rw [PhotometryFit.contributions]
            simp only [hcontr, hrej]
            rw [hlen] at hcs
            rw [hcs]
            rfl
          · rw [hgrad, hg1]
            rfl

/-- Witness of C14: on the example fit, with the indices of "Model Fluxes" and
the gradient `[1, 1, 1, 1]`, the call with the first measurements of the two
images as outliers returns, and the gradient after it is the sum of
`[1, 1, 1, 1]` and the two contributions `[0, 0, 6, 0]` and `[0, 0, 4, 0]`. -/
theorem PhotometryFit.outliersContributions_gradient_witness :
    ∃ (fit' : PhotometryFit (List ℚ)) (tList' : TripletList) (grad' : List ℚ),
      PhotometryFit.outliersContributions examplePhotometryModel
          (PhotometryFit.assignIndices examplePhotometryModel exampleFit "Model Fluxes")
          [⟨0, 0⟩, ⟨1, 0⟩] (TripletList.new 10) [1, 1, 1, 1] = some (fit', tList', grad') ∧
      PhotometryFit.contributions examplePhotometryModel
          (PhotometryFit.assignIndices examplePhotometryModel exampleFit "Model Fluxes")
          [⟨0, 0⟩, ⟨1, 0⟩] 4 = some [[0, 0, 6, 0], [0, 0, 4, 0]] ∧
      grad' = [1, 1, 11, 1] ∧
      ∃ cs : List (List ℚ),
        PhotometryFit.contributions examplePhotometryModel
            (PhotometryFit.assignIndices examplePhotometryModel exampleFit "Model Fluxes")
            [⟨0, 0⟩, ⟨1, 0⟩] ([1, 1, 1, 1] : List ℚ).length = some cs ∧
          grad' = cs.foldl addVec [1, 1, 1, 1] := by
  have hs : (PhotometryFit.outliersContributions examplePhotometryModel
      (PhotometryFit.assignIndices examplePhotometryModel exampleFit "Model Fluxes")
      [⟨0, 0⟩, ⟨1, 0⟩] (TripletList.new 10) [1, 1, 1, 1]).map (fun x => x.2.2)
        = some [1, 1, 11, 1] := by decide!
  obtain ⟨⟨fit', tList', grad'⟩, h, hg⟩ := Option.map_eq_some'.mp hs
  simp only at hg
  exact ⟨fit', tList', grad', h, by decide!, hg,
    PhotometryFit.outliersContributions_gradient examplePhotometryModel _ fit'
      [⟨0, 0⟩, ⟨1, 0⟩] (TripletList.new 10) tList' [1, 1, 1, 1] grad' h⟩

/-- C15: outlier rejection changes nothing in the associations but validity
flags and measurement counts.  `findOutliers`, a `const` member function,
has its list of outliers as only result, and that list keeps the entries it
had.  `outliersContributions` leaves the other members of the fit unchanged;
the associations differ from those before the call only in `valid` and
`measurementCount` (same images, same fluxes, flux errors, matrix indices and
links to fitted stars); a measurement that is not listed keeps its `valid`
flag, and a fitted star that no listed measurement points at keeps its
`measurementCount`. -/
theorem PhotometryFit.outlier_rejection_frame {M : Type} (pm : PhotometryModel M)
    (sqrt : ℚ → ℚ) (sort : Chi2Vect → Chi2Vect) (fit : PhotometryFit M) (nSigCut : ℚ)
    (outliers : List MeasRef) (tList : TripletList) (grad : List ℚ) :
    (∀ outs, PhotometryFit.findOutliers pm sqrt sort fit nSigCut outliers = some outs →
      outliers <+: outs) ∧
    (∀ fit' tList' grad',
      PhotometryFit.outliersContributions pm fit outliers tList grad
          = some (fit', tList', grad') →
        fit' = { fit with associations := fit'.associations } ∧
        fit'.associations.frame = fit.associations.frame ∧
        (∀ r, r ∉ outliers →
          fit'.associations.measuredStar? r = fit.associations.measuredStar? r) ∧
        (∀ p, (∀ r ∈ outliers, fit.associations.pointsAt r p = false) →
          fit'.associations.fittedStarList[p]? = fit.associations.fittedStarList[p]?)) := by
  refine ⟨fun outs h => findOutliers_prefix pm sqrt sort fit nSigCut outliers outs h, ?_⟩
  intro fit' tList' grad' hcall
  obtain ⟨h, h2⟩ := PhotometryFit.outliersContributions_rejectAll pm outliers fit fit'
    tList tList' grad grad' hcall
  exact ⟨h2, rejectAll_frame outliers _ _ h, rejectAll_measuredStar?_other outliers _ _ h,
    rejectAll_getElem?_other outliers _ _ h⟩

/-- Witness of C15: on the example fit with the indices of "Model Fluxes" and
the first measurement of the second image already listed, `findOutliers`
appends one measurement to the list, and `outliersContributions` returns and
changes nothing but the flag of the listed measurement and the count of its
fitted star. -/
theorem PhotometryFit.outlier_rejection_frame_witness :
    PhotometryFit.findOutliers examplePhotometryModel exampleSqrt exampleSort
        (PhotometryFit.assignIndices examplePhotometryModel exampleFit "Model Fluxes") 0
        [⟨1, 0⟩] = some [⟨1, 0⟩, ⟨0, 0⟩] ∧
    [(⟨1, 0⟩ : MeasRef)] <+: [⟨1, 0⟩, ⟨0, 0⟩] ∧
    ∃ (fit' : PhotometryFit (List ℚ)) (tList' : TripletList) (grad' : List ℚ),
      PhotometryFit.outliersContributions examplePhotometryModel
          (PhotometryFit.assignIndices examplePhotometryModel exampleFit "Model Fluxes")
          [⟨1, 0⟩] (TripletList.new 10) [0, 0, 0, 0] = some (fit', tList', grad') ∧
      fit' = { PhotometryFit.assignIndices examplePhotometryModel exampleFit "Model Fluxes"
        with associations := fit'.associations } ∧
      fit'.associations.frame
        = (PhotometryFit.assignIndices examplePhotometryModel exampleFit
            "Model Fluxes").associations.frame ∧
      (∀ r, r ∉ [(⟨1, 0⟩ : MeasRef)] →
        fit'.associations.measuredStar? r
          = (PhotometryFit.assignIndices examplePhotometryModel exampleFit
              "Model Fluxes").associations.measuredStar? r) ∧
      (∀ p, (∀ r ∈ [(⟨1, 0⟩ : MeasRef)],
          (PhotometryFit.assignIndices examplePhotometryModel exampleFit
            "Model Fluxes").associations.pointsAt r p = false) →
        fit'.associations.fittedStarList[p]?
          = (PhotometryFit.assignIndices examplePhotometryModel exampleFit
              "Model Fluxes").associations.fittedStarList[p]?) := by
  have t := PhotometryFit.outlier_rejection_frame examplePhotometryModel exampleSqrt
    exampleSort (PhotometryFit.assignIndices examplePhotometryModel exampleFit "Model Fluxes")
    0 [⟨1, 0⟩] (TripletList.new 10) [0, 0, 0, 0]
  have heval : PhotometryFit.findOutliers examplePhotometryModel exampleSqrt exampleSort
      (PhotometryFit.assignIndices examplePhotometryModel exampleFit "Model Fluxes") 0
      [⟨1, 0⟩] = some [⟨1, 0⟩, ⟨0, 0⟩] := by decide!
  have hs : (PhotometryFit.outliersContributions examplePhotometryModel
      (PhotometryFit.assignIndices examplePhotometryModel exampleFit "Model Fluxes")
      [⟨1, 0⟩] (TripletList.new 10) [0, 0, 0, 0]).isSome = true := by decide!
  obtain ⟨⟨fit', tList', grad'⟩, h⟩ := Option.isSome_iff_exists.mp hs
  exact ⟨heval, t.1 _ heval, fit', tList', grad', h, t.2 fit' tList' grad' h⟩

/-- C16: on well-linked associations, with a model whose indices stay below
the count it announced and whose derivatives cover its indices, and a
factorization whose `solve` takes and gives vectors of the dimension of the
matrix,
`PhotometryFit::minimize` computes the derivatives and returns `false` exactly
when the factorization of the Hessian fails and `true` exactly when it
succeeds.  When it returns `false` the state is the one left by
`assignIndices` and by the assignment of `_lastNTrip`: `offsetParams` has not
run, every fitted star has the flux it had before the call, and the model has
the parameters it had before the call (`params` being anything of the model
that its own `assignIndices` leaves alone). -/
theorem PhotometryFit.minimize_false_iff {M α : Type} (pm : PhotometryModel M)
    (chol : List (List ℚ) → Option (List ℚ → List ℚ)) (fit : PhotometryFit M)
    (whatToFit : String) (params : M → α)
    (hlink : fit.associations.WellLinked)
    (hbelow : (PhotometryFit.assignIndices pm fit whatToFit).fittingModel = true →
      pm.IndicesBelow (PhotometryFit.assignIndices pm fit whatToFit).photometryModel
        (PhotometryFit.assignIndices pm fit whatToFit).associations
        (PhotometryFit.assignIndices pm fit whatToFit).nParModel)
    (hcover : (PhotometryFit.assignIndices pm fit whatToFit).fittingModel = true →
      pm.DerivativesCover (PhotometryFit.assignIndices pm fit whatToFit).photometryModel
        (PhotometryFit.assignIndices pm fit whatToFit).associations)
    (hsolve : ∀ H solve g, chol H = some solve → g.length = H.length →
      (solve g).length = H.length)
    (hparams : ∀ m w i, params (pm.assignIndices m w i).2 = params m) :
    ∃ (tList' : TripletList) (grad' : List ℚ),
      PhotometryFit.LSDerivatives pm (PhotometryFit.assignIndices pm fit whatToFit)
        (TripletList.new (if (PhotometryFit.assignIndices pm fit whatToFit).lastNTrip ≠ 0
          then (PhotometryFit.assignIndices pm fit whatToFit).lastNTrip else 1000000))
        (List.replicate (PhotometryFit.assignIndices pm fit whatToFit).nParTot 0)
          = some (tList', grad') ∧
      ((∃ s, PhotometryFit.minimize pm chol fit whatToFit
          = MinimizeOutcome.returned false s) ↔
        chol (PhotometryFit.hessian (PhotometryFit.assignIndices pm fit whatToFit).nParTot
          tList') = none) ∧
      ((∃ s, PhotometryFit.minimize pm chol fit whatToFit
          = MinimizeOutcome.returned true s) ↔
        chol (PhotometryFit.hessian (PhotometryFit.assignIndices pm fit whatToFit).nParTot
          tList') ≠ none) ∧
      ∀ s, PhotometryFit.minimize pm chol fit whatToFit = MinimizeOutcome.returned false s →
        s = { PhotometryFit.assignIndices pm fit whatToFit with lastNTrip := tList'.size } ∧
        s.associations.fittedStarList.map (fun fs => fs.flux)
          = fit.associations.fittedStarList.map (fun fs => fs.flux) ∧
        params s.photometryModel = params fit.photometryModel := by
  obtain ⟨⟨tList', grad'⟩, hLS, hlen⟩ := LSDerivatives_some_after_assignIndices pm fit whatToFit
    hlink hbelow hcover
    (TripletList.new (if (PhotometryFit.assignIndices pm fit whatToFit).lastNTrip ≠ 0
      then (PhotometryFit.assignIndices pm fit whatToFit).lastNTrip else 1000000))
  refine ⟨tList', grad', hLS, ?_⟩
  have hmodel : params (PhotometryFit.assignIndices pm fit whatToFit).photometryModel
      = params fit.photometryModel := by
    simp only [PhotometryFit.assignIndices]
    split
    · exact hparams _ _ _
    · rfl
  unfold PhotometryFit.minimize
  simp only [hLS]
  cases hc : chol (PhotometryFit.hessian (PhotometryFit.assignIndices pm fit whatToFit).nParTot
      tList') with
  | none =>
    simp only [MinimizeOutcome.returned.injEq, true_and, exists_eq', ne_eq, not_true_eq_false,
      iff_false, not_exists, Bool.false_eq_true, false_and, not_false_eq_true, implies_true]
    intro s hs
    subst hs
    exact ⟨rfl, PhotometryFit.assignIndices_flux pm fit whatToFit, hmodel⟩
  | some solve =>
    obtain ⟨fit3, h3⟩ := PhotometryFit.offsetParams_done_after_assignIndices pm fit whatToFit
      tList'.size (solve grad')
      ((hsolve _ solve grad' hc (hlen.trans (hessian_length _ _).symm)).trans
        (hessian_length _ _))
    simp only [h3]
    simp

/-- Witness of C16: on the example fit with "Model Fluxes" the Hessian has a
zero diagonal (the example model has zero derivatives), the factorization
fails and `minimize` returns `false` with the fluxes and the model of before
the call; with "Fluxes" the factorization succeeds and `minimize` returns
`true`. -/
theorem PhotometryFit.minimize_false_iff_witness :
    exampleFit.associations.WellLinked ∧
    (∃ s, PhotometryFit.minimize examplePhotometryModel exampleChol exampleFit "Model Fluxes"
        = MinimizeOutcome.returned false s ∧
      s.associations.fittedStarList.map (fun fs => fs.flux)
        = exampleFit.associations.fittedStarList.map (fun fs => fs.flux) ∧
      s.photometryModel = exampleFit.photometryModel) ∧
    ∃ s, PhotometryFit.minimize examplePhotometryModel exampleChol exampleFit "Fluxes"
      = MinimizeOutcome.returned true s := by
  have hlink : exampleFit.associations.WellLinked := by
    unfold Associations.WellLinked
    decide
  have hsolve : ∀ (H : List (List ℚ)) (solve : List ℚ → List ℚ) (g : List ℚ),
      exampleChol H = some solve → g.length = H.length → (solve g).length = H.length := by
    intro H solve g h hg
    rw [exampleChol_length H solve g h, hg, Nat.min_self]
  obtain ⟨tl1, g1, hLS1, hf1, _, hs1⟩ := PhotometryFit.minimize_false_iff
    examplePhotometryModel exampleChol exampleFit "Model Fluxes" id hlink
    (fun _ => example_indicesBelow "Model Fluxes") (fun _ => example_derivativesCover _ _)
    hsolve (fun _ _ _ => rfl)
  obtain ⟨tl2, g2, hLS2, _, ht2, _⟩ := PhotometryFit.minimize_false_iff
    examplePhotometryModel exampleChol exampleFit "Fluxes" id hlink
    (fun h => absurd h (by decide)) (fun _ => example_derivativesCover _ _)
    hsolve (fun _ _ _ => rfl)
  have e1 : PhotometryFit.LSDerivatives examplePhotometryModel
      (PhotometryFit.assignIndices examplePhotometryModel exampleFit "Model Fluxes")
      (TripletList.new (if (PhotometryFit.assignIndices examplePhotometryModel exampleFit
          "Model Fluxes").lastNTrip ≠ 0
        then (PhotometryFit.assignIndices examplePhotometryModel exampleFit
          "Model Fluxes").lastNTrip else 1000000))
      (List.replicate (PhotometryFit.assignIndices examplePhotometryModel exampleFit
        "Model Fluxes").nParTot 0)
      = some ({ triplets := [(0, 0, 0), (2, 0, 1), (0, 1, 0), (3, 1, 1), (1, 2, 0),
          (2, 2, 1), (1, 3, 0), (3, 3, 1)], nextFreeIndex := 4 }, [0, 0, 10, 2]) := by
    decide!
  have e2 : PhotometryFit.LSDerivatives examplePhotometryModel
      (PhotometryFit.assignIndices examplePhotometryModel exampleFit "Fluxes")
      (TripletList.new (if (PhotometryFit.assignIndices examplePhotometryModel exampleFit
          "Fluxes").lastNTrip ≠ 0
        then (PhotometryFit.assignIndices examplePhotometryModel exampleFit
          "Fluxes").lastNTrip else 1000000))
      (List.replicate (PhotometryFit.assignIndices examplePhotometryModel exampleFit
        "Fluxes").nParTot 0)
      = some ({ nextFreeIndex := 4,
                triplets := [(0, 0, 1), (1, 1, 1), (0, 2, 1), (1, 3, 1)] }, [10, 2]) := by
    decide!
  rw [e1] at hLS1
  rw [e2] at hLS2
  simp only [Option.some.injEq, Prod.mk.injEq] at hLS1 hLS2
  obtain ⟨h1, _⟩ := hLS1
  obtain ⟨h2, _⟩ := hLS2
  subst h1 h2
  refine ⟨hlink, ?_, ?_⟩
  · have hn : (exampleChol (PhotometryFit.hessian
        (PhotometryFit.assignIndices examplePhotometryModel exampleFit "Model Fluxes").nParTot
        { triplets := [(0, 0, 0), (2, 0, 1), (0, 1, 0), (3, 1, 1), (1, 2, 0), (2, 2, 1),
            (1, 3, 0), (3, 3, 1)], nextFreeIndex := 4 })).isSome = false := by decide!
    obtain ⟨s, hs⟩ := hf1.mpr (by simpa using hn)
    exact ⟨s, hs, (hs1 s hs).2⟩
  · have hn : (exampleChol (PhotometryFit.hessian
        (PhotometryFit.assignIndices examplePhotometryModel exampleFit "Fluxes").nParTot
        { nextFreeIndex := 4,
          triplets := [(0, 0, 1), (1, 1, 1), (0, 2, 1), (1, 3, 1)] })).isSome = true := by
      decide!
    exact ht2.mpr (Option.isSome_iff_ne_none.mp hn)

/-- C17: `AstrometryModel::validate(ccdImageList, ndof)` returns `false` iff
`ndof < 1`, whatever the image list and the parameter count of the model are. -/
theorem AstrometryModel.validate_false_iff (getTotalParameters : Int)
    (ccdImageList : List CcdImage) (ndof : Int) :
    AstrometryModel.validate getTotalParameters ccdImageList ndof = false ↔ ndof < 1 := by
  unfold AstrometryModel.validate
  by_cases h : ndof < 1
  · simp [h, bitAnd]
  · simp [h]

/-- C20: in the model that the constructor of `ConstrainedPolyModel` builds
from a list that starts with the image `im0`, the visit map has the visits of
the list as keys, each once; the mapping of the visit of `im0` wraps the
identity transform, and the mapping of every other visit of the list wraps a
polynomial of degree `visitDegree`. -/
theorem ConstrainedPolyModel.new_first_visit_identity (polys : PolyFactory) (im0 : CcdImage)
    (rest : List CcdImage) (initFromWCS : Bool) (nNotFit : Nat)
    (chipDegree visitDegree : Int) :
    (ConstrainedPolyModel.new polys (im0 :: rest) initFromWCS nNotFit chipDegree
      visitDegree).visitMap.Ordered ∧
    (∀ k, k ∈ (ConstrainedPolyModel.new polys (im0 :: rest) initFromWCS nNotFit chipDegree
        visitDegree).visitMap.map Prod.fst ↔ ∃ im ∈ im0 :: rest, im.visit = k) ∧
    (∃ v0, (ConstrainedPolyModel.new polys (im0 :: rest) initFromWCS nNotFit chipDegree
        visitDegree).visitMap.find im0.visit = some v0 ∧
      v0.getTransfo = Gtransfo.identity) ∧
    ∀ im ∈ rest, im.visit ≠ im0.visit →
      ∃ v, (ConstrainedPolyModel.new polys (im0 :: rest) initFromWCS nNotFit chipDegree
          visitDegree).visitMap.find im.visit = some v ∧
        v.getTransfo = Gtransfo.poly visitDegree := by
  obtain ⟨_, hord, hkeys, hfirst, hother⟩ :=
    ConstrainedPolyModel.new_visitInv polys im0 rest initFromWCS nNotFit chipDegree visitDegree
  refine ⟨hord, hkeys, ⟨_, hfirst, rfl⟩, ?_⟩
  intro im him hne
  have hmem := (hkeys im.visit).mpr ⟨im, List.mem_cons_of_mem _ him, rfl⟩
  obtain ⟨v, hv⟩ := Option.isSome_iff_exists.mp ((MappingMap.find_isSome_iff _ _).mpr hmem)
  refine ⟨v, hv, ?_⟩
  rw [hother _ v hne hv]
  rfl

/-- Witness of C20: on the four example images, which start with visit 2, the
mapping of visit 2 is the identity and that of visit 1 a polynomial of degree
3. -/
theorem ConstrainedPolyModel.new_first_visit_identity_witness :
    (ConstrainedPolyModel.new examplePolys exampleImages false 0 2 3).visitMap.map
        (fun e => (e.1, e.2.getTransfo))
      = [(1, Gtransfo.poly 3), (2, Gtransfo.identity)] ∧
    (∃ v0, (ConstrainedPolyModel.new examplePolys exampleImages false 0 2 3).visitMap.find 2
        = some v0 ∧ v0.getTransfo = Gtransfo.identity) ∧
    ∀ im ∈ exampleImages.tail, im.visit ≠ 2 →
      ∃ v, (ConstrainedPolyModel.new examplePolys exampleImages false 0 2 3).visitMap.find
          im.visit = some v ∧ v.getTransfo = Gtransfo.poly 3 :=
  ⟨by decide!,
    (ConstrainedPolyModel.new_first_visit_identity examplePolys
      { visit := 2, ccdId := 4, catalogForFit := [], detectorCenter := (3, 4) }
      exampleImages.tail false 0 2 3).2.2.1,
    (ConstrainedPolyModel.new_first_visit_identity examplePolys
      { visit := 2, ccdId := 4, catalogForFit := [], detectorCenter := (3, 4) }
      exampleImages.tail false 0 2 3).2.2.2⟩

/-- C21: `ConstrainedAstrometryModel::getMapping(ccdImage)` returns the mapping
stored under the `(visit, ccd)` key of the image when the table has one, and
throws the invalid-parameter error iff it has none.  In the model that the
constructor builds from an image list, and in that model after a call of
`assignIndices`, the table has a mapping for a key iff an image of the list
has that key: for such an image the call returns the mapping stored for it,
which pairs the chip and the visit of the image, and the call throws iff no
image of the list has the key. -/
theorem ConstrainedAstrometryModel.getMapping_throws_iff (polys : PolyFactory)
    (ccdImageList : List CcdImage) (chipOrder visitOrder : Int)
    (m : ConstrainedAstrometryModel) (ccdImage : CcdImage)
    (hnew : ConstrainedAstrometryModel.new polys ccdImageList chipOrder visitOrder
      = Except.ok m) :
    (∀ (m' : ConstrainedAstrometryModel) (t : TwoTransfoMapping),
      m'.getMapping ccdImage = Except.ok t ↔
        findMapping? m'.mappings ccdImage.getHashKey = some t) ∧
    ((∃ im ∈ ccdImageList, im.getHashKey = ccdImage.getHashKey) →
      ∃ t, m.getMapping ccdImage = Except.ok t ∧
        t.chip = ccdImage.ccdId ∧ t.visit = ccdImage.visit) ∧
    (m.getMapping ccdImage = Except.error Exception.invalidParameterError ↔
      ¬ ∃ im ∈ ccdImageList, im.getHashKey = ccdImage.getHashKey) ∧
    ∀ (whatToFit : String) (firstIndex : Nat),
      ((∃ im ∈ ccdImageList, im.getHashKey = ccdImage.getHashKey) →
        ∃ t, (m.assignIndices whatToFit firstIndex).2.getMapping ccdImage = Except.ok t ∧
          t.chip = ccdImage.ccdId ∧ t.visit = ccdImage.visit) ∧
      ((m.assignIndices whatToFit firstIndex).2.getMapping ccdImage
          = Except.error Exception.invalidParameterError ↔
        ¬ ∃ im ∈ ccdImageList, im.getHashKey = ccdImage.getHashKey) := by
  obtain ⟨hmap, hkeys⟩ := ConstrainedAstrometryModel.new_mappings polys ccdImageList
    chipOrder visitOrder m hnew
  have hget : ∀ (m' : ConstrainedAstrometryModel),
      (∀ t, m'.getMapping ccdImage = Except.ok t ↔
        findMapping? m'.mappings ccdImage.getHashKey = some t) ∧
      (m'.getMapping ccdImage = Except.error Exception.invalidParameterError ↔
        findMapping? m'.mappings ccdImage.getHashKey = none) := by
    intro m'
    unfold ConstrainedAstrometryModel.getMapping ConstrainedAstrometryModel.findMapping
    cases findMapping? m'.mappings ccdImage.getHashKey with
    | none => simp
    | some t => simp
  have hnone : ∀ o : Option TwoTransfoMapping, o = none ↔ ¬ o.isSome = true := by
    intro o
    cases o <;> simp
  have hstored : ∀ im ∈ ccdImageList, im.getHashKey = ccdImage.getHashKey →
      findMapping? m.mappings ccdImage.getHashKey
        = some (TwoTransfoMapping.new ccdImage.ccdId ccdImage.visit) := by
    intro im him hk
    have := hmap im him
    rw [hk] at this
    rw [this]
    have h1 : im.visit = ccdImage.visit := congrArg CcdImageKey.visit hk
    have h2 : im.ccdId = ccdImage.ccdId := congrArg CcdImageKey.ccd hk
    rw [h1, h2]
  refine ⟨fun m' t => (hget m').1 t, ?_, ?_, ?_⟩
  · rintro ⟨im, him, hk⟩
    exact ⟨_, ((hget m).1 _).mpr (hstored im him hk), rfl, rfl⟩
  · rw [(hget m).2, hnone, hkeys]
  · intro whatToFit firstIndex
    have hmappings : ∃ f : TwoTransfoMapping → TwoTransfoMapping,
        (∀ t, (f t).chip = t.chip ∧ (f t).visit = t.visit) ∧
        (m.assignIndices whatToFit firstIndex).2.mappings
          = m.mappings.map fun i => (i.1, f i.2) := by
      unfold ConstrainedAstrometryModel.assignIndices
      by_cases hD : find whatToFit "Distortions" = none
      · simp only [hD, if_true]
        exact ⟨id, fun t => ⟨rfl, rfl⟩, by simp⟩
      · simp only [hD, if_false]
        exact ⟨fun t => t.setWhatToFit
            (if (!(find whatToFit "DistortionsChip").isSome &&
                !(find whatToFit "DistortionsVisit").isSome) = true then true
              else (find whatToFit "DistortionsChip").isSome)
            (if (!(find whatToFit "DistortionsChip").isSome &&
                !(find whatToFit "DistortionsVisit").isSome) = true then true
              else (find whatToFit "DistortionsVisit").isSome),
          fun t => ⟨rfl, rfl⟩, rfl⟩
    obtain ⟨f, hf, hm⟩ := hmappings
    have hfind : findMapping? (m.assignIndices whatToFit firstIndex).2.mappings
        ccdImage.getHashKey = (findMapping? m.mappings ccdImage.getHashKey).map f := by
      rw [hm, findMapping?_map_isSome]
    constructor
    · rintro ⟨im, him, hk⟩
      refine ⟨f (TwoTransfoMapping.new ccdImage.ccdId ccdImage.visit), ?_, ?_, ?_⟩
      · rw [(hget _).1, hfind, hstored im him hk]
        rfl
      · exact (hf _).1
      · exact (hf _).2
    · rw [(hget _).2, hfind, Option.map_eq_none', hnone, hkeys]

/-- Witness of C21: in the model built from the four example images, the
lookup for an image of visit 2 and chip 1 returns their pair, and the lookup
for an image of visit 3, which no image of the list has, throws. -/
theorem ConstrainedAstrometryModel.getMapping_throws_iff_witness :
    ∃ m, ConstrainedAstrometryModel.new examplePolys exampleImages 1 1 = Except.ok m ∧
      (∃ t, m.getMapping { visit := 2, ccdId := 1, catalogForFit := [] } = Except.ok t ∧
        t.chip = 1 ∧ t.visit = 2) ∧
      m.getMapping { visit := 3, ccdId := 1, catalogForFit := [] }
        = Except.error Exception.invalidParameterError := by
  obtain ⟨_, _, m, _, _, hnew, _⟩ :=
    ConstrainedAstrometryModel.new_spec examplePolys exampleImages 1 1 (by decide)
  exact ⟨m, hnew,
    (ConstrainedAstrometryModel.getMapping_throws_iff examplePolys exampleImages 1 1 m
      { visit := 2, ccdId := 1, catalogForFit := [] } hnew).2.1 (by decide),
    (ConstrainedAstrometryModel.getMapping_throws_iff examplePolys exampleImages 1 1 m
      { visit := 3, ccdId := 1, catalogForFit := [] } hnew).2.2.1.mpr (by decide)⟩

/-- C22: in the model that the constructor of `ConstrainedPolyModel` builds
from an image list, for an image that is not of the list (an address beyond
the list) `getMapping` returns `nullptr` and `produceSipWcs` returns `nullptr`,
neither throws; for the image at a position of the list `getMapping` returns a
mapping, the pair of the chip and the visit of that image.  The same holds
after a call of `assignIndices`. -/
theorem ConstrainedPolyModel.getMapping_null_iff {P W : Type} (polys : PolyFactory)
    (ccdImageList : List CcdImage) (initFromWCS : Bool) (nNotFit : Nat)
    (chipDegree visitDegree : Int) (proj : Nat → Option P) (makeSip : P → List Gtransfo → W)
    (firstIndex : Nat) (whatToFit : String) (ccdImage : Nat) :
    (ccdImageList.length ≤ ccdImage →
      (ConstrainedPolyModel.new polys ccdImageList initFromWCS nNotFit chipDegree
        visitDegree).getMapping ccdImage = none ∧
      (ConstrainedPolyModel.new polys ccdImageList initFromWCS nNotFit chipDegree
        visitDegree).produceSipWcs proj makeSip ccdImage
          = ConstrainedPolyModel.SipOutcome.null ∧
      ((ConstrainedPolyModel.new polys ccdImageList initFromWCS nNotFit chipDegree
        visitDegree).assignIndices firstIndex whatToFit).2.getMapping ccdImage = none ∧
      ((ConstrainedPolyModel.new polys ccdImageList initFromWCS nNotFit chipDegree
        visitDegree).assignIndices firstIndex whatToFit).2.produceSipWcs proj makeSip
          ccdImage = ConstrainedPolyModel.SipOutcome.null) ∧
    (∀ im, ccdImageList[ccdImage]? = some im →
      (∃ t, (ConstrainedPolyModel.new polys ccdImageList initFromWCS nNotFit chipDegree
          visitDegree).getMapping ccdImage = some t ∧
        t.chip = im.ccdId ∧ t.visit = im.visit) ∧
      ∃ t, ((ConstrainedPolyModel.new polys ccdImageList initFromWCS nNotFit chipDegree
          visitDegree).assignIndices firstIndex whatToFit).2.getMapping ccdImage = some t ∧
        t.chip = im.ccdId ∧ t.visit = im.visit) := by
  obtain ⟨hout, hin⟩ := ConstrainedPolyModel.poly_new_mappings polys ccdImageList initFromWCS
    nNotFit chipDegree visitDegree
  have hmappings : ∃ f : TwoTransfoMapping → TwoTransfoMapping,
      (∀ t, (f t).chip = t.chip ∧ (f t).visit = t.visit) ∧
      ((ConstrainedPolyModel.new polys ccdImageList initFromWCS nNotFit chipDegree
        visitDegree).assignIndices firstIndex whatToFit).2.mappings
        = (ConstrainedPolyModel.new polys ccdImageList initFromWCS nNotFit chipDegree
            visitDegree).mappings.map fun i => (i.1, f i.2) := by
    unfold ConstrainedPolyModel.assignIndices
    by_cases hD : find whatToFit "Distortions" = none
    · simp only [hD, if_true]
      exact ⟨id, fun t => ⟨rfl, rfl⟩, by simp⟩
    · simp only [hD, if_false]
      exact ⟨fun t => t.setWhatToFit
          (if (!(find whatToFit "DistortionsChip").isSome &&
              !(find whatToFit "DistortionsVisit").isSome) = true then true
            else (find whatToFit "DistortionsChip").isSome)
          (if (!(find whatToFit "DistortionsChip").isSome &&
              !(find whatToFit "DistortionsVisit").isSome) = true then true
            else (find whatToFit "DistortionsVisit").isSome),
        fun t => ⟨rfl, rfl⟩, rfl⟩
  obtain ⟨f, hf, hm⟩ := hmappings
  have hfind : findMapping? ((ConstrainedPolyModel.new polys ccdImageList initFromWCS nNotFit
      chipDegree visitDegree).assignIndices firstIndex whatToFit).2.mappings ccdImage
        = (findMapping? (ConstrainedPolyModel.new polys ccdImageList initFromWCS nNotFit
            chipDegree visitDegree).mappings ccdImage).map f := by
    rw [hm, findMapping?_map_isSome]
  constructor
  · intro hp
    have h1 := hout ccdImage hp
    have h2 : findMapping? ((ConstrainedPolyModel.new polys ccdImageList initFromWCS nNotFit
        chipDegree visitDegree).assignIndices firstIndex whatToFit).2.mappings ccdImage
          = none := by
      rw [hfind, h1]
      rfl
    refine ⟨?_, ?_, ?_, ?_⟩
    · simp only [ConstrainedPolyModel.getMapping, h1]
    · simp only [ConstrainedPolyModel.produceSipWcs, h1]
    · simp only [ConstrainedPolyModel.getMapping, h2]
    · simp only [ConstrainedPolyModel.produceSipWcs, h2]
  · intro im him
    have h1 := hin ccdImage im him
    refine ⟨⟨TwoTransfoMapping.new im.ccdId im.visit,
      by simp only [ConstrainedPolyModel.getMapping, h1], rfl, rfl⟩, ?_⟩
    refine ⟨f (TwoTransfoMapping.new im.ccdId im.visit), ?_, (hf _).1, (hf _).2⟩
    simp only [ConstrainedPolyModel.getMapping, hfind, h1, Option.map_some']

/-- Witness of C22: in the model built from the four example images, the
image at position 4, which is not of the list, has no mapping and no WCS, and
the image at position 2 has the mapping of chip 1 and visit 2. -/
theorem ConstrainedPolyModel.getMapping_null_iff_witness :
    exampleImages.length ≤ 4 ∧
    (ConstrainedPolyModel.new examplePolys exampleImages false 0 2 3).getMapping 4 = none ∧
    (ConstrainedPolyModel.new examplePolys exampleImages false 0 2 3).produceSipWcs
      (fun _ => some ()) (fun _ l => l) 4 = ConstrainedPolyModel.SipOutcome.null ∧
    ∃ t, (ConstrainedPolyModel.new examplePolys exampleImages false 0 2 3).getMapping 2
        = some t ∧ t.chip = 1 ∧ t.visit = 2 :=
  ⟨by decide,
    ((ConstrainedPolyModel.getMapping_null_iff examplePolys exampleImages false 0 2 3
      (fun _ => some ()) (fun _ l => l) 0 "Distortions" 4).1 (by decide)).1,
    ((ConstrainedPolyModel.getMapping_null_iff examplePolys exampleImages false 0 2 3
      (fun _ => some ()) (fun _ l => l) 0 "Distortions" 4).1 (by decide)).2.1,
    ((ConstrainedPolyModel.getMapping_null_iff examplePolys exampleImages false 0 2 3
      (fun _ => some ()) (fun _ l => l) 0 "Distortions" 2).2
      { visit := 2, ccdId := 1, catalogForFit := [], detectorCenter := (1, 0) } rfl).1⟩

/-- C23: `findOutliers` is the greedy selection in order of decreasing chi2.
For a sort that orders by increasing chi2, when the call returns, the chi2
vector `chi2s` of the valid measurements is walked from the largest chi2 down
(the walk is the sorted vector reversed), and the list returned is `outliers`
followed by the greedy selection among the measurements of the walk whose chi2
is not below the cut `mean + nSigCut * sigma`: such a measurement is appended
iff it shares no parameter index with a measurement appended before it.
Whenever a valid measurement is not below the cut, a measurement of maximal
chi2 is appended.  On well-linked associations with indices in range the call
does return. -/
theorem PhotometryFit.findOutliers_greedy {M : Type} (pm : PhotometryModel M)
    (sqrt : ℚ → ℚ) (sort : Chi2Vect → Chi2Vect) (fit : PhotometryFit M) (nSigCut : ℚ)
    (outliers : List MeasRef)
    (hperm : ∀ l, (sort l).Perm l)
    (hsorted : ∀ l, (sort l).Pairwise fun a b => a.chi2 ≤ b.chi2) :
    (∀ outs, findOutliers pm sqrt sort fit nSigCut outliers = some outs →
      ∃ chi2s : Chi2Vect,
        accumulateStat pm fit Chi2Vect.AddEntry ([] : Chi2Vect) = some chi2s ∧
        chi2s.map (fun e => e.chi2) = validChi2s pm fit ∧
        (∀ e ∈ chi2s, IsValidWithChi2 pm fit e.measuredStar e.chi2) ∧
        (sort chi2s).reverse.Perm chi2s ∧
        (sort chi2s).reverse.Pairwise (fun a b => b.chi2 ≤ a.chi2) ∧
        outs = outliers ++ greedy pm fit
          (((sort chi2s).reverse.filter fun e =>
              !decide (e.chi2 < mean (validChi2s pm fit)
                + nSigCut * sqrt (populationVariance (validChi2s pm fit)))).map
            fun e => e.measuredStar) [] ∧
        ((∃ e ∈ chi2s, ¬ e.chi2 < mean (validChi2s pm fit)
            + nSigCut * sqrt (populationVariance (validChi2s pm fit))) →
          ∃ e0 ∈ chi2s, (∀ e ∈ chi2s, e.chi2 ≤ e0.chi2) ∧ e0.measuredStar ∈ outs)) ∧
    (fit.associations.WellLinked → IndicesInRange pm fit →
      ∃ outs, findOutliers pm sqrt sort fit nSigCut outliers = some outs) := by
  refine ⟨?_, fun hlink hrange =>
    findOutliers_returns pm sqrt sort fit nSigCut outliers hperm hlink hrange⟩
  intro outs hcall
  obtain ⟨chi2s, hacc, houts, hempty⟩ :=
    findOutliers_eq_greedy pm sqrt sort fit nSigCut outliers outs hperm hcall
  obtain ⟨hvals, hgood⟩ := accumulateStat_spec pm fit chi2s hacc
  have hwalk : (sort chi2s).reverse.Perm chi2s :=
    (List.reverse_perm _).trans (hperm chi2s)
  have hdesc : (sort chi2s).reverse.Pairwise (fun a b => b.chi2 ≤ a.chi2) :=
    List.pairwise_reverse.mpr (hsorted chi2s)
  refine ⟨chi2s, hacc, hvals, hgood, hwalk, hdesc, ?_, ?_⟩
  · by_cases hn : chi2s.length = 0
    · have hnil : (sort chi2s).reverse = [] := by
        apply List.Perm.eq_nil
        rw [← List.length_eq_zero.mp hn]
        exact hwalk
      rw [hempty hn, hnil]
      simp [greedy]
    · rw [houts, takeWhile_eq_filter_of_descending _ _ hdesc,
        outlierCut_eq sqrt nSigCut (sort chi2s) chi2s _ (hperm chi2s) hvals hn]
  · rintro ⟨e, he, hcut⟩
    have hn : chi2s.length ≠ 0 := by
      intro h0
      rw [List.length_eq_zero.mp h0] at he
      cases he
    rw [← outlierCut_eq sqrt nSigCut (sort chi2s) chi2s _ (hperm chi2s) hvals hn] at hcut
    cases hw : (sort chi2s).reverse with
    | nil =>
      rw [hw] at hwalk
      have := hwalk.mem_iff.mpr he
      cases this
    | cons e0 rest =>
      rw [hw] at hwalk hdesc
      rw [List.pairwise_cons] at hdesc
      have hmax : ∀ e' ∈ chi2s, e'.chi2 ≤ e0.chi2 := by
        intro e' he'
        rcases List.mem_cons.mp (hwalk.mem_iff.mpr he') with rfl | hr
        · exact le_refl _
        · exact hdesc.1 e' hr
      refine ⟨e0, hwalk.mem_iff.mp (List.mem_cons_self _ _), hmax, ?_⟩
      have h0 : ¬ e0.chi2 < outlierCut sqrt nSigCut (sort chi2s) :=
        fun hlt => hcut (lt_of_le_of_lt (hmax e he) hlt)
      rw [houts, hw]
      have htw : ((e0 :: rest).takeWhile fun e =>
          !decide (e.chi2 < outlierCut sqrt nSigCut (sort chi2s)))
          = e0 :: rest.takeWhile fun e =>
              !decide (e.chi2 < outlierCut sqrt nSigCut (sort chi2s)) := by
        simp [List.takeWhile, h0]
      rw [htw, List.map_cons, greedy]
      simp only [List.any_nil, Bool.false_eq_true, if_false, List.nil_append]
      apply List.mem_append_right
      exact (greedy_keeps_selected pm fit _ [e0.measuredStar]).subset (List.mem_singleton_self _)

/-- Witness of C23: on the example fit with "Model Fluxes" and `nSigCut = 0`
the cut is 14; of the two measurements not below it, of chi2 36 and 16, which
share the flux of their star, only the first is selected. -/
theorem PhotometryFit.findOutliers_greedy_witness :
    (∀ l, (exampleSort l).Perm l) ∧
    (∀ l, (exampleSort l).Pairwise fun a b => a.chi2 ≤ b.chi2) ∧
    PhotometryFit.findOutliers examplePhotometryModel exampleSqrt exampleSort
      (PhotometryFit.assignIndices examplePhotometryModel exampleFit "Model Fluxes") 0 []
      = some [⟨0, 0⟩] ∧
    PhotometryFit.greedy examplePhotometryModel
      (PhotometryFit.assignIndices examplePhotometryModel exampleFit "Model Fluxes")
      [⟨0, 0⟩, ⟨1, 0⟩] [] = [⟨0, 0⟩] ∧
    ∃ chi2s : Chi2Vect,
      PhotometryFit.accumulateStat examplePhotometryModel
        (PhotometryFit.assignIndices examplePhotometryModel exampleFit "Model Fluxes")
        Chi2Vect.AddEntry ([] : Chi2Vect) = some chi2s ∧
      [(⟨0, 0⟩ : MeasRef)] = [] ++ PhotometryFit.greedy examplePhotometryModel
        (PhotometryFit.assignIndices examplePhotometryModel exampleFit "Model Fluxes")
        (((exampleSort chi2s).reverse.filter fun e =>
            !decide (e.chi2 < mean (PhotometryFit.validChi2s examplePhotometryModel
                (PhotometryFit.assignIndices examplePhotometryModel exampleFit "Model Fluxes"))
              + 0 * exampleSqrt (populationVariance
                  (PhotometryFit.validChi2s examplePhotometryModel
                    (PhotometryFit.assignIndices examplePhotometryModel exampleFit
                      "Model Fluxes"))))).map
          fun e => e.measuredStar) [] := by
  have heval : PhotometryFit.findOutliers examplePhotometryModel exampleSqrt exampleSort
      (PhotometryFit.assignIndices examplePhotometryModel exampleFit "Model Fluxes") 0 []
      = some [⟨0, 0⟩] := by
    decide!
  obtain ⟨chi2s, hacc, _, _, _, _, houts, _⟩ :=
    (PhotometryFit.findOutliers_greedy examplePhotometryModel exampleSqrt exampleSort
      (PhotometryFit.assignIndices examplePhotometryModel exampleFit "Model Fluxes") 0 []
      exampleSort_perm exampleSort_sorted).1 _ heval
  exact ⟨exampleSort_perm, exampleSort_sorted, heval, by decide!, chi2s, hacc, houts⟩

/-- Counterexample to C24 as stated: on the fit of the single valid
measurement of flux error 2, of a fitted star of flux 10, with the model that
returns the index 0 and the derivative 1, `LSDerivatives` with "Model" gives
the one triplet `(0, 0, 5)`, of value `h[0] * fittedStar.flux / sigma`, and
not the triplet `(0, 0, 1/2)` of value `h[0] / sigma`. -/
theorem LSDerivatives_triplet_has_flux_factor :
    imagesRows exampleScaleModel
        (PhotometryFit.assignIndices exampleScaleModel exampleScaledFit "Model")
        exampleScaled.ccdImageList = some [exampleScaledRow 0] ∧
    (PhotometryFit.LSDerivatives exampleScaleModel
        (PhotometryFit.assignIndices exampleScaleModel exampleScaledFit "Model")
        (TripletList.new 0) [0]).map (fun out => out.1.triplets) = some [(0, 0, 5)] ∧
    (exampleScaledRow 0).plainModelTriplets 0 = [(0, 0, 1 / 2)] ∧
    ((0, 0, 1 / 2) : Nat × Nat × ℚ) ∉ [((0, 0, 5) : Nat × Nat × ℚ)] := by
  refine ⟨by decide!, by decide!, by decide!, by decide!⟩

/-- C24, amended: in `PhotometryFit::LSDerivatives`, when the model is fit (on
well-linked associations, with a right-hand side that holds every index and a
model whose derivatives cover its indices, the call returns and) every valid
measurement with flux error `sigma` contributes, for each `k` of the lists
`(idx, h)` returned by the model, the triplet
`(idx[k], row, h[k] * fittedStar.flux / sigma)`.  The rows of the call are the
valid measurements, image by image in catalog order, the one at position `j`
taking the row `NextFreeIndex() + j`; invalid measurements take none, and the
next free index of the triplet list advances by the number of valid
measurements. -/
theorem PhotometryFit.LSDerivatives_model_block {M : Type} (pm : PhotometryModel M)
    (fit : PhotometryFit M) (n : Nat)
    (hmodel : fit.fittingModel = true)
    (hlink : fit.associations.WellLinked)
    (hstars : fit.fittingFluxes = true →
      ∀ fs ∈ fit.associations.fittedStarList, fs.indexInMatrix < n)
    (hbelow : pm.IndicesBelow fit.photometryModel fit.associations n)
    (hcover : pm.DerivativesCover fit.photometryModel fit.associations)
    (tl : TripletList) (rhs : List ℚ) (hn : rhs.length = n) :
    ∃ (tl' : TripletList) (rhs' : List ℚ) (rows : List Row),
      PhotometryFit.LSDerivatives pm fit tl rhs = some (tl', rhs') ∧
      rows.map (fun row => (row.im, row.ms))
        = fit.associations.ccdImageList.flatMap (fun im =>
            (im.catalogForFit.filter fun ms => ms.valid).map fun ms => (im, ms)) ∧
      (∀ row ∈ rows,
        fit.associations.fittedStar? row.ms.fittedStar = some row.fs ∧
        row.idx.length ≤ row.h.length ∧
        ∃ indices : List Nat, (row.idx, row.h)
          = pm.getIndicesAndDerivatives fit.photometryModel row.ms row.im indices
              (List.replicate PhotometryFit.npar_max 0)) ∧
      tl'.triplets = tl.triplets ++ tripletsFrom pm fit rows tl.nextFreeIndex ∧
      (∀ (row : Row) (column : Nat), row.triplets pm fit column
        = ((row.idx.zip row.h).map fun p => (p.1, column, p.2 * row.fs.flux / row.ms.eflux))
          ++ (if fit.fittingFluxes then [row.fluxTriplet pm fit column] else [])) ∧
      tl'.nextFreeIndex = tl.nextFreeIndex + fit.associations.validCount := by
  obtain ⟨⟨tl', rhs'⟩, hcall, _⟩ := PhotometryFit.LSDerivatives_some pm fit n hlink hstars
    (fun _ => hbelow) (fun _ => hcover) tl rhs hn
  obtain ⟨rows, hrows, htrip, hnext, _⟩ :=
    PhotometryFit.LSDerivatives_rows pm fit tl rhs tl' rhs' hcall
  obtain ⟨hmap, hlen, hrow⟩ := imagesRows_spec pm fit _ rows hrows
  refine ⟨tl', rhs', rows, hcall, hmap, ?_, htrip, ?_, ?_⟩
  · intro row hr
    obtain ⟨him, hms, _, hfs, indices, hout⟩ := hrow row hr
    rw [hmodel, if_pos rfl] at hout
    refine ⟨hfs, ?_, indices, hout⟩
    have := hcover row.im him row.ms hms row.im him indices
    rw [← hout] at this
    exact this
  · intro row column
    simp only [Row.triplets, hmodel, if_true, Row.modelTriplets, Row.sigma]
  · rw [hnext, hlen]
    rfl

/-- Witness of C24: on the fit of the single valid measurement with
"Model Fluxes" the call returns the triplets `(0, 0, 5)` of the model and
`(1, 0, 1/2)` of the flux in the one row 0, and the next free index 1. -/
theorem PhotometryFit.LSDerivatives_model_block_witness :
    (PhotometryFit.assignIndices exampleScaleModel exampleScaledFit
      "Model Fluxes").fittingModel = true ∧
    (PhotometryFit.LSDerivatives exampleScaleModel
        (PhotometryFit.assignIndices exampleScaleModel exampleScaledFit "Model Fluxes")
        (TripletList.new 0) [0, 0]).map (fun out => out.1)
      = some { nextFreeIndex := 1, triplets := [(0, 0, 5), (1, 0, 1 / 2)] } ∧
    ∃ (tl' : TripletList) (rhs' : List ℚ),
      PhotometryFit.LSDerivatives exampleScaleModel
        (PhotometryFit.assignIndices exampleScaleModel exampleScaledFit "Model Fluxes")
        (TripletList.new 0) [0, 0] = some (tl', rhs') ∧
      tl'.nextFreeIndex = (TripletList.new 0).nextFreeIndex
        + (PhotometryFit.assignIndices exampleScaleModel exampleScaledFit
            "Model Fluxes").associations.validCount := by
  obtain ⟨tl', rhs', rows, h1, _, _, _, _, h2⟩ :=
    PhotometryFit.LSDerivatives_model_block exampleScaleModel
      (PhotometryFit.assignIndices exampleScaleModel exampleScaledFit "Model Fluxes") 2
      (by decide) (exampleScaled_wellLinked "Model Fluxes") (fun _ => by decide)
      (exampleScaled_indicesBelow "Model Fluxes" 2 (by decide))
      (exampleScale_derivativesCover _ _) (TripletList.new 0) [0, 0] rfl
  exact ⟨by decide, by decide!, tl', rhs', h1, h2⟩

/-- C25: in `PhotometryFit::LSDerivatives` (which returns on well-linked
associations, with a right-hand side that holds every index and a model whose
derivatives cover its indices), the rows being the valid measurements: when
fluxes are fit, every valid measurement with photometric factor `pf`, flux
error `sigma` and residual `r = flux - pf * fittedStar.flux` contributes, after
the triplets of the model if there are any, exactly one triplet
`(index of its FittedStar, its row, pf / sigma)`, and adds `r * pf / sigma^2`
to the right-hand side at that index; when fluxes are not fit the triplets of
a measurement are those of the model alone and the right-hand side gets what
the model block adds alone: nothing is read from the index of a fitted
star. -/
theorem PhotometryFit.LSDerivatives_flux_block {M : Type} (pm : PhotometryModel M)
    (fit : PhotometryFit M) (n : Nat)
    (hlink : fit.associations.WellLinked)
    (hstars : fit.fittingFluxes = true →
      ∀ fs ∈ fit.associations.fittedStarList, fs.indexInMatrix < n)
    (hbelow : fit.fittingModel = true →
      pm.IndicesBelow fit.photometryModel fit.associations n)
    (hcover : fit.fittingModel = true →
      pm.DerivativesCover fit.photometryModel fit.associations)
    (tl : TripletList) (rhs : List ℚ) (hn : rhs.length = n) :
    ∃ (tl' : TripletList) (rhs' : List ℚ) (rows : List Row),
      PhotometryFit.LSDerivatives pm fit tl rhs = some (tl', rhs') ∧
      rows.map (fun row => (row.im, row.ms))
        = fit.associations.ccdImageList.flatMap (fun im =>
            (im.catalogForFit.filter fun ms => ms.valid).map fun ms => (im, ms)) ∧
      (∀ row ∈ rows, fit.associations.fittedStar? row.ms.fittedStar = some row.fs) ∧
      tl'.triplets = tl.triplets ++ tripletsFrom pm fit rows tl.nextFreeIndex ∧
      rhs'.length = rhs.length ∧
      (fit.fittingFluxes = true →
        (∀ (row : Row) (column : Nat), row.triplets pm fit column
          = (if fit.fittingModel then row.modelTriplets column else [])
            ++ [(row.fs.indexInMatrix, column,
                  pm.photomFactor fit.photometryModel row.im row.ms / row.ms.eflux)]) ∧
        ∀ l : Nat, rhs'[l]? = (rhs[l]?).map fun x => x + (rows.map fun row =>
          (if fit.fittingModel then row.modelGradient pm fit l else 0)
            + (if row.fs.indexInMatrix = l then
                (row.ms.flux - pm.photomFactor fit.photometryModel row.im row.ms * row.fs.flux)
                  * pm.photomFactor fit.photometryModel row.im row.ms / sqr row.ms.eflux
              else 0)).sum) ∧
      (fit.fittingFluxes = false →
        (∀ (row : Row) (column : Nat), row.triplets pm fit column
          = if fit.fittingModel then row.modelTriplets column else []) ∧
        ∀ l : Nat, rhs'[l]? = (rhs[l]?).map fun x => x + (rows.map fun row =>
          if fit.fittingModel then row.modelGradient pm fit l else 0).sum) := by
  obtain ⟨⟨tl', rhs'⟩, hcall, _⟩ := PhotometryFit.LSDerivatives_some pm fit n hlink hstars
    hbelow hcover tl rhs hn
  obtain ⟨rows, hrows, htrip, _, hadd⟩ :=
    PhotometryFit.LSDerivatives_rows pm fit tl rhs tl' rhs' hcall
  obtain ⟨hmap, _, hrow⟩ := imagesRows_spec pm fit _ rows hrows
  refine ⟨tl', rhs', rows, hcall, hmap, fun row hr => (hrow row hr).2.2.2.1, htrip, hadd.1,
    ?_, ?_⟩
  · intro hf
    refine ⟨?_, ?_⟩
    · intro row column
      simp only [Row.triplets, hf, if_true, Row.fluxTriplet, Row.pf, Row.sigma]
    · intro l
      rw [hadd.2 l]
      simp only [Row.gradient, hf, if_true, Row.fluxGradient, Row.res, Row.pf, Row.sigma]
  · intro hf
    refine ⟨?_, ?_⟩
    · intro row column
      simp only [Row.triplets, hf, Bool.false_eq_true, if_false, List.append_nil]
    · intro l
      rw [hadd.2 l]
      simp only [Row.gradient, hf, Bool.false_eq_true, if_false, add_zero]

/-- Witness of C25: on the fit of the single valid measurement with "Fluxes"
the call returns the one triplet `(0, 0, 1/2)`, of value `pf / sigma`, and the
right-hand side `[3/2]`, which is `r * pf / sigma^2` for the residual 6, the
factor 1 and the flux error 2. -/
theorem PhotometryFit.LSDerivatives_flux_block_witness :
    (PhotometryFit.assignIndices exampleScaleModel exampleScaledFit
      "Fluxes").associations.WellLinked ∧
    (PhotometryFit.LSDerivatives exampleScaleModel
        (PhotometryFit.assignIndices exampleScaleModel exampleScaledFit "Fluxes")
        (TripletList.new 0) [0])
      = some ({ nextFreeIndex := 1, triplets := [(0, 0, 1 / 2)] }, [3 / 2]) ∧
    ∃ (tl' : TripletList) (rhs' : List ℚ) (rows : List Row),
      PhotometryFit.LSDerivatives exampleScaleModel
        (PhotometryFit.assignIndices exampleScaleModel exampleScaledFit "Fluxes")
        (TripletList.new 0) [0] = some (tl', rhs') ∧
      tl'.triplets = (TripletList.new 0).triplets
        ++ tripletsFrom exampleScaleModel
            (PhotometryFit.assignIndices exampleScaleModel exampleScaledFit "Fluxes") rows
            (TripletList.new 0).nextFreeIndex ∧
      rhs'.length = 1 := by
  obtain ⟨tl', rhs', rows, h1, _, _, h2, h3, _⟩ :=
    PhotometryFit.LSDerivatives_flux_block exampleScaleModel
      (PhotometryFit.assignIndices exampleScaleModel exampleScaledFit "Fluxes") 1
      (exampleScaled_wellLinked "Fluxes") (fun _ => by decide)
      (fun h => absurd h (by decide))
      (fun _ => exampleScale_derivativesCover _ _) (TripletList.new 0) [0] rfl
  exact ⟨exampleScaled_wellLinked "Fluxes", by decide!, tl', rhs', rows, h1, h2, h3⟩

/-- Counterexample to C26 as stated: on the example fit, once "Fluxes" has
given the fitted stars the indices 0 and 1, the call `assignIndices("Model")`,
in which "Fluxes" is absent, counts two model parameters and leaves the
fitted stars as they were: their indices are still 0 and 1, not the indices 2
and 3 that the loop of `SetIndexInMatrix` would give them. -/
theorem assignIndices_without_fluxes_keeps_indices :
    find "Model" "Fluxes" = none ∧
    (PhotometryFit.assignIndices examplePhotometryModel
      (PhotometryFit.assignIndices examplePhotometryModel exampleFit "Fluxes")
      "Model").nParModel = 2 ∧
    (PhotometryFit.assignIndices examplePhotometryModel
      (PhotometryFit.assignIndices examplePhotometryModel exampleFit "Fluxes")
      "Model").associations.fittedStarList.map (fun fs => fs.indexInMatrix) = [0, 1] ∧
    (PhotometryFit.assignIndices examplePhotometryModel
      (PhotometryFit.assignIndices examplePhotometryModel exampleFit "Fluxes")
      "Model").associations.fittedStarList
      = (PhotometryFit.assignIndices examplePhotometryModel exampleFit
          "Fluxes").associations.fittedStarList := by
  refine ⟨by decide, by decide, by decide, by decide!⟩

/-- C26, amended: `PhotometryFit::assignIndices` sets the matrix index of every
fitted star, the star at position `i` getting `_nParModel + i`, when "Fluxes"
is in `whatToFit`; when "Fluxes" is not in `whatToFit` it calls
`SetIndexInMatrix` on no fitted star: the associations, and so every matrix
index, are as before the call. -/
theorem PhotometryFit.assignIndices_star_indices {M : Type} (pm : PhotometryModel M)
    (fit : PhotometryFit M) (whatToFit : String) :
    (find whatToFit "Fluxes" ≠ none →
      (assignIndices pm fit whatToFit).associations.fittedStarList.length
        = fit.associations.fittedStarList.length ∧
      ∀ (i : Nat) (fs : FittedStar), fit.associations.fittedStarList[i]? = some fs →
        (assignIndices pm fit whatToFit).associations.fittedStarList[i]?
          = some (fs.SetIndexInMatrix ((assignIndices pm fit whatToFit).nParModel + i))) ∧
    (find whatToFit "Fluxes" = none →
      (assignIndices pm fit whatToFit).associations = fit.associations) := by
  constructor
  · intro hF
    have hs : (find whatToFit "Fluxes").isSome = true := Option.isSome_iff_ne_none.mpr hF
    simp only [assignIndices, hs, if_true]
    refine ⟨setIndices_length _ _, ?_⟩
    intro i fs hfs
    rw [setIndices_getElem?, hfs]
    rfl
  · intro hF
    simp only [assignIndices, hF, Option.isSome_none, Bool.false_eq_true, if_false]

/-- Witness of C26: on the example fit, "Model Fluxes" gives the two fitted
stars the indices 2 and 3, after the two parameters of the model. -/
theorem PhotometryFit.assignIndices_star_indices_witness :
    find "Model Fluxes" "Fluxes" ≠ none ∧
    (PhotometryFit.assignIndices examplePhotometryModel exampleFit
      "Model Fluxes").associations.fittedStarList.map (fun fs => fs.indexInMatrix) = [2, 3] ∧
    ∀ (i : Nat) (fs : FittedStar), exampleFit.associations.fittedStarList[i]? = some fs →
      (PhotometryFit.assignIndices examplePhotometryModel exampleFit
        "Model Fluxes").associations.fittedStarList[i]?
        = some (fs.SetIndexInMatrix
            ((PhotometryFit.assignIndices examplePhotometryModel exampleFit
              "Model Fluxes").nParModel + i)) :=
  ⟨by decide, by decide,
    ((PhotometryFit.assignIndices_star_indices examplePhotometryModel exampleFit
      "Model Fluxes").1 (by decide)).2⟩

/-- C27, at the input where the code departs from it: on the fit of the single
valid measurement (flux 16, flux error 2, factor 1, fitted flux 10, hence
residual 6 and weighted residual 3) with "Model Fluxes", from an empty triplet
list and a zero right-hand side, `LSDerivatives` gives the Jacobian entries
`J[0, 0] = 5` for the parameter of the model and `J[1, 0] = 1/2` for the flux,
and the right-hand side `[3/2, 3/2]`.  The Jacobian applied to the weighted
residual is `15` at the parameter of the model, which is not the `3/2` of the
right-hand side, and `3/2` at the flux, which is the right-hand side there. -/
theorem LSDerivatives_gradient_lacks_flux_factor :
    PhotometryFit.LSDerivatives exampleScaleModel
        (PhotometryFit.assignIndices exampleScaleModel exampleScaledFit "Model Fluxes")
        (TripletList.new 0) [0, 0]
      = some ({ nextFreeIndex := 1, triplets := [(0, 0, 5), (1, 0, 1 / 2)] }, [3 / 2, 3 / 2]) ∧
    imagesRows exampleScaleModel
        (PhotometryFit.assignIndices exampleScaleModel exampleScaledFit "Model Fluxes")
        exampleScaled.ccdImageList = some [exampleScaledRow 1] ∧
    (exampleScaledRow 1).weightedResidual exampleScaleModel
        (PhotometryFit.assignIndices exampleScaleModel exampleScaledFit "Model Fluxes") = 3 ∧
    jacobianTimesResiduals exampleScaleModel
        (PhotometryFit.assignIndices exampleScaleModel exampleScaledFit "Model Fluxes")
        { nextFreeIndex := 1, triplets := [(0, 0, 5), (1, 0, 1 / 2)] } [exampleScaledRow 1] 0
      = 15 ∧
    jacobianTimesResiduals exampleScaleModel
        (PhotometryFit.assignIndices exampleScaleModel exampleScaledFit "Model Fluxes")
        { nextFreeIndex := 1, triplets := [(0, 0, 5), (1, 0, 1 / 2)] } [exampleScaledRow 1] 1
      = 3 / 2 := by
  refine ⟨by decide!, by decide!, by decide!, by decide!, by decide!⟩

/-- C28: when only fluxes are fit ("Fluxes" is in `whatToFit` and "Model" is
not), on well-linked associations where every fitted star has at least one
valid measurement with non-zero photometric factor and non-zero flux error,
and with a factorization that succeeds on a matrix that is zero outside its
positive diagonal and whose `solve` is then exact (`H * solve g = g`, in the
dimension of `H`), one step of `PhotometryFit::minimize` returns `true`, keeps
the list of the fitted stars in its length, and sets the flux of the fitted
star at every position `a` to
`(sum of pf * flux / sigma^2) / (sum of pf^2 / sigma^2)` over the valid
measurements of that star; the flux of before the call does not enter. -/
theorem PhotometryFit.minimize_fluxes_least_squares {M : Type} (pm : PhotometryModel M)
    (chol : List (List ℚ) → Option (List ℚ → List ℚ)) (fit : PhotometryFit M)
    (whatToFit : String)
    (hF : find whatToFit "Fluxes" ≠ none) (hM : find whatToFit "Model" = none)
    (hlink : fit.associations.WellLinked)
    (hmeas : ∀ a, a < fit.associations.fittedStarList.length →
      ∃ im ∈ fit.associations.ccdImageList, ∃ ms ∈ im.catalogForFit,
        ms.valid = true ∧ ms.fittedStar = a ∧
        pm.photomFactor fit.photometryModel im ms ≠ 0 ∧ ms.eflux ≠ 0)
    (hchol : ∀ H : List (List ℚ), DiagonalPositive H → ∃ solve, chol H = some solve ∧
      ∀ g : List ℚ, g.length = H.length →
        (solve g).length = H.length ∧ matVec H (solve g) = g) :
    ∃ s, PhotometryFit.minimize pm chol fit whatToFit = MinimizeOutcome.returned true s ∧
      s.associations.fittedStarList.length = fit.associations.fittedStarList.length ∧
      ∀ (a : Nat) (fs : FittedStar), s.associations.fittedStarList[a]? = some fs →
        fs.flux = PhotometryFit.leastSquaresFlux pm fit a := by
  obtain ⟨hm, hf, hnt, hpm, himgs, hstars⟩ := assignIndices_fluxes_only pm fit whatToFit hF hM
  obtain ⟨⟨tl', g⟩, hLS, hglen⟩ := LSDerivatives_some_after_assignIndices pm fit whatToFit
    hlink (fun h => absurd (hm ▸ h) (by decide)) (fun h => absurd (hm ▸ h) (by decide))
    (TripletList.new (if (PhotometryFit.assignIndices pm fit whatToFit).lastNTrip ≠ 0
      then (PhotometryFit.assignIndices pm fit whatToFit).lastNTrip else 1000000))
  simp only at hglen
  obtain ⟨rows, hrows, htrip, hnext, hadd⟩ :=
    PhotometryFit.LSDerivatives_rows pm _ _ _ tl' g hLS
  obtain ⟨hmap, _, hrow⟩ := imagesRows_spec pm _ _ rows hrows
  simp only [TripletList.new, List.nil_append, zero_add] at htrip hnext
  -- the fitted star of a row
  have hstar : ∀ row ∈ rows, row.fs.indexInMatrix = row.ms.fittedStar ∧
      (fit.associations.fittedStarList[row.ms.fittedStar]?).map (fun fs => fs.flux)
        = some row.fs.flux := by
    intro row hr
    have h := (hrow row hr).2.2.2.1
    unfold Associations.fittedStar? at h
    rw [hstars] at h
    cases hget : fit.associations.fittedStarList[row.ms.fittedStar]? with
    | none => rw [hget] at h; cases h
    | some fs0 =>
      rw [hget] at h
      simp only [Option.map_some', Option.some.injEq] at h
      rw [← h]
      exact ⟨rfl, rfl⟩
  -- the sums over the rows are the sums over the measurements
  have hsum : ∀ (a : Nat) (F : CcdImage → MeasuredStar → ℚ),
      (rows.map fun row => if row.ms.fittedStar = a then F row.im row.ms else 0).sum
        = fit.sumOverMeasurements a F := by
    intro a F
    rw [sum_rows_of_star (PhotometryFit.assignIndices pm fit whatToFit) rows a F hmap]
    unfold PhotometryFit.sumOverMeasurements
    rw [himgs]
  have hB : ∀ a, (rows.map fun row => if row.fs.indexInMatrix = a then
        sqr (row.pf pm (PhotometryFit.assignIndices pm fit whatToFit) / row.sigma) else 0).sum
      = fit.sumOverMeasurements a fun im ms =>
          sqr (pm.photomFactor fit.photometryModel im ms) / sqr ms.eflux := by
    intro a
    rw [← hsum]
    congr 1
    apply List.map_congr_left
    intro row hr
    rw [(hstar row hr).1]
    simp only [Row.pf, Row.sigma, hpm, sqr, div_mul_div_comm]
  have hBpos : ∀ a, a < fit.associations.fittedStarList.length →
      0 < fit.sumOverMeasurements a fun im ms =>
        sqr (pm.photomFactor fit.photometryModel im ms) / sqr ms.eflux := by
    intro a ha
    obtain ⟨im, him, ms, hms, hv, hs, hpf, he⟩ := hmeas a ha
    apply sumOverMeasurements_pos
    · intro im ms
      simp only [sqr]
      exact div_nonneg (mul_self_nonneg _) (mul_self_nonneg _)
    · refine ⟨im, him, ms, hms, hv, hs, ?_⟩
      simp only [sqr]
      exact div_pos (mul_self_pos.mpr hpf) (mul_self_pos.mpr he)
  obtain ⟨hdp, hHaa⟩ := hessian_fluxes_diagonal pm _ hm hf rows tl' htrip hnext
    (PhotometryFit.assignIndices pm fit whatToFit).nParTot
    (fun a ha => by rw [hB]; exact hBpos a (hnt ▸ ha))
  obtain ⟨solve, hc, hex⟩ := hchol _ hdp
  obtain ⟨hdl, hmv⟩ := hex g (hglen.trans (hessian_length _ _).symm)
  rw [hessian_length] at hdl
  have hlt : ∀ fs ∈ (PhotometryFit.assignIndices pm fit whatToFit).associations.fittedStarList,
      fs.indexInMatrix < (solve g).length := by
    intro fs hfs
    rw [hdl]
    exact (fluxes_layout_after_assignIndices pm fit whatToFit hF).2.2 fs hfs
  obtain ⟨l', hl'⟩ := offsetFluxes_some (solve g) _ hlt
  obtain ⟨hlen', hget'⟩ := offsetFluxes_spec _ _ l' hl'
  have hmin : PhotometryFit.minimize pm chol fit whatToFit
      = MinimizeOutcome.returned true
          { PhotometryFit.assignIndices pm fit whatToFit with
            lastNTrip := tl'.size,
            photometryModel := (PhotometryFit.assignIndices pm fit whatToFit).photometryModel,
            associations :=
              { (PhotometryFit.assignIndices pm fit whatToFit).associations with
                fittedStarList := l' } } := by
    unfold PhotometryFit.minimize
    simp only [hLS, hc]
    unfold PhotometryFit.offsetParams
    simp only [hdl, ne_eq, not_true_eq_false, if_false, hm, Bool.false_eq_true, hf, if_true, hl']
  refine ⟨_, hmin, ?_, ?_⟩
  · show l'.length = _
    rw [hlen']
    have := congrArg List.length (PhotometryFit.assignIndices_flux pm fit whatToFit)
    simpa using this
  · intro a fs hfs
    change l'[a]? = some fs at hfs
    have ha' : a < l'.length := (List.getElem?_eq_some_iff.mp hfs).1
    have ha1 : a < (PhotometryFit.assignIndices pm fit whatToFit).associations.fittedStarList.length :=
      hlen' ▸ ha'
    have ha : a < fit.associations.fittedStarList.length := by
      have := congrArg List.length (PhotometryFit.assignIndices_flux pm fit whatToFit)
      simp only [List.length_map] at this
      omega
    have hfs0 := hstars a
    rw [List.getElem?_eq_getElem ha, Option.map_some'] at hfs0
    obtain ⟨d, hd, hnew⟩ := hget' a _ hfs0
    rw [hfs] at hnew
    simp only [Option.some.injEq] at hnew
    subst hnew
    simp only [FittedStar.SetIndexInMatrix] at hd ⊢
    -- the entry of the gradient
    have hga := hadd.2 a
    rw [List.getElem?_replicate, if_pos (hnt ▸ ha), Option.map_some', zero_add] at hga
    have hgrad : (rows.map fun row =>
          row.gradient pm (PhotometryFit.assignIndices pm fit whatToFit) a).sum
        = (fit.sumOverMeasurements a fun im ms =>
            pm.photomFactor fit.photometryModel im ms * ms.flux / sqr ms.eflux)
          - fit.associations.fittedStarList[a].flux
            * (fit.sumOverMeasurements a fun im ms =>
              sqr (pm.photomFactor fit.photometryModel im ms) / sqr ms.eflux) := by
      rw [← hsum, ← hsum, ← sum_map_sub_mul]
      congr 1
      apply List.map_congr_left
      intro row hr
      obtain ⟨h1, h2⟩ := hstar row hr
      simp only [Row.gradient, hm, Bool.false_eq_true, if_false, hf, if_true, zero_add,
        Row.fluxGradient, h1]
      by_cases hs : row.ms.fittedStar = a
      · rw [hs, List.getElem?_eq_getElem ha, Option.map_some', Option.some.injEq] at h2
        simp only [hs, if_true, Row.res, Row.pf, Row.sigma, hpm, ← h2, sqr]
        ring
      · simp only [hs, if_false, mul_zero, sub_zero]
    -- the exact solve on the diagonal
    obtain ⟨hrowa, hHa, hdiag⟩ := hHaa a (hnt ▸ ha)
    have hmva := matVec_diagonal _ (solve g) hdp (hdl.trans (hessian_length _ _).symm) a hrowa hHa
    rw [hmv, hga, Option.some.injEq, hdiag, hB] at hmva
    simp only [hgrad] at hmva
    have hdval : (solve g).getD a 0 = d := by
      rw [List.getD_eq_getElem?_getD, hd]
      rfl
    rw [hdval] at hmva
    have hBne := ne_of_gt (hBpos a ha)
    unfold PhotometryFit.leastSquaresFlux
    rw [eq_div_iff hBne]
    linarith

/-- Witness of C28: on the example fit, whose fitted stars have the fluxes 10
and 20 and the valid measurements 16 and 14, and 22 and 20, with the factor 1
and the flux error 1, one step with "Fluxes" returns `true` and sets the
fluxes to the weighted least-squares values 15 and 21. -/
theorem PhotometryFit.minimize_fluxes_least_squares_witness :
    find "Fluxes" "Fluxes" ≠ none ∧ find "Fluxes" "Model" = none ∧
    exampleFit.associations.fittedStarList.map (fun fs => fs.flux) = [10, 20] ∧
    PhotometryFit.leastSquaresFlux examplePhotometryModel exampleFit 0 = 15 ∧
    PhotometryFit.leastSquaresFlux examplePhotometryModel exampleFit 1 = 21 ∧
    ∃ s, PhotometryFit.minimize examplePhotometryModel exampleChol exampleFit "Fluxes"
        = MinimizeOutcome.returned true s ∧
      s.associations.fittedStarList.length = exampleFit.associations.fittedStarList.length ∧
      ∀ (a : Nat) (fs : FittedStar), s.associations.fittedStarList[a]? = some fs →
        fs.flux = PhotometryFit.leastSquaresFlux examplePhotometryModel exampleFit a := by
  have hlink : exampleFit.associations.WellLinked := by
    unfold Associations.WellLinked
    decide
  have hmeas : ∀ a, a < exampleFit.associations.fittedStarList.length →
      ∃ im ∈ exampleFit.associations.ccdImageList, ∃ ms ∈ im.catalogForFit,
        ms.valid = true ∧ ms.fittedStar = a ∧
        examplePhotometryModel.photomFactor exampleFit.photometryModel im ms ≠ 0 ∧
        ms.eflux ≠ 0 := by
    intro a ha
    have ha2 : a < 2 := ha
    interval_cases a
    · exact ⟨{ visit := 0, ccdId := 1, catalogForFit := [
          { flux := 16, eflux := 1, valid := true, fittedStar := 0, ccdImage := 0 },
          { flux := 22, eflux := 1, valid := true, fittedStar := 1, ccdImage := 0 },
          { flux := 100, eflux := 1, valid := false, fittedStar := 1, ccdImage := 0 }] },
        by decide,
        { flux := 16, eflux := 1, valid := true, fittedStar := 0, ccdImage := 0 },
        by decide, rfl, rfl, by decide!, by decide!⟩
    · exact ⟨{ visit := 0, ccdId := 1, catalogForFit := [
          { flux := 16, eflux := 1, valid := true, fittedStar := 0, ccdImage := 0 },
          { flux := 22, eflux := 1, valid := true, fittedStar := 1, ccdImage := 0 },
          { flux := 100, eflux := 1, valid := false, fittedStar := 1, ccdImage := 0 }] },
        by decide,
        { flux := 22, eflux := 1, valid := true, fittedStar := 1, ccdImage := 0 },
        by decide, rfl, rfl, by decide!, by decide!⟩
  exact ⟨by decide, by decide, by decide!, by decide!, by decide!,
    PhotometryFit.minimize_fluxes_least_squares examplePhotometryModel exampleChol exampleFit
      "Fluxes" (by decide) (by decide) hlink hmeas exampleChol_exact⟩

/-- C29, the claim as written fails in the arithmetic of doubles: three valid
measurements with the same flux (the double nearest to 2.3), flux error 1,
fitted flux 0 and photometric factor 1 have the same chi2 contribution
`5.289999999999999`, yet the variance that `findOutliers` computes is `2^-48`
and not zero, the cut for `nSigCut = 5` is above the common value, and
`findOutliers` appends nothing to the empty list. -/
theorem findOutliersWith_rounding_appends_nothing :
    PhotometryFit.validChi2sWith roundToDouble examplePhotometryModel
        (exampleEqualFit exampleFlux)
      = [744501313399685 / 140737488355328, 744501313399685 / 140737488355328,
          744501313399685 / 140737488355328] ∧
    (PhotometryFit.accumulateStatWith roundToDouble examplePhotometryModel
        (exampleEqualFit exampleFlux) Chi2Vect.AddEntry []).map
        (fun chi2s =>
          (PhotometryFit.varianceWith roundToDouble (exampleSort chi2s),
            PhotometryFit.sigmaWith roundToDouble exampleSqrtDouble (exampleSort chi2s),
            PhotometryFit.outlierCutWith roundToDouble exampleSqrtDouble 5
              (exampleSort chi2s)))
      = some (1 / 281474976710656, some (1 / 16777216),
          some (744501355342725 / 140737488355328)) ∧
    (744501313399685 / 140737488355328 : ℚ) < 744501355342725 / 140737488355328 ∧
    PhotometryFit.findOutliersWith roundToDouble exampleSqrtDouble exampleSort
        examplePhotometryModel (exampleEqualFit exampleFlux) 5 []
      = some [] := by
  refine ⟨by decide!, by decide!, by norm_num, by decide!⟩

/-- C29, amended: when there is a valid measurement, all valid measurements
have the same chi2 contribution `c` as computed in doubles, and either there
is exactly one valid measurement or the sums of `findOutliers` are exact (for
every `k` from 1 to the number of valid measurements `k * c` and
`k * sqr(c)` are doubles), then for every `nSigCut` the variance and the
standard deviation that `findOutliers` computes are zero, its cut is `c`, and
every call of `findOutliers` with an empty list that returns, returns a list
that is not empty; on well-linked associations with indices in range the call
does return.  The rounding `fl` is any function that keeps 0 (and, for the
single measurement, keeps what it has rounded); the square root of zero is
zero. -/
theorem PhotometryFit.findOutliersWith_equal_chi2 {M : Type} (fl : ℚ → ℚ)
    (sqrt : ℚ → Option ℚ) (sort : Chi2Vect → Chi2Vect) (pm : PhotometryModel M)
    (fit : PhotometryFit M) (nSigCut c : ℚ)
    (hperm : ∀ l, (sort l).Perm l) (hfl : fl 0 = 0) (hsqrt : sqrt 0 = some 0)
    (hne : validChi2sWith fl pm fit ≠ [])
    (hall : ∀ x ∈ validChi2sWith fl pm fit, x = c)
    (hexact : ((validChi2sWith fl pm fit).length = 1 ∧ ∀ x, fl (fl x) = fl x) ∨
      ∀ k : Nat, 1 ≤ k → k ≤ (validChi2sWith fl pm fit).length →
        fl (k * c) = k * c ∧ fl (k * fl (sqr c)) = k * fl (sqr c)) :
    (∀ chi2s, accumulateStatWith fl pm fit Chi2Vect.AddEntry ([] : Chi2Vect) = some chi2s →
      varianceWith fl (sort chi2s) = 0 ∧
      sigmaWith fl sqrt (sort chi2s) = some 0 ∧
      outlierCutWith fl sqrt nSigCut (sort chi2s) = some c) ∧
    (∀ outs, findOutliersWith fl sqrt sort pm fit nSigCut [] = some outs → outs ≠ []) ∧
    (fit.associations.WellLinked → IndicesInRange pm fit →
      ∃ outs, findOutliersWith fl sqrt sort pm fit nSigCut [] = some outs ∧ outs ≠ []) := by
  have hexact' : ∀ k : Nat, 1 ≤ k → k ≤ (validChi2sWith fl pm fit).length →
      fl (k * c) = k * c ∧ fl (k * fl (sqr c)) = k * fl (sqr c) := by
    rcases hexact with ⟨hone, hidem⟩ | h
    · intro k hk1 hkn
      have hk : k = 1 := by omega
      subst hk
      have hmem : c ∈ validChi2sWith fl pm fit := by
        cases hl : validChi2sWith fl pm fit with
        | nil => exact absurd hl hne
        | cons x rest =>
          have := hall x (by rw [hl]; exact List.mem_cons_self _ _)
          rw [← this]
          exact List.mem_cons_self _ _
      obtain ⟨y, hy⟩ := validChi2sWith_rounded fl pm fit c hmem
      simp only [Nat.cast_one, one_mul]
      exact ⟨by rw [hy, hidem], hidem _⟩
    · exact h
  have hcut : ∀ chi2s,
      accumulateStatWith fl pm fit Chi2Vect.AddEntry ([] : Chi2Vect) = some chi2s →
      sort chi2s ≠ [] ∧ (∀ e ∈ sort chi2s, e.chi2 = c) ∧
      varianceWith fl (sort chi2s) = 0 ∧
      sigmaWith fl sqrt (sort chi2s) = some 0 ∧
      outlierCutWith fl sqrt nSigCut (sort chi2s) = some c := by
    intro chi2s hacc
    obtain ⟨hvals, _⟩ := accumulateStatWith_spec fl pm fit chi2s hacc
    have hlen : (sort chi2s).length = (validChi2sWith fl pm fit).length := by
      rw [(hperm chi2s).length_eq, ← hvals, List.length_map]
    have hne' : sort chi2s ≠ [] := by
      intro h0
      have : (validChi2sWith fl pm fit).length = 0 := by rw [← hlen, h0]; rfl
      exact hne (List.length_eq_zero.mp this)
    have hall' : ∀ e ∈ sort chi2s, e.chi2 = c := by
      intro e he
      apply hall
      rw [← hvals]
      exact List.mem_map_of_mem _ ((hperm chi2s).mem_iff.mp he)
    obtain ⟨_, h2, h3, h4⟩ := outlierCutWith_const fl sqrt nSigCut c (sort chi2s) hfl hsqrt
      hne' hall' (by rw [hlen]; exact hexact')
    exact ⟨hne', hall', h2, h3, h4⟩
  have hnonempty : ∀ outs, findOutliersWith fl sqrt sort pm fit nSigCut [] = some outs →
      outs ≠ [] := by
    intro outs hcall
    unfold findOutliersWith at hcall
    cases hacc : accumulateStatWith fl pm fit Chi2Vect.AddEntry ([] : Chi2Vect) with
    | none => simp [hacc] at hcall
    | some chi2s =>
      simp only [hacc] at hcall
      obtain ⟨hne', hall', _, _, h4⟩ := hcut chi2s hacc
      have hn : chi2s.length ≠ 0 := by
        intro h0
        apply hne'
        have := (hperm chi2s).length_eq
        rw [h0] at this
        exact List.length_eq_zero.mp this
      simp only [hn, if_false, h4, outlierLoopWith_some] at hcall
      have houts := outlierLoop_greedy pm fit c (sort chi2s).reverse
        (List.replicate fit.nParTot 0) [] [] outs (affectedBy_zero pm fit _)
        (fun x hx => by cases hx) hcall
      simp only [List.nil_append] at houts
      cases hw : (sort chi2s).reverse with
      | nil =>
        exact absurd (List.reverse_eq_nil_iff.mp hw) hne'
      | cons e0 rest =>
        have hc : e0.chi2 = c := by
          apply hall'
          rw [← List.mem_reverse, hw]
          exact List.mem_cons_self _ _
        have htw : ((e0 :: rest).takeWhile fun e => !decide (e.chi2 < c))
            = e0 :: rest.takeWhile fun e => !decide (e.chi2 < c) := by
          simp [List.takeWhile, hc]
        rw [hw, htw, List.map_cons, greedy] at houts
        simp only [List.any_nil, Bool.false_eq_true, if_false, List.nil_append] at houts
        have := (greedy_keeps_selected pm fit
          ((rest.takeWhile fun e => !decide (e.chi2 < c)).map fun e => e.measuredStar)
          [e0.measuredStar]).subset (List.mem_singleton_self _)
        rw [← houts] at this
        exact List.ne_nil_of_mem this
  refine ⟨fun chi2s hacc => (hcut chi2s hacc).2.2, hnonempty, ?_⟩
  intro hlink hrange
  obtain ⟨chi2s, hacc⟩ := accumulateImagesWith_some fl pm fit fit.associations.ccdImageList
    (fun im him ms hms hv => (hlink im him ms hms hv).1) 0 []
  have hacc' : accumulateStatWith fl pm fit Chi2Vect.AddEntry ([] : Chi2Vect)
      = some chi2s := hacc
  obtain ⟨_, hgood⟩ := accumulateStatWith_spec fl pm fit chi2s hacc'
  obtain ⟨hne', _, _, _, h4⟩ := hcut chi2s hacc'
  have hn : chi2s.length ≠ 0 := by
    intro h0
    apply hne'
    have := (hperm chi2s).length_eq
    rw [h0] at this
    exact List.length_eq_zero.mp this
  have hex : ∃ outs, findOutliersWith fl sqrt sort pm fit nSigCut [] = some outs := by
    unfold findOutliersWith
    simp only [hacc', hn, if_false, h4, outlierLoopWith_some]
    apply outlierLoop_some pm fit _ fit.nParTot
    · intro e he
      have he' : e ∈ chi2s := (hperm chi2s).mem_iff.mp (List.mem_reverse.mp he)
      obtain ⟨im, ms, h1, h2, h3⟩ := hgood e he'
      have him : im ∈ fit.associations.ccdImageList := List.mem_iff_getElem?.mpr ⟨_, h1⟩
      have hms : ms ∈ im.catalogForFit := List.mem_iff_getElem?.mpr ⟨_, h2⟩
      obtain ⟨hl1, hl2⟩ := hlink im him ms hms h3
      obtain ⟨l, hl⟩ := getMeasuredStarIndices_some pm fit ms hl1 hl2
      refine ⟨ms, l, ?_, hl, hrange im him ms hms h3 l hl⟩
      simp only [Associations.measuredStar?, h1, h2]
    · simp
  obtain ⟨outs, houts⟩ := hex
  exact ⟨outs, houts, hnonempty outs houts⟩

/-- Witness of C29: three valid measurements of flux 3 have the chi2
contribution 9 each; the sums 9, 18, 27 and 81, 162, 243 are doubles, so with
`nSigCut = 5` the cut is 9 and `findOutliers` returns the three
measurements. -/
theorem PhotometryFit.findOutliersWith_equal_chi2_witness :
    (∀ l, (exampleSort l).Perm l) ∧ roundToDouble 0 = 0 ∧ exampleSqrtDouble 0 = some 0 ∧
    PhotometryFit.validChi2sWith roundToDouble examplePhotometryModel (exampleEqualFit 3)
      = [9, 9, 9] ∧
    (∀ k : Nat, 1 ≤ k → k ≤ 3 →
      roundToDouble (k * 9) = k * 9 ∧
      roundToDouble (k * roundToDouble (sqr 9)) = k * roundToDouble (sqr 9)) ∧
    PhotometryFit.findOutliersWith roundToDouble exampleSqrtDouble exampleSort
      examplePhotometryModel (exampleEqualFit 3) 5 []
      = some [⟨0, 2⟩, ⟨0, 1⟩, ⟨0, 0⟩] ∧
    (PhotometryFit.accumulateStatWith roundToDouble examplePhotometryModel
        (exampleEqualFit 3) Chi2Vect.AddEntry []).map
        (fun chi2s =>
          (PhotometryFit.varianceWith roundToDouble (exampleSort chi2s),
            PhotometryFit.sigmaWith roundToDouble exampleSqrtDouble (exampleSort chi2s),
            PhotometryFit.outlierCutWith roundToDouble exampleSqrtDouble 5
              (exampleSort chi2s)))
      = some (0, some 0, some 9) ∧
    ([(⟨0, 2⟩ : MeasRef), ⟨0, 1⟩, ⟨0, 0⟩] ≠ []) := by
  have hvals : PhotometryFit.validChi2sWith roundToDouble examplePhotometryModel
      (exampleEqualFit 3) = [9, 9, 9] := by
    decide!
  have heval : PhotometryFit.findOutliersWith roundToDouble exampleSqrtDouble exampleSort
      examplePhotometryModel (exampleEqualFit 3) 5 []
      = some [⟨0, 2⟩, ⟨0, 1⟩, ⟨0, 0⟩] := by
    decide!
  have hfl : roundToDouble 0 = 0 := by decide!
  have hsqrt : exampleSqrtDouble 0 = some 0 := by decide!
  have hexact : ∀ k : Nat, 1 ≤ k → k ≤ 3 →
      roundToDouble (k * 9) = k * 9 ∧
      roundToDouble (k * roundToDouble (sqr 9)) = k * roundToDouble (sqr 9) := by
    intro k h1 h3
    have hk : k = 1 ∨ k = 2 ∨ k = 3 := by omega
    rcases hk with rfl | rfl | rfl
    · exact ⟨by decide!, by decide!⟩
    · exact ⟨by decide!, by decide!⟩
    · exact ⟨by decide!, by decide!⟩
  have t := PhotometryFit.findOutliersWith_equal_chi2 roundToDouble exampleSqrtDouble
    exampleSort examplePhotometryModel (exampleEqualFit 3) 5 9 exampleSort_perm hfl hsqrt
    (by rw [hvals]; simp) (by rw [hvals]; intro x hx; simpa using hx)
    (Or.inr (by rw [hvals]; exact hexact))
  refine ⟨exampleSort_perm, hfl, hsqrt, hvals, hexact, heval, ?_, t.2.1 _ heval⟩
  decide!

/-- Counterexample to C30 as stated: the list of the one image whose detector
centre is `(2^600, 0)` is not empty and its centre is finite, but the squared
radius `2^1200` overflows to `+infinity`, which is not below the initial
`minRadius2`: no chip is chosen, `constrainedChip` keeps the value `-1`, which
is not a key of the chip map, and the constructor throws `std::out_of_range`. -/
theorem newWith_overflow_throws :
    exampleFarImages ≠ [] ∧
    exampleFarImages.map (fun im => im.detectorCenter) = [(2 ^ 600, 0)] ∧
    examplePow2sum (2 ^ 600, 0) = none ∧
    (ConstrainedAstrometryModel.firstLoopWith examplePow2sum examplePolys 1 1
      exampleFarImages).constrainedChip = -1 ∧
    (ConstrainedAstrometryModel.firstLoopWith examplePow2sum examplePolys 1 1
      exampleFarImages).chipMap.map Prod.fst = [1] ∧
    ConstrainedAstrometryModel.newWith examplePow2sum examplePolys exampleFarImages 1 1
      = Except.error Exception.outOfRange := by
  refine ⟨by decide, by decide!, by decide!, by decide!, by decide!, ?_⟩
  exact (ConstrainedAstrometryModel.newWith_spec examplePow2sum examplePolys exampleFarImages
    1 1).2.2.2.2.2.2.2 (by decide!)

/-- C30, amended: the lookup of the chip to hold fixed in the constructor of
`ConstrainedAstrometryModel` succeeds for every non-empty image list whose
detector centres have a finite squared radius `x^2 + y^2` in the arithmetic of
doubles: the chosen chip is then a key of the chip map and the constructor
returns a model.  In general the constructor returns iff the centre of some
chip of the list (the centre of the first image of the chip) has a finite
squared radius or the list has a chip of identifier `-1`, and it throws
`std::out_of_range` otherwise; for the empty list it throws
`std::out_of_range` and no model is produced. -/
theorem ConstrainedAstrometryModel.newWith_lookup (pow2sum : ℚ × ℚ → Option ℚ)
    (polys : PolyFactory) (ccdImageList : List CcdImage) (chipOrder visitOrder : Int) :
    (ccdImageList ≠ [] → (∀ im ∈ ccdImageList, pow2sum im.detectorCenter ≠ none) →
      (firstLoopWith pow2sum polys chipOrder visitOrder ccdImageList).constrainedChip
        ∈ (firstLoopWith pow2sum polys chipOrder visitOrder ccdImageList).chipMap.map
            Prod.fst ∧
      ∃ m, newWith pow2sum polys ccdImageList chipOrder visitOrder = Except.ok m) ∧
    ((∃ m, newWith pow2sum polys ccdImageList chipOrder visitOrder = Except.ok m) ↔
      (∃ k c, chipCenter? ccdImageList k = some c ∧ pow2sum c ≠ none) ∨
        ∃ im ∈ ccdImageList, im.ccdId = -1) ∧
    ((¬ ∃ m, newWith pow2sum polys ccdImageList chipOrder visitOrder = Except.ok m) →
      newWith pow2sum polys ccdImageList chipOrder visitOrder
        = Except.error Exception.outOfRange) ∧
    newWith pow2sum polys [] chipOrder visitOrder = Except.error Exception.outOfRange := by
  obtain ⟨_, _, _, hck, g0, g1, hok, herr⟩ :=
    newWith_spec pow2sum polys ccdImageList chipOrder visitOrder
  have hfinite : (∃ k c, chipCenter? ccdImageList k = some c ∧ pow2sum c ≠ none) →
      (firstLoopWith pow2sum polys chipOrder visitOrder ccdImageList).constrainedChip
        ∈ (firstLoopWith pow2sum polys chipOrder visitOrder ccdImageList).chipMap.map
            Prod.fst := by
    rintro ⟨k, c, hkc, hc⟩
    cases hm : (firstLoopWith pow2sum polys chipOrder visitOrder ccdImageList).minRadius2 with
    | none => exact absurd ((g0 hm).2 k c hkc) hc
    | some x =>
      obtain ⟨c0, h1, _, _⟩ := g1 x hm
      exact (hck _).mpr ((chipCenter?_isSome ccdImageList _).mp (by rw [h1]; rfl))
  have hiff : (∃ m, newWith pow2sum polys ccdImageList chipOrder visitOrder = Except.ok m) ↔
      (∃ k c, chipCenter? ccdImageList k = some c ∧ pow2sum c ≠ none) ∨
        ∃ im ∈ ccdImageList, im.ccdId = -1 := by
    constructor
    · rintro ⟨m, hm⟩
      by_cases hmem : (firstLoopWith pow2sum polys chipOrder visitOrder
          ccdImageList).constrainedChip
          ∈ (firstLoopWith pow2sum polys chipOrder visitOrder ccdImageList).chipMap.map
              Prod.fst
      · cases hr : (firstLoopWith pow2sum polys chipOrder visitOrder
            ccdImageList).minRadius2 with
        | none =>
          right
          rw [(g0 hr).1] at hmem
          exact (hck _).mp hmem
        | some x =>
          left
          obtain ⟨c0, h1, h2, _⟩ := g1 x hr
          exact ⟨_, c0, h1, by rw [h2]; exact Option.some_ne_none x⟩
      · rw [herr hmem] at hm
        cases hm
    · rintro (hfin | ⟨im, him, hid⟩)
      · obtain ⟨m, hm, _⟩ := hok (hfinite hfin)
        exact ⟨m, hm⟩
      · by_cases hfin : ∃ k c, chipCenter? ccdImageList k = some c ∧ pow2sum c ≠ none
        · obtain ⟨m, hm, _⟩ := hok (hfinite hfin)
          exact ⟨m, hm⟩
        · cases hr : (firstLoopWith pow2sum polys chipOrder visitOrder
              ccdImageList).minRadius2 with
          | none =>
            have hmem : (firstLoopWith pow2sum polys chipOrder visitOrder
                ccdImageList).constrainedChip
                ∈ (firstLoopWith pow2sum polys chipOrder visitOrder ccdImageList).chipMap.map
                    Prod.fst := by
              rw [(g0 hr).1]
              exact (hck _).mpr ⟨im, him, hid⟩
            obtain ⟨m, hm, _⟩ := hok hmem
            exact ⟨m, hm⟩
          | some x =>
            obtain ⟨c0, h1, h2, _⟩ := g1 x hr
            exact absurd ⟨_, c0, h1, by rw [h2]; exact Option.some_ne_none x⟩ hfin
  refine ⟨?_, hiff, ?_, rfl⟩
  · intro hne hall
    cases hl : ccdImageList with
    | nil => exact absurd hl hne
    | cons im0 rest =>
      have hc0 : chipCenter? ccdImageList im0.ccdId = some im0.detectorCenter := by
        rw [hl]
        simp [chipCenter?]
      have hfin : ∃ k c, chipCenter? ccdImageList k = some c ∧ pow2sum c ≠ none :=
        ⟨_, _, hc0, hall im0 (by rw [hl]; exact List.mem_cons_self _ _)⟩
      rw [← hl]
      obtain ⟨m, hm, _⟩ := hok (hfinite hfin)
      exact ⟨hfinite hfin, m, hm⟩
  · intro hno
    by_cases hmem : (firstLoopWith pow2sum polys chipOrder visitOrder
        ccdImageList).constrainedChip
        ∈ (firstLoopWith pow2sum polys chipOrder visitOrder ccdImageList).chipMap.map Prod.fst
    · obtain ⟨m, hm, _⟩ := hok hmem
      exact absurd ⟨m, hm⟩ hno
    · exact herr hmem

/-- Witness of C30: on the four example images, whose squared radii 25 and 1
are finite, the first loop chooses chip 1, a key of the chip map, and the
constructor returns a model. -/
theorem ConstrainedAstrometryModel.newWith_lookup_witness :
    exampleImages ≠ [] ∧
    (∀ im ∈ exampleImages, examplePow2sum im.detectorCenter ≠ none) ∧
    (ConstrainedAstrometryModel.firstLoopWith examplePow2sum examplePolys 1 1
      exampleImages).constrainedChip = 1 ∧
    ∃ m, ConstrainedAstrometryModel.newWith examplePow2sum examplePolys exampleImages 1 1
      = Except.ok m :=
  ⟨by decide, by decide!, by decide!,
    ((ConstrainedAstrometryModel.newWith_lookup examplePow2sum examplePolys exampleImages
      1 1).1 (by decide) (by decide!)).2⟩

end Jointcal
